import Mathlib

/-!
# Natural-orbital construction (HFMBPT.cc): shallow embedding and verified properties

The C++ code works on `double`; every definition below is stated over an arbitrary
linearly ordered field `K` (exact arithmetic), so the theorems hold in particular
over the reals.  Dense matrices (`arma::mat`) are total functions of two natural
indices, the dimension being carried separately; vectors (`arma::vec`) are functions
of one index.  Code of the repository that is not part of the translated sources
(the square root, the eigen-solver, `Ket::Phase`, numeric constants) is gathered in
the structure `External` and taken as a parameter.
-/

open Finset

namespace IMSRG

/-! ## Data model -/

/-- Dense matrix `arma::mat`, addressed as `A i j`. -/
abbrev Mat (K : Type) := Nat → Nat → K

/-- Dense vector `arma::vec`, addressed as `v i`. -/
abbrev Vec (K : Type) := Nat → K

/-- Orbit of the model space: quantum numbers, mean-field occupation, natural occupation. -/
structure Orbit (K : Type) where
  n : Int
  l : Int
  j2 : Int
  tz2 : Int
  occ : K
  occ_nat : K

/-- Pair of orbit indices `(p,q)` of a two-body channel. -/
structure Ket where
  p : Nat
  q : Nat
deriving DecidableEq, Repr

/-- Two-body channel: coupled angular momentum and the list of its kets. -/
structure TwoBodyChannel where
  J : Int
  kets : List Ket

/-- Accessor `TwoBodyChannel::GetKet`. -/
def TwoBodyChannel.GetKet (tbc : TwoBodyChannel) (i : Nat) : Ket :=
  tbc.kets.getD i ⟨0, 0⟩

/-- Accessor `TwoBodyChannel::GetNumberKets`. -/
def TwoBodyChannel.GetNumberKets (tbc : TwoBodyChannel) : Nat :=
  tbc.kets.length

/-- Model space as the translated functions use it.  The containers `holes`,
`particles`, `all_orbits` and the values of `OneBodyChannels` are `std::set<index_t>`,
iterated in ascending order; `OneBodyChannels` is the lookup `.at(key)`. -/
structure ModelSpace (K : Type) where
  Orbits : List (Orbit K)
  holes : List Nat
  particles : List Nat
  all_orbits : List Nat
  OneBodyChannels : Int × Int × Int → List Nat
  TwoBodyChannels : List TwoBodyChannel
  TargetMass : Int
  Zref : Int

/-- Accessor `ModelSpace::GetNumberOrbits`. -/
def ModelSpace.GetNumberOrbits {K : Type} (ms : ModelSpace K) : Nat :=
  ms.Orbits.length

/-- Accessor `ModelSpace::GetOrbit`. -/
def ModelSpace.GetOrbit {K : Type} [Zero K] (ms : ModelSpace K) (i : Nat) : Orbit K :=
  ms.Orbits.getD i ⟨0, 0, 0, 0, 0, 0⟩

/-- Accessor `ModelSpace::GetTwoBodyChannel`. -/
def ModelSpace.GetTwoBodyChannel {K : Type} (ms : ModelSpace K) (ch : Nat) : TwoBodyChannel :=
  ms.TwoBodyChannels.getD ch ⟨0, []⟩

/-- Key `{l, j2, tz2}` under which an orbit is filed in `OneBodyChannels`. -/
def ModelSpace.key {K : Type} [Zero K] (ms : ModelSpace K) (i : Nat) : Int × Int × Int :=
  ((ms.GetOrbit i).l, (ms.GetOrbit i).j2, (ms.GetOrbit i).tz2)

/-- Stored two-body block: an `arma::mat` with its dimensions. -/
structure Block (K : Type) where
  n_rows : Nat
  n_cols : Nat
  el : Mat K

/-- Operator: zero-body term, one-body matrix, the two-body blocks `TwoBody.MatEl`
(the keys `[ch_bra, ch_ket]` in map order and the block stored under each key) and the
element lookup `TwoBody.GetTBME_J`. -/
structure Operator (K : Type) where
  ZeroBody : K
  OneBody : Mat K
  MatElKeys : List (Nat × Nat)
  MatEl : Nat → Nat → Block K
  GetTBME_J : Int → Nat → Nat → Nat → Nat → K

/-- Code used by the translated functions whose source is not part of the translation:
`std::sqrt`, `PhysConst::SQRT2`, `ModelSpace::OCC_CUT`, `Ket::Phase(J)` and
`arma::eig_sym` (on a block of the given size it either fails or returns the
eigenvalues and the matrix of eigenvectors). -/
structure External (K : Type) where
  sqrt : K → K
  SQRT2 : K
  OCC_CUT : K
  Phase : Ket → Int → Int
  eig_sym : Nat → Mat K → Option (Vec K × Mat K)

/-- Fields of the class `HFMBPT` (with those inherited from `HartreeFock`) that the
translated functions read or write. -/
structure HFMBPT (K : Type) where
  modelspace : ModelSpace K
  Hbare_OneBodyChannels : List (List Nat)
  C : Mat K
  rho : Mat K
  Occ : Vec K
  C_HO2NAT : Mat K
  C_HF2NAT : Mat K
  use_NAT_occupations : Bool
  holeorbs : List Nat
  hole_occ : List K

/-! ## Matrix helpers (`arma` operations used by the code) -/

section MatrixOps
variable {K : Type} [LinearOrderedField K]

/-- Transpose `A.t()`. -/
def matT (A : Mat K) : Mat K := fun i j => A j i

/-- Product `A * B` with inner dimension `n`. -/
def matMul (n : Nat) (A B : Mat K) : Mat K :=
  fun i j => ∑ k ∈ range n, A i k * B k j

/-- Identity matrix (`arma::fill::eye`). -/
def matEye : Mat K := fun i j => if i = j then 1 else 0

/-- Zero matrix (`arma::fill::zeros`). -/
def matZeros : Mat K := fun _ _ => 0

/-- Assignment `A(i,j) = v`. -/
def matSet (A : Mat K) (i j : Nat) (v : K) : Mat K :=
  fun r c => if r = i ∧ c = j then v else A r c

/-- Column exchange `A.swap_cols(i,j)`. -/
def swap_cols (A : Mat K) (i j : Nat) : Mat K :=
  fun r c => if c = i then A r j else if c = j then A r i else A r c

/-- Row exchange `v.swap_rows(i,j)` of a vector. -/
def swap_rows (v : Vec K) (i j : Nat) : Vec K :=
  fun r => if r = i then v j else if r = j then v i else v r

/-- Column negation `A.col(i) *= -1`. -/
def negCol (A : Mat K) (i : Nat) : Mat K :=
  fun r c => if c = i then A r c * (-1) else A r c

/-- Orthogonality on the first `n` indices: `Rᵀ R = 1`. -/
def OrthoCols (n : Nat) (R : Mat K) : Prop :=
  ∀ i j, i < n → j < n → matMul n (matT R) R i j = if i = j then 1 else 0

/-- Orthogonality on the first `n` indices: `R Rᵀ = 1`. -/
def OrthoRows (n : Nat) (R : Mat K) : Prop :=
  ∀ i j, i < n → j < n → matMul n R (matT R) i j = if i = j then 1 else 0

end MatrixOps

/-! ## Operator basis transformation -/

section Transform
variable {K : Type} [LinearOrderedField K]

/-- Entry `Dket(i,j)` as built in `TransformHFToNATBasis` (lines 190-201) from the
rotation `Cmat`: row `i` is the old-basis ket, column `j` the new-basis ket. -/
def DketEntry (ext : External K) (Cmat : Mat K) (tbc : TwoBodyChannel) (i j : Nat) : K :=
  let ket_hf := tbc.GetKet i
  let ket_nat := tbc.GetKet j
  let d0 := Cmat ket_hf.p ket_nat.p * Cmat ket_hf.q ket_nat.q
  let d1 := if ket_hf.p ≠ ket_hf.q then
      d0 + Cmat ket_hf.q ket_nat.p * Cmat ket_hf.p ket_nat.q * ((ext.Phase ket_hf tbc.J : Int) : K)
    else d0
  let d2 := if ket_hf.p = ket_hf.q then d1 * ext.SQRT2 else d1
  if ket_nat.p = ket_nat.q then d2 / ext.SQRT2 else d2

/-- Entry `Dbra(i,j)` as built in the branch `ch_bra != ch_ket` (lines 211-222):
row `i` is the new-basis bra, column `j` the old-basis bra. -/
def DbraEntry (ext : External K) (Cmat : Mat K) (tbc : TwoBodyChannel) (i j : Nat) : K :=
  let bra_nat := tbc.GetKet i
  let bra_hf := tbc.GetKet j
  let d0 := Cmat bra_hf.p bra_nat.p * Cmat bra_hf.q bra_nat.q
  let d1 := if bra_hf.p ≠ bra_hf.q then
      d0 + Cmat bra_hf.q bra_nat.p * Cmat bra_hf.p bra_nat.q * ((ext.Phase bra_hf tbc.J : Int) : K)
    else d0
  let d2 := if bra_hf.p = bra_hf.q then d1 * ext.SQRT2 else d1
  if bra_nat.p = bra_nat.q then d2 / ext.SQRT2 else d2

/-- Two-body block `OUT = Dbra * IN * Dket` written for the key `[ch_bra, ch_ket]`
(lines 179-228); `nbras`, `nkets` are the dimensions of the stored block `IN`. -/
def transformBlock (ext : External K) (ms : ModelSpace K) (Cmat : Mat K)
    (ch_bra ch_ket : Nat) (IN : Block K) : Block K :=
  let tbc_bra := ms.GetTwoBodyChannel ch_bra
  let tbc_ket := ms.GetTwoBodyChannel ch_ket
  let nbras := IN.n_rows
  let nkets := IN.n_cols
  let Dket : Mat K := DketEntry ext Cmat tbc_ket
  let Dbra : Mat K := if ch_bra = ch_ket then matT Dket else DbraEntry ext Cmat tbc_bra
  { n_rows := nbras, n_cols := nkets, el := matMul nkets (matMul nbras Dbra IN.el) Dket }

/-- Body of `HFMBPT::TransformHFToNATBasis` and of `HFMBPT::TransformHOToNATBasis`,
which differ only in the rotation they use.  The operator is copied, its one-body
matrix becomes `Cmat.t() * OneBody * Cmat`, and every stored two-body block is
replaced by `Dbra * IN * Dket`. -/
def transformOperator (ext : External K) (ms : ModelSpace K) (Cmat : Mat K)
    (Op : Operator K) : Operator K :=
  let norb := ms.GetNumberOrbits
  { Op with
    OneBody := matMul norb (matMul norb (matT Cmat) Op.OneBody) Cmat
    MatEl := fun ch_bra ch_ket =>
      if (ch_bra, ch_ket) ∈ Op.MatElKeys then
        transformBlock ext ms Cmat ch_bra ch_ket (Op.MatEl ch_bra ch_ket)
      else Op.MatEl ch_bra ch_ket }

/-- Translation of `HFMBPT::TransformHFToNATBasis`. -/
def HFMBPT.TransformHFToNATBasis (ext : External K) (hf : HFMBPT K)
    (OpHF : Operator K) : Operator K :=
  transformOperator ext hf.modelspace hf.C_HF2NAT OpHF

/-- Translation of `HFMBPT::TransformHOToNATBasis`. -/
def HFMBPT.TransformHOToNATBasis (ext : External K) (hf : HFMBPT K)
    (OpHO : Operator K) : Operator K :=
  transformOperator ext hf.modelspace hf.C_HO2NAT OpHO

/-- Block-diagonality of a matrix with respect to the one-body channels. -/
def BlockDiag (ms : ModelSpace K) (R : Mat K) : Prop :=
  ∀ i j, i < ms.GetNumberOrbits → j < ms.GetNumberOrbits → ms.key i ≠ ms.key j → R i j = 0

/-- Well-formedness of a two-body channel with respect to the one-body channels: the
kets are listed once, ordered `p ≤ q` and in range; the exchange phase is a sign, `+1` on
a ket with `p = q`, and the same for kets whose orbits lie in the same pair of one-body
channels; and every pair `x ≤ y` of orbits taken from the one-body channels of a listed
ket is listed too, a pair `x = y` only when the phase is `+1`. -/
def KetsComplete (ext : External K) (ms : ModelSpace K) (tbc : TwoBodyChannel) : Prop :=
  tbc.kets.Nodup ∧
  (∀ k ∈ tbc.kets, k.p ≤ k.q ∧ k.q < ms.GetNumberOrbits) ∧
  (∀ k ∈ tbc.kets, (ext.Phase k tbc.J = 1 ∨ ext.Phase k tbc.J = -1) ∧
      (k.p = k.q → ext.Phase k tbc.J = 1)) ∧
  (∀ k ∈ tbc.kets, ∀ m ∈ tbc.kets,
      ((ms.key m.p = ms.key k.p ∧ ms.key m.q = ms.key k.q) ∨
       (ms.key m.p = ms.key k.q ∧ ms.key m.q = ms.key k.p)) →
      ext.Phase m tbc.J = ext.Phase k tbc.J) ∧
  (∀ k ∈ tbc.kets, ∀ x, x < ms.GetNumberOrbits → ∀ y, y < ms.GetNumberOrbits → x ≤ y →
      ((ms.key x = ms.key k.p ∧ ms.key y = ms.key k.q) ∨
       (ms.key x = ms.key k.q ∧ ms.key y = ms.key k.p)) →
      (x ≠ y ∨ ext.Phase k tbc.J = 1) → (⟨x, y⟩ : Ket) ∈ tbc.kets)

/-- The bra-side matrix as the specification describes it: the transpose of the matrix that
the `Dket` formula gives on the bra channel. -/
def DbraSpec (ext : External K) (Cmat : Mat K) (tbc_bra : TwoBodyChannel) : Mat K :=
  matT (DketEntry ext Cmat tbc_bra)

/-- The output block as the specification describes it:
`Dket(bra channel)ᵀ * IN * Dket(ket channel)`. -/
def transformBlockSpec (ext : External K) (ms : ModelSpace K) (Cmat : Mat K)
    (ch_bra ch_ket : Nat) (IN : Block K) : Block K :=
  { n_rows := IN.n_rows, n_cols := IN.n_cols,
    el := matMul IN.n_cols
      (matMul IN.n_rows (DbraSpec ext Cmat (ms.GetTwoBodyChannel ch_bra)) IN.el)
      (DketEntry ext Cmat (ms.GetTwoBodyChannel ch_ket)) }

end Transform

/-! ## Density matrix builder -/

section Density
variable {K : Type} [LinearOrderedField K]

/-- Values of `J` visited by `for (int J = Jmin; J <= Jmax; ++J)`. -/
def Jrange (Jmin Jmax : Int) : List Int :=
  (List.range (Jmax + 1 - Jmin).toNat).map (fun k => Jmin + (k : Int))

/-- Level-mixing term `0.5*(sqrt(tbme + epsilon*epsilon) - epsilon)/sqrt(tbme + epsilon*epsilon)`
added to `r` in `DensityMatrixPP` and `DensityMatrixHH`. -/
def levelMixing (ext : External K) (tbme epsilon : K) : K :=
  1 / 2 * (ext.sqrt (tbme + epsilon * epsilon) - epsilon) / ext.sqrt (tbme + epsilon * epsilon)

/-- Innermost loop body of `DensityMatrixPP` (lines 520-546): the value of `r` after the
iteration `(c, i, j)` for the pair `(a, b)`. -/
def DensityMatrixPP_body (ext : External K) (ms : ModelSpace K) (H : Operator K)
    (a b c i j : Nat) (r : K) : K :=
  let ea := H.OneBody a a
  let oa := ms.GetOrbit a
  let eb := H.OneBody b b
  let ob := ms.GetOrbit b
  let ec := H.OneBody c c
  let oc := ms.GetOrbit c
  let ei := H.OneBody i i
  let oi := ms.GetOrbit i
  let ej := H.OneBody j j
  let oj := ms.GetOrbit j
  let e_acij := ea + ec - ei - ej
  let e_bcij := eb + ec - ei - ej
  if |e_acij * e_bcij| < 1 / 100000000 then r else
  let Jmin := Int.tdiv (max |oa.j2 - oc.j2| (max |oi.j2 - oj.j2| |ob.j2 - oc.j2|)) 2
  let Jmax := Int.tdiv (min (oa.j2 + oc.j2) (min (oi.j2 + oj.j2) (ob.j2 + oc.j2))) 2
  let tbme0 := (Jrange Jmin Jmax).foldl
    (fun t J => t + ((2 * J + 1 : Int) : K) * H.GetTBME_J J a c i j * H.GetTBME_J J i j b c) 0
  let tbme := tbme0 * ((1 - oa.occ) * (1 - ob.occ) * ((1 - oc.occ) * oi.occ * oj.occ) ^ 2)
  let epsilon := 1 / 2 * ext.sqrt |e_acij * e_bcij|
  r + levelMixing ext tbme epsilon

/-- Value of `r` accumulated in `DensityMatrixPP` for the pair `(a, b)` (lines 506-548). -/
def DensityMatrixPP_r (ext : External K) (ms : ModelSpace K) (H : Operator K)
    (a b : Nat) : K :=
  ms.particles.foldl (fun r c =>
    if 1 - (ms.GetOrbit c).occ < ext.OCC_CUT then r else
    ms.holes.foldl (fun r i =>
      ms.holes.foldl (fun r j => DensityMatrixPP_body ext ms H a b c i j r) r) r) 0

/-- Translation of `HFMBPT::DensityMatrixPP`, as a function of the matrix `rho`. -/
def DensityMatrixPP (ext : External K) (ms : ModelSpace K) (H : Operator K)
    (rho : Mat K) : Mat K :=
  ms.all_orbits.foldl (fun rho a =>
    let oa := ms.GetOrbit a
    if 1 - oa.occ < ext.OCC_CUT then rho else
    (ms.OneBodyChannels (oa.l, oa.j2, oa.tz2)).foldl (fun rho b =>
      if b > a then rho else
      let ob := ms.GetOrbit b
      if oa.j2 ≠ ob.j2 then rho else
      if oa.l ≠ ob.l then rho else
      if oa.tz2 ≠ ob.tz2 then rho else
      if 1 - ob.occ < ext.OCC_CUT then rho else
      let r := DensityMatrixPP_r ext ms H a b
      matSet (matSet rho a b (r * (1 / 2) / ((oa.j2 + 1 : Int) : K)))
        b a (r * (1 / 2) / ((oa.j2 + 1 : Int) : K))) rho) rho

/-- Innermost loop body of `DensityMatrixHH` (lines 603-633): the value of `r` after the
iteration `(a, b, k)` for the pair `(i, j)`. -/
def DensityMatrixHH_body (ext : External K) (ms : ModelSpace K) (H : Operator K)
    (i j a b k : Nat) (r : K) : K :=
  let ei := H.OneBody i i
  let oi := ms.GetOrbit i
  let ej := H.OneBody j j
  let oj := ms.GetOrbit j
  let ea := H.OneBody a a
  let oa := ms.GetOrbit a
  let eb := H.OneBody b b
  let ob := ms.GetOrbit b
  let ek := H.OneBody k k
  let ok := ms.GetOrbit k
  let e_abik := ea + eb - ei - ek
  let e_abjk := ea + eb - ek - ej
  if |e_abik * e_abjk| < 1 / 100000000 then r else
  let Jmin := Int.tdiv (max |oa.j2 - ob.j2| (max |oi.j2 - ok.j2| |oj.j2 - ok.j2|)) 2
  let Jmax := Int.tdiv (min (oa.j2 + ob.j2) (min (oi.j2 + ok.j2) (oj.j2 + ok.j2))) 2
  let tbme0 := (Jrange Jmin Jmax).foldl
    (fun t J => t + ((2 * J + 1 : Int) : K) * H.GetTBME_J J a b i k * H.GetTBME_J J j k a b) 0
  let tbme := tbme0 * (((1 - oa.occ) * (1 - ob.occ) * ok.occ) ^ 2 * oi.occ * oj.occ)
  let epsilon := 1 / 2 * ext.sqrt |e_abik * e_abjk|
  r + levelMixing ext tbme epsilon

/-- Value of `r` accumulated in `DensityMatrixHH` for the pair `(i, j)` (lines 588-635). -/
def DensityMatrixHH_r (ext : External K) (ms : ModelSpace K) (H : Operator K)
    (i j : Nat) : K :=
  ms.particles.foldl (fun r a =>
    if 1 - (ms.GetOrbit a).occ < ext.OCC_CUT then r else
    ms.particles.foldl (fun r b =>
      if 1 - (ms.GetOrbit b).occ < ext.OCC_CUT then r else
      ms.holes.foldl (fun r k => DensityMatrixHH_body ext ms H i j a b k r) r) r) 0

/-- Translation of `HFMBPT::DensityMatrixHH`, as a function of the matrix `rho`. -/
def DensityMatrixHH (ext : External K) (ms : ModelSpace K) (H : Operator K)
    (rho : Mat K) : Mat K :=
  ms.holes.foldl (fun rho i =>
    let oi := ms.GetOrbit i
    let rho1 := (ms.OneBodyChannels (oi.l, oi.j2, oi.tz2)).foldl (fun rho j =>
      if j > i then rho else
      let oj := ms.GetOrbit j
      if oj.occ < ext.OCC_CUT then rho else
      let r := DensityMatrixHH_r ext ms H i j
      matSet (matSet rho i j (-r * (1 / 2) / ((oi.j2 + 1 : Int) : K)))
        j i (-r * (1 / 2) / ((oi.j2 + 1 : Int) : K))) rho
    matSet rho1 i i (rho1 i i + oi.occ)) rho

/-- Innermost loop body of the first diagram of `DensityMatrixPH` (lines 697-719). -/
def DensityMatrixPH_body1 (ms : ModelSpace K) (H : Operator K)
    (i a b c j : Nat) (r : K) : K :=
  let ei := H.OneBody i i
  let oi := ms.GetOrbit i
  let ea := H.OneBody a a
  let oa := ms.GetOrbit a
  let eb := H.OneBody b b
  let ob := ms.GetOrbit b
  let ec := H.OneBody c c
  let oc := ms.GetOrbit c
  let ej := H.OneBody j j
  let oj := ms.GetOrbit j
  let e_ai := ea - ei
  let e_bcij := eb + ec - ei - ej
  if e_ai * e_bcij < 1 / 100000000 then r else
  let Jmin := Int.tdiv (max |oa.j2 - oj.j2| (max |ob.j2 - oc.j2| |oi.j2 - oj.j2|)) 2
  let Jmax := Int.tdiv (min (oa.j2 + oj.j2) (min (ob.j2 + oc.j2) (oi.j2 + oj.j2))) 2
  let tbme0 := (Jrange Jmin Jmax).foldl
    (fun t J => t + ((2 * J + 1 : Int) : K) * H.GetTBME_J J a j b c * H.GetTBME_J J b c i j) 0
  let tbme := tbme0 * ((1 - oa.occ) * (1 - ob.occ) * (1 - oc.occ) * oi.occ * oj.occ)
  r + tbme / (e_ai * e_bcij)

/-- Value of `r` of the first diagram of `DensityMatrixPH` for the pair `(i, a)`. -/
def DensityMatrixPH_r1 (ext : External K) (ms : ModelSpace K) (H : Operator K)
    (i a : Nat) : K :=
  ms.particles.foldl (fun r b =>
    if 1 - (ms.GetOrbit b).occ < ext.OCC_CUT then r else
    ms.particles.foldl (fun r c =>
      if 1 - (ms.GetOrbit c).occ < ext.OCC_CUT then r else
      ms.holes.foldl (fun r j => DensityMatrixPH_body1 ms H i a b c j r) r) r) 0

/-- Innermost loop body of the second diagram of `DensityMatrixPH` (lines 756-777). -/
def DensityMatrixPH_body2 (ms : ModelSpace K) (H : Operator K)
    (i a b j k : Nat) (r : K) : K :=
  let ei := H.OneBody i i
  let oi := ms.GetOrbit i
  let ea := H.OneBody a a
  let oa := ms.GetOrbit a
  let eb := H.OneBody b b
  let ob := ms.GetOrbit b
  let ej := H.OneBody j j
  let oj := ms.GetOrbit j
  let ek := H.OneBody k k
  let ok := ms.GetOrbit k
  let e_ai := ea - ei
  let e_abkj := ea + eb - ek - ej
  if e_ai * e_abkj < 1 / 100000000 then r else
  let Jmin := Int.tdiv (max |ok.j2 - oj.j2| (max |oi.j2 - ob.j2| |oa.j2 - ob.j2|)) 2
  let Jmax := Int.tdiv (min (ok.j2 + oj.j2) (min (oi.j2 + ob.j2) (oa.j2 + ob.j2))) 2
  let tbme0 := (Jrange Jmin Jmax).foldl
    (fun t J => t + ((2 * J + 1 : Int) : K) * H.GetTBME_J J k j i b * H.GetTBME_J J a b k j) 0
  let tbme := tbme0 * ((1 - oa.occ) * oi.occ * oj.occ * ok.occ * (1 - ob.occ))
  r + tbme / (e_ai * e_abkj)

/-- Value of `r` of the second diagram of `DensityMatrixPH` for the pair `(i, a)`. -/
def DensityMatrixPH_r2 (ext : External K) (ms : ModelSpace K) (H : Operator K)
    (i a : Nat) : K :=
  ms.particles.foldl (fun r b =>
    if 1 - (ms.GetOrbit b).occ < ext.OCC_CUT then r else
    ms.holes.foldl (fun r j =>
      ms.holes.foldl (fun r k => DensityMatrixPH_body2 ms H i a b j k r) r) r) 0

/-- Update `rho(a,i) += v; rho(i,a) += v` (two statements, in this order). -/
def addPair (rho : Mat K) (a i : Nat) (v : K) : Mat K :=
  let rho1 := matSet rho a i (rho a i + v)
  matSet rho1 i a (rho1 i a + v)

/-- One of the two loop nests of `DensityMatrixPH`: for every hole `i` and every orbit `a`
of its one-body channel that is not skipped, `rho(a,i)` and `rho(i,a)` receive `val i a`. -/
def DensityMatrixPH_loop (ext : External K) (ms : ModelSpace K) (val : Nat → Nat → K)
    (rho : Mat K) : Mat K :=
  ms.holes.foldl (fun rho i =>
    let oi := ms.GetOrbit i
    (ms.OneBodyChannels (oi.l, oi.j2, oi.tz2)).foldl (fun rho a =>
      let oa := ms.GetOrbit a
      if 1 - oa.occ < ext.OCC_CUT then rho else
      addPair rho a i (val i a)) rho) rho

/-- Translation of `HFMBPT::DensityMatrixPH`: the first diagram is added
(`+= r * 0.5 / (oa.j2+1)`), the second subtracted (`-= r * 0.5 / (oa.j2+1)`). -/
def DensityMatrixPH (ext : External K) (ms : ModelSpace K) (H : Operator K)
    (rho : Mat K) : Mat K :=
  let rho1 := DensityMatrixPH_loop ext ms
    (fun i a => DensityMatrixPH_r1 ext ms H i a * (1 / 2) / (((ms.GetOrbit a).j2 + 1 : Int) : K))
    rho
  DensityMatrixPH_loop ext ms
    (fun i a => -(DensityMatrixPH_r2 ext ms H i a * (1 / 2)
      / (((ms.GetOrbit a).j2 + 1 : Int) : K)))
    rho1

/-- Translation of `HFMBPT::GetDensityMatrix`; `H` is the operator returned by
`HartreeFock::GetNormalOrderedH()`. -/
def HFMBPT.GetDensityMatrix (ext : External K) (hf : HFMBPT K) (H : Operator K) : HFMBPT K :=
  let rhoPP := DensityMatrixPP ext hf.modelspace H hf.rho
  let rhoHH := DensityMatrixHH ext hf.modelspace H rhoPP
  let rhoPH := DensityMatrixPH ext hf.modelspace H rhoHH
  { hf with rho := rhoPH }

/-- Weighted trace `sum_i rho(i,i) * (j2_i + 1)` as accumulated in `GetNaturalOrbitals`
(lines 39-45). -/
def AfromTr (ms : ModelSpace K) (rho : Mat K) : K :=
  (List.range ms.GetNumberOrbits).foldl
    (fun acc i => acc + rho i i * (((ms.GetOrbit i).j2 + 1 : Int) : K)) 0

/-- Symmetry of a matrix. -/
def IsSymm (A : Mat K) : Prop := ∀ i j, A i j = A j i

/-- Members of the one-body channel of a hole carry the hole's `(l, j2, tz2)`. -/
def ChannelsShareKey (ms : ModelSpace K) : Prop :=
  ∀ i ∈ ms.holes, ∀ a ∈ ms.OneBodyChannels (ms.key i), ms.key a = ms.key i

/-- Entries between orbits of different `(l, j2, tz2)` vanish. -/
def KeyDiag (ms : ModelSpace K) (rho : Mat K) : Prop :=
  ∀ i j, ms.key i ≠ ms.key j → rho i j = 0

/-- Properties of the square root used by the level-mixing term: it is non-negative,
positive on positive arguments, and inverts squaring on non-negative arguments. -/
def SqrtSpec (ext : External K) : Prop :=
  (∀ x, 0 ≤ ext.sqrt x) ∧ (∀ x, 0 < x → 0 < ext.sqrt x) ∧
    (∀ x, 0 ≤ x → ext.sqrt (x * x) = x)

/-- Diagonal matrix carrying the occupations of the orbits listed in `S`. -/
def occDiag (ms : ModelSpace K) (S : List Nat) : Mat K :=
  fun i j => if i = j ∧ i ∈ S then (ms.GetOrbit i).occ else 0

/-- Integer filling of a model space: every occupation is `0` or `1`, `holes` lists the
orbits of occupation `1` and `particles` those of occupation `0` (each once), `all_orbits`
lists every orbit, every orbit belongs to the one-body channel of its own `(l, j2, tz2)`,
and `j2` is non-negative. -/
def IntegerFilling (ms : ModelSpace K) : Prop :=
  (∀ i, i < ms.GetNumberOrbits → (ms.GetOrbit i).occ = 0 ∨ (ms.GetOrbit i).occ = 1) ∧
  ms.holes.Nodup ∧
  (∀ i, i ∈ ms.holes ↔ i < ms.GetNumberOrbits ∧ (ms.GetOrbit i).occ = 1) ∧
  ms.particles.Nodup ∧
  (∀ i, i ∈ ms.particles ↔ i < ms.GetNumberOrbits ∧ (ms.GetOrbit i).occ = 0) ∧
  (∀ i, i ∈ ms.all_orbits ↔ i < ms.GetNumberOrbits) ∧
  (∀ i, i < ms.GetNumberOrbits → i ∈ ms.OneBodyChannels (ms.key i)) ∧
  (∀ i, i < ms.GetNumberOrbits → 0 ≤ (ms.GetOrbit i).j2)

/-- Product `e_acij * e_bcij` of the two energy denominators of a term of
`DensityMatrixPP` (lines 523-524). -/
def DensityMatrixPP_denom (H : Operator K) (a b c i j : Nat) : K :=
  (H.OneBody a a + H.OneBody c c - H.OneBody i i - H.OneBody j j)
    * (H.OneBody b b + H.OneBody c c - H.OneBody i i - H.OneBody j j)

/-- Value of `tbme` of a term of `DensityMatrixPP` after line 536: the sum over `J` times
the occupation factors. -/
def DensityMatrixPP_tbme (ms : ModelSpace K) (H : Operator K) (a b c i j : Nat) : K :=
  let oa := ms.GetOrbit a
  let ob := ms.GetOrbit b
  let oc := ms.GetOrbit c
  let oi := ms.GetOrbit i
  let oj := ms.GetOrbit j
  let Jmin := Int.tdiv (max |oa.j2 - oc.j2| (max |oi.j2 - oj.j2| |ob.j2 - oc.j2|)) 2
  let Jmax := Int.tdiv (min (oa.j2 + oc.j2) (min (oi.j2 + oj.j2) (ob.j2 + oc.j2))) 2
  let tbme0 := (Jrange Jmin Jmax).foldl
    (fun t J => t + ((2 * J + 1 : Int) : K) * H.GetTBME_J J a c i j * H.GetTBME_J J i j b c) 0
  tbme0 * ((1 - oa.occ) * (1 - ob.occ) * ((1 - oc.occ) * oi.occ * oj.occ) ^ 2)

/-- Value of `epsilon` of a term of `DensityMatrixPP` (line 539). -/
def DensityMatrixPP_epsilon (ext : External K) (H : Operator K) (a b c i j : Nat) : K :=
  1 / 2 * ext.sqrt |DensityMatrixPP_denom H a b c i j|

/-- Product `e_abik * e_abjk` of the two energy denominators of a term of
`DensityMatrixHH` (lines 608-609). -/
def DensityMatrixHH_denom (H : Operator K) (i j a b k : Nat) : K :=
  (H.OneBody a a + H.OneBody b b - H.OneBody i i - H.OneBody k k)
    * (H.OneBody a a + H.OneBody b b - H.OneBody k k - H.OneBody j j)

/-- Value of `tbme` of a term of `DensityMatrixHH` after line 623. -/
def DensityMatrixHH_tbme (ms : ModelSpace K) (H : Operator K) (i j a b k : Nat) : K :=
  let oi := ms.GetOrbit i
  let oj := ms.GetOrbit j
  let oa := ms.GetOrbit a
  let ob := ms.GetOrbit b
  let ok := ms.GetOrbit k
  let Jmin := Int.tdiv (max |oa.j2 - ob.j2| (max |oi.j2 - ok.j2| |oj.j2 - ok.j2|)) 2
  let Jmax := Int.tdiv (min (oa.j2 + ob.j2) (min (oi.j2 + ok.j2) (oj.j2 + ok.j2))) 2
  let tbme0 := (Jrange Jmin Jmax).foldl
    (fun t J => t + ((2 * J + 1 : Int) : K) * H.GetTBME_J J a b i k * H.GetTBME_J J j k a b) 0
  tbme0 * (((1 - oa.occ) * (1 - ob.occ) * ok.occ) ^ 2 * oi.occ * oj.occ)

/-- Value of `epsilon` of a term of `DensityMatrixHH` (line 626). -/
def DensityMatrixHH_epsilon (ext : External K) (H : Operator K) (i j a b k : Nat) : K :=
  1 / 2 * ext.sqrt |DensityMatrixHH_denom H i j a b k|

/-- Product `e_ai * e_bcij` of the two energy denominators of a term of the first diagram
of `DensityMatrixPH` (lines 702-703). -/
def DensityMatrixPH_denom1 (H : Operator K) (i a b c j : Nat) : K :=
  (H.OneBody a a - H.OneBody i i)
    * (H.OneBody b b + H.OneBody c c - H.OneBody i i - H.OneBody j j)

/-- Value of `tbme` of a term of the first diagram of `DensityMatrixPH` after line 717. -/
def DensityMatrixPH_tbme1 (ms : ModelSpace K) (H : Operator K) (i a b c j : Nat) : K :=
  let oi := ms.GetOrbit i
  let oa := ms.GetOrbit a
  let ob := ms.GetOrbit b
  let oc := ms.GetOrbit c
  let oj := ms.GetOrbit j
  let Jmin := Int.tdiv (max |oa.j2 - oj.j2| (max |ob.j2 - oc.j2| |oi.j2 - oj.j2|)) 2
  let Jmax := Int.tdiv (min (oa.j2 + oj.j2) (min (ob.j2 + oc.j2) (oi.j2 + oj.j2))) 2
  let tbme0 := (Jrange Jmin Jmax).foldl
    (fun t J => t + ((2 * J + 1 : Int) : K) * H.GetTBME_J J a j b c * H.GetTBME_J J b c i j) 0
  tbme0 * ((1 - oa.occ) * (1 - ob.occ) * (1 - oc.occ) * oi.occ * oj.occ)

/-- Product `e_ai * e_abkj` of the two energy denominators of a term of the second diagram
of `DensityMatrixPH` (lines 761-762). -/
def DensityMatrixPH_denom2 (H : Operator K) (i a b j k : Nat) : K :=
  (H.OneBody a a - H.OneBody i i)
    * (H.OneBody a a + H.OneBody b b - H.OneBody k k - H.OneBody j j)

/-- Value of `tbme` of a term of the second diagram of `DensityMatrixPH` after line 775. -/
def DensityMatrixPH_tbme2 (ms : ModelSpace K) (H : Operator K) (i a b j k : Nat) : K :=
  let oi := ms.GetOrbit i
  let oa := ms.GetOrbit a
  let ob := ms.GetOrbit b
  let oj := ms.GetOrbit j
  let ok := ms.GetOrbit k
  let Jmin := Int.tdiv (max |ok.j2 - oj.j2| (max |oi.j2 - ob.j2| |oa.j2 - ob.j2|)) 2
  let Jmax := Int.tdiv (min (ok.j2 + oj.j2) (min (oi.j2 + ob.j2) (oa.j2 + ob.j2))) 2
  let tbme0 := (Jrange Jmin Jmax).foldl
    (fun t J => t + ((2 * J + 1 : Int) : K) * H.GetTBME_J J k j i b * H.GetTBME_J J a b k j) 0
  tbme0 * ((1 - oa.occ) * oi.occ * oj.occ * ok.occ * (1 - ob.occ))

/-- Sum of the first diagram as the specification words it: over the particles `b`, `c`
that pass the occupation cut and the holes `j`, the unregularized ratio
`tbme / (e_ai * e_bcij)` of the terms whose denominator product is at least `1e-8`. -/
def DensityMatrixPH_sum1 (ext : External K) (ms : ModelSpace K) (H : Operator K)
    (i a : Nat) : K :=
  (ms.particles.map (fun b =>
    if 1 - (ms.GetOrbit b).occ < ext.OCC_CUT then 0 else
    (ms.particles.map (fun c =>
      if 1 - (ms.GetOrbit c).occ < ext.OCC_CUT then 0 else
      (ms.holes.map (fun j =>
        if 1 / 100000000 ≤ DensityMatrixPH_denom1 H i a b c j then
          DensityMatrixPH_tbme1 ms H i a b c j / DensityMatrixPH_denom1 H i a b c j
        else 0)).sum)).sum)).sum

/-- Sum of the second diagram as the specification words it: over the particles `b` that
pass the occupation cut and the holes `j`, `k`, the unregularized ratio
`tbme / (e_ai * e_abkj)` of the terms whose denominator product is at least `1e-8`. -/
def DensityMatrixPH_sum2 (ext : External K) (ms : ModelSpace K) (H : Operator K)
    (i a : Nat) : K :=
  (ms.particles.map (fun b =>
    if 1 - (ms.GetOrbit b).occ < ext.OCC_CUT then 0 else
    (ms.holes.map (fun j =>
      (ms.holes.map (fun k =>
        if 1 / 100000000 ≤ DensityMatrixPH_denom2 H i a b j k then
          DensityMatrixPH_tbme2 ms H i a b j k / DensityMatrixPH_denom2 H i a b j k
        else 0)).sum)).sum)).sum

/-- A map on matrices treats the entry `(r, c)` as an assignment: it either leaves the
entry as it is, or gives it a value that does not depend on the matrix it is applied to. -/
def PointAssign (G : Mat K → Mat K) (r c : Nat) : Prop :=
  (∀ rho, G rho r c = rho r c) ∨ (∃ v, ∀ rho, G rho r c = v)

end Density

/-! ## Block diagonalizer and natural-orbital pass -/

section Diagonalizer
variable {K : Type} [LinearOrderedField K]

/-- State of the reordering loops: `C_HF2NAT`, `Occ` and the counter `nswaps`. -/
abbrev ReorderState (K : Type) := Mat K × Vec K × Nat

/-- Body of the innermost loop of `ReorderHFMBPTCoefficients` (lines 840-845). -/
def swapStep (s : ReorderState K) (i j : Nat) : ReorderState K :=
  if |s.1 i j| > |s.1 i i| then (swap_cols s.1 i j, swap_rows s.2.1 i j, s.2.2 + 1) else s

/-- One pass of the two `for` loops (lines 836-847) over `i < size - 1`, `j < i`,
started with `nswaps = 0`; `m` is `orbvec.size() - 1`. -/
def reorderPass (m : Nat) (Cmat : Mat K) (Occ : Vec K) : ReorderState K :=
  (List.range m).foldl (fun s i => (List.range i).foldl (fun s j => swapStep s i j) s)
    (Cmat, Occ, 0)

/-- The loop `while (nswaps > 0)` (lines 832-848): `nswaps` starts at 10, so a first pass
always runs, and passes are repeated until one makes no swap.  `fuel` bounds the number
of passes; `none` means that the bound was reached. -/
def reorderLoop (m : Nat) : Nat → Mat K → Vec K → Option (Mat K × Vec K)
  | 0, _, _ => none
  | fuel + 1, Cmat, Occ =>
    let s := reorderPass m Cmat Occ
    if s.2.2 > 0 then reorderLoop m fuel s.1 s.2.1 else some (s.1, s.2.1)

/-- Sign-fixing loop (lines 851-854) over the `n_rows` columns of `C_HF2NAT`. -/
def fixSigns (n_rows : Nat) (Cmat : Mat K) : Mat K :=
  (List.range n_rows).foldl (fun Cm i => if Cm i i < 0 then negCol Cm i else Cm) Cmat

/-- Body of the channel loop of `ReorderHFMBPTCoefficients` (lines 831-854): the swap loop
with `orbvec.size() - 1` (a channel is never empty) followed by the sign-fixing loop. -/
def reorderChannel (fuel n_rows : Nat) (orbvec : List Nat) (Cmat : Mat K) (Occ : Vec K) :
    Option (Mat K × Vec K) :=
  (reorderLoop (orbvec.length - 1) fuel Cmat Occ).map
    (fun res => (fixSigns n_rows res.1, res.2))

/-- Translation of `HFMBPT::ReorderHFMBPTCoefficients` as a function of
`(C_HF2NAT, Occ)`: the channel body is run for every channel of `Hbare.OneBodyChannels`. -/
def ReorderHFMBPTCoefficients (fuel n_rows : Nat) (channels : List (List Nat))
    (Cmat : Mat K) (Occ : Vec K) : Option (Mat K × Vec K) :=
  channels.foldl (fun st orbvec =>
    st.bind (fun res => reorderChannel fuel n_rows orbvec res.1 res.2)) (some (Cmat, Occ))

/-- Sub-matrix read `A.submat(rows, cols)`. -/
def submat (A : Mat K) (rows cols : List Nat) : Mat K :=
  fun r c => A (rows.getD r 0) (cols.getD c 0)

/-- Sub-matrix assignment `A.submat(rows, cols) = V` for duplicate-free index lists:
entry `(r, c)` of `V` goes to `(rows[r], cols[c])`. -/
def submatAssign (A : Mat K) (rows cols : List Nat) (V : Mat K) : Mat K :=
  fun i j => if i ∈ rows ∧ j ∈ cols then V (rows.indexOf i) (cols.indexOf j) else A i j

/-- Element assignment `v(idx) = w` for a duplicate-free index list: entry `k` of `w` goes
to `idx[k]`. -/
def elemAssign (v : Vec K) (idx : List Nat) (w : Vec K) : Vec K :=
  fun i => if i ∈ idx then w (idx.indexOf i) else v i

/-- The two ways in which the natural-orbital pass terminates the program (`exit(0)`), and
the exhaustion of the pass bound of a loop (the reordering loop, a back-fill loop). -/
inductive Fatal where
  | diagonalization
  | mass
  | passBound
deriving DecidableEq, Repr

/-- Body of the channel loop of `DiagonalizeRho` (lines 146-163). -/
def diagonalizeChannel (ext : External K) (rho : Mat K) (orbvec : List Nat)
    (Cmat : Mat K) (Occ : Vec K) : Option (Mat K × Vec K) :=
  let orbvec_d := orbvec.insertionSort (fun a b => b ≤ a)
  let rho_ch := submat rho orbvec orbvec
  match ext.eig_sym orbvec.length rho_ch with
  | none => none
  | some (eig, vec) => some (submatAssign Cmat orbvec orbvec_d vec, elemAssign Occ orbvec_d eig)

/-- Channel loop of `DiagonalizeRho` (lines 143-164); `none` is the `exit(0)` taken when
the eigen-solver fails. -/
def diagonalizeChannels (ext : External K) (rho : Mat K) (channels : List (List Nat))
    (Cmat : Mat K) (Occ : Vec K) : Option (Mat K × Vec K) :=
  channels.foldl (fun st orbvec =>
    st.bind (fun res => diagonalizeChannel ext rho orbvec res.1 res.2)) (some (Cmat, Occ))

/-- Translation of `HFMBPT::DiagonalizeRho`. -/
def HFMBPT.DiagonalizeRho (ext : External K) (fuel : Nat) (hf : HFMBPT K) :
    Except Fatal (HFMBPT K) :=
  match diagonalizeChannels ext hf.rho hf.Hbare_OneBodyChannels hf.C_HF2NAT hf.Occ with
  | none => Except.error Fatal.diagonalization
  | some (Cm, Oc) =>
    match ReorderHFMBPTCoefficients fuel hf.modelspace.GetNumberOrbits
        hf.Hbare_OneBodyChannels Cm Oc with
    | none => Except.error Fatal.passBound
    | some (Cm2, Oc2) => Except.ok { hf with C_HF2NAT := Cm2, Occ := Oc2 }

/-- Assignment `oi.occ_nat = v` on orbit `i` of the model space. -/
def ModelSpace.setOccNat (ms : ModelSpace K) (i : Nat) (v : K) : ModelSpace K :=
  { ms with Orbits := ms.Orbits.set i { ms.GetOrbit i with occ_nat := v } }

/-- Lines 31-62 of `HFMBPT::GetNaturalOrbitals`: the density matrix is built from
`rho = 0`, diagonalized, the mass check is made, and `C_HO2NAT` and the `occ_nat` values
are set.  `H` is the operator returned by `HartreeFock::GetNormalOrderedH()`.  The optional
back-filling of lines 64-134 follows this part. -/
def HFMBPT.GetNaturalOrbitals_head (ext : External K) (fuel : Nat) (hf : HFMBPT K)
    (H : Operator K) : Except Fatal (HFMBPT K) :=
  let norbits := hf.modelspace.GetNumberOrbits
  let A := hf.modelspace.TargetMass
  let hf1 : HFMBPT K := { hf with rho := matZeros, Occ := fun _ => 0 }
  let hf2 := HFMBPT.GetDensityMatrix ext hf1 H
  match HFMBPT.DiagonalizeRho ext fuel hf2 with
  | Except.error e => Except.error e
  | Except.ok hf3 =>
    if |AfromTr hf3.modelspace hf3.rho - (A : K)| > 1 / 100000000 then
      Except.error Fatal.mass
    else
      let hf4 : HFMBPT K := { hf3 with C_HO2NAT := matMul norbits hf3.C hf3.C_HF2NAT }
      let ms2 := hf4.modelspace.all_orbits.foldl (fun ms i => ms.setOccNat i |hf4.Occ i|)
        hf4.modelspace
      Except.ok { hf4 with modelspace := ms2 }

/-- Number of entries of row `i`, among the first `m` columns, that are smaller in
magnitude than the diagonal entry. -/
def rowRank (m : Nat) (Cmat : Mat K) (i : Nat) : Nat :=
  ((range m).filter (fun c => |Cmat i c| < |Cmat i i|)).card

/-- Termination measure of the swap loop: the row ranks read as digits in base `m + 1`,
the last row being the most significant. -/
def reorderMeasure (m : Nat) (Cmat : Mat K) : Nat :=
  ∑ i ∈ range m, rowRank m Cmat i * (m + 1) ^ i

/-- Well-formedness of the list of one-body channels of `Hbare`: every channel is a
non-empty duplicate-free list of orbits that share `(l, j2, tz2)` and contains every orbit
with that key; different channels are disjoint; every orbit is in a channel. -/
def OneBodyChannelsWF (ms : ModelSpace K) (channels : List (List Nat)) : Prop :=
  (∀ ch ∈ channels, ch.Nodup ∧ ch ≠ [] ∧ (∀ a ∈ ch, a < ms.GetNumberOrbits) ∧
    (∀ a ∈ ch, ∀ b ∈ ch, ms.key a = ms.key b) ∧
    (∀ a ∈ ch, ∀ b, b < ms.GetNumberOrbits → ms.key b = ms.key a → b ∈ ch)) ∧
  channels.Pairwise (fun c1 c2 => ∀ a ∈ c1, a ∉ c2) ∧
  (∀ i, i < ms.GetNumberOrbits → ∃ ch ∈ channels, i ∈ ch)

/-- State left by the block assignment of `DiagonalizeRho` on the channel `ch`: the
eigen-solver succeeded on the block of `rho`, the block of `C_HF2NAT` holds the
eigenvectors (rows in channel order, columns in descending order) and `Occ` holds the
eigenvalues in descending index order. -/
def ChannelAssigned (ext : External K) (rho : Mat K) (ch : List Nat)
    (Cmat : Mat K) (Occ : Vec K) : Prop :=
  ∃ eig vec, ext.eig_sym ch.length (submat rho ch ch) = some (eig, vec) ∧
    (∀ i ∈ ch, ∀ j ∈ ch, Cmat i j
      = vec (ch.indexOf i) ((ch.insertionSort (fun a b => b ≤ a)).indexOf j)) ∧
    (∀ j ∈ ch, Occ j = eig ((ch.insertionSort (fun a b => b ≤ a)).indexOf j))

/-- Orthogonality of `Cmat` within every channel: for every channel the sub-matrix `R` on
the channel's orbits satisfies `Rᵀ R = 1`. -/
def OrthoCh (channels : List (List Nat)) (Cmat : Mat K) : Prop :=
  ∀ ch ∈ channels, ∀ a ∈ ch, ∀ b ∈ ch,
    (ch.map (fun r => Cmat r a * Cmat r b)).sum = if a = b then 1 else 0

/-- Assumption on the eigen-solver: on a symmetric block the eigenvectors it returns are
orthonormal. -/
def EigOrthoSpec (ext : External K) : Prop :=
  ∀ m A eig vec, (∀ r c, r < m → c < m → A r c = A c r) →
    ext.eig_sym m A = some (eig, vec) →
    ∀ a b, a < m → b < m → ∑ r ∈ range m, vec r a * vec r b = if a = b then 1 else 0

/-- Column `k` of `Cmat` is an eigenvector of `rho` with eigenvalue `Occ k`, for every
orbit `k`: `rho * Cmat(:,k) = Occ(k) * Cmat(:,k)`. -/
def EigenColumns (n : Nat) (rho Cmat : Mat K) (Occ : Vec K) : Prop :=
  ∀ i k, i < n → k < n → ∑ j ∈ range n, rho i j * Cmat j k = Occ k * Cmat i k

/-- Assumption on the eigen-solver: on the block of every channel, each eigenvalue it
returns matches the eigenvector column with the same index. -/
def EigVecOnChannels (ext : External K) (rho : Mat K) (channels : List (List Nat)) : Prop :=
  ∀ ch ∈ channels, ∀ eig vec, ext.eig_sym ch.length (submat rho ch ch) = some (eig, vec) →
    ∀ r c, r < ch.length → c < ch.length →
      ∑ s ∈ range ch.length, submat rho ch ch r s * vec s c = eig c * vec r c

/-- Fixed point of the scan of `ReorderHFMBPTCoefficients` over the indices `i < m`, `j < i`:
no comparison `|C(i,j)| > |C(i,i)|` holds. -/
def ReorderStable (m : Nat) (Cmat : Mat K) : Prop :=
  ∀ i j, i < m → j < i → ¬ (|Cmat i j| > |Cmat i i|)

/-- Assumption on the eigen-solver: the eigenvalues it returns are in ascending order. -/
def EigAscending (ext : External K) : Prop :=
  ∀ m A eig vec, ext.eig_sym m A = some (eig, vec) →
    ∀ a b, a ≤ b → b < m → eig a ≤ eig b

end Diagonalizer

/-! ## Occupation reclassifier (back-filling part of `GetNaturalOrbitals`) -/

section Backfill
variable {K : Type} [LinearOrderedField K]

/-- Locals of the back-filling part of `GetNaturalOrbitals` (lines 69-73): the kept orbits,
their occupations and the two running counts. -/
structure BackfillState (K : Type) where
  holeorbs_tmp : List Nat
  hole_occ_tmp : List K
  NfromTr : K
  ZfromTr : K

/-- Body of the selection loop (lines 79-87); the factors `(1+oi.tz2)/2` and `(1-oi.tz2)/2`
are integer divisions. -/
def keepStep (ms : ModelSpace K) (Occ : Vec K) (s : BackfillState K) (i : Nat) :
    BackfillState K :=
  let oi := ms.GetOrbit i
  if Occ i > 2 / 100 then
    { holeorbs_tmp := s.holeorbs_tmp ++ [i]
      hole_occ_tmp := s.hole_occ_tmp ++ [Occ i]
      NfromTr := s.NfromTr
        + ((Int.tdiv (1 + oi.tz2) 2 : Int) : K) * Occ i * ((oi.j2 + 1 : Int) : K)
      ZfromTr := s.ZfromTr
        + ((Int.tdiv (1 - oi.tz2) 2 : Int) : K) * Occ i * ((oi.j2 + 1 : Int) : K) }
  else s

/-- Selection loop over `all_orbits` (lines 77-88), started from empty lists and zero
counts. -/
def keepLoop (ms : ModelSpace K) (Occ : Vec K) : BackfillState K :=
  ms.all_orbits.foldl (keepStep ms Occ) ⟨[], [], 0, 0⟩

/-- Test of the `continue` in the proton loop (line 101). -/
def protonSkip (tz2 : Int) : Bool := decide (tz2 > 0)

/-- Test of the `continue` in the neutron loop (line 115). -/
def neutronSkip (tz2 : Int) : Bool := decide (tz2 < 0)

/-- Body of the `for` loop of a back-fill loop (lines 100-105 for the protons, 114-119 for
the neutrons, which differ in the test `skip` of the `continue`, in the target count and in
the running count they update).  The state is `hole_occ_tmp`, the running count and a flag
that records the `break`. -/
def backfillStep (ext : External K) (ms : ModelSpace K) (skip : Int → Bool) (target : Int)
    (holeorbs_tmp : List Nat) (s : List K × K × Bool) (i : Nat) : List K × K × Bool :=
  if s.2.2 then s else
  let oi := ms.GetOrbit (holeorbs_tmp.getD i 0)
  if skip oi.tz2 then s else
  let occ_increase :=
    min (5 / 1000) (min (((target : K) - s.2.1) / ((oi.j2 : K) + 1)) (1 - s.1.getD i 0))
  let hole_occ_tmp := s.1.set i (s.1.getD i 0 + occ_increase)
  let XfromTr := s.2.1 + occ_increase * ((oi.j2 + 1 : Int) : K)
  (hole_occ_tmp, XfromTr, decide ((target : K) - XfromTr < ext.OCC_CUT))

/-- One run of the `for` loop over `i < holeorbs_tmp.size()` (lines 98-106, 112-120). -/
def backfillPass (ext : External K) (ms : ModelSpace K) (skip : Int → Bool) (target : Int)
    (holeorbs_tmp : List Nat) (hole_occ_tmp : List K) (XfromTr : K) : List K × K × Bool :=
  (List.range holeorbs_tmp.length).foldl (backfillStep ext ms skip target holeorbs_tmp)
    (hole_occ_tmp, XfromTr, false)

/-- The loop `while ((target - XfromTr) > OCC_CUT)` (lines 96-107, 110-121).  `fuel` bounds
the number of passes; `none` means that the condition still held when the bound was
reached. -/
def backfillLoop (ext : External K) (ms : ModelSpace K) (skip : Int → Bool) (target : Int)
    (holeorbs_tmp : List Nat) : Nat → List K → K → Option (List K × K)
  | 0, hole_occ_tmp, XfromTr =>
    if (target : K) - XfromTr > ext.OCC_CUT then none else some (hole_occ_tmp, XfromTr)
  | fuel + 1, hole_occ_tmp, XfromTr =>
    if (target : K) - XfromTr > ext.OCC_CUT then
      let s := backfillPass ext ms skip target holeorbs_tmp hole_occ_tmp XfromTr
      backfillLoop ext ms skip target holeorbs_tmp fuel s.1 s.2.1
    else some (hole_occ_tmp, XfromTr)

/-- Proton back-fill loop (lines 96-107) on the locals: it updates `hole_occ_tmp` and
`ZfromTr`. -/
def protonStage (ext : External K) (ms : ModelSpace K) (Z : Int) (fuel : Nat)
    (s : BackfillState K) : Option (BackfillState K) :=
  (backfillLoop ext ms protonSkip Z s.holeorbs_tmp fuel s.hole_occ_tmp s.ZfromTr).map
    (fun r => { s with hole_occ_tmp := r.1, ZfromTr := r.2 })

/-- Neutron back-fill loop (lines 110-121) on the locals: it updates `hole_occ_tmp` and
`NfromTr`. -/
def neutronStage (ext : External K) (ms : ModelSpace K) (N : Int) (fuel : Nat)
    (s : BackfillState K) : Option (BackfillState K) :=
  (backfillLoop ext ms neutronSkip N s.holeorbs_tmp fuel s.hole_occ_tmp s.NfromTr).map
    (fun r => { s with hole_occ_tmp := r.1, NfromTr := r.2 })

/-- Lines 67-121 of `GetNaturalOrbitals`: selection of the kept orbits, then the proton and
the neutron back-fill loops; `A` is the target mass read at line 32. -/
def backfill (ext : External K) (ms : ModelSpace K) (A : Int) (Occ : Vec K) (fuel : Nat) :
    Option (BackfillState K) :=
  let Z := ms.Zref
  let N := A - Z
  (protonStage ext ms Z fuel (keepLoop ms Occ)).bind (neutronStage ext ms N fuel)

/-- Lines 64-134 of `HFMBPT::GetNaturalOrbitals`, run on the state `hf` reached at line 64:
when `use_NAT_occupations` is set, the back-filling part is run, `holeorbs` and `hole_occ`
are assigned and `UpdateReference` is called; otherwise nothing is done.  `UpdateReference`
(line 132) is code that is not part of the translated sources: it is taken as the model
space it leaves.  The error `Fatal.passBound` is returned when a back-fill loop reaches the
pass bound. -/
def HFMBPT.GetNaturalOrbitals_backfill (ext : External K)
    (UpdateReference : HFMBPT K → ModelSpace K) (fuel : Nat) (A : Int) (hf : HFMBPT K) :
    Except Fatal (HFMBPT K) :=
  if hf.use_NAT_occupations then
    match backfill ext hf.modelspace A hf.Occ fuel with
    | none => Except.error Fatal.passBound
    | some s =>
      let hf6 : HFMBPT K := { hf with holeorbs := s.holeorbs_tmp, hole_occ := s.hole_occ_tmp }
      Except.ok { hf6 with modelspace := UpdateReference hf6 }
  else Except.ok hf

/-- Translation of `HFMBPT::GetNaturalOrbitals`: lines 31-62 followed by lines 64-134, with
the target mass `A` read at line 32. -/
def HFMBPT.GetNaturalOrbitals (ext : External K) (UpdateReference : HFMBPT K → ModelSpace K)
    (fuel : Nat) (hf : HFMBPT K) (H : Operator K) : Except Fatal (HFMBPT K) :=
  match HFMBPT.GetNaturalOrbitals_head ext fuel hf H with
  | Except.error e => Except.error e
  | Except.ok hf5 =>
    HFMBPT.GetNaturalOrbitals_backfill ext UpdateReference fuel hf.modelspace.TargetMass hf5

/-- Modelled from the spec: `UpdateReference` (called at line 132), whose source is not among
the translated files.  The specification describes it as the notification by which "every
orbit's hole/particle status and occupation become consistent with the new assignment",
an update of "the orbit registry's hole/particle classification and occupation fields",
the new assignment being the kept orbits `holeorbs` with their occupations `hole_occ`; the
natural occupation `occ_nat` is "filled by this core", not by the registry.  Accordingly a
kept orbit gets its entry of `hole_occ` as `occ` and every other orbit `occ = 0`, `holes`
becomes the list of the kept orbits and `particles` that of the other orbits; nothing else
is written. -/
def HFMBPT.UpdateReference (hf : HFMBPT K) : ModelSpace K :=
  { hf.modelspace with
    Orbits := (List.range hf.modelspace.GetNumberOrbits).map (fun i =>
      { hf.modelspace.GetOrbit i with
        occ := if i ∈ hf.holeorbs then hf.hole_occ.getD (hf.holeorbs.indexOf i) 0 else 0 })
    holes := hf.holeorbs
    particles := hf.modelspace.all_orbits.filter (fun i => decide (i ∉ hf.holeorbs)) }

/-- Constructor `HFMBPT::HFMBPT(hbare)` (lines 9-14) on top of the state `base` left by the
`HartreeFock` constructor: both rotations into the natural basis are the identity and
`use_NAT_occupations` is false. -/
def HFMBPT.construct (base : HFMBPT K) : HFMBPT K :=
  { base with C_HO2NAT := matEye, C_HF2NAT := matEye, use_NAT_occupations := false }

/-- The step of `backfillStep` on one kept orbit, given with its occupation as the pair `p`;
the state is the running count and the `break` flag. -/
def backfillStepP (ext : External K) (ms : ModelSpace K) (skip : Int → Bool) (target : Int)
    (p : Nat × K) (c : K × Bool) : (Nat × K) × (K × Bool) :=
  if c.2 then (p, c) else
  let oi := ms.GetOrbit p.1
  if skip oi.tz2 then (p, c) else
  let occ_increase :=
    min (5 / 1000) (min (((target : K) - c.1) / ((oi.j2 : K) + 1)) (1 - p.2))
  let XfromTr := c.1 + occ_increase * ((oi.j2 + 1 : Int) : K)
  ((p.1, p.2 + occ_increase), (XfromTr, decide ((target : K) - XfromTr < ext.OCC_CUT)))

/-- One pass of a back-fill loop over the list of pairs (kept orbit, occupation). -/
def backfillPassP (ext : External K) (ms : ModelSpace K) (skip : Int → Bool) (target : Int) :
    List (Nat × K) → K × Bool → List (Nat × K) × (K × Bool)
  | [], c => ([], c)
  | p :: t, c =>
    let r := backfillStepP ext ms skip target p c
    let r2 := backfillPassP ext ms skip target t r.2
    (r.1 :: r2.1, r2.2)

/-- The increment `occ_increase` of lines 102 and 116 for the kept orbit `p`, at the running
count `c`. -/
def occIncrease (ms : ModelSpace K) (target : Int) (p : Nat × K) (c : K) : K :=
  min (5 / 1000) (min (((target : K) - c) / (((ms.GetOrbit p.1).j2 : K) + 1)) (1 - p.2))

/-- Degeneracy `j2 + 1` of the kept orbit `p`. -/
def orbW (ms : ModelSpace K) (p : Nat × K) : K := (((ms.GetOrbit p.1).j2 + 1 : Int) : K)

/-- Weighted count of the kept orbits that a back-fill loop does not skip. -/
def countP (ms : ModelSpace K) (skip : Int → Bool) (l : List (Nat × K)) : K :=
  (l.map (fun p => if skip (ms.GetOrbit p.1).tz2 then 0 else p.2 * orbW ms p)).sum

/-- Total headroom `(1 - hole_occ) * (j2 + 1)` of the kept orbits that a back-fill loop does
not skip. -/
def headroomP (ms : ModelSpace K) (skip : Int → Bool) (l : List (Nat × K)) : K :=
  (l.map (fun p => if skip (ms.GetOrbit p.1).tz2 then 0 else (1 - p.2) * orbW ms p)).sum

/-- Number of kept orbits with occupation below 1 that a back-fill loop does not skip. -/
def unsatP (ms : ModelSpace K) (skip : Int → Bool) (l : List (Nat × K)) : K :=
  (l.map (fun p => if skip (ms.GetOrbit p.1).tz2 then 0 else if p.2 < 1 then 1 else 0)).sum

/-- Termination measure of a back-fill loop: the headroom counted in increments of `0.005`
plus the number of unsaturated orbits. -/
def backfillPot (ms : ModelSpace K) (skip : Int → Bool) (l : List (Nat × K)) : K :=
  200 * headroomP ms skip l + unsatP ms skip l

/-- Sum over the kept orbits whose `tz2` passes the test `sp` of `hole_occ * (j2 + 1)`. -/
def speciesCount (ms : ModelSpace K) (sp : Int → Bool) (orbs : List Nat) (occ : List K) : K :=
  ((List.zip orbs occ).map (fun p =>
    if sp (ms.GetOrbit p.1).tz2 then p.2 * (((ms.GetOrbit p.1).j2 + 1 : Int) : K) else 0)).sum

/-- Orbits as the model space builds them: `tz2` is `-1` (proton) or `+1` (neutron) and
`j2` is non-negative. -/
def OrbitsWF (ms : ModelSpace K) : Prop :=
  ∀ i ∈ ms.all_orbits, ((ms.GetOrbit i).tz2 = -1 ∨ (ms.GetOrbit i).tz2 = 1) ∧
    0 ≤ (ms.GetOrbit i).j2

end Backfill

/-! ## Normal-ordered Hamiltonian in the natural-orbital basis -/

section NormalOrdered
variable {K : Type} [LinearOrderedField K]

/-- Accessor `ModelSpace::GetNumberTwoBodyChannels`. -/
def ModelSpace.GetNumberTwoBodyChannels {K : Type} (ms : ModelSpace K) : Nat :=
  ms.TwoBodyChannels.length

/-- The operator `Hbare` (or `OpIn`) with what the three-body code reads of it: the zero-,
one- and two-body parts `op`, `GetParticleRank()`, `GetE3max()`, the lookup
`OneBodyChannels.at(key)`, and the element lookups `ThreeBody.GetME_pn_no2b` and
`ThreeBody.GetME_pn`, whose source is not part of the translation. -/
structure Operator3 (K : Type) where
  op : Operator K
  ParticleRank : Int
  E3max : Int
  OneBodyChannels : Int × Int × Int → List Nat
  GetME_pn_no2b : Nat → Nat → Nat → Nat → Nat → Nat → Int → K
  GetME_pn : Int → Int → Int → Nat → Nat → Nat → Nat → Nat → Nat → K

/-- Engine state of `GetNormalOrderedHNAT`: the fields of `HFMBPT` and, of those inherited
from `HartreeFock`, the Fock matrix `F` and the energy `EHF`. -/
structure MeanField (K : Type) where
  hf : HFMBPT K
  F : Mat K
  EHF : K

/-- Member functions called by `GetNormalOrderedHNAT` whose source is not part of the
translation, as functions of the engine state: `UpdateF`, `CalcEHF`, and
`GetTransformed3B(Hbare)`, which returns a three-body tensor of type `T3`. -/
structure MeanFieldCode (K T3 : Type) where
  UpdateF : MeanField K → MeanField K
  CalcEHF : MeanField K → MeanField K
  GetTransformed3B : MeanField K → Operator3 K → MeanField K × T3

/-- The operator `HNO` that `GetNormalOrderedHNAT` returns: the particle rank it was
constructed with, the zero-body term, the one-body matrix, the two-body block of every
channel (`TwoBody.GetMatrix(ch)`) and the three-body tensor, `none` as long as none has
been assigned to `HNO.ThreeBody`. -/
structure NormalOrderedH (K T3 : Type) where
  particle_rank : Int
  ZeroBody : K
  OneBody : Mat K
  TwoBody : Nat → Block K
  ThreeBody : Option T3

/-- Density of lines 313-314: `tmp = C_HO2NAT.cols(holeorbs)` and
`rho = (tmp.each_row() % hole_occ) * tmp.t()`. -/
def HFMBPT.holeDensity (hf : HFMBPT K) : Mat K :=
  let tmp : Mat K := fun i k => hf.C_HO2NAT i (hf.holeorbs.getD k 0)
  matMul hf.holeorbs.length (fun i k => tmp i k * hf.hole_occ.getD k 0) (matT tmp)

/-- Value left in `D(i,j)` by lines 378-384 of `GetNormalOrderedHNAT`: row `i` is the
old-basis pair `bra`, column `j` the new-basis pair `ket`. -/
def hnatD (ext : External K) (Cmat : Mat K) (tbc : TwoBodyChannel) (i j : Nat) : K :=
  let bra := tbc.GetKet i
  let ket := tbc.GetKet j
  let d0 := Cmat bra.p ket.p * Cmat bra.q ket.q
  let d1 := if bra.p ≠ bra.q then
      d0 + Cmat bra.q ket.p * Cmat bra.p ket.q * ((ext.Phase bra tbc.J : Int) : K)
    else d0
  let d2 := if bra.p = bra.q then d1 * ext.SQRT2 else d1
  if ket.p = ket.q then d2 / ext.SQRT2 else d2

/-- Excitation number `2*op->n + op->l + 2*oq->n + oq->l` of a pair (lines 373, 377). -/
def e2pair (ms : ModelSpace K) (k : Ket) : Int :=
  2 * (ms.GetOrbit k.p).n + (ms.GetOrbit k.p).l + 2 * (ms.GetOrbit k.q).n + (ms.GetOrbit k.q).l

/-- The loops over `a` and `b` of lines 389-400: what `V3NO(i,j)` holds after them when it
held `v` before. -/
def hnatV3acc (ms : ModelSpace K) (Hbare : Operator3 K) (rho : Mat K) (J : Int)
    (bra ket : Ket) (v : K) : K :=
  ms.all_orbits.foldl (fun v a =>
    let oa := ms.GetOrbit a
    if 2 * oa.n + oa.l + e2pair ms bra > Hbare.E3max then v else
    (Hbare.OneBodyChannels (oa.l, oa.j2, oa.tz2)).foldl (fun v b =>
      let ob := ms.GetOrbit b
      if 2 * ob.n + ob.l + e2pair ms ket > Hbare.E3max then v else
      v + rho a b * Hbare.GetME_pn_no2b bra.p bra.q a ket.p ket.q b J) v) v

/-- Body of the loop over `j` (lines 375-405) in the iteration `i` of the outer loop, on
the pair of matrices `(D, V3NO)`. -/
def hnatBody (ext : External K) (ms : ModelSpace K) (Hbare : Operator3 K) (rho Cmat : Mat K)
    (tbc : TwoBodyChannel) (i : Nat) (s : Mat K × Mat K) (j : Nat) : Mat K × Mat K :=
  let bra := tbc.GetKet i
  let ket := tbc.GetKet j
  let D := matSet s.1 i j (hnatD ext Cmat tbc i j)
  if Hbare.ParticleRank < 3 then (D, s.2) else
  if i > j then (D, s.2) else
  let v0 := hnatV3acc ms Hbare rho tbc.J bra ket (s.2 i j)
  let v1 := v0 / ((2 * tbc.J + 1 : Int) : K)
  let v2 := if bra.p = bra.q then v1 / ext.SQRT2 else v1
  let v3 := if ket.p = ket.q then v2 / ext.SQRT2 else v2
  let V := matSet s.2 i j v3
  (D, matSet V j i (V i j))

/-- The loops over `i` and `j` (lines 370-406), run in index order from `D = 0` and
`V3NO = 0`. -/
def hnatLoops (ext : External K) (ms : ModelSpace K) (Hbare : Operator3 K) (rho Cmat : Mat K)
    (tbc : TwoBodyChannel) : Mat K × Mat K :=
  (List.range tbc.GetNumberKets).foldl
    (fun s i => (List.range tbc.GetNumberKets).foldl (hnatBody ext ms Hbare rho Cmat tbc i) s)
    (matZeros, matZeros)

/-- Body of the channel loop (lines 361-411): the block `OUT = D.t() * (V2 + V3NO) * D`
written to `HNO.TwoBody.GetMatrix(ch)`, with `V2 = Hbare.TwoBody.GetMatrix(ch)`. -/
def hnatBlock (ext : External K) (ms : ModelSpace K) (Hbare : Operator3 K) (rho Cmat : Mat K)
    (ch : Nat) : Block K :=
  let tbc := ms.GetTwoBodyChannel ch
  let npq := tbc.GetNumberKets
  let DV := hnatLoops ext ms Hbare rho Cmat tbc
  let V2 := (Hbare.op.MatEl ch ch).el
  { n_rows := npq, n_cols := npq
    el := matMul npq (matMul npq (matT DV.1) (fun r c => V2 r c + DV.2 r c)) DV.1 }

/-- Lines 312-322 of `GetNormalOrderedHNAT`: `rho` is replaced by the hole density, then
`UpdateF` and `CalcEHF` run.  This is the state in which the channel loop runs. -/
def HFMBPT.hnatMeanField {T3 : Type} (code : MeanFieldCode K T3) (s : MeanField K) :
    MeanField K :=
  let s1 : MeanField K := { s with hf := { s.hf with rho := HFMBPT.holeDensity s.hf } }
  let s2 := code.UpdateF s1
  code.CalcEHF s2

/-- Translation of `HFMBPT::GetNormalOrderedHNAT` as a function of the engine state that
returns the state it leaves and the operator `HNO`.  `Hbare` is the member of that name.
The blocks of the channels `ch < nchan` are the ones written by the channel loop; `HNO`
has no other two-body block. -/
def HFMBPT.GetNormalOrderedHNAT {T3 : Type} (ext : External K) (code : MeanFieldCode K T3)
    (Hbare : Operator3 K) (s : MeanField K) (particle_rank : Int) :
    MeanField K × NormalOrderedH K T3 :=
  let rho_swap := s.hf.rho
  let s3 := HFMBPT.hnatMeanField code s
  let norb := s3.hf.modelspace.GetNumberOrbits
  let nchan := s3.hf.modelspace.GetNumberTwoBodyChannels
  let HNO : NormalOrderedH K T3 :=
    { particle_rank := particle_rank
      ZeroBody := s3.EHF
      OneBody := matMul norb (matMul norb (matT s3.hf.C_HO2NAT) s3.F) s3.hf.C_HO2NAT
      TwoBody := fun ch =>
        if ch < nchan then hnatBlock ext s3.hf.modelspace Hbare s3.hf.rho s3.hf.C_HO2NAT ch
        else ⟨0, 0, matZeros⟩
      ThreeBody := none }
  let r : MeanField K × NormalOrderedH K T3 :=
    if particle_rank > 2 then
      let g := code.GetTransformed3B s3 Hbare
      (g.1, { HNO with ThreeBody := some g.2 })
    else (s3, HNO)
  ({ r.1 with hf := { r.1.hf with rho := rho_swap } }, r.2)

/-- Translation of `HFMBPT::GetTransformed3bme`: six nested loops over the one-body
channels of the orbits `a..f`; each of the five outer loops skips an index whose rotation
coefficient is below `1e-8` in magnitude. -/
def HFMBPT.GetTransformed3bme (hf : HFMBPT K) (OpIn : Operator3 K) (Jab Jde J2 : Int)
    (a b c d e f : Nat) : K :=
  let Cm := hf.C_HO2NAT
  let chan := fun x => OpIn.OneBodyChannels (hf.modelspace.key x)
  (chan a).foldl (fun V alpha =>
    if |Cm alpha a| < 1 / 100000000 then V else
    (chan b).foldl (fun V beta =>
      if |Cm beta b| < 1 / 100000000 then V else
      (chan c).foldl (fun V gamma =>
        if |Cm gamma c| < 1 / 100000000 then V else
        (chan d).foldl (fun V delta =>
          if |Cm delta d| < 1 / 100000000 then V else
          (chan e).foldl (fun V epsilon =>
            if |Cm epsilon e| < 1 / 100000000 then V else
            (chan f).foldl (fun V phi =>
              let V_ho := OpIn.GetME_pn Jab Jde J2 alpha beta gamma delta epsilon phi
              V + V_ho * Cm alpha a * Cm beta b * Cm gamma c * Cm delta d * Cm epsilon e
                * Cm phi f) V) V) V) V) V) 0

/-- Sum of C30 as the specification words it: over all 6-tuples from the channels of
`a..f`, the old element times the six coefficients, a tuple counting only when each of its
six coefficients has magnitude at least `1e-8`. -/
def transformed3bmeSix (hf : HFMBPT K) (OpIn : Operator3 K) (Jab Jde J2 : Int)
    (a b c d e f : Nat) : K :=
  let Cm := hf.C_HO2NAT
  let chan := fun x => OpIn.OneBodyChannels (hf.modelspace.key x)
  ((chan a).map (fun alpha => ((chan b).map (fun beta => ((chan c).map (fun gamma =>
    ((chan d).map (fun delta => ((chan e).map (fun epsilon => ((chan f).map (fun phi =>
      if 1 / 100000000 ≤ |Cm alpha a| ∧ 1 / 100000000 ≤ |Cm beta b| ∧
         1 / 100000000 ≤ |Cm gamma c| ∧ 1 / 100000000 ≤ |Cm delta d| ∧
         1 / 100000000 ≤ |Cm epsilon e| ∧ 1 / 100000000 ≤ |Cm phi f| then
        OpIn.GetME_pn Jab Jde J2 alpha beta gamma delta epsilon phi
          * Cm alpha a * Cm beta b * Cm gamma c * Cm delta d * Cm epsilon e * Cm phi f
      else 0)).sum)).sum)).sum)).sum)).sum)).sum

/-- Sum that the loops of `GetTransformed3bme` form: as `transformed3bmeSix`, a tuple
counting when each of its first five coefficients has magnitude at least `1e-8`. -/
def transformed3bmeFive (hf : HFMBPT K) (OpIn : Operator3 K) (Jab Jde J2 : Int)
    (a b c d e f : Nat) : K :=
  let Cm := hf.C_HO2NAT
  let chan := fun x => OpIn.OneBodyChannels (hf.modelspace.key x)
  ((chan a).map (fun alpha => ((chan b).map (fun beta => ((chan c).map (fun gamma =>
    ((chan d).map (fun delta => ((chan e).map (fun epsilon => ((chan f).map (fun phi =>
      if 1 / 100000000 ≤ |Cm alpha a| ∧ 1 / 100000000 ≤ |Cm beta b| ∧
         1 / 100000000 ≤ |Cm gamma c| ∧ 1 / 100000000 ≤ |Cm delta d| ∧
         1 / 100000000 ≤ |Cm epsilon e| then
        OpIn.GetME_pn Jab Jde J2 alpha beta gamma delta epsilon phi
          * Cm alpha a * Cm beta b * Cm gamma c * Cm delta d * Cm epsilon e * Cm phi f
      else 0)).sum)).sum)).sum)).sum)).sum)).sum

/-- The member functions leave `C_HO2NAT`, `holeorbs` and `hole_occ` as they are. -/
def KeepsNAT (f : MeanField K → MeanField K) : Prop :=
  ∀ s, (f s).hf.C_HO2NAT = s.hf.C_HO2NAT ∧ (f s).hf.holeorbs = s.hf.holeorbs ∧
    (f s).hf.hole_occ = s.hf.hole_occ

end NormalOrdered

/-! ## Flow solver (`IMSRGSolver::Solve`) -/

section Solver

/-- Fields of the class `IMSRGSolver` that `Solve` reads or writes; `Op` is the type of
the operators and `K` that of the flow parameter. -/
structure IMSRGSolver (Op K : Type) where
  H_0 : Op
  H_s : Op
  Eta : Op
  Omega : Op
  dOmega : Op
  s : K
  ds : K
  smax : K
  istep : Int
  i_full_BCH : Int

/-- Code called by `Solve` that is not translated: `UpdateEta`, which writes `Eta` only
(given as the generator it stores, a function of the state), the product `Eta * ds`,
`x.BCH_Product(y)` and `x.BCH_Transform(y)`. -/
structure SolverCode (Op K : Type) where
  UpdateEta : IMSRGSolver Op K → Op
  smul : Op → K → Op
  BCH_Product : Op → Op → Op
  BCH_Transform : Op → Op → Op

variable {Op K : Type} [LinearOrderedField K]

/-- Body of the loop of `IMSRGSolver::Solve` (lines 49-74); `%` is the remainder of C++. -/
def IMSRGSolver.step (code : SolverCode Op K) (st : IMSRGSolver Op K) : IMSRGSolver Op K :=
  let st1 := { st with Eta := code.UpdateEta st }
  let st2 := { st1 with s := st1.s + st1.ds }
  let st3 := { st2 with dOmega := code.smul st2.Eta st2.ds }
  let st4 := { st3 with Omega := code.BCH_Product st3.dOmega st3.Omega }
  if Int.tmod st4.istep st4.i_full_BCH = st4.i_full_BCH - 1 then
    { st4 with H_s := code.BCH_Transform st4.H_0 st4.Omega }
  else
    { st4 with H_s := code.BCH_Transform st4.H_s st4.dOmega }

/-- The loop `for (istep=0; s<smax; ++istep)` (lines 46-79) from the state after
`istep = 0`; `fuel` bounds the number of steps, `none` means that the bound was reached. -/
def IMSRGSolver.loop (code : SolverCode Op K) : Nat → IMSRGSolver Op K →
    Option (IMSRGSolver Op K)
  | 0, st => if st.s < st.smax then none else some st
  | fuel + 1, st =>
    if st.s < st.smax then
      let st1 := IMSRGSolver.step code st
      IMSRGSolver.loop code fuel { st1 with istep := st1.istep + 1 }
    else some st

/-- Lines 80-87 of `Solve`: the test made after the loop and the transformation it
guards. -/
def IMSRGSolver.finish (code : SolverCode Op K) (st : IMSRGSolver Op K) : IMSRGSolver Op K :=
  if Int.tmod st.istep st.i_full_BCH ≠ st.i_full_BCH - 1 then
    { st with H_s := code.BCH_Transform st.H_0 st.Omega }
  else st

/-- Translation of `IMSRGSolver::Solve` as a function of the solver state. -/
def IMSRGSolver.Solve (code : SolverCode Op K) (fuel : Nat) (st : IMSRGSolver Op K) :
    Option (IMSRGSolver Op K) :=
  (IMSRGSolver.loop code fuel { st with istep := 0 }).map (IMSRGSolver.finish code)

end Solver

/-! ## Concrete instances used to exercise the theorems -/

section Examples

/-- Arithmetic environment over the rationals: `Rat.sqrt` is exact on squares; the
eigen-solver reports failure. -/
def exExt : External ℚ where
  sqrt := Rat.sqrt
  SQRT2 := 7 / 5
  OCC_CUT := 1 / 1000000
  Phase := fun _ _ => 1
  eig_sym := fun _ _ => none

/-- Two proton `s1/2` orbits (`n = 0` filled, `n = 1` empty) in one one-body channel,
with the two-body channel `J = 0` built on them. -/
def exMS2 : ModelSpace ℚ where
  Orbits := [⟨0, 0, 1, -1, 1, 0⟩, ⟨1, 0, 1, -1, 0, 0⟩]
  holes := [0]
  particles := [1]
  all_orbits := [0, 1]
  OneBodyChannels := fun key => if key = (0, 1, -1) then [0, 1] else []
  TwoBodyChannels := [⟨0, [⟨0, 0⟩, ⟨0, 1⟩, ⟨1, 1⟩]⟩]
  TargetMass := 2
  Zref := 2

/-- Rotation exchanging the two orbits of `exMS2`. -/
def exSwap : Mat ℚ := fun i j => if i + j = 1 then 1 else 0

/-- Engine state over `exMS2` right after construction. -/
def exHF2 : HFMBPT ℚ where
  modelspace := exMS2
  Hbare_OneBodyChannels := [[0, 1]]
  C := matEye
  rho := matZeros
  Occ := fun _ => 0
  C_HO2NAT := matEye
  C_HF2NAT := matEye
  use_NAT_occupations := false
  holeorbs := []
  hole_occ := []

/-- Operator over `exMS2` with one stored two-body block. -/
def exOp2 : Operator ℚ where
  ZeroBody := 0
  OneBody := fun i j => if i = j then (i : ℚ) + 1 else 1 / 2
  MatElKeys := [(0, 0)]
  MatEl := fun _ _ => ⟨3, 3, fun i j => (i : ℚ) + 2 * j⟩
  GetTBME_J := fun _ _ _ _ _ => 0

/-- Proton and neutron `0s1/2` orbits filled, proton and neutron `1s1/2` orbits empty:
two holes and two particles in two one-body channels. -/
def exMS4 : ModelSpace ℚ where
  Orbits := [⟨0, 0, 1, -1, 1, 0⟩, ⟨0, 0, 1, 1, 1, 0⟩, ⟨1, 0, 1, -1, 0, 0⟩, ⟨1, 0, 1, 1, 0, 0⟩]
  holes := [0, 1]
  particles := [2, 3]
  all_orbits := [0, 1, 2, 3]
  OneBodyChannels := fun key =>
    if key = (0, 1, -1) then [0, 2] else if key = (0, 1, 1) then [1, 3] else []
  TwoBodyChannels := []
  TargetMass := 4
  Zref := 2

/-- Engine state over `exMS4` right after construction. -/
def exHF4 : HFMBPT ℚ where
  modelspace := exMS4
  Hbare_OneBodyChannels := [[0, 2], [1, 3]]
  C := matEye
  rho := matZeros
  Occ := fun _ => 0
  C_HO2NAT := matEye
  C_HF2NAT := matEye
  use_NAT_occupations := false
  holeorbs := []
  hole_occ := []

/-- Hamiltonian over `exMS4`: single-particle energies `0, 0, 10, 10` and a constant
two-body matrix element. -/
def exH4 : Operator ℚ where
  ZeroBody := 0
  OneBody := fun i j => if i = j then (if i < 2 then 0 else 10) else 0
  MatElKeys := []
  MatEl := fun _ _ => ⟨0, 0, matZeros⟩
  GetTBME_J := fun _ _ _ _ _ => 1

/-- The Hamiltonian `exH4` with the two-body interaction set to zero. -/
def exH4zero : Operator ℚ := { exH4 with GetTBME_J := fun _ _ _ _ _ => 0 }

/-- Eigen-solver over the rationals that handles diagonal blocks only: the eigenvalues are
the diagonal entries and the eigenvectors the unit vectors; on any other block it reports
failure. -/
def exEigDiag (m : Nat) (A : Mat ℚ) : Option (Vec ℚ × Mat ℚ) :=
  if ∀ r ∈ List.range m, ∀ c ∈ List.range m, r ≠ c → A r c = 0 then
    some (fun k => A k k, matEye)
  else none

/-- The environment `exExt` with the eigen-solver for diagonal blocks. -/
def exExtDiag : External ℚ := { exExt with eig_sym := exEigDiag }

/-- The environment `exExt` with an eigen-solver that always returns. -/
def exExtTotal : External ℚ := { exExt with eig_sym := fun _ A => some (fun k => A k k, matEye) }

/-- Engine state over `exMS4` holding the mean-field density `diag(1, 1, 0, 0)`. -/
def exHF4d : HFMBPT ℚ := { exHF4 with rho := occDiag exMS4 [0, 1] }

/-- Engine state over the model space `exMS4` with target mass 6 (a target nucleus other
than the reference). -/
def exHF4t : HFMBPT ℚ := { exHF4 with modelspace := { exMS4 with TargetMass := 6 } }

/-- Natural occupations over `exMS4` with a small deficit in both species. -/
def exOccFill : Vec ℚ := fun i =>
  if i = 0 then 999 / 1000 else if i = 1 then 499 / 500 else if i = 2 then 1 / 1000 else 1 / 500

/-- Natural occupations over `exMS4` with weighted trace 4 in which the kept proton orbits
hold more than `Z = 2` particles: a negative eigenvalue is dropped by the threshold. -/
def exOccExcess : Vec ℚ := fun i =>
  if i = 0 then 1 else if i = 1 then 1 else if i = 2 then 3 / 100 else -3 / 100

/-- Natural occupations over `exMS4` with weighted trace 4 in which one eigenvalue exceeds
1. -/
def exOccOver : Vec ℚ := fun i =>
  if i = 0 then 11 / 10 else if i = 1 then 1 else if i = 2 then -1 / 10 else 0

/-- Natural occupations over `exMS4` with the proton occupations of `exOccFill` and other
neutron occupations. -/
def exOccFill2 : Vec ℚ := fun i =>
  if i = 0 then 999 / 1000 else if i = 1 then 1 / 2 else if i = 2 then 1 / 1000 else 1 / 2

/-- Engine state over `exMS4` at line 64 with the occupations `exOccFill` and
`use_NAT_occupations` set. -/
def exHF4n : HFMBPT ℚ := { exHF4 with Occ := exOccFill, use_NAT_occupations := true }

/-- Engine state over `exMS4` holding the density `diag(0.1, 0.1, 0.9, 0.9)`: in both
channels the second orbit is the more occupied one. -/
def exHF4r : HFMBPT ℚ :=
  { exHF4 with rho := fun i j => if i = j then (if i < 2 then 1 / 10 else 9 / 10) else 0 }

/-- Density matrix `[[0.9, 0.05], [0.05, 0.1]]` of the two-orbit scenario. -/
def scRho (K : Type) [LinearOrderedField K] : Mat K := fun i j =>
  if i = 0 ∧ j = 0 then 9 / 10
  else if i = 1 ∧ j = 1 then 1 / 10
  else if i + j = 1 then 1 / 20
  else 0

/-- Model space of the scenario over any field: two orbits in one one-body channel. -/
def scMS (K : Type) [LinearOrderedField K] : ModelSpace K where
  Orbits := [⟨0, 0, 1, -1, 1, 0⟩, ⟨1, 0, 1, -1, 0, 0⟩]
  holes := [0]
  particles := [1]
  all_orbits := [0, 1]
  OneBodyChannels := fun key => if key = (0, 1, -1) then [0, 1] else []
  TwoBodyChannels := [⟨0, [⟨0, 0⟩, ⟨0, 1⟩, ⟨1, 1⟩]⟩]
  TargetMass := 2
  Zref := 2

/-- Engine state of the scenario: the density `scRho` on the single channel `[0, 1]`. -/
def scHF (K : Type) [LinearOrderedField K] : HFMBPT K where
  modelspace := scMS K
  Hbare_OneBodyChannels := [[0, 1]]
  C := matEye
  rho := scRho K
  Occ := fun _ => 0
  C_HO2NAT := matEye
  C_HF2NAT := matEye
  use_NAT_occupations := false
  holeorbs := []
  hole_occ := []

/-- Eigenvalues of `scRho` in ascending order, `(10 - s)/20` and `(10 + s)/20`, in terms of
`s = sqrt 65`. -/
def scEig {K : Type} [LinearOrderedField K] (s : K) : Vec K := fun k =>
  if k = 0 then (10 - s) / 20 else (10 + s) / 20

/-- Normalized eigenvectors of `scRho` as columns, `(1, -s - 8)/nm` and `(1, s - 8)/np`, in
terms of `s = sqrt 65` and of the norms `nm = sqrt (130 + 16 s)`, `np = sqrt (130 - 16 s)`. -/
def scVec {K : Type} [LinearOrderedField K] (s nm np : K) : Mat K := fun r c =>
  if c = 0 then (if r = 0 then 1 / nm else (-s - 8) / nm)
  else (if r = 0 then 1 / np else (s - 8) / np)

/-- Environment whose eigen-solver handles blocks of size 2, returning `scEig` and
`scVec`: the exact solver for the scenario once `s`, `nm`, `np` are the three square
roots. -/
def scExt {K : Type} [LinearOrderedField K] (s nm np : K) : External K where
  sqrt := fun x => x
  SQRT2 := 7 / 5
  OCC_CUT := 1 / 1000000
  Phase := fun _ _ => 1
  eig_sym := fun m _ => if m = 2 then some (scEig s, scVec s nm np) else none

/-- The three numbers handed to `scExt` are the square roots it needs. -/
def ScenarioRoots {K : Type} [LinearOrderedField K] (s nm np : K) : Prop :=
  0 ≤ s ∧ s * s = 65 ∧ 0 < nm ∧ nm * nm = 130 + 16 * s ∧ 0 < np ∧ np * np = 130 - 16 * s

/-- Rotation over `exMS2` with `C(0,1) = 1e-9` and `C(1,0) = 0`. -/
def exTiny : Mat ℚ := fun i j =>
  if i = j then 1 else if i = 0 ∧ j = 1 then 1 / 1000000000 else 0

/-- Engine state over `exMS2` with `C_HO2NAT = exTiny` and one hole orbit. -/
def exHF3 : HFMBPT ℚ :=
  { exHF2 with C_HO2NAT := exTiny, holeorbs := [0], hole_occ := [1] }

/-- Operator over `exMS2` of particle rank 2 whose three-body lookups are constant. -/
def exOp3 : Operator3 ℚ where
  op := exOp2
  ParticleRank := 2
  E3max := 0
  OneBodyChannels := exMS2.OneBodyChannels
  GetME_pn_no2b := fun _ _ _ _ _ _ _ => 1
  GetME_pn := fun _ _ _ _ _ _ _ _ _ => 1

/-- Engine state with mean field over `exMS2` right after construction, with one hole. -/
def exMF2 : MeanField ℚ where
  hf := { exHF2 with holeorbs := [0], hole_occ := [1] }
  F := matEye
  EHF := 0

/-- Member functions that leave the engine state as it is. -/
def exCode : MeanFieldCode ℚ Unit where
  UpdateF := fun s => s
  CalcEHF := fun s => s
  GetTransformed3B := fun s _ => (s, ())

/-- One hole orbit and two particle orbits in the same one-body channel. -/
def exMS3 : ModelSpace ℚ where
  Orbits := [⟨0, 0, 1, -1, 1, 0⟩, ⟨1, 0, 1, -1, 0, 0⟩, ⟨2, 0, 1, -1, 0, 0⟩]
  holes := [0]
  particles := [1, 2]
  all_orbits := [0, 1, 2]
  OneBodyChannels := fun key => if key = (0, 1, -1) then [0, 1, 2] else []
  TwoBodyChannels := []
  TargetMass := 2
  Zref := 2

/-- Hamiltonian over `exMS3` with single-particle energies `0, 1, 1` and a Hermitian
two-body lookup acting in `J = 0` only, of magnitude 3 and negative when orbit 2 is
involved. -/
def exH3 : Operator ℚ where
  ZeroBody := 0
  OneBody := fun i j => if i = j then (if i = 0 then 0 else 1) else 0
  MatElKeys := []
  MatEl := fun _ _ => ⟨0, 0, matZeros⟩
  GetTBME_J := fun J p q r s =>
    if J ≠ 0 then 0 else if p = 2 ∨ q = 2 ∨ r = 2 ∨ s = 2 then -3 else 3

/-- One orbit of occupation `1/2`, listed as a hole, and no particle. -/
def exMSfrac : ModelSpace ℚ where
  Orbits := [⟨0, 0, 1, -1, 1 / 2, 0⟩]
  holes := [0]
  particles := []
  all_orbits := [0]
  OneBodyChannels := fun key => if key = (0, 1, -1) then [0] else []
  TwoBodyChannels := []
  TargetMass := 1
  Zref := 1

/-- Operator over `exMS2` of particle rank 3 whose three-body lookups are constant, with
`E3max` large enough to keep every term. -/
def exOp3r : Operator3 ℚ where
  op := exOp2
  ParticleRank := 3
  E3max := 100
  OneBodyChannels := exMS2.OneBodyChannels
  GetME_pn_no2b := fun _ _ _ _ _ _ _ => 1
  GetME_pn := fun _ _ _ _ _ _ _ _ _ => 1

/-- Operator algebra over the rationals with the series of `BCH_Transform` cut after the
first order: `x.BCH_Transform(y) = x * (1 + y)`, `x.BCH_Product(y) = x + y`, and a
constant generator. -/
def exSolverCode : SolverCode ℚ ℚ where
  UpdateEta := fun _ => 1
  smul := fun x k => x * k
  BCH_Product := fun x y => x + y
  BCH_Transform := fun x y => x * (1 + y)

/-- Solver state with `ds = 0.5`, and with `s = 0`, `smax = 2` and `i_full_BCH = 5` as the
constructor sets them, before `Solve`. -/
def exSolver : IMSRGSolver ℚ ℚ where
  H_0 := 1
  H_s := 1
  Eta := 0
  Omega := 0
  dOmega := 0
  s := 0
  ds := 1 / 2
  smax := 2
  istep := 0
  i_full_BCH := 5

/-- Proton and neutron `0s1/2` orbits, both filled, each alone in its one-body channel: the
closed core of mass 4 with no particle orbit. -/
def exMSHe : ModelSpace ℚ where
  Orbits := [⟨0, 0, 1, -1, 1, 0⟩, ⟨0, 0, 1, 1, 1, 0⟩]
  holes := [0, 1]
  particles := []
  all_orbits := [0, 1]
  OneBodyChannels := fun key =>
    if key = (0, 1, -1) then [0] else if key = (0, 1, 1) then [1] else []
  TwoBodyChannels := []
  TargetMass := 4
  Zref := 2

/-- Engine state over `exMSHe` with `use_NAT_occupations` set. -/
def exHFHe : HFMBPT ℚ where
  modelspace := exMSHe
  Hbare_OneBodyChannels := [[0], [1]]
  C := matEye
  rho := matZeros
  Occ := fun _ => 0
  C_HO2NAT := matEye
  C_HF2NAT := matEye
  use_NAT_occupations := true
  holeorbs := []
  hole_occ := []

end Examples

/-! ## Theorems -/

section MatrixLemmas
variable {K : Type} [LinearOrderedField K]

lemma matMul_assoc (n : Nat) (A B D : Mat K) :
    matMul n (matMul n A B) D = matMul n A (matMul n B D) := by
  funext i j
  simp only [matMul, Finset.sum_mul, Finset.mul_sum]
  rw [Finset.sum_comm]
  refine Finset.sum_congr rfl fun k _ => Finset.sum_congr rfl fun m _ => ?_
  ring

lemma matMul_congr_left (n : Nat) (A B D : Mat K) (i j : Nat)
    (h : ∀ k, k < n → A i k = B i k) : matMul n A D i j = matMul n B D i j := by
  unfold matMul
  exact Finset.sum_congr rfl fun k hk => by rw [h k (Finset.mem_range.mp hk)]

lemma matMul_congr_right (n : Nat) (A B D : Mat K) (i j : Nat)
    (h : ∀ k, k < n → B k j = D k j) : matMul n A B i j = matMul n A D i j := by
  unfold matMul
  exact Finset.sum_congr rfl fun k hk => by rw [h k (Finset.mem_range.mp hk)]

lemma matMul_eye_right (n : Nat) (A : Mat K) (i j : Nat) (hj : j < n) :
    matMul n A (fun a b => if a = b then 1 else 0) i j = A i j := by
  unfold matMul
  rw [Finset.sum_eq_single j]
  · simp
  · intro b _ hb; simp [hb]
  · intro h; exact absurd (Finset.mem_range.mpr hj) h

lemma matMul_eye_left (n : Nat) (A : Mat K) (i j : Nat) (hi : i < n) :
    matMul n (fun a b => if a = b then 1 else 0) A i j = A i j := by
  unfold matMul
  rw [Finset.sum_eq_single i]
  · simp
  · intro b _ hb; simp [Ne.symm hb]
  · intro h; exact absurd (Finset.mem_range.mpr hi) h

lemma matT_matT (A : Mat K) : matT (matT A) = A := rfl

lemma matT_matMul (n : Nat) (A B : Mat K) :
    matT (matMul n A B) = matMul n (matT B) (matT A) := by
  funext i j
  simp only [matT, matMul]
  exact Finset.sum_congr rfl fun k _ => mul_comm _ _

/-- Multiplication on both sides by matrices that are the identity on the first `n`
indices. -/
lemma matMul_sandwich_eye (n : Nat) (E1 E2 O : Mat K)
    (hE1 : ∀ i j, i < n → j < n → E1 i j = if i = j then 1 else 0)
    (hE2 : ∀ i j, i < n → j < n → E2 i j = if i = j then 1 else 0)
    (i j : Nat) (hi : i < n) (hj : j < n) :
    matMul n (matMul n E1 O) E2 i j = O i j := by
  have h1 : ∀ k, k < n → matMul n E1 O i k = O i k := by
    intro k _
    rw [matMul_congr_left n E1 (fun a b => if a = b then 1 else 0) O i k
      (fun m hm => hE1 i m hi hm)]
    exact matMul_eye_left n O i k hi
  rw [matMul_congr_left n (matMul n E1 O) O E2 i j h1]
  rw [matMul_congr_right n O E2 (fun a b => if a = b then 1 else 0) i j
      (fun m hm => hE2 m j hm hj)]
  exact matMul_eye_right n O i j hj

end MatrixLemmas

section TransformTheorems
variable {K : Type} [LinearOrderedField K]

lemma sum_range_getD {α : Type} (l : List α) (d : α) (f : α → K) :
    ∑ k ∈ range l.length, f (l.getD k d) = (l.map f).sum := by
  induction l with
  | nil => simp
  | cons a t ih =>
    rw [List.length_cons, Finset.sum_range_succ', List.map_cons, List.sum_cons, add_comm]
    simp only [List.getD_cons_zero, List.getD_cons_succ]
    rw [ih]

/-- Sum over a duplicate-free list of in-range kets, written as a sum over all index pairs. -/
lemma sum_kets_eq (n : Nat) (kets : List Ket) (hnd : kets.Nodup)
    (hr : ∀ k ∈ kets, k.p < n ∧ k.q < n) (g : Nat → Nat → K) :
    (kets.map (fun k => g k.p k.q)).sum
      = ∑ x ∈ range n, ∑ y ∈ range n, (if (⟨x, y⟩ : Ket) ∈ kets then g x y else 0) := by
  rw [← List.sum_toFinset _ hnd]
  have h1 : ∀ k ∈ kets.toFinset, g k.p k.q
      = ∑ x ∈ range n, ∑ y ∈ range n, (if (⟨x, y⟩ : Ket) = k then g x y else 0) := by
    intro k hk
    have hk2 := hr k (List.mem_toFinset.mp hk)
    rw [Finset.sum_eq_single k.p, Finset.sum_eq_single k.q]
    · simp
    · intro y _ hy
      have : ¬ ((⟨k.p, y⟩ : Ket) = k) := by
        intro h; apply hy; rw [← h]
      simp [this]
    · intro h; exact absurd (Finset.mem_range.mpr hk2.2) h
    · intro x _ hx
      apply Finset.sum_eq_zero
      intro y _
      have : ¬ ((⟨x, y⟩ : Ket) = k) := by
        intro h; apply hx; rw [← h]
      simp [this]
    · intro h; exact absurd (Finset.mem_range.mpr hk2.1) h
  rw [Finset.sum_congr rfl h1, Finset.sum_comm]
  refine Finset.sum_congr rfl fun x _ => ?_
  rw [Finset.sum_comm]
  refine Finset.sum_congr rfl fun y _ => ?_
  rw [Finset.sum_ite_eq]
  simp

/-- Sum over all ordered pairs, folded onto the pairs `x ≤ y`. -/
lemma sum_sum_fold (n : Nat) (F : Nat → Nat → K) :
    ∑ x ∈ range n, ∑ y ∈ range n, F x y
      = ∑ x ∈ range n, ∑ y ∈ range n,
          (if x ≤ y then (if x = y then F x x else F x y + F y x) else 0) := by
  have e1 : ∑ x ∈ range n, ∑ y ∈ range n, (if x < y then F y x else 0)
      = ∑ x ∈ range n, ∑ y ∈ range n, (if y < x then F x y else 0) := by
    rw [Finset.sum_comm]
  have e2 : ∀ x y : Nat, (if x ≤ y then (if x = y then F x x else F x y + F y x) else 0)
      = (if x < y then F x y else 0) + (if x < y then F y x else 0)
        + (if x = y then F x y else 0) := by
    intro x y
    rcases lt_trichotomy x y with h | h | h
    · simp [h, h.le, h.ne]
    · subst h; simp
    · simp [h, h.not_le, h.not_lt, h.ne']
  simp only [e2, Finset.sum_add_distrib, e1]
  simp only [← Finset.sum_add_distrib]
  refine Finset.sum_congr rfl fun x _ => Finset.sum_congr rfl fun y _ => ?_
  rcases lt_trichotomy x y with h | h | h
  · simp [h, h.le, h.ne, h.not_lt]
  · subst h; simp
  · simp [h, h.not_le, h.not_lt, h.ne']

lemma orthoRows_sum (n : Nat) (R : Mat K) (hR : OrthoRows n R) (a c : Nat)
    (ha : a < n) (hc : c < n) :
    ∑ x ∈ range n, R a x * R c x = if a = c then 1 else 0 := hR a c ha hc

/-- Core of the two-body round trip: the folded pair sum. -/
lemma pair_sum_core (n : Nat) (R : Mat K) (hR : OrthoRows n R) (a b c d : Nat)
    (ha : a < n) (hb : b < n) (hc : c < n) (hd : d < n) (e φ : K)
    (hφ : φ * φ = 1) (he : e = φ ∨ (e = 0 ∧ a = b ∧ φ = 1)) :
    ∑ x ∈ range n, ∑ y ∈ range n,
      (if x ≤ y then
        (R a x * R b y + e * (R a y * R b x))
          * (R c x * R d y + (if x ≠ y then φ * (R c y * R d x) else 0))
       else 0)
      = (if a = c then 1 else 0) * (if b = d then 1 else 0)
        + e * ((if a = d then 1 else 0) * (if b = c then 1 else 0)) := by
  have hF := sum_sum_fold n
    (fun x y => R a x * R b y * (R c x * R d y) + e * (R a x * R b y * (R c y * R d x)))
  have hsum : ∑ x ∈ range n, ∑ y ∈ range n,
      (R a x * R b y * (R c x * R d y) + e * (R a x * R b y * (R c y * R d x)))
      = (if a = c then 1 else 0) * (if b = d then 1 else 0)
        + e * ((if a = d then 1 else 0) * (if b = c then 1 else 0)) := by
    simp only [Finset.sum_add_distrib, ← Finset.mul_sum]
    rw [← orthoRows_sum n R hR a c ha hc, ← orthoRows_sum n R hR b d hb hd,
      ← orthoRows_sum n R hR a d ha hd, ← orthoRows_sum n R hR b c hb hc]
    rw [Finset.sum_mul_sum, Finset.sum_mul_sum]
    congr 1
    · refine Finset.sum_congr rfl fun x _ => Finset.sum_congr rfl fun y _ => ?_
      ring
    · congr 1
      refine Finset.sum_congr rfl fun x _ => Finset.sum_congr rfl fun y _ => ?_
      ring
  rw [← hsum, hF]
  refine Finset.sum_congr rfl fun x _ => Finset.sum_congr rfl fun y _ => ?_
  by_cases hxy : x ≤ y
  · simp only [hxy, if_true]
    by_cases hxe : x = y
    · subst hxe
      simp
      ring
    · simp only [hxe, if_false, ne_eq, not_false_eq_true, if_true]
      rcases he with he | ⟨he, hab, hφ1⟩
      · subst he
        have : e * e = 1 := hφ
        linear_combination (R a y * R b x * (R c y * R d x)) * this
      · subst he; subst hab; subst hφ1
        ring
  · simp [hxy]

lemma getD_mem_of_lt {α : Type} (l : List α) (d : α) (i : Nat) (hi : i < l.length) :
    l.getD i d ∈ l := by
  rw [List.getD_eq_getElem l d hi]
  exact List.getElem_mem hi

lemma getD_inj_of_nodup {α : Type} (l : List α) (d : α) (hnd : l.Nodup) (i j : Nat)
    (hi : i < l.length) (hj : j < l.length) (h : l.getD i d = l.getD j d) : i = j := by
  rw [List.getD_eq_getElem l d hi, List.getD_eq_getElem l d hj] at h
  exact (List.Nodup.getElem_inj_iff hnd).mp h

lemma blockDiag_key (ms : ModelSpace K) (R : Mat K) (hB : BlockDiag ms R) (i j : Nat)
    (hi : i < ms.GetNumberOrbits) (hj : j < ms.GetNumberOrbits)
    (h : R i j ≠ 0) : ms.key i = ms.key j := by
  by_contra hne
  exact h (hB i j hi hj hne)

/-- The matrix `Dket` built from `R` times the one built from `Rᵀ` is the identity. -/
lemma Dket_mul_Dket_transpose (ext : External K) (ms : ModelSpace K) (R : Mat K)
    (tbc : TwoBodyChannel) (hs : ext.SQRT2 ≠ 0)
    (hR : OrthoRows ms.GetNumberOrbits R) (hB : BlockDiag ms R)
    (hk : KetsComplete ext ms tbc) (i j : Nat)
    (hi : i < tbc.GetNumberKets) (hj : j < tbc.GetNumberKets) :
    matMul tbc.GetNumberKets (DketEntry ext R tbc) (DketEntry ext (matT R) tbc) i j
      = if i = j then 1 else 0 := by
  obtain ⟨hnd, hrange, hph, hphEq, hclos⟩ := hk
  have hki : tbc.GetKet i ∈ tbc.kets := getD_mem_of_lt _ _ _ hi
  have hkj : tbc.GetKet j ∈ tbc.kets := getD_mem_of_lt _ _ _ hj
  obtain ⟨hab, hbn⟩ := hrange _ hki
  obtain ⟨hcd, hdn⟩ := hrange _ hkj
  obtain ⟨hφpm, hφeq⟩ := hph _ hki
  generalize hKi : tbc.GetKet i = ki at *
  generalize hKj : tbc.GetKet j = kj at *
  obtain ⟨a, b⟩ := ki
  obtain ⟨c, d⟩ := kj
  simp only at hab hbn hcd hdn hφeq
  set n := ms.GetNumberOrbits with hn
  set s := ext.SQRT2 with hsdef
  set φ : K := ((ext.Phase ⟨a, b⟩ tbc.J : Int) : K) with hφdef
  have hφ : φ * φ = 1 := by
    rcases hφpm with h | h <;> simp [hφdef, h]
  set e : K := if a ≠ b then φ else 0 with hedef
  have he : e = φ ∨ (e = 0 ∧ a = b ∧ φ = 1) := by
    by_cases h : a = b
    · right
      refine ⟨by simp [hedef, h], h, ?_⟩
      simp [hφdef, hφeq h]
    · left; simp [hedef, h]
  set c0 : K := (if a = b then s else 1) / (if c = d then s else 1) with hc0
  have han : a < n := lt_of_le_of_lt hab hbn
  have hcn : c < n := lt_of_le_of_lt hcd hdn
  have bk : ∀ u v, u < n → v < n → R u v ≠ 0 → ms.key u = ms.key v :=
    fun u v hu hv h => blockDiag_key ms R hB u v hu hv h
  -- the summand, as a function of the intermediate ket
  have hterm : ∀ k ∈ tbc.kets,
      c0 * ((R a k.p * R b k.q + e * (R a k.q * R b k.p))
        * (R c k.p * R d k.q + (if k.p ≠ k.q then φ * (R c k.q * R d k.p) else 0)))
      = (let d0 := R a k.p * R b k.q
         let d1 := if a ≠ b then d0 + R b k.p * R a k.q * φ else d0
         let d2 := if a = b then d1 * s else d1
         if k.p = k.q then d2 / s else d2)
        * (let d0 := matT R k.p c * matT R k.q d
           let d1 := if k.p ≠ k.q then
               d0 + matT R k.q c * matT R k.p d * ((ext.Phase k tbc.J : Int) : K) else d0
           let d2 := if k.p = k.q then d1 * s else d1
           if c = d then d2 / s else d2) := by
    intro k hkm
    obtain ⟨hpq0, hqn⟩ := hrange _ hkm
    obtain ⟨p, q⟩ := k
    simp only at hpq0 hqn
    have hpn : p < n := lt_of_le_of_lt hpq0 hqn
    simp only [matT]
    have hcase : ((ext.Phase ⟨p, q⟩ tbc.J : Int) : K) = φ ∨
        (R a p * R b q = 0 ∧ R b p * R a q = 0) := by
      by_cases hψ : ((ext.Phase ⟨p, q⟩ tbc.J : Int) : K) = φ
      · exact Or.inl hψ
      · right
        constructor
        · by_contra hz
          have hz1 : R a p ≠ 0 := left_ne_zero_of_mul hz
          have hz2 : R b q ≠ 0 := right_ne_zero_of_mul hz
          have := hphEq _ hki _ hkm (Or.inl ⟨(bk _ _ (by assumption) (by assumption) hz1).symm,
            (bk _ _ (by assumption) (by assumption) hz2).symm⟩)
          exact hψ (by rw [this])
        · by_contra hz
          have hz1 : R b p ≠ 0 := left_ne_zero_of_mul hz
          have hz2 : R a q ≠ 0 := right_ne_zero_of_mul hz
          have := hphEq _ hki _ hkm (Or.inr ⟨(bk _ _ (by assumption) (by assumption) hz1).symm,
            (bk _ _ (by assumption) (by assumption) hz2).symm⟩)
          exact hψ (by rw [this])
    rcases hcase with hψ | ⟨hG, hG2⟩
    · rw [hψ]
      by_cases hab' : a = b <;> by_cases hpq : p = q <;> by_cases hcd' : c = d <;>
        simp only [hc0, hedef, hab', hpq, hcd', if_true, if_false, ne_eq, not_true_eq_false,
          not_false_eq_true] <;> field_simp <;>
        first | ring1 | (left; ring1)
    · have hG3 : R a q * R b p = 0 := by rw [mul_comm]; exact hG2
      simp only [hG, hG2, hG3, zero_mul, mul_zero, add_zero, ite_self, zero_div]
  -- the product entry as a sum over the kets of the channel
  have hprod : matMul tbc.GetNumberKets (DketEntry ext R tbc) (DketEntry ext (matT R) tbc) i j
      = (tbc.kets.map (fun k : Ket =>
          c0 * ((R a k.p * R b k.q + e * (R a k.q * R b k.p))
            * (R c k.p * R d k.q + (if k.p ≠ k.q then φ * (R c k.q * R d k.p) else 0))))).sum := by
    rw [← sum_range_getD tbc.kets ⟨0, 0⟩]
    unfold matMul TwoBodyChannel.GetNumberKets
    refine Finset.sum_congr rfl fun k hk => ?_
    have hmem : tbc.kets.getD k ⟨0, 0⟩ ∈ tbc.kets :=
      getD_mem_of_lt _ _ _ (Finset.mem_range.mp hk)
    rw [hterm _ hmem]
    have e1 : tbc.kets.getD k ⟨0, 0⟩ = tbc.GetKet k := rfl
    rw [e1]
    simp only [DketEntry, hKi, hKj]
  rw [hprod]
  rw [sum_kets_eq n tbc.kets hnd (fun k hk => ⟨lt_of_le_of_lt (hrange k hk).1 (hrange k hk).2,
    (hrange k hk).2⟩)
    (fun x y => c0 * ((R a x * R b y + e * (R a y * R b x))
            * (R c x * R d y + (if x ≠ y then φ * (R c y * R d x) else 0))))]
  have hfold : ∀ x ∈ range n, ∀ y ∈ range n,
      (if (⟨x, y⟩ : Ket) ∈ tbc.kets then
        c0 * ((R a x * R b y + e * (R a y * R b x))
            * (R c x * R d y + (if x ≠ y then φ * (R c y * R d x) else 0))) else 0)
      = c0 * (if x ≤ y then
          (R a x * R b y + e * (R a y * R b x))
            * (R c x * R d y + (if x ≠ y then φ * (R c y * R d x) else 0)) else 0) := by
    intro x hx y hy
    have hxn := Finset.mem_range.mp hx
    have hyn := Finset.mem_range.mp hy
    by_cases hmem : (⟨x, y⟩ : Ket) ∈ tbc.kets
    · have hle : x ≤ y := (hrange _ hmem).1
      simp [hmem, hle]
    · simp only [hmem, if_false]
      by_cases hle : x ≤ y
      · simp only [hle, if_true]
        have hzero : R a x * R b y + e * (R a y * R b x) = 0 := by
          by_cases hxy : x = y
          · subst hxy
            by_cases hP : ext.Phase ⟨a, b⟩ tbc.J = 1
            · have hz : R a x * R b x = 0 := by
                by_contra hz
                have hz1 : R a x ≠ 0 := left_ne_zero_of_mul hz
                have hz2 : R b x ≠ 0 := right_ne_zero_of_mul hz
                exact hmem (hclos _ hki x hxn x hyn le_rfl
                  (Or.inl ⟨(bk _ _ (by assumption) (by assumption) hz1).symm,
                    (bk _ _ (by assumption) (by assumption) hz2).symm⟩) (Or.inr hP))
              rw [hz]; simp
            · have hm1 : ext.Phase ⟨a, b⟩ tbc.J = -1 := by
                rcases hφpm with h | h
                · exact absurd h hP
                · exact h
              have hne : a ≠ b := fun h => hP (hφeq h)
              have : e = -1 := by simp [hedef, hne, hφdef, hm1]
              rw [this]; ring
          · have hz : R a x * R b y = 0 := by
              by_contra hz
              have hz1 : R a x ≠ 0 := left_ne_zero_of_mul hz
              have hz2 : R b y ≠ 0 := right_ne_zero_of_mul hz
              exact hmem (hclos _ hki x hxn y hyn hle
                (Or.inl ⟨(bk _ _ (by assumption) (by assumption) hz1).symm,
                  (bk _ _ (by assumption) (by assumption) hz2).symm⟩) (Or.inl hxy))
            have hz' : R a y * R b x = 0 := by
              by_contra hz'
              have hz1 : R a y ≠ 0 := left_ne_zero_of_mul hz'
              have hz2 : R b x ≠ 0 := right_ne_zero_of_mul hz'
              exact hmem (hclos _ hki x hxn y hyn hle
                (Or.inr ⟨(bk _ _ (by assumption) (by assumption) hz2).symm,
                  (bk _ _ (by assumption) (by assumption) hz1).symm⟩) (Or.inl hxy))
            rw [hz, hz']; simp
        rw [hzero]; simp
      · simp [hle]
  rw [Finset.sum_congr rfl fun x hx => Finset.sum_congr rfl fun y hy => hfold x hx y hy]
  simp only [← Finset.mul_sum]
  rw [pair_sum_core n R hR a b c d (lt_of_le_of_lt hab hbn) hbn (lt_of_le_of_lt hcd hdn) hdn
    e φ hφ he]
  by_cases hij : i = j
  · subst hij
    rw [hKi] at hKj
    obtain ⟨h1, h2⟩ := Ket.mk.inj hKj
    subst h1; subst h2
    simp only [hc0, if_true]
    by_cases hab' : a = b
    · simp [hedef, hab', hs]
    · simp [hab']
  · have hne : (⟨a, b⟩ : Ket) ≠ ⟨c, d⟩ := by
      intro h
      apply hij
      apply getD_inj_of_nodup tbc.kets ⟨0, 0⟩ hnd i j hi hj
      have e1 : tbc.kets.getD i ⟨0, 0⟩ = ⟨a, b⟩ := hKi
      have e2 : tbc.kets.getD j ⟨0, 0⟩ = ⟨c, d⟩ := hKj
      rw [e1, e2, h]
    have h1 : ¬ (a = c ∧ b = d) := by
      rintro ⟨h1, h2⟩; exact hne (by rw [h1, h2])
    have h2 : ¬ (a = d ∧ b = c) := by
      rintro ⟨h3, h4⟩
      have : a = b := by omega
      apply h1
      constructor <;> omega
    simp only [hij, if_false]
    have z1 : (if a = c then (1:K) else 0) * (if b = d then 1 else 0) = 0 := by
      by_cases h : a = c
      · have : b ≠ d := fun h' => h1 ⟨h, h'⟩
        simp [this]
      · simp [h]
    have z2 : (if a = d then (1:K) else 0) * (if b = c then 1 else 0) = 0 := by
      by_cases h : a = d
      · have : b ≠ c := fun h' => h2 ⟨h, h'⟩
        simp [this]
      · simp [h]
    rw [z1, z2]; simp


/-- C9. One-body round trip: for a rotation `R` with `R * Rᵀ = 1` on the orbits,
`TransformHFToNATBasis` run with `C_HF2NAT = R` and then with `C_HF2NAT = Rᵀ` gives back
every one-body matrix element of the operator: `R (Rᵀ O R) Rᵀ = O`. -/
theorem C9_onebody_roundtrip (ext : External K) (hf : HFMBPT K) (R : Mat K)
    (Op : Operator K)
    (hR : OrthoRows hf.modelspace.GetNumberOrbits R) (i j : Nat)
    (hi : i < hf.modelspace.GetNumberOrbits) (hj : j < hf.modelspace.GetNumberOrbits) :
    (HFMBPT.TransformHFToNATBasis ext { hf with C_HF2NAT := matT R }
      (HFMBPT.TransformHFToNATBasis ext { hf with C_HF2NAT := R } Op)).OneBody i j
      = Op.OneBody i j := by
  simp only [HFMBPT.TransformHFToNATBasis, transformOperator, matT_matT]
  have key : matMul hf.modelspace.GetNumberOrbits
      (matMul hf.modelspace.GetNumberOrbits R
        (matMul hf.modelspace.GetNumberOrbits
          (matMul hf.modelspace.GetNumberOrbits (matT R) Op.OneBody) R)) (matT R)
      = matMul hf.modelspace.GetNumberOrbits
          (matMul hf.modelspace.GetNumberOrbits
            (matMul hf.modelspace.GetNumberOrbits R (matT R)) Op.OneBody)
          (matMul hf.modelspace.GetNumberOrbits R (matT R)) := by
    simp only [matMul_assoc]
  rw [key]
  exact matMul_sandwich_eye _ _ _ _ hR hR i j hi hj

/-- C10. Two-body round trip: for a rotation `R` with `R * Rᵀ = 1` that is block-diagonal
with respect to the one-body channels, and a two-body channel whose ket list is complete
(`KetsComplete`), the matrix `Dket` that `TransformHFToNATBasis` builds from `R` times the
one it builds from `Rᵀ` is the identity, and transforming the stored block of that channel
with `R` and then with `Rᵀ` gives back every element of the block. -/
theorem C10_twobody_roundtrip (ext : External K) (hf : HFMBPT K) (R : Mat K)
    (Op : Operator K) (ch : Nat) (hs : ext.SQRT2 ≠ 0)
    (hR : OrthoRows hf.modelspace.GetNumberOrbits R) (hB : BlockDiag hf.modelspace R)
    (hk : KetsComplete ext hf.modelspace (hf.modelspace.GetTwoBodyChannel ch))
    (hkey : (ch, ch) ∈ Op.MatElKeys)
    (hrows : (Op.MatEl ch ch).n_rows = (hf.modelspace.GetTwoBodyChannel ch).GetNumberKets)
    (hcols : (Op.MatEl ch ch).n_cols = (hf.modelspace.GetTwoBodyChannel ch).GetNumberKets) :
    (∀ i j, i < (hf.modelspace.GetTwoBodyChannel ch).GetNumberKets →
      j < (hf.modelspace.GetTwoBodyChannel ch).GetNumberKets →
      matMul (hf.modelspace.GetTwoBodyChannel ch).GetNumberKets
        (DketEntry ext R (hf.modelspace.GetTwoBodyChannel ch))
        (DketEntry ext (matT R) (hf.modelspace.GetTwoBodyChannel ch)) i j
        = if i = j then 1 else 0) ∧
    (∀ i j, i < (hf.modelspace.GetTwoBodyChannel ch).GetNumberKets →
      j < (hf.modelspace.GetTwoBodyChannel ch).GetNumberKets →
      ((HFMBPT.TransformHFToNATBasis ext { hf with C_HF2NAT := matT R }
        (HFMBPT.TransformHFToNATBasis ext { hf with C_HF2NAT := R } Op)).MatEl ch ch).el i j
        = (Op.MatEl ch ch).el i j) := by
  have hD := Dket_mul_Dket_transpose ext hf.modelspace R (hf.modelspace.GetTwoBodyChannel ch)
    hs hR hB hk
  refine ⟨hD, ?_⟩
  intro i j hi hj
  simp only [HFMBPT.TransformHFToNATBasis, transformOperator, transformBlock, hkey, if_true,
    hrows, hcols]
  generalize (hf.modelspace.GetTwoBodyChannel ch).GetNumberKets = nk at *
  generalize DketEntry ext R (hf.modelspace.GetTwoBodyChannel ch) = D1 at *
  generalize DketEntry ext (matT R) (hf.modelspace.GetTwoBodyChannel ch) = D2 at *
  have key : matMul nk (matMul nk (matT D2)
      (matMul nk (matMul nk (matT D1) (Op.MatEl ch ch).el) D1)) D2
      = matMul nk (matMul nk (matT (matMul nk D1 D2)) (Op.MatEl ch ch).el)
          (matMul nk D1 D2) := by
    simp only [matT_matMul, matMul_assoc]
  rw [key]
  refine matMul_sandwich_eye nk _ _ _ ?_ hD i j hi hj
  intro a b ha hb
  simp only [matT]
  rw [hD b a hb ha]
  by_cases h : a = b
  · simp [h]
  · simp [h, Ne.symm h]

lemma exSwap_orthoRows : OrthoRows 2 exSwap := by
  intro i j hi hj
  interval_cases i <;> interval_cases j <;>
    simp [matMul, matT, exSwap, Finset.sum_range_succ]

lemma exSwap_blockDiag : BlockDiag exMS2 exSwap := by
  intro i j hi hj hij
  have hi2 : i < 2 := hi
  have hj2 : j < 2 := hj
  interval_cases i <;> interval_cases j <;> first | rfl | exact absurd rfl hij

lemma exMS2_ketsComplete : KetsComplete exExt exMS2 (exMS2.GetTwoBodyChannel 0) := by
  refine ⟨by decide, by decide, by decide, by decide, ?_⟩
  intro k _ x hx y hy _ _ _
  have hx2 : x < 2 := hx
  have hy2 : y < 2 := hy
  interval_cases x <;> interval_cases y <;> decide

/-- C9 exercised on the two-orbit model space with the rotation exchanging the orbits. -/
theorem C9_onebody_roundtrip_witness :
    (HFMBPT.TransformHFToNATBasis exExt { exHF2 with C_HF2NAT := matT exSwap }
      (HFMBPT.TransformHFToNATBasis exExt { exHF2 with C_HF2NAT := exSwap } exOp2)).OneBody 0 1
      = exOp2.OneBody 0 1 :=
  C9_onebody_roundtrip exExt exHF2 exSwap exOp2 exSwap_orthoRows 0 1 (by decide) (by decide)

/-- C10 exercised on the channel `J = 0` of the two-orbit model space, with the rotation
exchanging the two orbits. -/
theorem C10_twobody_roundtrip_witness :
    ((HFMBPT.TransformHFToNATBasis exExt { exHF2 with C_HF2NAT := matT exSwap }
        (HFMBPT.TransformHFToNATBasis exExt { exHF2 with C_HF2NAT := exSwap } exOp2)).MatEl
        0 0).el 0 2 = (exOp2.MatEl 0 0).el 0 2 :=
  (C10_twobody_roundtrip exExt exHF2 exSwap exOp2 0 (by norm_num [exExt])
    exSwap_orthoRows exSwap_blockDiag exMS2_ketsComplete (by decide) rfl rfl).2 0 2
    (by decide) (by decide)

end TransformTheorems

section DensityTheorems
variable {K : Type} [LinearOrderedField K]

lemma foldl_inv {α β : Type} (P : β → Prop) (f : β → α → β) (l : List α) (b : β)
    (h0 : P b) (hstep : ∀ s x, x ∈ l → P s → P (f s x)) : P (l.foldl f b) := by
  induction l generalizing b with
  | nil => exact h0
  | cons x t ih =>
    rw [List.foldl_cons]
    exact ih (f b x) (hstep b x (List.mem_cons_self _ _) h0)
      (fun s y hy hs => hstep s y (List.mem_cons_of_mem _ hy) hs)

lemma setPair_apply (rho : Mat K) (a b : Nat) (v : K) (r c : Nat) :
    matSet (matSet rho a b v) b a v r c
      = if (r = a ∧ c = b) ∨ (r = b ∧ c = a) then v else rho r c := by
  simp only [matSet]
  by_cases h1 : r = b ∧ c = a
  · simp [h1]
  · by_cases h2 : r = a ∧ c = b
    · simp [h2]
    · simp [h1, h2]

lemma addPair_apply (rho : Mat K) (a i : Nat) (v : K) (r c : Nat) :
    addPair rho a i v r c
      = if a = i then (if r = i ∧ c = i then rho i i + v + v else rho r c)
        else if (r = a ∧ c = i) ∨ (r = i ∧ c = a) then rho r c + v else rho r c := by
  simp only [addPair, matSet]
  by_cases hai : a = i
  · subst hai
    by_cases h1 : r = a ∧ c = a
    · simp [h1]
    · simp [h1]
  · have e1 : ¬ (i = a ∧ a = i) := fun hh => hai hh.2
    simp only [hai, e1, if_false]
    by_cases h1 : r = i ∧ c = a
    · obtain ⟨rfl, rfl⟩ := h1
      simp
    · by_cases h2 : r = a ∧ c = i
      · obtain ⟨rfl, rfl⟩ := h2
        simp [h1]
      · simp [h1, h2]

lemma isSymm_setPair (rho : Mat K) (a b : Nat) (v : K) (h : IsSymm rho) :
    IsSymm (matSet (matSet rho a b v) b a v) := by
  intro i j
  rw [setPair_apply, setPair_apply]
  by_cases hc : (i = a ∧ j = b) ∨ (i = b ∧ j = a)
  · have hc2 : (j = a ∧ i = b) ∨ (j = b ∧ i = a) := by tauto
    rw [if_pos hc, if_pos hc2]
  · have hc2 : ¬ ((j = a ∧ i = b) ∨ (j = b ∧ i = a)) := by tauto
    rw [if_neg hc, if_neg hc2]
    exact h i j

lemma isSymm_setDiag (rho : Mat K) (i : Nat) (v : K) (h : IsSymm rho) :
    IsSymm (matSet rho i i v) := by
  intro r c
  simp only [matSet]
  by_cases hc : r = i ∧ c = i
  · have hc2 : c = i ∧ r = i := ⟨hc.2, hc.1⟩
    rw [if_pos hc, if_pos hc2]
  · have hc2 : ¬ (c = i ∧ r = i) := fun hh => hc ⟨hh.2, hh.1⟩
    rw [if_neg hc, if_neg hc2]
    exact h r c

lemma isSymm_addPair (rho : Mat K) (a i : Nat) (v : K) (h : IsSymm rho) :
    IsSymm (addPair rho a i v) := by
  intro r c
  rw [addPair_apply, addPair_apply]
  by_cases hai : a = i
  · simp only [hai, if_true]
    by_cases hc : r = i ∧ c = i
    · have hc2 : c = i ∧ r = i := ⟨hc.2, hc.1⟩
      rw [if_pos hc, if_pos hc2]
    · have hc2 : ¬ (c = i ∧ r = i) := fun hh => hc ⟨hh.2, hh.1⟩
      rw [if_neg hc, if_neg hc2]
      exact h r c
  · simp only [hai, if_false]
    by_cases hc : (r = a ∧ c = i) ∨ (r = i ∧ c = a)
    · have hc2 : (c = a ∧ r = i) ∨ (c = i ∧ r = a) := by tauto
      rw [if_pos hc, if_pos hc2, h r c]
    · have hc2 : ¬ ((c = a ∧ r = i) ∨ (c = i ∧ r = a)) := by tauto
      rw [if_neg hc, if_neg hc2]
      exact h r c

lemma isSymm_PP (ext : External K) (ms : ModelSpace K) (H : Operator K) (rho : Mat K)
    (h : IsSymm rho) : IsSymm (DensityMatrixPP ext ms H rho) := by
  unfold DensityMatrixPP
  refine foldl_inv IsSymm _ _ _ h fun s a _ hs => ?_
  dsimp only
  split_ifs
  · exact hs
  · refine foldl_inv IsSymm _ _ _ hs fun s2 b _ hs2 => ?_
    dsimp only
    split_ifs <;> first | exact hs2 | exact isSymm_setPair _ _ _ _ hs2

lemma isSymm_HH (ext : External K) (ms : ModelSpace K) (H : Operator K) (rho : Mat K)
    (h : IsSymm rho) : IsSymm (DensityMatrixHH ext ms H rho) := by
  unfold DensityMatrixHH
  refine foldl_inv IsSymm _ _ _ h fun s i _ hs => ?_
  dsimp only
  refine isSymm_setDiag _ _ _ ?_
  refine foldl_inv IsSymm _ _ _ hs fun s2 j _ hs2 => ?_
  dsimp only
  split_ifs <;> first | exact hs2 | exact isSymm_setPair _ _ _ _ hs2

lemma isSymm_PH_loop (ext : External K) (ms : ModelSpace K) (val : Nat → Nat → K)
    (rho : Mat K) (h : IsSymm rho) : IsSymm (DensityMatrixPH_loop ext ms val rho) := by
  unfold DensityMatrixPH_loop
  refine foldl_inv IsSymm _ _ _ h fun s i _ hs => ?_
  dsimp only
  refine foldl_inv IsSymm _ _ _ hs fun s2 a _ hs2 => ?_
  dsimp only
  split_ifs <;> first | exact hs2 | exact isSymm_addPair _ _ _ _ hs2

/-- C3. For every operator, every model space and every occupation assignment (no
hypothesis on the holes and particles containers, so an orbit may be in both), the matrix
`rho` that `GetDensityMatrix` produces from `rho = 0` is symmetric. -/
theorem C3_rho_symmetric (ext : External K) (hf : HFMBPT K) (H : Operator K) (i j : Nat) :
    (HFMBPT.GetDensityMatrix ext { hf with rho := matZeros } H).rho i j
      = (HFMBPT.GetDensityMatrix ext { hf with rho := matZeros } H).rho j i := by
  have h0 : IsSymm (matZeros : Mat K) := fun _ _ => rfl
  exact isSymm_PH_loop ext _ _ _ (isSymm_PH_loop ext _ _ _
    (isSymm_HH ext _ H _ (isSymm_PP ext _ H _ h0))) i j

lemma keyDiag_setPair (ms : ModelSpace K) (rho : Mat K) (a b : Nat) (v : K)
    (hab : ms.key a = ms.key b) (h : KeyDiag ms rho) :
    KeyDiag ms (matSet (matSet rho a b v) b a v) := by
  intro i j hij
  rw [setPair_apply]
  have hc : ¬ ((i = a ∧ j = b) ∨ (i = b ∧ j = a)) := by
    rintro (⟨rfl, rfl⟩ | ⟨rfl, rfl⟩)
    · exact hij hab
    · exact hij hab.symm
  rw [if_neg hc]
  exact h i j hij

lemma keyDiag_setDiag (ms : ModelSpace K) (rho : Mat K) (i : Nat) (v : K)
    (h : KeyDiag ms rho) : KeyDiag ms (matSet rho i i v) := by
  intro r c hrc
  simp only [matSet]
  have hc : ¬ (r = i ∧ c = i) := by
    rintro ⟨rfl, rfl⟩
    exact hrc rfl
  rw [if_neg hc]
  exact h r c hrc

lemma keyDiag_addPair (ms : ModelSpace K) (rho : Mat K) (a i : Nat) (v : K)
    (hai : ms.key a = ms.key i) (h : KeyDiag ms rho) :
    KeyDiag ms (addPair rho a i v) := by
  intro r c hrc
  rw [addPair_apply]
  by_cases hai' : a = i
  · simp only [hai', if_true]
    have hc : ¬ (r = i ∧ c = i) := by
      rintro ⟨rfl, rfl⟩
      exact hrc rfl
    rw [if_neg hc]
    exact h r c hrc
  · simp only [hai', if_false]
    have hc : ¬ ((r = a ∧ c = i) ∨ (r = i ∧ c = a)) := by
      rintro (⟨rfl, rfl⟩ | ⟨rfl, rfl⟩)
      · exact hrc hai
      · exact hrc hai.symm
    rw [if_neg hc]
    exact h r c hrc

lemma keyDiag_PP (ext : External K) (ms : ModelSpace K) (H : Operator K) (rho : Mat K)
    (h : KeyDiag ms rho) : KeyDiag ms (DensityMatrixPP ext ms H rho) := by
  unfold DensityMatrixPP
  refine foldl_inv (KeyDiag ms) _ _ _ h fun s a _ hs => ?_
  dsimp only
  split_ifs
  · exact hs
  · refine foldl_inv (KeyDiag ms) _ _ _ hs fun s2 b _ hs2 => ?_
    dsimp only
    split_ifs with h1 h2 h3 h4 h5
    · exact hs2
    · exact hs2
    · exact hs2
    · exact hs2
    · exact hs2
    · refine keyDiag_setPair ms _ _ _ _ ?_ hs2
      simp only [ModelSpace.key]
      rw [not_not.mp h2, not_not.mp h3, not_not.mp h4]

lemma keyDiag_HH (ext : External K) (ms : ModelSpace K) (H : Operator K) (rho : Mat K)
    (hch : ChannelsShareKey ms) (h : KeyDiag ms rho) :
    KeyDiag ms (DensityMatrixHH ext ms H rho) := by
  unfold DensityMatrixHH
  refine foldl_inv (KeyDiag ms) _ _ _ h fun s i hi hs => ?_
  dsimp only
  refine keyDiag_setDiag ms _ _ _ ?_
  refine foldl_inv (KeyDiag ms) _ _ _ hs fun s2 j hj hs2 => ?_
  dsimp only
  split_ifs
  · exact hs2
  · exact hs2
  · exact keyDiag_setPair ms _ _ _ _ (hch i hi j hj).symm hs2

lemma keyDiag_PH_loop (ext : External K) (ms : ModelSpace K) (val : Nat → Nat → K)
    (rho : Mat K) (hch : ChannelsShareKey ms) (h : KeyDiag ms rho) :
    KeyDiag ms (DensityMatrixPH_loop ext ms val rho) := by
  unfold DensityMatrixPH_loop
  refine foldl_inv (KeyDiag ms) _ _ _ h fun s i hi hs => ?_
  dsimp only
  refine foldl_inv (KeyDiag ms) _ _ _ hs fun s2 a ha hs2 => ?_
  dsimp only
  split_ifs
  · exact hs2
  · exact keyDiag_addPair ms _ _ _ _ (hch i hi a ha) hs2

/-- C4. If the one-body channel looked up for a hole contains only orbits with the hole's
`(l, j2, tz2)`, the matrix `rho` that `GetDensityMatrix` produces from `rho = 0` vanishes
between orbits that do not share `(l, j2, tz2)`: the three blocks write only entries whose
two indices carry the same key. -/
theorem C4_rho_block_diagonal (ext : External K) (hf : HFMBPT K) (H : Operator K)
    (hch : ChannelsShareKey hf.modelspace) (i j : Nat)
    (hij : hf.modelspace.key i ≠ hf.modelspace.key j) :
    (HFMBPT.GetDensityMatrix ext { hf with rho := matZeros } H).rho i j = 0 := by
  have h0 : KeyDiag hf.modelspace (matZeros : Mat K) := fun _ _ _ => rfl
  exact keyDiag_PH_loop ext _ _ _ hch (keyDiag_PH_loop ext _ _ _ hch
    (keyDiag_HH ext _ H _ hch (keyDiag_PP ext _ H _ h0))) i j hij

lemma levelMixing_zero (ext : External K) (hs : SqrtSpec ext) (x : K) :
    levelMixing ext 0 (1 / 2 * ext.sqrt x) = 0 := by
  unfold levelMixing
  have h0 : (0 : K) ≤ 1 / 2 * ext.sqrt x := mul_nonneg (by norm_num) (hs.1 x)
  rw [zero_add, hs.2.2 _ h0, sub_self, mul_zero, zero_div]

lemma tbme_fold_zero (l : List Int) (V W : Int → K) (hV : ∀ J, V J = 0) :
    l.foldl (fun t J => t + ((2 * J + 1 : Int) : K) * V J * W J) 0 = 0 := by
  refine foldl_inv (fun t => t = 0) _ _ _ rfl fun s J _ hs => ?_
  rw [hs, hV J]; simp

lemma PP_body_zero (ext : External K) (ms : ModelSpace K) (H : Operator K)
    (hs : SqrtSpec ext) (hV : ∀ J a b c d, H.GetTBME_J J a b c d = 0)
    (a b c i j : Nat) (r : K) : DensityMatrixPP_body ext ms H a b c i j r = r := by
  unfold DensityMatrixPP_body
  dsimp only
  split_ifs
  · rfl
  · rw [tbme_fold_zero _ _ _ (fun J => hV J a c i j), zero_mul, levelMixing_zero ext hs,
      add_zero]

lemma HH_body_zero (ext : External K) (ms : ModelSpace K) (H : Operator K)
    (hs : SqrtSpec ext) (hV : ∀ J a b c d, H.GetTBME_J J a b c d = 0)
    (i j a b k : Nat) (r : K) : DensityMatrixHH_body ext ms H i j a b k r = r := by
  unfold DensityMatrixHH_body
  dsimp only
  split_ifs
  · rfl
  · rw [tbme_fold_zero _ _ _ (fun J => hV J a b i k), zero_mul, levelMixing_zero ext hs,
      add_zero]

lemma PH_body1_zero (ms : ModelSpace K) (H : Operator K)
    (hV : ∀ J a b c d, H.GetTBME_J J a b c d = 0)
    (i a b c j : Nat) (r : K) : DensityMatrixPH_body1 ms H i a b c j r = r := by
  unfold DensityMatrixPH_body1
  dsimp only
  split_ifs
  · rfl
  · rw [tbme_fold_zero _ _ _ (fun J => hV J a j b c), zero_mul, zero_div, add_zero]

lemma PH_body2_zero (ms : ModelSpace K) (H : Operator K)
    (hV : ∀ J a b c d, H.GetTBME_J J a b c d = 0)
    (i a b j k : Nat) (r : K) : DensityMatrixPH_body2 ms H i a b j k r = r := by
  unfold DensityMatrixPH_body2
  dsimp only
  split_ifs
  · rfl
  · rw [tbme_fold_zero _ _ _ (fun J => hV J k j i b), zero_mul, zero_div, add_zero]

lemma foldl_id {α β : Type} (f : β → α → β) (l : List α) (b : β)
    (h : ∀ s x, f s x = s) : l.foldl f b = b :=
  foldl_inv (fun s => s = b) f l b rfl fun s x _ hs => by rw [h s x, hs]

lemma PP_r_zero (ext : External K) (ms : ModelSpace K) (H : Operator K)
    (hs : SqrtSpec ext) (hV : ∀ J a b c d, H.GetTBME_J J a b c d = 0) (a b : Nat) :
    DensityMatrixPP_r ext ms H a b = 0 := by
  unfold DensityMatrixPP_r
  refine foldl_id _ _ _ fun r c => ?_
  split_ifs
  · rfl
  · exact foldl_id _ _ _ fun r i => foldl_id _ _ _ fun r j => PP_body_zero ext ms H hs hV _ _ _ _ _ _

lemma HH_r_zero (ext : External K) (ms : ModelSpace K) (H : Operator K)
    (hs : SqrtSpec ext) (hV : ∀ J a b c d, H.GetTBME_J J a b c d = 0) (i j : Nat) :
    DensityMatrixHH_r ext ms H i j = 0 := by
  unfold DensityMatrixHH_r
  refine foldl_id _ _ _ fun r a => ?_
  split_ifs
  · rfl
  · refine foldl_id _ _ _ fun r b => ?_
    split_ifs
    · rfl
    · exact foldl_id _ _ _ fun r k => HH_body_zero ext ms H hs hV _ _ _ _ _ _

lemma PH_r1_zero (ext : External K) (ms : ModelSpace K) (H : Operator K)
    (hV : ∀ J a b c d, H.GetTBME_J J a b c d = 0) (i a : Nat) :
    DensityMatrixPH_r1 ext ms H i a = 0 := by
  unfold DensityMatrixPH_r1
  refine foldl_id _ _ _ fun r b => ?_
  split_ifs
  · rfl
  · refine foldl_id _ _ _ fun r c => ?_
    split_ifs
    · rfl
    · exact foldl_id _ _ _ fun r j => PH_body1_zero ms H hV _ _ _ _ _ _

lemma PH_r2_zero (ext : External K) (ms : ModelSpace K) (H : Operator K)
    (hV : ∀ J a b c d, H.GetTBME_J J a b c d = 0) (i a : Nat) :
    DensityMatrixPH_r2 ext ms H i a = 0 := by
  unfold DensityMatrixPH_r2
  refine foldl_id _ _ _ fun r b => ?_
  split_ifs
  · rfl
  · exact foldl_id _ _ _ fun r j => foldl_id _ _ _ fun r k => PH_body2_zero ms H hV _ _ _ _ _ _

lemma setPair_same (rho : Mat K) (a b : Nat) (h1 : rho a b = 0) (h2 : rho b a = 0) :
    matSet (matSet rho a b 0) b a 0 = rho := by
  funext r c
  rw [setPair_apply]
  split_ifs with h
  · rcases h with ⟨rfl, rfl⟩ | ⟨rfl, rfl⟩
    · exact h1.symm
    · exact h2.symm
  · rfl

lemma addPair_zero (rho : Mat K) (a i : Nat) : addPair rho a i 0 = rho := by
  funext r c
  rw [addPair_apply]
  split_ifs with h1 h2 h3
  · obtain ⟨rfl, rfl⟩ := h2; simp
  · rfl
  · simp
  · rfl

lemma PH_loop_zero (ext : External K) (ms : ModelSpace K) (val : Nat → Nat → K)
    (hval : ∀ i a, val i a = 0) (rho : Mat K) :
    DensityMatrixPH_loop ext ms val rho = rho := by
  unfold DensityMatrixPH_loop
  refine foldl_id _ _ _ fun s i => ?_
  refine foldl_id _ _ _ fun s a => ?_
  dsimp only
  split_ifs
  · rfl
  · rw [hval, addPair_zero]

lemma PP_zero (ext : External K) (ms : ModelSpace K) (H : Operator K)
    (hs : SqrtSpec ext) (hV : ∀ J a b c d, H.GetTBME_J J a b c d = 0) :
    DensityMatrixPP ext ms H matZeros = matZeros := by
  unfold DensityMatrixPP
  refine foldl_inv (fun s => s = matZeros) _ _ _ rfl fun s a _ hs1 => ?_
  dsimp only
  split_ifs
  · exact hs1
  · refine foldl_inv (fun s => s = matZeros) _ _ _ hs1 fun s2 b _ hs2 => ?_
    dsimp only
    split_ifs <;> first
      | exact hs2
      | (rw [PP_r_zero ext ms H hs hV, hs2]
         simp only [zero_mul, zero_div]
         exact setPair_same _ _ _ rfl rfl)

lemma HH_step_zero (ext : External K) (ms : ModelSpace K) (H : Operator K)
    (hs : SqrtSpec ext) (hV : ∀ J a b c d, H.GetTBME_J J a b c d = 0)
    (S : List Nat) (x : Nat) (hx : x ∉ S) :
    (let oi := ms.GetOrbit x
     let rho1 := (ms.OneBodyChannels (oi.l, oi.j2, oi.tz2)).foldl (fun rho j =>
       if j > x then rho else
       let oj := ms.GetOrbit j
       if oj.occ < ext.OCC_CUT then rho else
       let r := DensityMatrixHH_r ext ms H x j
       matSet (matSet rho x j (-r * (1 / 2) / ((oi.j2 + 1 : Int) : K)))
         j x (-r * (1 / 2) / ((oi.j2 + 1 : Int) : K))) (occDiag ms S)
     matSet rho1 x x (rho1 x x + oi.occ)) = occDiag ms (x :: S) := by
  dsimp only
  have hin : (ms.OneBodyChannels ((ms.GetOrbit x).l, (ms.GetOrbit x).j2, (ms.GetOrbit x).tz2)).foldl
      (fun rho j =>
       if j > x then rho else
       if (ms.GetOrbit j).occ < ext.OCC_CUT then rho else
       matSet (matSet rho x j (-(DensityMatrixHH_r ext ms H x j) * (1 / 2)
          / (((ms.GetOrbit x).j2 + 1 : Int) : K)))
         j x (-(DensityMatrixHH_r ext ms H x j) * (1 / 2)
          / (((ms.GetOrbit x).j2 + 1 : Int) : K))) (occDiag ms S) = occDiag ms S := by
    refine foldl_inv (fun s => s = occDiag ms S) _ _ _ rfl fun s2 j _ hs2 => ?_
    dsimp only
    split_ifs
    · exact hs2
    · exact hs2
    · rw [HH_r_zero ext ms H hs hV, hs2]
      simp only [neg_zero, zero_mul, zero_div]
      refine setPair_same _ _ _ ?_ ?_
      · simp [occDiag, hx]
      · simp only [occDiag]
        rw [if_neg]
        rintro ⟨rfl, h⟩
        exact hx h
  rw [hin]
  funext r c
  simp only [matSet, occDiag]
  by_cases h : r = x ∧ c = x
  · obtain ⟨rfl, rfl⟩ := h
    simp [hx]
  · rw [if_neg h]
    by_cases hrc : r = c
    · subst hrc
      have hrx : r ≠ x := fun hh => h ⟨hh, hh⟩
      simp [hrx]
    · simp [hrc]

lemma HH_zero_aux (ext : External K) (ms : ModelSpace K) (H : Operator K)
    (hs : SqrtSpec ext) (hV : ∀ J a b c d, H.GetTBME_J J a b c d = 0)
    (L : List Nat) : ∀ S : List Nat, L.Nodup → (∀ x ∈ L, x ∉ S) →
    L.foldl (fun rho i =>
      let oi := ms.GetOrbit i
      let rho1 := (ms.OneBodyChannels (oi.l, oi.j2, oi.tz2)).foldl (fun rho j =>
        if j > i then rho else
        let oj := ms.GetOrbit j
        if oj.occ < ext.OCC_CUT then rho else
        let r := DensityMatrixHH_r ext ms H i j
        matSet (matSet rho i j (-r * (1 / 2) / ((oi.j2 + 1 : Int) : K)))
          j i (-r * (1 / 2) / ((oi.j2 + 1 : Int) : K))) rho
      matSet rho1 i i (rho1 i i + oi.occ)) (occDiag ms S) = occDiag ms (L.reverse ++ S) := by
  induction L with
  | nil => intro S _ _; rfl
  | cons x t ih =>
    intro S hnd hdis
    rw [List.foldl_cons]
    have hx : x ∉ S := hdis x (List.mem_cons_self _ _)
    have hstep := HH_step_zero ext ms H hs hV S x hx
    dsimp only at hstep ⊢
    rw [hstep]
    have hnd' := List.nodup_cons.mp hnd
    rw [ih (x :: S) hnd'.2 (fun y hy => by
      intro hmem
      rcases List.mem_cons.mp hmem with h | h
      · subst h; exact hnd'.1 hy
      · exact hdis y (List.mem_cons_of_mem _ hy) h)]
    simp [List.reverse_cons, List.append_assoc]

/-- The divisor of a level-mixing term that passes the guard `|e1*e2| >= 1e-8` with a
vanishing matrix-element product is `epsilon > 0`. -/
lemma levelMixing_divisor_pos (ext : External K) (hs : SqrtSpec ext) (x : K)
    (hx : ¬ |x| < 1 / 100000000) :
    0 < 1 / 2 * ext.sqrt |x| ∧
      ext.sqrt (0 + 1 / 2 * ext.sqrt |x| * (1 / 2 * ext.sqrt |x|)) = 1 / 2 * ext.sqrt |x| := by
  have h1 : (0 : K) < |x| := lt_of_lt_of_le (by norm_num) (not_lt.mp hx)
  have h2 : (0 : K) < 1 / 2 * ext.sqrt |x| := mul_pos (by norm_num) (hs.2.1 _ h1)
  refine ⟨h2, ?_⟩
  rw [zero_add, hs.2.2 _ h2.le]

/-- C5. If every two-body matrix element returned by `GetTBME_J` is zero, then (for a square
root satisfying `SqrtSpec` and a duplicate-free `holes` container) `GetDensityMatrix`
started from `rho = 0` gives `rho(i,j) = 0` off the diagonal, `rho(i,i) = occ_i` for every
hole and `0` for every other orbit, whatever the model space and the single-particle
energies.  Every level-mixing term that passes the guard is `0.5*(eps - eps)/eps = 0` with
`eps > 0`. -/
theorem C5_zero_interaction (ext : External K) (hf : HFMBPT K) (H : Operator K)
    (hs : SqrtSpec ext) (hV : ∀ J a b c d, H.GetTBME_J J a b c d = 0)
    (hnd : hf.modelspace.holes.Nodup) :
    (∀ i j, (HFMBPT.GetDensityMatrix ext { hf with rho := matZeros } H).rho i j
      = if i = j ∧ i ∈ hf.modelspace.holes then (hf.modelspace.GetOrbit i).occ else 0) ∧
    (∀ x : K, ¬ |x| < 1 / 100000000 →
      0 < 1 / 2 * ext.sqrt |x| ∧
      ext.sqrt (0 + 1 / 2 * ext.sqrt |x| * (1 / 2 * ext.sqrt |x|)) = 1 / 2 * ext.sqrt |x| ∧
      levelMixing ext 0 (1 / 2 * ext.sqrt |x|) = 0) := by
  refine ⟨?_, fun x hx => ⟨(levelMixing_divisor_pos ext hs x hx).1,
    (levelMixing_divisor_pos ext hs x hx).2, levelMixing_zero ext hs _⟩⟩
  intro i j
  unfold HFMBPT.GetDensityMatrix DensityMatrixPH
  dsimp only
  rw [PH_loop_zero ext _ _ (fun i a => by rw [PH_r2_zero ext _ H hV]; simp),
    PH_loop_zero ext _ _ (fun i a => by rw [PH_r1_zero ext _ H hV]; simp),
    PP_zero ext _ H hs hV]
  have h0 : (matZeros : Mat K) = occDiag hf.modelspace [] := by
    funext r c; simp [occDiag, matZeros]
  rw [h0]
  unfold DensityMatrixHH
  rw [HH_zero_aux ext _ H hs hV _ [] hnd (fun _ _ => List.not_mem_nil _)]
  simp [occDiag]

/-- Fold whose steps either overwrite an observed value with `v` or leave it alone. -/
lemma foldl_hit {α β γ : Type} (f : β → α → β) (obs : β → γ) (hit : α → Prop)
    [DecidablePred hit] (v : γ) (h : ∀ s x, obs (f s x) = if hit x then v else obs s)
    (L : List α) : ∀ s, obs (L.foldl f s) = if ∃ x ∈ L, hit x then v else obs s := by
  induction L with
  | nil => intro s; simp
  | cons x t ih =>
    intro s
    rw [List.foldl_cons, ih (f s x), h s x]
    by_cases h1 : ∃ y ∈ t, hit y
    · have h2 : ∃ y ∈ x :: t, hit y := by
        obtain ⟨y, hy, hy2⟩ := h1
        exact ⟨y, List.mem_cons_of_mem _ hy, hy2⟩
      rw [if_pos h1, if_pos h2]
    · rw [if_neg h1]
      by_cases h3 : hit x
      · have h2 : ∃ y ∈ x :: t, hit y := ⟨x, List.mem_cons_self _ _, h3⟩
        rw [if_pos h3, if_pos h2]
      · have h2 : ¬ ∃ y ∈ x :: t, hit y := by
          rintro ⟨y, hy, hy2⟩
          rcases List.mem_cons.mp hy with rfl | hy'
          · exact h3 hy2
          · exact h1 ⟨y, hy', hy2⟩
        rw [if_neg h3, if_neg h2]

/-- Fold over a duplicate-free list in which only the step at `d` changes the observed
value. -/
lemma foldl_at {β γ : Type} (f : β → Nat → β) (obs : β → γ) (d : Nat) (g : γ → γ)
    (h : ∀ s x, obs (f s x) = if x = d then g (obs s) else obs s)
    (L : List Nat) : L.Nodup → ∀ s, obs (L.foldl f s) = if d ∈ L then g (obs s) else obs s := by
  induction L with
  | nil => intro _ s; simp
  | cons x t ih =>
    intro hnd s
    obtain ⟨hx, ht⟩ := List.nodup_cons.mp hnd
    rw [List.foldl_cons, ih ht (f s x), h s x]
    by_cases hxd : x = d
    · subst hxd
      simp [hx]
    · have : (d ∈ x :: t) ↔ d ∈ t := by
        simp [List.mem_cons, Ne.symm hxd]
      simp only [hxd, if_false, this]

lemma PH_body1_diag (ms : ModelSpace K) (H : Operator K) (i b c j : Nat) (r : K) :
    DensityMatrixPH_body1 ms H i i b c j r = r := by
  unfold DensityMatrixPH_body1
  dsimp only
  rw [sub_self, zero_mul, if_pos (by norm_num)]

lemma PH_body2_diag (ms : ModelSpace K) (H : Operator K) (i b j k : Nat) (r : K) :
    DensityMatrixPH_body2 ms H i i b j k r = r := by
  unfold DensityMatrixPH_body2
  dsimp only
  rw [sub_self, zero_mul, if_pos (by norm_num)]

lemma PH_r1_diag (ext : External K) (ms : ModelSpace K) (H : Operator K) (i : Nat) :
    DensityMatrixPH_r1 ext ms H i i = 0 := by
  unfold DensityMatrixPH_r1
  refine foldl_id _ _ _ fun r b => ?_
  split_ifs
  · rfl
  · refine foldl_id _ _ _ fun r c => ?_
    split_ifs
    · rfl
    · exact foldl_id _ _ _ fun r j => PH_body1_diag ms H _ _ _ _ _

lemma PH_r2_diag (ext : External K) (ms : ModelSpace K) (H : Operator K) (i : Nat) :
    DensityMatrixPH_r2 ext ms H i i = 0 := by
  unfold DensityMatrixPH_r2
  refine foldl_id _ _ _ fun r b => ?_
  split_ifs
  · rfl
  · exact foldl_id _ _ _ fun r j => foldl_id _ _ _ fun r k => PH_body2_diag ms H _ _ _ _ _

lemma PH_loop_diag (ext : External K) (ms : ModelSpace K) (val : Nat → Nat → K)
    (hval : ∀ i, val i i = 0) (rho : Mat K) (d : Nat) :
    DensityMatrixPH_loop ext ms val rho d d = rho d d := by
  unfold DensityMatrixPH_loop
  refine foldl_inv (fun s : Mat K => s d d = rho d d) _ _ _ rfl fun s i _ hs => ?_
  refine foldl_inv (fun s : Mat K => s d d = rho d d) _ _ _ hs fun s2 a _ hs2 => ?_
  dsimp only
  split_ifs
  · exact hs2
  · rw [addPair_apply]
    by_cases hai : a = i
    · subst hai
      simp only [if_true]
      split_ifs with h
      · rw [hval, add_zero, add_zero]
        obtain ⟨rfl, _⟩ := h
        exact hs2
      · exact hs2
    · simp only [hai, if_false]
      have hc : ¬ ((d = a ∧ d = i) ∨ (d = i ∧ d = a)) := by
        rintro (⟨h1, h2⟩ | ⟨h1, h2⟩)
        · exact hai (h1.symm.trans h2)
        · exact hai (h2.symm.trans h1)
      rw [if_neg hc]
      exact hs2

/-- The particle-hole block leaves every diagonal entry of `rho` unchanged. -/
lemma PH_diag (ext : External K) (ms : ModelSpace K) (H : Operator K) (rho : Mat K)
    (d : Nat) : DensityMatrixPH ext ms H rho d d = rho d d := by
  unfold DensityMatrixPH
  rw [PH_loop_diag ext ms _ (fun i => by rw [PH_r2_diag]; simp),
    PH_loop_diag ext ms _ (fun i => by rw [PH_r1_diag]; simp)]

/-- Diagonal entry of `rho` after the particle-particle block. -/
lemma PP_diag (ext : External K) (ms : ModelSpace K) (H : Operator K) (rho : Mat K)
    (d : Nat) :
    DensityMatrixPP ext ms H rho d d
      = if d ∈ ms.all_orbits ∧ d ∈ ms.OneBodyChannels (ms.key d)
            ∧ ¬ (1 - (ms.GetOrbit d).occ < ext.OCC_CUT)
        then DensityMatrixPP_r ext ms H d d * (1 / 2) / (((ms.GetOrbit d).j2 + 1 : Int) : K)
        else rho d d := by
  unfold DensityMatrixPP
  rw [foldl_hit _ (fun s : Mat K => s d d)
    (fun a => a = d ∧ d ∈ ms.OneBodyChannels (ms.key d)
      ∧ ¬ (1 - (ms.GetOrbit d).occ < ext.OCC_CUT))
    (DensityMatrixPP_r ext ms H d d * (1 / 2) / (((ms.GetOrbit d).j2 + 1 : Int) : K))]
  · congr 1
    apply propext
    constructor
    · rintro ⟨x, hx, rfl, h2, h3⟩
      exact ⟨hx, h2, h3⟩
    · rintro ⟨h1, h2, h3⟩
      exact ⟨d, h1, rfl, h2, h3⟩
  · intro s a
    dsimp only
    by_cases hskip : 1 - (ms.GetOrbit a).occ < ext.OCC_CUT
    · rw [if_pos hskip, if_neg]
      rintro ⟨rfl, _, h3⟩
      exact h3 hskip
    · rw [if_neg hskip]
      rw [foldl_hit _ (fun s : Mat K => s d d) (fun b => b = a ∧ d = a)
        (DensityMatrixPP_r ext ms H a a * (1 / 2) / (((ms.GetOrbit a).j2 + 1 : Int) : K))]
      · by_cases hda : d = a
        · subst hda
          by_cases hmem : d ∈ ms.OneBodyChannels (ms.key d)
          · have h1 : ∃ x ∈ ms.OneBodyChannels ((ms.GetOrbit d).l, (ms.GetOrbit d).j2,
                (ms.GetOrbit d).tz2), x = d ∧ d = d := ⟨d, hmem, rfl, rfl⟩
            rw [if_pos h1, if_pos ⟨rfl, hmem, hskip⟩]
          · have h1 : ¬ ∃ x ∈ ms.OneBodyChannels ((ms.GetOrbit d).l, (ms.GetOrbit d).j2,
                (ms.GetOrbit d).tz2), x = d ∧ d = d := by
              rintro ⟨x, hx, rfl, _⟩
              exact hmem hx
            rw [if_neg h1, if_neg]
            rintro ⟨_, h2, _⟩
            exact hmem h2
        · have h1 : ¬ ∃ x ∈ ms.OneBodyChannels ((ms.GetOrbit a).l, (ms.GetOrbit a).j2,
              (ms.GetOrbit a).tz2), x = a ∧ d = a := by
            rintro ⟨x, _, _, h⟩
            exact hda h
          rw [if_neg h1, if_neg]
          rintro ⟨h, _⟩
          exact hda h.symm
      · intro s2 b
        dsimp only
        by_cases hba : b = a
        · subst hba
          simp only [gt_iff_lt, lt_irrefl, if_false, ne_eq, not_true_eq_false, hskip,
            true_and]
          rw [setPair_apply]
          by_cases hdb : d = b
          · subst hdb; simp
          · have : ¬ ((d = b ∧ d = b) ∨ (d = b ∧ d = b)) := by tauto
            rw [if_neg this, if_neg hdb]
        · have hhit : ¬ (b = a ∧ d = a) := fun h => hba h.1
          rw [if_neg hhit]
          split_ifs <;> first
            | rfl
            | (rw [setPair_apply]
               have : ¬ ((d = a ∧ d = b) ∨ (d = b ∧ d = a)) := by
                 rintro (⟨h1, h2⟩ | ⟨h1, h2⟩)
                 · exact hba (h2.symm.trans h1)
                 · exact hba (h1.symm.trans h2)
               rw [if_neg this])

/-- Diagonal entry of `rho` after the hole-hole block. -/
lemma HH_diag (ext : External K) (ms : ModelSpace K) (H : Operator K) (rho : Mat K)
    (hnd : ms.holes.Nodup) (d : Nat) :
    DensityMatrixHH ext ms H rho d d
      = if d ∈ ms.holes then
          (if d ∈ ms.OneBodyChannels (ms.key d) ∧ ¬ ((ms.GetOrbit d).occ < ext.OCC_CUT)
           then -(DensityMatrixHH_r ext ms H d d) * (1 / 2)
              / (((ms.GetOrbit d).j2 + 1 : Int) : K)
           else rho d d) + (ms.GetOrbit d).occ
        else rho d d := by
  unfold DensityMatrixHH
  rw [foldl_at _ (fun s : Mat K => s d d) d
    (fun x => (if d ∈ ms.OneBodyChannels (ms.key d) ∧ ¬ ((ms.GetOrbit d).occ < ext.OCC_CUT)
           then -(DensityMatrixHH_r ext ms H d d) * (1 / 2)
              / (((ms.GetOrbit d).j2 + 1 : Int) : K)
           else x) + (ms.GetOrbit d).occ) _ _ hnd]
  intro s i
  dsimp only
  by_cases hid : i = d
  · subst hid
    rw [if_pos rfl]
    simp only [matSet, and_self, if_true]
    congr 1
    rw [foldl_hit _ (fun s : Mat K => s i i)
      (fun j => j = i ∧ ¬ ((ms.GetOrbit i).occ < ext.OCC_CUT))
      (-(DensityMatrixHH_r ext ms H i i) * (1 / 2) / (((ms.GetOrbit i).j2 + 1 : Int) : K))]
    · congr 1
      apply propext
      constructor
      · rintro ⟨x, hx, rfl, h2⟩
        exact ⟨hx, h2⟩
      · rintro ⟨h1, h2⟩
        exact ⟨i, h1, rfl, h2⟩
    · intro s2 j
      by_cases hji : j = i
      · subst hji
        by_cases hocc : (ms.GetOrbit j).occ < ext.OCC_CUT
        · simp [hocc]
        · simp only [gt_iff_lt, lt_irrefl, if_false, hocc, true_and, not_false_eq_true,
            and_self, if_true]
          rw [setPair_apply]; simp
      · have hhit : ¬ (j = i ∧ ¬ ((ms.GetOrbit i).occ < ext.OCC_CUT)) := fun h => hji h.1
        rw [if_neg hhit]
        split_ifs <;> first
          | rfl
          | (rw [setPair_apply]
             have : ¬ ((i = i ∧ i = j) ∨ (i = j ∧ i = i)) := by
               rintro (⟨_, h2⟩ | ⟨h1, _⟩)
               · exact hji h2.symm
               · exact hji h1.symm
             rw [if_neg this])
  · rw [if_neg hid]
    simp only [matSet]
    have : ¬ (d = i ∧ d = i) := fun h => hid h.1.symm
    rw [if_neg this]
    refine foldl_inv (fun s2 : Mat K => s2 d d = s d d) _ _ _ rfl fun s2 j _ hs2 => ?_
    dsimp only
    split_ifs <;> first
      | exact hs2
      | (rw [setPair_apply]
         have : ¬ ((d = i ∧ d = j) ∨ (d = j ∧ d = i)) := by
           rintro (⟨h1, _⟩ | ⟨_, h2⟩)
           · exact hid h1.symm
           · exact hid h2.symm
         rw [if_neg this]
         exact hs2)

lemma foldl_add_eq {α : Type} (f : K → α → K) (g : α → K) (h : ∀ r x, f r x = r + g x)
    (L : List α) : ∀ r, L.foldl f r = r + (L.map g).sum := by
  induction L with
  | nil => intro r; simp
  | cons x t ih =>
    intro r
    rw [List.foldl_cons, ih, h, List.map_cons, List.sum_cons, add_assoc]

lemma list_sum_comm {α β : Type} (L1 : List α) (L2 : List β) (f : α → β → K) :
    (L1.map (fun x => (L2.map (fun y => f x y)).sum)).sum
      = (L2.map (fun y => (L1.map (fun x => f x y)).sum)).sum := by
  induction L1 with
  | nil => simp
  | cons x t ih =>
    simp only [List.map_cons, List.sum_cons, ih, List.sum_map_add]

lemma sum_range_ite_mem (n : Nat) (L : List Nat) (hnd : L.Nodup) (hL : ∀ x ∈ L, x < n)
    (F : Nat → K) :
    ∑ d ∈ range n, (if d ∈ L then F d else 0) = (L.map F).sum := by
  rw [← List.sum_toFinset F hnd]
  have h1 : ∑ d ∈ range n, (if d ∈ L then F d else 0)
      = ∑ d ∈ range n, (if d ∈ L.toFinset then F d else 0) := by
    refine Finset.sum_congr rfl fun d _ => ?_
    simp only [List.mem_toFinset]
  rw [h1, Finset.sum_ite_mem]
  congr 1
  ext x
  simp only [Finset.mem_inter, Finset.mem_range, List.mem_toFinset]
  exact ⟨fun h => h.2, fun h => ⟨hL x h, h⟩⟩

lemma PP_body_add (ext : External K) (ms : ModelSpace K) (H : Operator K)
    (a b c i j : Nat) (r : K) :
    DensityMatrixPP_body ext ms H a b c i j r = r + DensityMatrixPP_body ext ms H a b c i j 0 := by
  unfold DensityMatrixPP_body
  dsimp only
  split_ifs
  · rw [add_zero]
  · rw [zero_add]

lemma HH_body_add (ext : External K) (ms : ModelSpace K) (H : Operator K)
    (i j a b k : Nat) (r : K) :
    DensityMatrixHH_body ext ms H i j a b k r = r + DensityMatrixHH_body ext ms H i j a b k 0 := by
  unfold DensityMatrixHH_body
  dsimp only
  split_ifs
  · rw [add_zero]
  · rw [zero_add]

lemma PP_r_sum (ext : External K) (ms : ModelSpace K) (H : Operator K) (a b : Nat) :
    DensityMatrixPP_r ext ms H a b
      = (ms.particles.map (fun c =>
          if 1 - (ms.GetOrbit c).occ < ext.OCC_CUT then 0 else
          (ms.holes.map (fun i =>
            (ms.holes.map (fun j => DensityMatrixPP_body ext ms H a b c i j 0)).sum)).sum)).sum := by
  unfold DensityMatrixPP_r
  rw [foldl_add_eq _ _ _ ms.particles 0, zero_add]
  intro r c
  split_ifs
  · rw [add_zero]
  · rw [foldl_add_eq _ (fun i =>
      (ms.holes.map (fun j => DensityMatrixPP_body ext ms H a b c i j 0)).sum) _ ms.holes r]
    intro r2 i
    rw [foldl_add_eq _ (fun j => DensityMatrixPP_body ext ms H a b c i j 0) _ ms.holes r2]
    intro r3 j
    exact PP_body_add ext ms H a b c i j r3

lemma HH_r_sum (ext : External K) (ms : ModelSpace K) (H : Operator K) (i j : Nat) :
    DensityMatrixHH_r ext ms H i j
      = (ms.particles.map (fun a =>
          if 1 - (ms.GetOrbit a).occ < ext.OCC_CUT then 0 else
          (ms.particles.map (fun b =>
            if 1 - (ms.GetOrbit b).occ < ext.OCC_CUT then 0 else
            (ms.holes.map (fun k => DensityMatrixHH_body ext ms H i j a b k 0)).sum)).sum)).sum := by
  unfold DensityMatrixHH_r
  rw [foldl_add_eq _ _ _ ms.particles 0, zero_add]
  intro r a
  split_ifs
  · rw [add_zero]
  · rw [foldl_add_eq _ (fun b =>
      if 1 - (ms.GetOrbit b).occ < ext.OCC_CUT then 0 else
      (ms.holes.map (fun k => DensityMatrixHH_body ext ms H i j a b k 0)).sum) _ ms.particles r]
    intro r2 b
    dsimp only
    split_ifs
    · rw [add_zero]
    · exact foldl_add_eq _ (fun k => DensityMatrixHH_body ext ms H i j a b k 0)
        (fun r3 k => HH_body_add ext ms H i j a b k r3) ms.holes r2

/-- With particles empty and holes filled, the particle-particle term of `(a,a)` with
intermediate `(c,i,j)` is the hole-hole term of `(i,i)` with intermediate `(a,c,j)`. -/
lemma PP_body_eq_HH_body (ext : External K) (ms : ModelSpace K) (H : Operator K)
    (a c i j : Nat) (ha : (ms.GetOrbit a).occ = 0) (hc : (ms.GetOrbit c).occ = 0)
    (hi : (ms.GetOrbit i).occ = 1) (hj : (ms.GetOrbit j).occ = 1) :
    DensityMatrixPP_body ext ms H a a c i j 0 = DensityMatrixHH_body ext ms H i i a c j 0 := by
  unfold DensityMatrixPP_body DensityMatrixHH_body
  dsimp only
  have h2 : H.OneBody a a + H.OneBody c c - H.OneBody j j - H.OneBody i i
      = H.OneBody a a + H.OneBody c c - H.OneBody i i - H.OneBody j j := by ring
  have h3 : ∀ X Y : Int, max X (max Y X) = max X (max Y Y) := by
    intro X Y; rw [max_self, max_comm Y X, ← max_assoc, max_self]
  have h4 : ∀ X Y : Int, min X (min Y X) = min X (min Y Y) := by
    intro X Y; rw [min_self, min_comm Y X, ← min_assoc, min_self]
  rw [h2, h3, h4, ha, hc, hi, hj]
  norm_num

lemma AfromTr_eq_sum (ms : ModelSpace K) (rho : Mat K) :
    AfromTr ms rho
      = ∑ d ∈ range ms.GetNumberOrbits, rho d d * (((ms.GetOrbit d).j2 + 1 : Int) : K) := by
  unfold AfromTr
  have hr : (List.range ms.GetNumberOrbits).toFinset = Finset.range ms.GetNumberOrbits := by
    ext x; simp
  rw [foldl_add_eq _ (fun i => rho i i * (((ms.GetOrbit i).j2 + 1 : Int) : K))
    (fun _ _ => rfl), zero_add, ← List.sum_toFinset _ (List.nodup_range _), hr]

lemma map_sum_congr {α : Type} (L : List α) (f g : α → K) (h : ∀ x ∈ L, f x = g x) :
    (L.map f).sum = (L.map g).sum := by
  induction L with
  | nil => rfl
  | cons x t ih =>
    rw [List.map_cons, List.map_cons, List.sum_cons, List.sum_cons,
      h x (List.mem_cons_self _ _), ih (fun y hy => h y (List.mem_cons_of_mem _ hy))]

/-- Term-by-term cancellation: the accumulated particle-particle values of the diagonal
pairs add up to the accumulated hole-hole values of the diagonal pairs. -/
lemma PP_sum_eq_HH_sum (ext : External K) (ms : ModelSpace K) (H : Operator K)
    (hP : ∀ a ∈ ms.particles, (ms.GetOrbit a).occ = 0)
    (hH : ∀ i ∈ ms.holes, (ms.GetOrbit i).occ = 1)
    (hq : ¬ (1 < ext.OCC_CUT)) :
    (ms.particles.map (fun a => DensityMatrixPP_r ext ms H a a)).sum
      = (ms.holes.map (fun i => DensityMatrixHH_r ext ms H i i)).sum := by
  have hskip : ∀ c ∈ ms.particles, ¬ (1 - (ms.GetOrbit c).occ < ext.OCC_CUT) := by
    intro c hc
    rw [hP c hc, sub_zero]
    exact hq
  have hL : (ms.particles.map (fun a => DensityMatrixPP_r ext ms H a a)).sum
      = (ms.particles.map (fun a => (ms.particles.map (fun c => (ms.holes.map (fun i =>
          (ms.holes.map (fun j =>
            DensityMatrixHH_body ext ms H i i a c j 0)).sum)).sum)).sum)).sum := by
    refine map_sum_congr _ _ _ fun a ha => ?_
    rw [PP_r_sum]
    refine map_sum_congr _ _ _ fun c hc => ?_
    rw [if_neg (hskip c hc)]
    refine map_sum_congr _ _ _ fun i hi => ?_
    refine map_sum_congr _ _ _ fun j hj => ?_
    exact PP_body_eq_HH_body ext ms H a c i j (hP a ha) (hP c hc) (hH i hi) (hH j hj)
  have hR : (ms.holes.map (fun i => DensityMatrixHH_r ext ms H i i)).sum
      = (ms.holes.map (fun i => (ms.particles.map (fun a => (ms.particles.map (fun c =>
          (ms.holes.map (fun j =>
            DensityMatrixHH_body ext ms H i i a c j 0)).sum)).sum)).sum)).sum := by
    refine map_sum_congr _ _ _ fun i _ => ?_
    rw [HH_r_sum]
    refine map_sum_congr _ _ _ fun a ha => ?_
    rw [if_neg (hskip a ha)]
    refine map_sum_congr _ _ _ fun c hc => ?_
    rw [if_neg (hskip c hc)]
  rw [hL, hR]
  have hswap : ∀ a, (ms.particles.map (fun c => (ms.holes.map (fun i =>
          (ms.holes.map (fun j =>
            DensityMatrixHH_body ext ms H i i a c j 0)).sum)).sum)).sum
      = (ms.holes.map (fun i => (ms.particles.map (fun c =>
          (ms.holes.map (fun j =>
            DensityMatrixHH_body ext ms H i i a c j 0)).sum)).sum)).sum := by
    intro a
    exact list_sum_comm ms.particles ms.holes
      (fun c i => (ms.holes.map (fun j => DensityMatrixHH_body ext ms H i i a c j 0)).sum)
  simp only [hswap]
  exact list_sum_comm ms.particles ms.holes
    (fun a i => (ms.particles.map (fun c =>
      (ms.holes.map (fun j => DensityMatrixHH_body ext ms H i i a c j 0)).sum)).sum)

/-- Diagonal of `rho` after `GetDensityMatrix` under integer filling. -/
lemma rho_diag_weighted (ext : External K) (hf : HFMBPT K) (H : Operator K)
    (hIF : IntegerFilling hf.modelspace) (d : Nat)
    (hd : d < hf.modelspace.GetNumberOrbits) :
    (HFMBPT.GetDensityMatrix ext { hf with rho := matZeros } H).rho d d
        * (((hf.modelspace.GetOrbit d).j2 + 1 : Int) : K)
      = (hf.modelspace.GetOrbit d).occ * (((hf.modelspace.GetOrbit d).j2 + 1 : Int) : K)
        + ((if d ∈ hf.modelspace.particles then
              (if 1 < ext.OCC_CUT then 0
               else DensityMatrixPP_r ext hf.modelspace H d d * (1 / 2)) else 0)
          - (if d ∈ hf.modelspace.holes then
              (if 1 < ext.OCC_CUT then 0
               else DensityMatrixHH_r ext hf.modelspace H d d * (1 / 2)) else 0)) := by
  obtain ⟨hocc, hHnd, hHmem, _, hPmem, hall, hchan, hj2⟩ := hIF
  have hw : (((hf.modelspace.GetOrbit d).j2 + 1 : Int) : K) ≠ 0 := by
    have h1 : (0 : Int) < (hf.modelspace.GetOrbit d).j2 + 1 := by
      have := hj2 d hd; omega
    exact_mod_cast h1.ne'
  have hrho : (HFMBPT.GetDensityMatrix ext { hf with rho := matZeros } H).rho d d
      = DensityMatrixHH ext hf.modelspace H
          (DensityMatrixPP ext hf.modelspace H matZeros) d d := by
    unfold HFMBPT.GetDensityMatrix
    exact PH_diag ext _ H _ d
  rw [hrho, HH_diag ext _ H _ hHnd d, PP_diag ext _ H _ d]
  rcases hocc d hd with h0 | h1
  · have hnotH : d ∉ hf.modelspace.holes := by
      intro h
      have := ((hHmem d).mp h).2
      rw [h0] at this
      exact zero_ne_one this
    have hinP : d ∈ hf.modelspace.particles := (hPmem d).mpr ⟨hd, h0⟩
    rw [if_neg hnotH, if_pos hinP, if_neg hnotH, h0, sub_zero]
    by_cases hq : 1 < ext.OCC_CUT
    · have : ¬ (d ∈ hf.modelspace.all_orbits ∧
          d ∈ hf.modelspace.OneBodyChannels (hf.modelspace.key d) ∧ ¬ (1 < ext.OCC_CUT)) :=
        fun h => h.2.2 hq
      rw [if_neg this, if_pos hq]
      simp [matZeros]
    · have : d ∈ hf.modelspace.all_orbits ∧
          d ∈ hf.modelspace.OneBodyChannels (hf.modelspace.key d) ∧ ¬ (1 < ext.OCC_CUT) :=
        ⟨(hall d).mpr hd, hchan d hd, hq⟩
      rw [if_pos this, if_neg hq]
      generalize (((hf.modelspace.GetOrbit d).j2 + 1 : Int) : K) = w at hw ⊢
      field_simp
      ring
  · have hinH : d ∈ hf.modelspace.holes := (hHmem d).mpr ⟨hd, h1⟩
    have hnotP : d ∉ hf.modelspace.particles := by
      intro h
      have := ((hPmem d).mp h).2
      rw [h1] at this
      exact one_ne_zero this
    rw [if_pos hinH, if_neg hnotP, if_pos hinH, h1, sub_self]
    by_cases hq : 1 < ext.OCC_CUT
    · have hpp : ¬ (d ∈ hf.modelspace.all_orbits ∧
          d ∈ hf.modelspace.OneBodyChannels (hf.modelspace.key d) ∧ ¬ (0 < ext.OCC_CUT)) :=
        fun h => h.2.2 (lt_trans zero_lt_one hq)
      have : ¬ (d ∈ hf.modelspace.OneBodyChannels (hf.modelspace.key d)
          ∧ ¬ (1 < ext.OCC_CUT)) := fun h => h.2 hq
      rw [if_neg this, if_pos hq, if_neg hpp]
      simp [matZeros]
    · have : d ∈ hf.modelspace.OneBodyChannels (hf.modelspace.key d)
          ∧ ¬ (1 < ext.OCC_CUT) := ⟨hchan d hd, hq⟩
      rw [if_pos this, if_neg hq]
      generalize (((hf.modelspace.GetOrbit d).j2 + 1 : Int) : K) = w at hw ⊢
      field_simp
      ring

/-- Term-by-term cancellation under integer filling, whatever the occupation cut. -/
lemma PP_sum_eq_HH_sum_filling (ext : External K) (ms : ModelSpace K) (H : Operator K)
    (hIF : IntegerFilling ms) :
    (ms.particles.map (fun a => DensityMatrixPP_r ext ms H a a)).sum
      = (ms.holes.map (fun i => DensityMatrixHH_r ext ms H i i)).sum := by
  obtain ⟨_, _, hHmem, _, hPmem, _, _, _⟩ := hIF
  have hP : ∀ a ∈ ms.particles, (ms.GetOrbit a).occ = 0 := fun a ha => ((hPmem a).mp ha).2
  have hH : ∀ i ∈ ms.holes, (ms.GetOrbit i).occ = 1 := fun i hi => ((hHmem i).mp hi).2
  by_cases hq : 1 < ext.OCC_CUT
  · have hskip : ∀ c ∈ ms.particles, 1 - (ms.GetOrbit c).occ < ext.OCC_CUT := by
      intro c hc
      rw [hP c hc, sub_zero]
      exact hq
    have hL : (ms.particles.map (fun a => DensityMatrixPP_r ext ms H a a)).sum
        = (ms.particles.map (fun _ => (0 : K))).sum := by
      refine map_sum_congr _ _ _ fun a _ => ?_
      rw [PP_r_sum, map_sum_congr _ _ (fun _ => (0 : K)) fun c hc => if_pos (hskip c hc)]
      simp
    have hR : (ms.holes.map (fun i => DensityMatrixHH_r ext ms H i i)).sum
        = (ms.holes.map (fun _ => (0 : K))).sum := by
      refine map_sum_congr _ _ _ fun i _ => ?_
      rw [HH_r_sum, map_sum_congr _ _ (fun _ => (0 : K)) fun a ha => if_pos (hskip a ha)]
      simp
    rw [hL, hR]
    simp
  · exact PP_sum_eq_HH_sum ext ms H hP hH hq

/-- Weighted trace of the density matrix under integer filling. -/
lemma AfromTr_filling (ext : External K) (hf : HFMBPT K) (H : Operator K)
    (hIF : IntegerFilling hf.modelspace) :
    AfromTr hf.modelspace (HFMBPT.GetDensityMatrix ext { hf with rho := matZeros } H).rho
      = ∑ i ∈ range hf.modelspace.GetNumberOrbits,
          (hf.modelspace.GetOrbit i).occ
            * (((hf.modelspace.GetOrbit i).j2 + 1 : Int) : K) := by
  rw [AfromTr_eq_sum]
  rw [Finset.sum_congr rfl fun d hd =>
    rho_diag_weighted ext hf H hIF d (Finset.mem_range.mp hd)]
  have hcancel := PP_sum_eq_HH_sum_filling ext hf.modelspace H hIF
  obtain ⟨_, hHnd, hHmem, hPnd, hPmem, _, _, _⟩ := hIF
  rw [Finset.sum_add_distrib, Finset.sum_sub_distrib,
    sum_range_ite_mem _ _ hPnd (fun x hx => ((hPmem x).mp hx).1),
    sum_range_ite_mem _ _ hHnd (fun x hx => ((hHmem x).mp hx).1)]
  by_cases hq : 1 < ext.OCC_CUT
  · simp [hq]
  · simp only [hq, if_false]
    rw [List.sum_map_mul_right, List.sum_map_mul_right, hcancel]
    simp

/-- C1. Particle-number conservation of the density-matrix builder.  In a model space with
integer filling (`IntegerFilling`: every occupation is 0 or 1, holes are exactly the orbits
of occupation 1, particles exactly those of occupation 0), for every one-body and two-body
input and every square-root function, `GetDensityMatrix` run on `rho = 0` gives
`sum_i rho(i,i)*(j2_i+1) = sum_i occ_i*(j2_i+1)`; the values accumulated by the
particle-particle block for the diagonal pairs add up to those accumulated by the hole-hole
block, and the particle-hole block leaves the weighted trace unchanged. -/
theorem C1_particle_number (ext : External K) (hf : HFMBPT K) (H : Operator K)
    (hIF : IntegerFilling hf.modelspace) :
    AfromTr hf.modelspace (HFMBPT.GetDensityMatrix ext { hf with rho := matZeros } H).rho
      = ∑ i ∈ range hf.modelspace.GetNumberOrbits,
          (hf.modelspace.GetOrbit i).occ * (((hf.modelspace.GetOrbit i).j2 + 1 : Int) : K)
    ∧ (hf.modelspace.particles.map
          (fun a => DensityMatrixPP_r ext hf.modelspace H a a)).sum
        = (hf.modelspace.holes.map
          (fun i => DensityMatrixHH_r ext hf.modelspace H i i)).sum
    ∧ AfromTr hf.modelspace (DensityMatrixPH ext hf.modelspace H
          (DensityMatrixHH ext hf.modelspace H (DensityMatrixPP ext hf.modelspace H matZeros)))
        = AfromTr hf.modelspace
          (DensityMatrixHH ext hf.modelspace H
            (DensityMatrixPP ext hf.modelspace H matZeros)) := by
  refine ⟨AfromTr_filling ext hf H hIF, PP_sum_eq_HH_sum_filling ext hf.modelspace H hIF, ?_⟩
  rw [AfromTr_eq_sum, AfromTr_eq_sum]
  exact Finset.sum_congr rfl fun d _ => by rw [PH_diag]

lemma exExt_sqrtSpec : SqrtSpec exExt := by
  refine ⟨Rat.sqrt_nonneg, ?_, ?_⟩
  · intro q h
    show 0 < Rat.sqrt q
    unfold Rat.sqrt
    rw [Rat.mkRat_eq_div]
    have h1 : 0 < q.num := Rat.num_pos.mpr h
    have h2 : 0 < Int.sqrt q.num := by
      unfold Int.sqrt
      have : 0 < q.num.toNat := by omega
      exact_mod_cast Nat.sqrt_pos.mpr this
    have h3 : 0 < Nat.sqrt q.den := Nat.sqrt_pos.mpr q.den_pos
    positivity
  · intro x hx
    show Rat.sqrt (x * x) = x
    rw [Rat.sqrt_eq, abs_of_nonneg hx]

lemma exMS4_getOrbit_occ (i : Nat) (hi : i < 4) :
    (exMS4.GetOrbit i).occ = if i < 2 then 1 else 0 := by
  interval_cases i <;> rfl

lemma exMS4_integerFilling : IntegerFilling exMS4 := by
  refine ⟨?_, by decide, ?_, by decide, ?_, ?_, ?_, ?_⟩
  · intro i hi
    have hi4 : i < 4 := hi
    rw [exMS4_getOrbit_occ i hi4]
    split_ifs <;> simp
  · intro i
    constructor
    · intro h
      have h2 : i = 0 ∨ i = 1 := by simpa [exMS4] using h
      rcases h2 with rfl | rfl
      · exact ⟨by decide, rfl⟩
      · exact ⟨by decide, rfl⟩
    · rintro ⟨hi, hocc⟩
      have hi4 : i < 4 := hi
      rw [exMS4_getOrbit_occ i hi4] at hocc
      have : i < 2 := by
        by_contra h
        rw [if_neg h] at hocc
        exact zero_ne_one hocc
      interval_cases i <;> decide
  · intro i
    constructor
    · intro h
      have h2 : i = 2 ∨ i = 3 := by simpa [exMS4] using h
      rcases h2 with rfl | rfl
      · exact ⟨by decide, rfl⟩
      · exact ⟨by decide, rfl⟩
    · rintro ⟨hi, hocc⟩
      have hi4 : i < 4 := hi
      rw [exMS4_getOrbit_occ i hi4] at hocc
      have : ¬ i < 2 := by
        intro h
        rw [if_pos h] at hocc
        exact one_ne_zero hocc
      interval_cases i <;> decide
  · intro i
    constructor
    · intro h
      have h2 : i = 0 ∨ i = 1 ∨ i = 2 ∨ i = 3 := by simpa [exMS4] using h
      show i < 4
      omega
    · intro hi
      have hi4 : i < 4 := hi
      interval_cases i <;> decide
  · intro i hi
    have hi4 : i < 4 := hi
    interval_cases i <;> decide
  · intro i hi
    have hi4 : i < 4 := hi
    interval_cases i <;> decide

lemma exMS4_channelsShareKey : ChannelsShareKey exMS4 := by
  unfold ChannelsShareKey
  decide

/-- C1 exercised on the model space with two holes and two particles: the weighted trace
is the particle number 4. -/
theorem C1_particle_number_witness :
    AfromTr exMS4 (HFMBPT.GetDensityMatrix exExt { exHF4 with rho := matZeros } exH4).rho
      = 4 := by
  have h := (C1_particle_number exExt exHF4 exH4 exMS4_integerFilling).1
  have h4 : exHF4.modelspace.GetNumberOrbits = 4 := rfl
  rw [h4] at h
  rw [show exMS4 = exHF4.modelspace from rfl, h]
  simp [Finset.sum_range_succ, ModelSpace.GetOrbit, exHF4, exMS4]
  norm_num

/-- C4 exercised on the proton and the neutron `0s1/2` orbits of `exMS4`. -/
theorem C4_rho_block_diagonal_witness :
    (HFMBPT.GetDensityMatrix exExt { exHF4 with rho := matZeros } exH4).rho 0 1 = 0 :=
  C4_rho_block_diagonal exExt exHF4 exH4 exMS4_channelsShareKey 0 1 (by decide)

/-- C5 exercised on the model space with two holes and two particles. -/
theorem C5_zero_interaction_witness :
    (HFMBPT.GetDensityMatrix exExt { exHF4 with rho := matZeros } exH4zero).rho 1 1 = 1 ∧
    (HFMBPT.GetDensityMatrix exExt { exHF4 with rho := matZeros } exH4zero).rho 2 2 = 0 ∧
    (HFMBPT.GetDensityMatrix exExt { exHF4 with rho := matZeros } exH4zero).rho 0 2 = 0 := by
  have h := (C5_zero_interaction exExt exHF4 exH4zero exExt_sqrtSpec (fun _ _ _ _ _ => rfl)
    (by decide)).1
  refine ⟨?_, ?_, ?_⟩
  · rw [h 1 1]; rfl
  · rw [h 2 2]; rfl
  · rw [h 0 2]; rfl


end DensityTheorems

section DiagonalizerTheorems
variable {K : Type} [LinearOrderedField K]

lemma radix_sum_lt (b : Nat) (f : Nat → Nat) (hf : ∀ k, f k < b) (t : Nat) :
    ∑ k ∈ range t, f k * b ^ k < b ^ t := by
  induction t with
  | zero => simp
  | succ t ih =>
    rw [Finset.sum_range_succ, pow_succ]
    have h1 : f t * b ^ t ≤ (b - 1) * b ^ t :=
      Nat.mul_le_mul_right _ (Nat.le_sub_one_of_lt (hf t))
    have hb : 1 ≤ b := Nat.one_le_of_lt (hf 0)
    have h2 : (b - 1) * b ^ t + b ^ t = b ^ t * b := by
      have : b - 1 + 1 = b := Nat.sub_add_cancel hb
      calc (b - 1) * b ^ t + b ^ t = (b - 1 + 1) * b ^ t := by ring
        _ = b ^ t * b := by rw [this, mul_comm]
    omega

lemma radix_sum_lt_of_digit (b : Nat) (f g : Nat → Nat) (hf : ∀ k, f k < b) (i : Nat)
    (hlt : f i < g i) (t : Nat) (hit : i < t)
    (heq : ∀ k, i < k → k < t → f k = g k) :
    ∑ k ∈ range t, f k * b ^ k < ∑ k ∈ range t, g k * b ^ k := by
  induction t with
  | zero => exact absurd hit (Nat.not_lt_zero _)
  | succ t ih =>
    rw [Finset.sum_range_succ, Finset.sum_range_succ]
    rcases Nat.lt_succ_iff_lt_or_eq.mp hit with h | h
    · have := ih h (fun k hk hkt => heq k hk (Nat.lt_succ_of_lt hkt))
      rw [heq t h (Nat.lt_succ_self t)]
      omega
    · subst h
      have h1 := radix_sum_lt b f hf i
      have h2 : (f i + 1) * b ^ i ≤ g i * b ^ i := Nat.mul_le_mul_right _ hlt
      have h3 : (f i + 1) * b ^ i = f i * b ^ i + b ^ i := by ring
      have h4 : 0 ≤ ∑ k ∈ range i, g k * b ^ k := Nat.zero_le _
      omega

lemma rowRank_lt (m : Nat) (Cmat : Mat K) (i : Nat) : rowRank m Cmat i < m + 1 := by
  unfold rowRank
  have := Finset.card_filter_le (range m) (fun c => |Cmat i c| < |Cmat i i|)
  rw [Finset.card_range] at this
  omega

lemma reorderMeasure_lt (m : Nat) (Cmat : Mat K) : reorderMeasure m Cmat < (m + 1) ^ m :=
  radix_sum_lt (m + 1) (rowRank m Cmat) (rowRank_lt m Cmat) m

lemma swap_cols_apply (Cmat : Mat K) (i j r c : Nat) :
    swap_cols Cmat i j r c = Cmat r (Equiv.swap i j c) := by
  unfold swap_cols
  rw [Equiv.swap_apply_def]
  split_ifs <;> rfl

lemma card_filter_swap (m i j : Nat) (hi : i < m) (hj : j < m) (P : Nat → Prop)
    [DecidablePred P] :
    ((range m).filter (fun c => P (Equiv.swap i j c))).card = ((range m).filter P).card := by
  have hlt : ∀ c, c < m → Equiv.swap i j c < m := by
    intro c hc
    rw [Equiv.swap_apply_def]
    split_ifs <;> assumption
  refine Finset.card_bij (fun c _ => Equiv.swap i j c) ?_ ?_ ?_
  · intro c hc
    rw [Finset.mem_filter, Finset.mem_range] at hc ⊢
    exact ⟨hlt c hc.1, hc.2⟩
  · intro c1 _ c2 _ h
    exact (Equiv.swap i j).injective h
  · intro b hb
    rw [Finset.mem_filter, Finset.mem_range] at hb
    refine ⟨Equiv.swap i j b, ?_, Equiv.swap_apply_self i j b⟩
    rw [Finset.mem_filter, Finset.mem_range]
    refine ⟨hlt b hb.1, ?_⟩
    rw [Equiv.swap_apply_self]
    exact hb.2

lemma rowRank_swap (m : Nat) (Cmat : Mat K) (i j k : Nat) (hi : i < m) (hj : j < m) :
    rowRank m (swap_cols Cmat i j) k
      = ((range m).filter (fun c => |Cmat k c| < |Cmat k (Equiv.swap i j k)|)).card := by
  unfold rowRank
  simp only [swap_cols_apply]
  exact card_filter_swap m i j hi hj (fun c => |Cmat k c| < |Cmat k (Equiv.swap i j k)|)

/-- A swap strictly increases the termination measure. -/
lemma reorderMeasure_swap (m : Nat) (Cmat : Mat K) (i j : Nat) (hi : i < m) (hji : j < i)
    (hgt : |Cmat i j| > |Cmat i i|) :
    reorderMeasure m Cmat < reorderMeasure m (swap_cols Cmat i j) := by
  have hj : j < m := lt_trans hji hi
  unfold reorderMeasure
  refine radix_sum_lt_of_digit (m + 1) _ _ (rowRank_lt m Cmat) i ?_ m hi ?_
  · rw [rowRank_swap m Cmat i j i hi hj, Equiv.swap_apply_left]
    unfold rowRank
    apply Finset.card_lt_card
    rw [Finset.ssubset_iff_of_subset]
    · refine ⟨i, ?_, ?_⟩
      · rw [Finset.mem_filter, Finset.mem_range]
        exact ⟨hi, hgt⟩
      · rw [Finset.mem_filter]
        exact fun h => lt_irrefl _ h.2
    · intro c hc
      rw [Finset.mem_filter] at hc ⊢
      exact ⟨hc.1, lt_trans hc.2 hgt⟩
  · intro k hik _
    rw [rowRank_swap m Cmat i j k hi hj,
      Equiv.swap_apply_of_ne_of_ne (ne_of_gt hik) (ne_of_gt (lt_trans hji hik))]
    rfl

/-- Invariant of one pass: a property kept by every swap that the pass can make. -/
lemma reorderPass_inv (P : ReorderState K → Prop) (m : Nat)
    (hstep : ∀ s i j, P s → i < m → j < i → P (swapStep s i j))
    (Cmat : Mat K) (Occ : Vec K) (h0 : P (Cmat, Occ, 0)) :
    P (reorderPass m Cmat Occ) := by
  unfold reorderPass
  refine foldl_inv P _ _ _ h0 fun s i hi hs => ?_
  refine foldl_inv P _ _ _ hs fun s2 j hj hs2 => ?_
  exact hstep s2 i j hs2 (List.mem_range.mp hi) (List.mem_range.mp hj)

lemma reorderPass_measure (m : Nat) (Cmat : Mat K) (Occ : Vec K) :
    reorderMeasure m Cmat + (reorderPass m Cmat Occ).2.2
      ≤ reorderMeasure m (reorderPass m Cmat Occ).1 := by
  refine reorderPass_inv
    (fun s => reorderMeasure m Cmat + s.2.2 ≤ reorderMeasure m s.1) m ?_ Cmat Occ
    (by simp)
  intro s i j hs hi hj
  unfold swapStep
  split_ifs with h
  · have := reorderMeasure_swap m s.1 i j hi hj h
    dsimp only at hs ⊢
    omega
  · exact hs

/-- The swap loop ends: with more passes allowed than the measure has room to grow, a
pass without swap is reached. -/
lemma reorderLoop_isSome (m : Nat) : ∀ (fuel : Nat) (Cmat : Mat K) (Occ : Vec K),
    (m + 1) ^ m - reorderMeasure m Cmat < fuel → (reorderLoop m fuel Cmat Occ).isSome := by
  intro fuel
  induction fuel with
  | zero => intro Cmat Occ h; exact absurd h (Nat.not_lt_zero _)
  | succ f ih =>
    intro Cmat Occ h
    unfold reorderLoop
    dsimp only
    split_ifs with hs
    · apply ih
      have h1 := reorderPass_measure m Cmat Occ
      have h2 := reorderMeasure_lt m (reorderPass m Cmat Occ).1
      omega
    · rfl

lemma reorderLoop_isSome_of_bound (m fuel : Nat) (Cmat : Mat K) (Occ : Vec K)
    (h : (m + 1) ^ m < fuel) : (reorderLoop m fuel Cmat Occ).isSome :=
  reorderLoop_isSome m fuel Cmat Occ (lt_of_le_of_lt (Nat.sub_le _ _) h)

/-- Invariant of the swap loop. -/
lemma reorderLoop_inv (P : Mat K → Vec K → Prop) (m : Nat)
    (hswap : ∀ Cm Oc i j, P Cm Oc → i < m → j < i → |Cm i j| > |Cm i i| →
      P (swap_cols Cm i j) (swap_rows Oc i j)) :
    ∀ (fuel : Nat) (Cmat : Mat K) (Occ : Vec K) (res : Mat K × Vec K),
      P Cmat Occ → reorderLoop m fuel Cmat Occ = some res → P res.1 res.2 := by
  intro fuel
  induction fuel with
  | zero => intro Cmat Occ res _ h; simp [reorderLoop] at h
  | succ f ih =>
    intro Cmat Occ res h0 h
    have hpass : P (reorderPass m Cmat Occ).1 (reorderPass m Cmat Occ).2.1 := by
      refine reorderPass_inv (fun s => P s.1 s.2.1) m ?_ Cmat Occ h0
      intro s i j hs hi hj
      unfold swapStep
      split_ifs with hgt
      · exact hswap s.1 s.2.1 i j hs hi hj hgt
      · exact hs
    unfold reorderLoop at h
    dsimp only at h
    split_ifs at h with hs
    · exact ih _ _ res hpass h
    · rw [← Option.some.inj h]
      exact hpass

lemma fixSigns_inv (P : Mat K → Prop) (n_rows : Nat)
    (hneg : ∀ Cm i, P Cm → P (negCol Cm i)) (Cmat : Mat K) (h0 : P Cmat) :
    P (fixSigns n_rows Cmat) := by
  unfold fixSigns
  refine foldl_inv P _ _ _ h0 fun s i _ hs => ?_
  split_ifs
  · exact hneg s i hs
  · exact hs

lemma foldl_bind_none {α β : Type} (f : α → β → Option β) (l : List α) :
    l.foldl (fun st x => st.bind (f x)) none = none := by
  induction l with
  | nil => rfl
  | cons x t ih => rw [List.foldl_cons]; exact ih

/-- Invariant of a fold of fallible steps. -/
lemma foldl_bind_inv {α β : Type} (P : β → Prop) (f : α → β → Option β)
    (hstep : ∀ x b b2, P b → f x b = some b2 → P b2) :
    ∀ (l : List α) (b res : β), P b →
      l.foldl (fun st x => st.bind (f x)) (some b) = some res → P res := by
  intro l
  induction l with
  | nil =>
    intro b res h0 h
    rw [List.foldl_nil] at h
    rw [← Option.some.inj h]
    exact h0
  | cons x t ih =>
    intro b res h0 h
    rw [List.foldl_cons, Option.some_bind] at h
    cases hx : f x b with
    | none =>
      rw [hx, foldl_bind_none] at h
      exact absurd h (by simp)
    | some b2 =>
      rw [hx] at h
      exact ih b2 res (hstep x b b2 h0 hx) h

/-- A fold of fallible steps succeeds when every step does on states satisfying an
invariant. -/
lemma foldl_bind_isSome {α β : Type} (P : β → Prop) (f : α → β → Option β)
    (hstep : ∀ x b b2, P b → f x b = some b2 → P b2) :
    ∀ (l : List α) (b : β), P b → (∀ x ∈ l, ∀ b, P b → (f x b).isSome) →
      (l.foldl (fun st x => st.bind (f x)) (some b)).isSome := by
  intro l
  induction l with
  | nil => intro b _ _; rfl
  | cons x t ih =>
    intro b h0 hall
    rw [List.foldl_cons, Option.some_bind]
    obtain ⟨b2, hb2⟩ := Option.isSome_iff_exists.mp (hall x (List.mem_cons_self _ _) b h0)
    rw [hb2]
    exact ih b2 (hstep x b b2 h0 hb2) (fun y hy => hall y (List.mem_cons_of_mem _ hy))

/-- Invariant of `ReorderHFMBPTCoefficients`: a property kept by every swap that a channel
loop can make and by every column negation holds at the end. -/
lemma Reorder_inv (P : Mat K → Vec K → Prop) (fuel n_rows : Nat)
    (channels : List (List Nat))
    (hswap : ∀ (orbvec : List Nat) Cm Oc i j, orbvec ∈ channels → P Cm Oc →
      i < orbvec.length - 1 → j < i →
      |Cm i j| > |Cm i i| → P (swap_cols Cm i j) (swap_rows Oc i j))
    (hneg : ∀ Cm Oc i, P Cm Oc → P (negCol Cm i) Oc)
    (Cmat : Mat K) (Occ : Vec K) (res : Mat K × Vec K)
    (h0 : P Cmat Occ)
    (h : ReorderHFMBPTCoefficients fuel n_rows channels Cmat Occ = some res) :
    P res.1 res.2 := by
  unfold ReorderHFMBPTCoefficients at h
  have hmem : ∀ (l : List (List Nat)) (b r : Mat K × Vec K), (∀ x ∈ l, x ∈ channels) →
      P b.1 b.2 →
      l.foldl (fun st orbvec =>
        st.bind (fun res => reorderChannel fuel n_rows orbvec res.1 res.2)) (some b) = some r →
      P r.1 r.2 := by
    intro l
    induction l with
    | nil =>
      intro b r _ hb hr
      rw [List.foldl_nil] at hr
      rw [← Option.some.inj hr]
      exact hb
    | cons x t ih =>
      intro b r hsub hb hr
      rw [List.foldl_cons, Option.some_bind] at hr
      cases hx : reorderChannel fuel n_rows x b.1 b.2 with
      | none =>
        rw [hx, foldl_bind_none] at hr
        exact absurd hr (by simp)
      | some b2 =>
        rw [hx] at hr
        refine ih b2 r (fun y hy => hsub y (List.mem_cons_of_mem _ hy)) ?_ hr
        unfold reorderChannel at hx
        cases hloop : reorderLoop (x.length - 1) fuel b.1 b.2 with
        | none => rw [hloop] at hx; simp at hx
        | some r2 =>
          rw [hloop, Option.map_some'] at hx
          rw [← Option.some.inj hx]
          have h1 := reorderLoop_inv P (x.length - 1)
            (fun Cm Oc i j hP hi hj hgt =>
              hswap x Cm Oc i j (hsub x (List.mem_cons_self _ _)) hP hi hj hgt)
            fuel b.1 b.2 r2 hb hloop
          exact fixSigns_inv (fun Cm => P Cm r2.2) n_rows
            (fun Cm i hP => hneg Cm r2.2 i hP) r2.1 h1
  exact hmem channels (Cmat, Occ) res (fun x hx => hx) h0 h

/-- `ReorderHFMBPTCoefficients` returns when the pass bound exceeds
`size ^ (size - 1)` for every channel. -/
lemma Reorder_isSome (fuel n_rows : Nat) (channels : List (List Nat))
    (hfuel : ∀ orbvec ∈ channels, (orbvec.length - 1 + 1) ^ (orbvec.length - 1) < fuel)
    (Cmat : Mat K) (Occ : Vec K) :
    (ReorderHFMBPTCoefficients fuel n_rows channels Cmat Occ).isSome := by
  unfold ReorderHFMBPTCoefficients
  refine foldl_bind_isSome (fun _ => True)
    (fun orbvec (res : Mat K × Vec K) => reorderChannel fuel n_rows orbvec res.1 res.2)
    (fun _ _ _ _ _ => trivial) channels (Cmat, Occ) trivial ?_
  intro orbvec horb b _
  unfold reorderChannel
  rw [Option.isSome_map']
  exact reorderLoop_isSome_of_bound _ _ _ _ (hfuel orbvec horb)

lemma mem_sortDesc (ch : List Nat) (j : Nat) :
    j ∈ ch.insertionSort (fun a b => b ≤ a) ↔ j ∈ ch :=
  (List.perm_insertionSort _ ch).mem_iff

lemma diagonalizeChannel_spec (ext : External K) (rho : Mat K) (ch : List Nat)
    (Cmat : Mat K) (Occ : Vec K) (res : Mat K × Vec K)
    (h : diagonalizeChannel ext rho ch Cmat Occ = some res) :
    ChannelAssigned ext rho ch res.1 res.2 ∧
    (∀ i j, ¬ (i ∈ ch ∧ j ∈ ch) → res.1 i j = Cmat i j) ∧
    (∀ j, j ∉ ch → res.2 j = Occ j) := by
  unfold diagonalizeChannel at h
  dsimp only at h
  cases he : ext.eig_sym ch.length (submat rho ch ch) with
  | none => rw [he] at h; simp at h
  | some p =>
    obtain ⟨eig, vec⟩ := p
    rw [he] at h
    dsimp only at h
    rw [← Option.some.inj h]
    refine ⟨⟨eig, vec, he, ?_, ?_⟩, ?_, ?_⟩
    · intro i hi j hj
      simp only [submatAssign]
      rw [if_pos ⟨hi, (mem_sortDesc ch j).mpr hj⟩]
    · intro j hj
      simp only [elemAssign]
      rw [if_pos ((mem_sortDesc ch j).mpr hj)]
    · intro i j hij
      simp only [submatAssign]
      rw [if_neg]
      rintro ⟨h1, h2⟩
      exact hij ⟨h1, (mem_sortDesc ch j).mp h2⟩
    · intro j hj
      simp only [elemAssign]
      rw [if_neg]
      intro h2
      exact hj ((mem_sortDesc ch j).mp h2)

/-- State after the channel loop of `DiagonalizeRho`. -/
lemma diagonalizeChannels_spec (ext : External K) (rho : Mat K) :
    ∀ (channels : List (List Nat)) (Cmat : Mat K) (Occ : Vec K) (res : Mat K × Vec K),
      channels.Pairwise (fun c1 c2 => ∀ a ∈ c1, a ∉ c2) →
      diagonalizeChannels ext rho channels Cmat Occ = some res →
      (∀ ch ∈ channels, ChannelAssigned ext rho ch res.1 res.2) ∧
      (∀ i j, (∀ ch ∈ channels, ¬ (i ∈ ch ∧ j ∈ ch)) → res.1 i j = Cmat i j) ∧
      (∀ j, (∀ ch ∈ channels, j ∉ ch) → res.2 j = Occ j) := by
  intro channels
  induction channels with
  | nil =>
    intro Cmat Occ res _ h
    simp only [diagonalizeChannels, List.foldl_nil] at h
    rw [← Option.some.inj h]
    exact ⟨fun ch hch => absurd hch (List.not_mem_nil _), fun _ _ _ => rfl, fun _ _ => rfl⟩
  | cons x t ih =>
    intro Cmat Occ res hpw h
    unfold diagonalizeChannels at h
    rw [List.foldl_cons, Option.some_bind] at h
    obtain ⟨hx_t, hpw_t⟩ := List.pairwise_cons.mp hpw
    cases hx : diagonalizeChannel ext rho x Cmat Occ with
    | none =>
      rw [hx, foldl_bind_none] at h
      exact absurd h (by simp)
    | some b2 =>
      rw [hx] at h
      obtain ⟨hA, hC, hO⟩ := diagonalizeChannel_spec ext rho x Cmat Occ b2 hx
      obtain ⟨ihA, ihC, ihO⟩ := ih b2.1 b2.2 res hpw_t h
      refine ⟨?_, ?_, ?_⟩
      · intro ch hch
        rcases List.mem_cons.mp hch with rfl | hch'
        · obtain ⟨eig, vec, he, hCv, hOv⟩ := hA
          refine ⟨eig, vec, he, ?_, ?_⟩
          · intro i hi j _
            rw [ihC i j (fun c hc hij => hx_t c hc i hi hij.1)]
            exact hCv i hi j ‹_›
          · intro j hj
            rw [ihO j (fun c hc hjc => hx_t c hc j hj hjc)]
            exact hOv j hj
        · exact ihA ch hch'
      · intro i j hij
        rw [ihC i j (fun c hc => hij c (List.mem_cons_of_mem _ hc)),
          hC i j (hij x (List.mem_cons_self _ _))]
      · intro j hj
        rw [ihO j (fun c hc => hj c (List.mem_cons_of_mem _ hc)),
          hO j (hj x (List.mem_cons_self _ _))]

/-- The channel loop of `DiagonalizeRho` returns when the eigen-solver succeeds on the
block of every channel. -/
lemma diagonalizeChannels_isSome (ext : External K) (rho : Mat K)
    (channels : List (List Nat))
    (hsolve : ∀ ch ∈ channels, (ext.eig_sym ch.length (submat rho ch ch)).isSome)
    (Cmat : Mat K) (Occ : Vec K) :
    (diagonalizeChannels ext rho channels Cmat Occ).isSome := by
  unfold diagonalizeChannels
  refine foldl_bind_isSome (fun _ => True)
    (fun orbvec (res : Mat K × Vec K) => diagonalizeChannel ext rho orbvec res.1 res.2)
    (fun _ _ _ _ _ => trivial) channels (Cmat, Occ) trivial ?_
  intro ch hch b _
  unfold diagonalizeChannel
  dsimp only
  obtain ⟨p, hp⟩ := Option.isSome_iff_exists.mp (hsolve ch hch)
  rw [hp]
  rfl

lemma channel_length_le (ms : ModelSpace K) (channels : List (List Nat))
    (hWF : OneBodyChannelsWF ms channels) (ch : List Nat) (hch : ch ∈ channels) :
    ch.length ≤ ms.GetNumberOrbits := by
  obtain ⟨hnd, _, hr, _, _⟩ := hWF.1 ch hch
  have h1 : ch.toFinset ⊆ range ms.GetNumberOrbits := by
    intro x hx
    exact Finset.mem_range.mpr (hr x (List.mem_toFinset.mp hx))
  have h2 := Finset.card_le_card h1
  rw [List.toFinset_card_of_nodup hnd, Finset.card_range] at h2
  exact h2

/-- Decomposition of a returning `DiagonalizeRho`. -/
lemma DiagonalizeRho_ok (ext : External K) (fuel : Nat) (hf : HFMBPT K)
    (hsolve : ∀ ch ∈ hf.Hbare_OneBodyChannels,
      (ext.eig_sym ch.length (submat hf.rho ch ch)).isSome)
    (hfuel : ∀ ch ∈ hf.Hbare_OneBodyChannels, (ch.length - 1 + 1) ^ (ch.length - 1) < fuel) :
    ∃ r1 r2 : Mat K × Vec K,
      diagonalizeChannels ext hf.rho hf.Hbare_OneBodyChannels hf.C_HF2NAT hf.Occ = some r1 ∧
      ReorderHFMBPTCoefficients fuel hf.modelspace.GetNumberOrbits hf.Hbare_OneBodyChannels
        r1.1 r1.2 = some r2 ∧
      HFMBPT.DiagonalizeRho ext fuel hf = Except.ok { hf with C_HF2NAT := r2.1, Occ := r2.2 } := by
  obtain ⟨r1, h1⟩ := Option.isSome_iff_exists.mp
    (diagonalizeChannels_isSome ext hf.rho hf.Hbare_OneBodyChannels hsolve hf.C_HF2NAT hf.Occ)
  obtain ⟨r2, h2⟩ := Option.isSome_iff_exists.mp
    (Reorder_isSome fuel hf.modelspace.GetNumberOrbits hf.Hbare_OneBodyChannels hfuel r1.1 r1.2)
  refine ⟨r1, r2, h1, h2, ?_⟩
  unfold HFMBPT.DiagonalizeRho
  rw [h1]
  dsimp only
  rw [h2]

lemma blockDiag_assign (ext : External K) (ms : ModelSpace K) (rho : Mat K)
    (channels : List (List Nat)) (hWF : OneBodyChannelsWF ms channels)
    (Cmat : Mat K) (Occ : Vec K) (res : Mat K × Vec K) (hB : BlockDiag ms Cmat)
    (h : diagonalizeChannels ext rho channels Cmat Occ = some res) :
    BlockDiag ms res.1 := by
  obtain ⟨_, hC, _⟩ := diagonalizeChannels_spec ext rho channels Cmat Occ res hWF.2.1 h
  intro i j hi hj hij
  rw [hC i j]
  · exact hB i j hi hj hij
  · rintro ch hch ⟨h1, h2⟩
    exact hij ((hWF.1 ch hch).2.2.2.1 i h1 j h2)

lemma blockDiag_swap (ms : ModelSpace K) (Cmat : Mat K) (i j : Nat)
    (hi : i < ms.GetNumberOrbits) (hj : j < ms.GetNumberOrbits)
    (hkey : ms.key i = ms.key j) (hB : BlockDiag ms Cmat) :
    BlockDiag ms (swap_cols Cmat i j) := by
  intro r c hr hc hrc
  unfold swap_cols
  split_ifs with h1 h2
  · subst h1
    exact hB r j hr hj (fun h => hrc (h.trans hkey.symm))
  · subst h2
    exact hB r i hr hi (fun h => hrc (h.trans hkey))
  · exact hB r c hr hc hrc

lemma blockDiag_negCol (ms : ModelSpace K) (Cmat : Mat K) (i : Nat) (hB : BlockDiag ms Cmat) :
    BlockDiag ms (negCol Cmat i) := by
  intro r c hr hc hrc
  unfold negCol
  split_ifs
  · rw [hB r c hr hc hrc, zero_mul]
  · exact hB r c hr hc hrc

/-- In a block-diagonal matrix a swap is only made between columns of the same channel. -/
lemma swap_same_key (ms : ModelSpace K) (Cmat : Mat K) (i j : Nat)
    (hi : i < ms.GetNumberOrbits) (hj : j < ms.GetNumberOrbits)
    (hB : BlockDiag ms Cmat) (hgt : |Cmat i j| > |Cmat i i|) : ms.key i = ms.key j := by
  by_contra hne
  rw [hB i j hi hj hne, abs_zero] at hgt
  exact absurd hgt (not_lt.mpr (abs_nonneg _))

lemma swap_index_lt (ms : ModelSpace K) (channels : List (List Nat))
    (hWF : OneBodyChannelsWF ms channels) (orbvec : List Nat) (horb : orbvec ∈ channels)
    (i j : Nat) (hi : i < orbvec.length - 1) (hj : j < i) :
    i < ms.GetNumberOrbits ∧ j < ms.GetNumberOrbits := by
  have := channel_length_le ms channels hWF orbvec horb
  omega

lemma blockDiag_reorder (ms : ModelSpace K) (fuel : Nat) (channels : List (List Nat))
    (hWF : OneBodyChannelsWF ms channels) (Cmat : Mat K) (Occ : Vec K)
    (res : Mat K × Vec K) (hB : BlockDiag ms Cmat)
    (h : ReorderHFMBPTCoefficients fuel ms.GetNumberOrbits channels Cmat Occ = some res) :
    BlockDiag ms res.1 := by
  refine Reorder_inv (fun Cm _ => BlockDiag ms Cm) fuel ms.GetNumberOrbits channels ?_ ?_
    Cmat Occ res hB h
  · intro orbvec Cm Oc i j horb hP hi hj hgt
    obtain ⟨hin, hjn⟩ := swap_index_lt ms channels hWF orbvec horb i j hi hj
    exact blockDiag_swap ms Cm i j hin hjn (swap_same_key ms Cm i j hin hjn hP hgt) hP
  · intro Cm _ i hP
    exact blockDiag_negCol ms Cm i hP

/-- C7. If `C_HF2NAT` is block-diagonal with respect to the one-body channels before the
call (it is the identity after construction), the eigen-solver succeeds on every channel
block and enough passes are allowed, `DiagonalizeRho` returns, and after it, reordering
included, `C_HF2NAT(i,j) = 0` for all orbits `i`, `j` of different channels.  Although the
reordering addresses columns by raw positions `j < i < size-1`, in a block-diagonal matrix
the test `|C(i,j)| > |C(i,i)|` holds only for two positions of the same channel. -/
theorem C7_rotation_block_diagonal (ext : External K) (fuel : Nat) (hf : HFMBPT K)
    (hWF : OneBodyChannelsWF hf.modelspace hf.Hbare_OneBodyChannels)
    (hB : BlockDiag hf.modelspace hf.C_HF2NAT)
    (hsolve : ∀ ch ∈ hf.Hbare_OneBodyChannels,
      (ext.eig_sym ch.length (submat hf.rho ch ch)).isSome)
    (hfuel : ∀ ch ∈ hf.Hbare_OneBodyChannels, (ch.length - 1 + 1) ^ (ch.length - 1) < fuel) :
    (∃ hf2, HFMBPT.DiagonalizeRho ext fuel hf = Except.ok hf2 ∧
      BlockDiag hf.modelspace hf2.C_HF2NAT) ∧
    (∀ (Cm : Mat K) (orbvec : List Nat) (i j : Nat), BlockDiag hf.modelspace Cm →
      orbvec ∈ hf.Hbare_OneBodyChannels → i < orbvec.length - 1 → j < i →
      |Cm i j| > |Cm i i| → ∃ ch ∈ hf.Hbare_OneBodyChannels, i ∈ ch ∧ j ∈ ch) := by
  constructor
  · obtain ⟨r1, r2, h1, h2, h3⟩ := DiagonalizeRho_ok ext fuel hf hsolve hfuel
    refine ⟨_, h3, ?_⟩
    exact blockDiag_reorder hf.modelspace fuel _ hWF r1.1 r1.2 r2
      (blockDiag_assign ext hf.modelspace hf.rho _ hWF _ _ r1 hB h1) h2
  · intro Cm orbvec i j hBm horb hi hj hgt
    obtain ⟨hin, hjn⟩ := swap_index_lt hf.modelspace _ hWF orbvec horb i j hi hj
    have hkey := swap_same_key hf.modelspace Cm i j hin hjn hBm hgt
    obtain ⟨ch, hch, hich⟩ := hWF.2.2 i hin
    exact ⟨ch, hch, hich, (hWF.1 ch hch).2.2.2.2 i hich j hjn hkey.symm⟩

lemma sum_map_indexOf (ch : List Nat) (hnd : ch.Nodup) (f : Nat → K) :
    (ch.map (fun r => f (ch.indexOf r))).sum = ∑ s ∈ range ch.length, f s := by
  rw [← sum_range_getD ch 0 (fun r => f (ch.indexOf r))]
  refine Finset.sum_congr rfl fun s hs => ?_
  have hs' := Finset.mem_range.mp hs
  rw [List.getD_eq_getElem ch 0 hs', List.indexOf_getElem hnd s hs']

lemma length_sortDesc (ch : List Nat) :
    (ch.insertionSort (fun a b => b ≤ a)).length = ch.length :=
  List.length_insertionSort _ ch

lemma orthoCh_assign (ext : External K) (ms : ModelSpace K) (rho : Mat K)
    (channels : List (List Nat)) (hWF : OneBodyChannelsWF ms channels)
    (hsym : IsSymm rho) (hEig : EigOrthoSpec ext)
    (Cmat : Mat K) (Occ : Vec K) (res : Mat K × Vec K)
    (h : diagonalizeChannels ext rho channels Cmat Occ = some res) :
    OrthoCh channels res.1 := by
  obtain ⟨hA, _, _⟩ := diagonalizeChannels_spec ext rho channels Cmat Occ res hWF.2.1 h
  intro ch hch a ha b hb
  obtain ⟨eig, vec, he, hCv, _⟩ := hA ch hch
  obtain ⟨hnd, _, _, _, _⟩ := hWF.1 ch hch
  have h1 : (ch.map (fun r => res.1 r a * res.1 r b)).sum
      = (ch.map (fun r => vec (ch.indexOf r) ((ch.insertionSort (fun a b => b ≤ a)).indexOf a)
          * vec (ch.indexOf r) ((ch.insertionSort (fun a b => b ≤ a)).indexOf b))).sum :=
    map_sum_congr _ _ _ fun r hr => by rw [hCv r hr a ha, hCv r hr b hb]
  rw [h1, sum_map_indexOf ch hnd
    (fun s => vec s ((ch.insertionSort (fun a b => b ≤ a)).indexOf a)
      * vec s ((ch.insertionSort (fun a b => b ≤ a)).indexOf b))]
  have ha' : a ∈ ch.insertionSort (fun a b => b ≤ a) := (mem_sortDesc ch a).mpr ha
  have hb' : b ∈ ch.insertionSort (fun a b => b ≤ a) := (mem_sortDesc ch b).mpr hb
  have hla := List.indexOf_lt_length.mpr ha'
  have hlb := List.indexOf_lt_length.mpr hb'
  rw [length_sortDesc] at hla hlb
  rw [hEig ch.length (submat rho ch ch) eig vec (fun r c _ _ => hsym _ _) he _ _ hla hlb]
  by_cases hab : a = b
  · subst hab; simp
  · have : ¬ ((ch.insertionSort (fun a b => b ≤ a)).indexOf a
        = (ch.insertionSort (fun a b => b ≤ a)).indexOf b) :=
      fun h => hab ((List.indexOf_inj ha' hb').mp h)
    rw [if_neg this, if_neg hab]

lemma orthoCh_swap (ms : ModelSpace K) (channels : List (List Nat))
    (hWF : OneBodyChannelsWF ms channels) (Cmat : Mat K) (i j : Nat)
    (hi : i < ms.GetNumberOrbits) (hj : j < ms.GetNumberOrbits)
    (hkey : ms.key i = ms.key j) (hO : OrthoCh channels Cmat) :
    OrthoCh channels (swap_cols Cmat i j) := by
  intro ch hch a ha b hb
  obtain ⟨_, _, _, _, hcomp⟩ := hWF.1 ch hch
  have hmem : ∀ x ∈ ch, Equiv.swap i j x ∈ ch := by
    intro x hx
    rw [Equiv.swap_apply_def]
    split_ifs with h1 h2
    · subst h1; exact hcomp x hx j hj hkey.symm
    · subst h2; exact hcomp x hx i hi hkey
    · exact hx
  simp only [swap_cols_apply]
  rw [hO ch hch _ (hmem a ha) _ (hmem b hb)]
  by_cases hab : a = b
  · subst hab; simp
  · have : ¬ (Equiv.swap i j a = Equiv.swap i j b) :=
      fun h => hab ((Equiv.swap i j).injective h)
    rw [if_neg this, if_neg hab]

lemma orthoCh_negCol (channels : List (List Nat)) (Cmat : Mat K) (k : Nat)
    (hO : OrthoCh channels Cmat) : OrthoCh channels (negCol Cmat k) := by
  intro ch hch a ha b hb
  have h1 : (ch.map (fun r => negCol Cmat k r a * negCol Cmat k r b)).sum
      = (ch.map (fun r => ((if a = k then -1 else 1) * (if b = k then -1 else 1))
          * (Cmat r a * Cmat r b))).sum :=
    map_sum_congr _ _ _ fun r _ => by
      unfold negCol
      split_ifs <;> ring
  rw [h1, List.sum_map_mul_left, hO ch hch a ha b hb]
  by_cases hab : a = b
  · subst hab
    split_ifs <;> norm_num
  · simp [hab]

/-- C6. Assuming that the eigen-solver returns an orthonormal set of eigenvectors for every
symmetric channel block, that `rho` is symmetric and that `C_HF2NAT` is block-diagonal
before the call (the identity after construction), `DiagonalizeRho` returns (solver
success, enough passes) and the matrix `C_HF2NAT` it leaves, after the block assignment
and `ReorderHFMBPTCoefficients`, is orthogonal within every one-body channel: the
sub-matrix `R` on the channel's orbits satisfies `Rᵀ R = 1`.  Column swaps and sign flips
keep this. -/
theorem C6_rotation_orthogonal (ext : External K) (fuel : Nat) (hf : HFMBPT K)
    (hWF : OneBodyChannelsWF hf.modelspace hf.Hbare_OneBodyChannels)
    (hB : BlockDiag hf.modelspace hf.C_HF2NAT) (hsym : IsSymm hf.rho)
    (hEig : EigOrthoSpec ext)
    (hsolve : ∀ ch ∈ hf.Hbare_OneBodyChannels,
      (ext.eig_sym ch.length (submat hf.rho ch ch)).isSome)
    (hfuel : ∀ ch ∈ hf.Hbare_OneBodyChannels, (ch.length - 1 + 1) ^ (ch.length - 1) < fuel) :
    ∃ hf2, HFMBPT.DiagonalizeRho ext fuel hf = Except.ok hf2 ∧
      OrthoCh hf.Hbare_OneBodyChannels hf2.C_HF2NAT := by
  obtain ⟨r1, r2, h1, h2, h3⟩ := DiagonalizeRho_ok ext fuel hf hsolve hfuel
  refine ⟨_, h3, ?_⟩
  have hB1 := blockDiag_assign ext hf.modelspace hf.rho _ hWF _ _ r1 hB h1
  have hO1 := orthoCh_assign ext hf.modelspace hf.rho _ hWF hsym hEig _ _ r1 h1
  have := Reorder_inv
    (fun Cm _ => BlockDiag hf.modelspace Cm ∧ OrthoCh hf.Hbare_OneBodyChannels Cm)
    fuel hf.modelspace.GetNumberOrbits hf.Hbare_OneBodyChannels ?_ ?_ r1.1 r1.2 r2
    ⟨hB1, hO1⟩ h2
  · exact this.2
  · intro orbvec Cm Oc i j horb hP hi hj hgt
    obtain ⟨hin, hjn⟩ := swap_index_lt hf.modelspace _ hWF orbvec horb i j hi hj
    have hkey := swap_same_key hf.modelspace Cm i j hin hjn hP.1 hgt
    exact ⟨blockDiag_swap hf.modelspace Cm i j hin hjn hkey hP.1,
      orthoCh_swap hf.modelspace _ hWF Cm i j hin hjn hkey hP.2⟩
  · intro Cm _ i hP
    exact ⟨blockDiag_negCol hf.modelspace Cm i hP.1, orthoCh_negCol _ Cm i hP.2⟩

lemma getD_indexOf (ch : List Nat) (x : Nat) (hx : x ∈ ch) : ch.getD (ch.indexOf x) 0 = x := by
  have h := List.indexOf_lt_length.mpr hx
  rw [List.getD_eq_getElem ch 0 h]
  exact List.getElem_indexOf h

lemma swap_rows_apply (v : Vec K) (i j r : Nat) :
    swap_rows v i j r = v (Equiv.swap i j r) := by
  unfold swap_rows
  rw [Equiv.swap_apply_def]
  split_ifs <;> rfl

lemma swap_lt (n i j c : Nat) (hi : i < n) (hj : j < n) (hc : c < n) :
    Equiv.swap i j c < n := by
  rw [Equiv.swap_apply_def]
  split_ifs <;> assumption

lemma eigenColumns_assign (ext : External K) (ms : ModelSpace K) (rho : Mat K)
    (channels : List (List Nat)) (hWF : OneBodyChannelsWF ms channels)
    (hBrho : BlockDiag ms rho) (hEig : EigVecOnChannels ext rho channels)
    (Cmat : Mat K) (Occ : Vec K) (res : Mat K × Vec K) (hB : BlockDiag ms Cmat)
    (h : diagonalizeChannels ext rho channels Cmat Occ = some res) :
    EigenColumns ms.GetNumberOrbits rho res.1 res.2 := by
  have hB1 := blockDiag_assign ext ms rho channels hWF Cmat Occ res hB h
  obtain ⟨hA, _, _⟩ := diagonalizeChannels_spec ext rho channels Cmat Occ res hWF.2.1 h
  intro i k hi hk
  obtain ⟨ch, hch, hkch⟩ := hWF.2.2 k hk
  obtain ⟨eig, vec, he, hCv, hOv⟩ := hA ch hch
  obtain ⟨hnd, _, hr, hshare, hcomp⟩ := hWF.1 ch hch
  have hout : ∀ j, j < ms.GetNumberOrbits → j ∉ ch → res.1 j k = 0 := by
    intro j hj hjch
    apply hB1 j k hj hk
    intro hkey
    exact hjch (hcomp k hkch j hj hkey)
  have h1 : ∑ j ∈ range ms.GetNumberOrbits, rho i j * res.1 j k
      = ∑ j ∈ range ms.GetNumberOrbits, (if j ∈ ch then rho i j * res.1 j k else 0) := by
    refine Finset.sum_congr rfl fun j hj => ?_
    by_cases hjch : j ∈ ch
    · rw [if_pos hjch]
    · rw [if_neg hjch, hout j (Finset.mem_range.mp hj) hjch, mul_zero]
  rw [h1, sum_range_ite_mem _ ch hnd hr]
  have hk' : k ∈ ch.insertionSort (fun a b => b ≤ a) := (mem_sortDesc ch k).mpr hkch
  have hlk := List.indexOf_lt_length.mpr hk'
  rw [length_sortDesc] at hlk
  by_cases hich : i ∈ ch
  · have h2 : (ch.map (fun j => rho i j * res.1 j k)).sum
        = (ch.map (fun j => submat rho ch ch (ch.indexOf i) (ch.indexOf j)
            * vec (ch.indexOf j) ((ch.insertionSort (fun a b => b ≤ a)).indexOf k))).sum :=
      map_sum_congr _ _ _ fun j hj => by
        rw [hCv j hj k hkch]
        simp only [submat]
        rw [getD_indexOf ch i hich, getD_indexOf ch j hj]
    rw [h2, sum_map_indexOf ch hnd
      (fun s => submat rho ch ch (ch.indexOf i) s
        * vec s ((ch.insertionSort (fun a b => b ≤ a)).indexOf k)),
      hEig ch hch eig vec he _ _ (List.indexOf_lt_length.mpr hich) hlk,
      hOv k hkch, hCv i hich k hkch]
  · have hik : ms.key i ≠ ms.key k := fun hkey => hich (hcomp k hkch i hi hkey)
    have h2 : (ch.map (fun j => rho i j * res.1 j k)).sum = (ch.map (fun _ => (0 : K))).sum :=
      map_sum_congr _ _ _ fun j hj => by
        rw [hBrho i j hi (hr j hj) (fun hkey => hik (hkey.trans (hshare j hj k hkch))),
          zero_mul]
    rw [h2, hB1 i k hi hk hik]
    simp

lemma eigenColumns_swap (n : Nat) (rho Cmat : Mat K) (Occ : Vec K) (i0 j0 : Nat)
    (hi0 : i0 < n) (hj0 : j0 < n) (hE : EigenColumns n rho Cmat Occ) :
    EigenColumns n rho (swap_cols Cmat i0 j0) (swap_rows Occ i0 j0) := by
  intro i k hi hk
  simp only [swap_cols_apply, swap_rows_apply]
  exact hE i _ hi (swap_lt n i0 j0 k hi0 hj0 hk)

lemma eigenColumns_negCol (n : Nat) (rho Cmat : Mat K) (Occ : Vec K) (k0 : Nat)
    (hE : EigenColumns n rho Cmat Occ) : EigenColumns n rho (negCol Cmat k0) Occ := by
  intro i k hi hk
  unfold negCol
  by_cases hkk : k = k0
  · simp only [hkk, if_true]
    have := hE i k0 hi (hkk ▸ hk)
    simp only [← mul_assoc, ← Finset.sum_mul, this]
  · simp only [hkk, if_false]
    exact hE i k hi hk

lemma occ_multiset_swap (n : Nat) (Occ : Vec K) (i j : Nat) (hi : i < n) (hj : j < n) :
    (Multiset.range n).map (swap_rows Occ i j) = (Multiset.range n).map Occ := by
  have h1 : swap_rows Occ i j = Occ ∘ (Equiv.swap i j) := by
    funext r; exact swap_rows_apply Occ i j r
  have h2 : (Finset.range n).map (Equiv.swap i j).toEmbedding = Finset.range n := by
    apply Finset.map_perm
    intro x hx
    rw [Finset.mem_coe, Finset.mem_range]
    by_contra hxn
    apply hx
    exact Equiv.swap_apply_of_ne_of_ne (fun h => hxn (h ▸ hi)) (fun h => hxn (h ▸ hj))
  have h3 := congrArg Finset.val h2
  rw [Finset.map_val, Finset.range_val] at h3
  rw [h1, ← Multiset.map_map, Equiv.coe_toEmbedding] at *
  rw [h3]

/-- C8. Assuming that `rho` and the incoming `C_HF2NAT` are block-diagonal and that the
eigen-solver returns, for every channel block, eigenvalues with matching eigenvector
columns, `DiagonalizeRho` returns (solver success, enough passes) and afterwards column `k`
of `C_HF2NAT` is an eigenvector of `rho` with eigenvalue `Occ(k)` for every orbit `k`.
The reordering leaves the multiset of the values of `Occ` unchanged, and a step that swaps
two columns swaps the same two entries of `Occ`. -/
theorem C8_eigen_columns (ext : External K) (fuel : Nat) (hf : HFMBPT K)
    (hWF : OneBodyChannelsWF hf.modelspace hf.Hbare_OneBodyChannels)
    (hB : BlockDiag hf.modelspace hf.C_HF2NAT) (hBrho : BlockDiag hf.modelspace hf.rho)
    (hEig : EigVecOnChannels ext hf.rho hf.Hbare_OneBodyChannels)
    (hsolve : ∀ ch ∈ hf.Hbare_OneBodyChannels,
      (ext.eig_sym ch.length (submat hf.rho ch ch)).isSome)
    (hfuel : ∀ ch ∈ hf.Hbare_OneBodyChannels, (ch.length - 1 + 1) ^ (ch.length - 1) < fuel) :
    ∃ hf2 r1, HFMBPT.DiagonalizeRho ext fuel hf = Except.ok hf2 ∧
      diagonalizeChannels ext hf.rho hf.Hbare_OneBodyChannels hf.C_HF2NAT hf.Occ = some r1 ∧
      EigenColumns hf.modelspace.GetNumberOrbits hf.rho hf2.C_HF2NAT hf2.Occ ∧
      (Multiset.range hf.modelspace.GetNumberOrbits).map hf2.Occ
        = (Multiset.range hf.modelspace.GetNumberOrbits).map r1.2 ∧
      (∀ (s : ReorderState K) (i j : Nat), swapStep s i j = s ∨
        ((swapStep s i j).1 = swap_cols s.1 i j ∧
          (swapStep s i j).2.1 = swap_rows s.2.1 i j)) := by
  obtain ⟨r1, r2, h1, h2, h3⟩ := DiagonalizeRho_ok ext fuel hf hsolve hfuel
  refine ⟨_, r1, h3, h1, ?_, ?_, ?_⟩
  · have hE1 := eigenColumns_assign ext hf.modelspace hf.rho _ hWF hBrho hEig _ _ r1 hB h1
    refine Reorder_inv (fun Cm Oc => EigenColumns hf.modelspace.GetNumberOrbits hf.rho Cm Oc)
      fuel hf.modelspace.GetNumberOrbits hf.Hbare_OneBodyChannels ?_ ?_ r1.1 r1.2 r2 hE1 h2
    · intro orbvec Cm Oc i j horb hP hi hj _
      obtain ⟨hin, hjn⟩ := swap_index_lt hf.modelspace _ hWF orbvec horb i j hi hj
      exact eigenColumns_swap _ hf.rho Cm Oc i j hin hjn hP
    · intro Cm Oc i hP
      exact eigenColumns_negCol _ hf.rho Cm Oc i hP
  · refine Reorder_inv (fun _ Oc => (Multiset.range hf.modelspace.GetNumberOrbits).map Oc
        = (Multiset.range hf.modelspace.GetNumberOrbits).map r1.2)
      fuel hf.modelspace.GetNumberOrbits hf.Hbare_OneBodyChannels ?_ ?_ r1.1 r1.2 r2 rfl h2
    · intro orbvec Cm Oc i j horb hP hi hj _
      obtain ⟨hin, hjn⟩ := swap_index_lt hf.modelspace _ hWF orbvec horb i j hi hj
      rw [occ_multiset_swap _ Oc i j hin hjn, hP]
    · intro _ _ _ hP
      exact hP
  · intro s i j
    unfold swapStep
    split_ifs
    · right; exact ⟨rfl, rfl⟩
    · left; rfl

lemma getD_set_orbit {α : Type} (l : List α) (i j : Nat) (a d : α) :
    (l.set i a).getD j d = if i = j ∧ i < l.length then a else l.getD j d := by
  simp only [List.getD_eq_getElem?_getD, List.getElem?_set]
  by_cases hij : i = j
  · subst hij
    by_cases hi : i < l.length
    · simp [hi]
    · simp [hi, List.getElem?_eq_none (not_lt.mp hi)]
  · simp [hij]

lemma setOccNat_numberOrbits (ms : ModelSpace K) (i : Nat) (v : K) :
    (ms.setOccNat i v).GetNumberOrbits = ms.GetNumberOrbits := by
  simp [ModelSpace.setOccNat, ModelSpace.GetNumberOrbits]

lemma setOccNat_occ_nat (ms : ModelSpace K) (i j : Nat) (v : K)
    (hj : j < ms.GetNumberOrbits) :
    ((ms.setOccNat i v).GetOrbit j).occ_nat
      = if i = j then v else (ms.GetOrbit j).occ_nat := by
  simp only [ModelSpace.setOccNat, ModelSpace.GetOrbit, getD_set_orbit]
  by_cases hij : i = j
  · subst hij
    have : i < ms.Orbits.length := hj
    simp [this]
  · simp [hij]

/-- Effect of the loop `for (auto i : all_orbits) oi.occ_nat = std::abs(Occ(i))`. -/
lemma occ_nat_loop (Occ : Vec K) (L : List Nat) : ∀ (ms : ModelSpace K),
    (L.foldl (fun ms i => ms.setOccNat i |Occ i|) ms).GetNumberOrbits = ms.GetNumberOrbits ∧
    ∀ j, j < ms.GetNumberOrbits →
      ((L.foldl (fun ms i => ms.setOccNat i |Occ i|) ms).GetOrbit j).occ_nat
        = if j ∈ L then |Occ j| else (ms.GetOrbit j).occ_nat := by
  induction L with
  | nil => intro ms; exact ⟨rfl, fun j _ => by simp⟩
  | cons x t ih =>
    intro ms
    rw [List.foldl_cons]
    obtain ⟨h1, h2⟩ := ih (ms.setOccNat x |Occ x|)
    rw [setOccNat_numberOrbits] at h1 h2
    refine ⟨h1, fun j hj => ?_⟩
    rw [h2 j hj, setOccNat_occ_nat ms x j _ hj]
    by_cases hjt : j ∈ t
    · simp [hjt]
    · by_cases hxj : x = j
      · subst hxj; simp
      · have : j ∉ x :: t := by
          simp only [List.mem_cons, not_or]
          exact ⟨fun h => hxj h.symm, hjt⟩
        simp [hjt, hxj, this]

/-- Value of the first part of `GetNaturalOrbitals` once `DiagonalizeRho` has returned. -/
lemma head_of_diagonalized (ext : External K) (fuel : Nat) (hf : HFMBPT K) (H : Operator K)
    (hf3 : HFMBPT K)
    (h3 : HFMBPT.DiagonalizeRho ext fuel
      (HFMBPT.GetDensityMatrix ext { hf with rho := matZeros, Occ := fun _ => 0 } H)
        = Except.ok hf3) :
    HFMBPT.GetNaturalOrbitals_head ext fuel hf H
      = if |AfromTr hf3.modelspace hf3.rho - (hf.modelspace.TargetMass : K)| > 1 / 100000000
        then Except.error Fatal.mass
        else Except.ok { hf3 with
          C_HO2NAT := matMul hf.modelspace.GetNumberOrbits hf3.C hf3.C_HF2NAT
          modelspace := hf3.modelspace.all_orbits.foldl
            (fun ms i => ms.setOccNat i |hf3.Occ i|) hf3.modelspace } := by
  unfold HFMBPT.GetNaturalOrbitals_head
  simp only [h3]

/-- C2 (as amended). Provided `DiagonalizeRho` returns (the eigen-solver succeeds on every
channel block of the density matrix and enough passes are allowed), the first part of
`GetNaturalOrbitals` takes the mass fatal path if and only if
`|sum_i rho(i,i)*(j2_i+1) - A| > 1e-8`; when the difference is at most `1e-8` it returns
with `C_HO2NAT = C * C_HF2NAT` and `occ_nat = |Occ(i)|` on every orbit. -/
theorem C2_mass_check (ext : External K) (fuel : Nat) (hf : HFMBPT K) (H : Operator K)
    (hsolve : ∀ ch ∈ hf.Hbare_OneBodyChannels,
      (ext.eig_sym ch.length (submat
        (HFMBPT.GetDensityMatrix ext { hf with rho := matZeros, Occ := fun _ => 0 } H).rho
        ch ch)).isSome)
    (hfuel : ∀ ch ∈ hf.Hbare_OneBodyChannels, (ch.length - 1 + 1) ^ (ch.length - 1) < fuel) :
    (HFMBPT.GetNaturalOrbitals_head ext fuel hf H = Except.error Fatal.mass ↔
      |AfromTr hf.modelspace
          (HFMBPT.GetDensityMatrix ext { hf with rho := matZeros, Occ := fun _ => 0 } H).rho
        - (hf.modelspace.TargetMass : K)| > 1 / 100000000) ∧
    (¬ |AfromTr hf.modelspace
          (HFMBPT.GetDensityMatrix ext { hf with rho := matZeros, Occ := fun _ => 0 } H).rho
        - (hf.modelspace.TargetMass : K)| > 1 / 100000000 →
      ∃ hf3 hf4, HFMBPT.DiagonalizeRho ext fuel
          (HFMBPT.GetDensityMatrix ext { hf with rho := matZeros, Occ := fun _ => 0 } H)
          = Except.ok hf3 ∧
        HFMBPT.GetNaturalOrbitals_head ext fuel hf H = Except.ok hf4 ∧
        hf4.C_HO2NAT = matMul hf.modelspace.GetNumberOrbits hf.C hf3.C_HF2NAT ∧
        ∀ i ∈ hf.modelspace.all_orbits, i < hf.modelspace.GetNumberOrbits →
          (hf4.modelspace.GetOrbit i).occ_nat = |hf3.Occ i|) := by
  obtain ⟨r1, r2, _, _, h3⟩ := DiagonalizeRho_ok ext fuel
    (HFMBPT.GetDensityMatrix ext { hf with rho := matZeros, Occ := fun _ => 0 } H) hsolve hfuel
  have key := head_of_diagonalized ext fuel hf H _ h3
  constructor
  · rw [key]
    constructor
    · intro h
      split_ifs at h with hcond
      exact hcond
    · intro h
      rw [if_pos]
      exact h
  · intro hc
    refine ⟨_, _, h3, key.trans (if_neg ?_), rfl, ?_⟩
    · exact hc
    intro i hi hin
    have := (occ_nat_loop r2.2 hf.modelspace.all_orbits hf.modelspace).2 i hin
    rw [if_pos hi] at this
    exact this

lemma blockDiag_of_diagonal (ms : ModelSpace K) (A : Mat K) (h : ∀ i j, i ≠ j → A i j = 0) :
    BlockDiag ms A := by
  intro i j _ _ hij
  exact h i j (fun hh => hij (by rw [hh]))

/-- `DiagonalizeRho` takes its fatal path when the eigen-solver fails on the first
channel. -/
lemma DiagonalizeRho_fail (ext : External K) (fuel : Nat) (hf : HFMBPT K)
    (ch : List Nat) (t : List (List Nat)) (hch : hf.Hbare_OneBodyChannels = ch :: t)
    (hfail : ext.eig_sym ch.length (submat hf.rho ch ch) = none) :
    HFMBPT.DiagonalizeRho ext fuel hf = Except.error Fatal.diagonalization := by
  unfold HFMBPT.DiagonalizeRho
  have : diagonalizeChannels ext hf.rho hf.Hbare_OneBodyChannels hf.C_HF2NAT hf.Occ = none := by
    unfold diagonalizeChannels
    rw [hch, List.foldl_cons, Option.some_bind]
    have h1 : diagonalizeChannel ext hf.rho ch hf.C_HF2NAT hf.Occ = none := by
      unfold diagonalizeChannel
      dsimp only
      rw [hfail]
    rw [h1, foldl_bind_none]
  rw [this]

/-- A fatal path of `DiagonalizeRho` is the outcome of `GetNaturalOrbitals`. -/
lemma head_of_fatal (ext : External K) (fuel : Nat) (hf : HFMBPT K) (H : Operator K)
    (e : Fatal)
    (h3 : HFMBPT.DiagonalizeRho ext fuel
      (HFMBPT.GetDensityMatrix ext { hf with rho := matZeros, Occ := fun _ => 0 } H)
        = Except.error e) :
    HFMBPT.GetNaturalOrbitals_head ext fuel hf H = Except.error e := by
  unfold HFMBPT.GetNaturalOrbitals_head
  simp only [h3]

lemma exMS4_channelsWF : OneBodyChannelsWF exMS4 [[0, 2], [1, 3]] := by
  refine ⟨?_, by decide, ?_⟩
  · intro ch hch
    have h2 : ch = [0, 2] ∨ ch = [1, 3] := by simpa using hch
    rcases h2 with rfl | rfl
    · refine ⟨by decide, by decide, by decide, by decide, ?_⟩
      intro a ha b hb hkey
      have hb4 : b < 4 := hb
      have ha2 : a = 0 ∨ a = 2 := by simpa using ha
      rcases ha2 with rfl | rfl <;> interval_cases b <;> first | decide | exact absurd hkey (by decide)
    · refine ⟨by decide, by decide, by decide, by decide, ?_⟩
      intro a ha b hb hkey
      have hb4 : b < 4 := hb
      have ha2 : a = 1 ∨ a = 3 := by simpa using ha
      rcases ha2 with rfl | rfl <;> interval_cases b <;> first | decide | exact absurd hkey (by decide)
  · intro i hi
    have hi4 : i < 4 := hi
    interval_cases i
    · exact ⟨[0, 2], by decide, by decide⟩
    · exact ⟨[1, 3], by decide, by decide⟩
    · exact ⟨[0, 2], by decide, by decide⟩
    · exact ⟨[1, 3], by decide, by decide⟩

lemma exEigDiag_ortho : EigOrthoSpec exExtDiag := by
  intro m A eig vec _ h a b ha hb
  have h' : exEigDiag m A = some (eig, vec) := h
  unfold exEigDiag at h'
  split_ifs at h' with hd
  obtain ⟨_, rfl⟩ := Prod.mk.inj (Option.some.inj h')
  rw [Finset.sum_eq_single a]
  · by_cases hab : a = b
    · subst hab; simp [matEye]
    · simp [matEye, hab]
  · intro r _ hr
    simp [matEye, hr]
  · intro hna
    exact absurd (Finset.mem_range.mpr ha) hna

lemma exEigDiag_eigvec (rho : Mat ℚ) (channels : List (List Nat)) :
    EigVecOnChannels exExtDiag rho channels := by
  intro ch _ eig vec h r c hr hc
  have h' : exEigDiag ch.length (submat rho ch ch) = some (eig, vec) := h
  unfold exEigDiag at h'
  split_ifs at h' with hd
  obtain ⟨rfl, rfl⟩ := Prod.mk.inj (Option.some.inj h')
  rw [Finset.sum_eq_single c]
  · by_cases hrc : r = c
    · subst hrc; simp [matEye]
    · simp only [matEye, hrc, if_false, mul_zero, if_true, mul_one]
      exact hd r (List.mem_range.mpr hr) c (List.mem_range.mpr hc) hrc
  · intro s _ hs
    simp [matEye, hs]
  · intro hnc
    exact absurd (Finset.mem_range.mpr hc) hnc

lemma exHF4d_solve : ∀ ch ∈ exHF4d.Hbare_OneBodyChannels,
    (exExtDiag.eig_sym ch.length (submat exHF4d.rho ch ch)).isSome := by
  intro ch hch
  have h2 : ch = [0, 2] ∨ ch = [1, 3] := by simpa [exHF4d, exHF4] using hch
  have hdiag : ∀ r ∈ List.range ch.length, ∀ c ∈ List.range ch.length, r ≠ c →
      submat exHF4d.rho ch ch r c = 0 := by
    intro r hr c hc hrc
    rcases h2 with rfl | rfl
    · have hr2 : r < 2 := List.mem_range.mp hr
      have hc2 : c < 2 := List.mem_range.mp hc
      interval_cases r <;> interval_cases c <;>
        first | exact absurd rfl hrc | simp [submat, exHF4d, occDiag]
    · have hr2 : r < 2 := List.mem_range.mp hr
      have hc2 : c < 2 := List.mem_range.mp hc
      interval_cases r <;> interval_cases c <;>
        first | exact absurd rfl hrc | simp [submat, exHF4d, occDiag]
  show (exEigDiag ch.length (submat exHF4d.rho ch ch)).isSome
  unfold exEigDiag
  rw [if_pos hdiag]
  rfl

lemma exHF4_fuel : ∀ ch ∈ exHF4.Hbare_OneBodyChannels,
    (ch.length - 1 + 1) ^ (ch.length - 1) < 3 := by decide

/-- C7 exercised on the model space with two channels of two orbits, from the identity. -/
theorem C7_rotation_block_diagonal_witness :
    ∃ hf2, HFMBPT.DiagonalizeRho exExtDiag 3 exHF4d = Except.ok hf2 ∧
      BlockDiag exMS4 hf2.C_HF2NAT :=
  (C7_rotation_block_diagonal exExtDiag 3 exHF4d exMS4_channelsWF
    (blockDiag_of_diagonal exMS4 matEye (fun i j hij => by simp [matEye, hij]))
    exHF4d_solve exHF4_fuel).1

/-- C6 exercised on the model space with two channels of two orbits. -/
theorem C6_rotation_orthogonal_witness :
    ∃ hf2, HFMBPT.DiagonalizeRho exExtDiag 3 exHF4d = Except.ok hf2 ∧
      OrthoCh [[0, 2], [1, 3]] hf2.C_HF2NAT :=
  C6_rotation_orthogonal exExtDiag 3 exHF4d exMS4_channelsWF
    (blockDiag_of_diagonal exMS4 matEye (fun i j hij => by simp [matEye, hij]))
    (fun i j => by
      show occDiag exMS4 [0, 1] i j = occDiag exMS4 [0, 1] j i
      unfold occDiag
      by_cases hij : i = j
      · subst hij; rfl
      · simp [hij, Ne.symm hij])
    exEigDiag_ortho exHF4d_solve exHF4_fuel

/-- C8 exercised on the model space with two channels of two orbits. -/
theorem C8_eigen_columns_witness :
    ∃ hf2, HFMBPT.DiagonalizeRho exExtDiag 3 exHF4d = Except.ok hf2 ∧
      EigenColumns 4 exHF4d.rho hf2.C_HF2NAT hf2.Occ := by
  obtain ⟨hf2, r1, h1, _, h3, _⟩ := C8_eigen_columns exExtDiag 3 exHF4d exMS4_channelsWF
    (blockDiag_of_diagonal exMS4 matEye (fun i j hij => by simp [matEye, hij]))
    (blockDiag_of_diagonal exMS4 _ (fun i j hij => by
      show occDiag exMS4 [0, 1] i j = 0
      simp [occDiag, hij]))
    (exEigDiag_eigvec _ _) exHF4d_solve exHF4_fuel
  exact ⟨hf2, h1, h3⟩

/-- C2 (as amended) exercised with an eigen-solver that always returns. -/
theorem C2_mass_check_witness :
    (HFMBPT.GetNaturalOrbitals_head exExtTotal 3 exHF4 exH4 = Except.error Fatal.mass ↔
      |AfromTr exMS4
          (HFMBPT.GetDensityMatrix exExtTotal
            { exHF4 with rho := matZeros, Occ := fun _ => 0 } exH4).rho
        - ((4 : Int) : ℚ)| > 1 / 100000000) :=
  (C2_mass_check exExtTotal 3 exHF4 exH4 (fun _ _ => rfl) exHF4_fuel).1

/-- C2 as stated fails when the eigen-solver reports failure: with target mass 6 the
weighted trace 4 is off by 2, yet `GetNaturalOrbitals` terminates in `DiagonalizeRho` (line
159) and never reaches the mass check. -/
theorem C2_counterexample :
    ¬ (HFMBPT.GetNaturalOrbitals_head exExt 3 exHF4t exH4 = Except.error Fatal.mass ↔
      |AfromTr exHF4t.modelspace
          (HFMBPT.GetDensityMatrix exExt
            { exHF4t with rho := matZeros, Occ := fun _ => 0 } exH4).rho
        - ((exHF4t.modelspace.TargetMass : Int) : ℚ)| > 1 / 100000000) := by
  have hL : HFMBPT.GetNaturalOrbitals_head exExt 3 exHF4t exH4
      = Except.error Fatal.diagonalization :=
    head_of_fatal exExt 3 exHF4t exH4 _
      (DiagonalizeRho_fail exExt 3 _ [0, 2] [[1, 3]] rfl rfl)
  have hR : AfromTr exHF4t.modelspace
      (HFMBPT.GetDensityMatrix exExt
        { exHF4t with rho := matZeros, Occ := fun _ => 0 } exH4).rho = 4 := by
    have h := AfromTr_filling exExt { exHF4t with Occ := fun _ => 0 } exH4 exMS4_integerFilling
    have h4 : exHF4t.modelspace.GetNumberOrbits = 4 := rfl
    rw [show ({ exHF4t with Occ := fun _ => 0 } : HFMBPT ℚ).modelspace = exHF4t.modelspace
      from rfl, h4] at h
    refine Eq.trans h ?_
    simp [Finset.sum_range_succ, ModelSpace.GetOrbit, exHF4t, exHF4, exMS4]
    norm_num
  intro hiff
  have := hiff.mpr (by
    rw [hR]
    have : ((exHF4t.modelspace.TargetMass : Int) : ℚ) = 6 := by
      simp [exHF4t]
    rw [this]
    norm_num)
  rw [hL] at this
  cases this

end DiagonalizerTheorems

section TransformContract
variable {K : Type} [LinearOrderedField K]

/-- C11. One-body part of the basis transformation.  For every operator, the one-body matrix
of the operator returned by `TransformHFToNATBasis` is `C_HF2NAT^T * OneBody * C_HF2NAT`
(entry `(i,j)` is `sum_b (sum_a C(a,i) * O(a,b)) * C(b,j)` over the orbits), that of
`TransformHOToNATBasis` is `C_HO2NAT^T * OneBody * C_HO2NAT`, and the zero-body term is the
one of the argument.  Both functions write to their local copy `OpNAT` only, which is why
they are functions of the engine state and the operator that return the new operator. -/
theorem C11_onebody_transform (ext : External K) (hf : HFMBPT K) (Op : Operator K) :
    (∀ i j, (HFMBPT.TransformHFToNATBasis ext hf Op).OneBody i j
        = ∑ b ∈ range hf.modelspace.GetNumberOrbits,
            (∑ a ∈ range hf.modelspace.GetNumberOrbits,
              hf.C_HF2NAT a i * Op.OneBody a b) * hf.C_HF2NAT b j)
    ∧ (HFMBPT.TransformHFToNATBasis ext hf Op).OneBody
        = matMul hf.modelspace.GetNumberOrbits
            (matMul hf.modelspace.GetNumberOrbits (matT hf.C_HF2NAT) Op.OneBody) hf.C_HF2NAT
    ∧ (HFMBPT.TransformHOToNATBasis ext hf Op).OneBody
        = matMul hf.modelspace.GetNumberOrbits
            (matMul hf.modelspace.GetNumberOrbits (matT hf.C_HO2NAT) Op.OneBody) hf.C_HO2NAT
    ∧ (HFMBPT.TransformHFToNATBasis ext hf Op).ZeroBody = Op.ZeroBody
    ∧ (HFMBPT.TransformHOToNATBasis ext hf Op).ZeroBody = Op.ZeroBody := by
  refine ⟨fun i j => rfl, rfl, rfl, rfl, rfl⟩

/-- C12. The two ways of obtaining the bra-side matrix agree: for every channel and every
rotation matrix, the matrix `Dbra` built entry by entry in the branch `ch_bra != ch_ket`
is the transpose of the matrix that the `Dket` formula gives on the bra channel, so that
in both branches the output block is `Dket(bra channel)^T * IN * Dket(ket channel)`, for
`TransformHFToNATBasis` and for `TransformHOToNATBasis`. -/
theorem C12_bra_transform (ext : External K) (hf : HFMBPT K) (Cmat : Mat K)
    (tbc : TwoBodyChannel) (ch_bra ch_ket : Nat) (IN : Block K) (Op : Operator K) :
    (∀ i j, DbraEntry ext Cmat tbc i j = DbraSpec ext Cmat tbc i j)
    ∧ transformBlock ext hf.modelspace Cmat ch_bra ch_ket IN
        = transformBlockSpec ext hf.modelspace Cmat ch_bra ch_ket IN
    ∧ (∀ ch_bra ch_ket, (ch_bra, ch_ket) ∈ Op.MatElKeys →
        (HFMBPT.TransformHFToNATBasis ext hf Op).MatEl ch_bra ch_ket
          = transformBlockSpec ext hf.modelspace hf.C_HF2NAT ch_bra ch_ket
              (Op.MatEl ch_bra ch_ket))
    ∧ (∀ ch_bra ch_ket, (ch_bra, ch_ket) ∈ Op.MatElKeys →
        (HFMBPT.TransformHOToNATBasis ext hf Op).MatEl ch_bra ch_ket
          = transformBlockSpec ext hf.modelspace hf.C_HO2NAT ch_bra ch_ket
              (Op.MatEl ch_bra ch_ket)) := by
  have h1 : ∀ (C : Mat K) (t : TwoBodyChannel), DbraEntry ext C t = DbraSpec ext C t := by
    intro C t; funext i j; rfl
  have h2 : ∀ (C : Mat K) (a b : Nat) (B : Block K),
      transformBlock ext hf.modelspace C a b B = transformBlockSpec ext hf.modelspace C a b B := by
    intro C a b B
    unfold transformBlock transformBlockSpec
    by_cases h : a = b
    · subst h
      simp only [if_true, DbraSpec]
    · simp only [if_neg h, h1]
  refine ⟨fun i j => by rw [h1], h2 _ _ _ _, ?_, ?_⟩
  · intro a b hab
    simp only [HFMBPT.TransformHFToNATBasis, transformOperator, if_pos hab, h2]
  · intro a b hab
    simp only [HFMBPT.TransformHOToNATBasis, transformOperator, if_pos hab, h2]

end TransformContract

section BackfillTheorems
variable {K : Type} [LinearOrderedField K]

lemma backfillStep_shift (ext : External K) (ms : ModelSpace K) (skip : Int → Bool)
    (target : Int) (o : Nat) (os : List Nat) (x : K) (s : List K × K × Bool) (i : Nat) :
    backfillStep ext ms skip target (o :: os) (x :: s.1, s.2.1, s.2.2) (i + 1)
      = (x :: (backfillStep ext ms skip target os s i).1,
          (backfillStep ext ms skip target os s i).2.1,
          (backfillStep ext ms skip target os s i).2.2) := by
  obtain ⟨occ, c, b⟩ := s
  unfold backfillStep
  simp only [List.getD_cons_succ, List.set_cons_succ]
  split_ifs <;> rfl

lemma backfillFold_shift (ext : External K) (ms : ModelSpace K) (skip : Int → Bool)
    (target : Int) (o : Nat) (os : List Nat) (x : K) (l : List Nat) :
    ∀ s : List K × K × Bool,
    (l.map Nat.succ).foldl (backfillStep ext ms skip target (o :: os)) (x :: s.1, s.2.1, s.2.2)
      = (x :: (l.foldl (backfillStep ext ms skip target os) s).1,
          (l.foldl (backfillStep ext ms skip target os) s).2.1,
          (l.foldl (backfillStep ext ms skip target os) s).2.2) := by
  induction l with
  | nil => intro s; rfl
  | cons i t ih =>
    intro s
    simp only [List.map_cons, List.foldl_cons]
    have h := backfillStep_shift ext ms skip target o os x s i
    rw [show Nat.succ i = i + 1 from rfl, h]
    exact ih _

/-- The pass over indices agrees with the pass over the list of pairs. -/
lemma backfillPass_sim (ext : External K) (ms : ModelSpace K) (skip : Int → Bool)
    (target : Int) : ∀ (orbs : List Nat) (occ : List K) (c : K) (b : Bool),
    occ.length = orbs.length →
    ((List.range orbs.length).foldl (backfillStep ext ms skip target orbs) (occ, c, b)).1.length
        = occ.length ∧
    List.zip orbs
        ((List.range orbs.length).foldl (backfillStep ext ms skip target orbs) (occ, c, b)).1
      = (backfillPassP ext ms skip target (List.zip orbs occ) (c, b)).1 ∧
    ((List.range orbs.length).foldl (backfillStep ext ms skip target orbs) (occ, c, b)).2
      = (backfillPassP ext ms skip target (List.zip orbs occ) (c, b)).2 := by
  intro orbs
  induction orbs with
  | nil =>
    intro occ c b hlen
    simp [backfillPassP]
  | cons o os ih =>
    intro occ c b hlen
    cases occ with
    | nil => simp at hlen
    | cons h hs =>
      have hlen2 : hs.length = os.length := by simpa using hlen
      rw [List.length_cons, List.range_succ_eq_map, List.foldl_cons]
      have h0 : backfillStep ext ms skip target (o :: os) (h :: hs, c, b) 0
          = ((backfillStepP ext ms skip target (o, h) (c, b)).1.2 :: hs,
              (backfillStepP ext ms skip target (o, h) (c, b)).2.1,
              (backfillStepP ext ms skip target (o, h) (c, b)).2.2) := by
        unfold backfillStep backfillStepP
        simp only [List.getD_cons_zero, List.set_cons_zero]
        split_ifs <;> rfl
      have hfst : (backfillStepP ext ms skip target (o, h) (c, b)).1.1 = o := by
        unfold backfillStepP
        dsimp only
        split_ifs <;> rfl
      rw [h0]
      have hs2 := backfillFold_shift ext ms skip target o os
        (backfillStepP ext ms skip target (o, h) (c, b)).1.2 (List.range os.length)
        (hs, (backfillStepP ext ms skip target (o, h) (c, b)).2.1,
          (backfillStepP ext ms skip target (o, h) (c, b)).2.2)
      rw [hs2]
      obtain ⟨i1, i2, i3⟩ := ih hs (backfillStepP ext ms skip target (o, h) (c, b)).2.1
        (backfillStepP ext ms skip target (o, h) (c, b)).2.2 hlen2
      refine ⟨by simp [i1], ?_, ?_⟩
      · simp only [List.zip_cons_cons, backfillPassP]
        rw [i2]
        congr 1
        exact Prod.ext hfst.symm rfl
      · simp only [List.zip_cons_cons, backfillPassP]
        exact i3

lemma backfillStepP_skip (ext : External K) (ms : ModelSpace K) (skip : Int → Bool)
    (target : Int) (p : Nat × K) (c : K × Bool)
    (h : c.2 = true ∨ skip (ms.GetOrbit p.1).tz2 = true) :
    backfillStepP ext ms skip target p c = (p, c) := by
  unfold backfillStepP
  dsimp only
  rcases h with h | h
  · rw [if_pos h]
  · rw [if_pos h]; simp

lemma backfillStepP_act (ext : External K) (ms : ModelSpace K) (skip : Int → Bool)
    (target : Int) (p : Nat × K) (c : K × Bool)
    (hb : c.2 = false) (hs : skip (ms.GetOrbit p.1).tz2 = false) :
    backfillStepP ext ms skip target p c
      = ((p.1, p.2 + occIncrease ms target p c.1),
          (c.1 + occIncrease ms target p c.1 * orbW ms p,
            decide ((target : K) - (c.1 + occIncrease ms target p c.1 * orbW ms p)
              < ext.OCC_CUT))) := by
  unfold backfillStepP
  dsimp only
  rw [if_neg (by simp [hb]), if_neg (by simp [hs])]
  rfl

lemma orbW_eq (ms : ModelSpace K) (p : Nat × K) :
    (((ms.GetOrbit p.1).j2 : K) + 1) = orbW ms p := by
  unfold orbW; push_cast; rfl

lemma orbW_ge_one (ms : ModelSpace K) (p : Nat × K) (h : 0 ≤ (ms.GetOrbit p.1).j2) :
    1 ≤ orbW ms p := by
  unfold orbW
  have : (1 : Int) ≤ (ms.GetOrbit p.1).j2 + 1 := by omega
  exact_mod_cast this

lemma occIncrease_le (ms : ModelSpace K) (target : Int) (p : Nat × K) (c : K)
    (hw : 0 < orbW ms p) :
    occIncrease ms target p c ≤ 5 / 1000 ∧
    occIncrease ms target p c * orbW ms p ≤ (target : K) - c ∧
    occIncrease ms target p c ≤ 1 - p.2 := by
  unfold occIncrease
  rw [orbW_eq]
  refine ⟨min_le_left _ _, ?_, le_trans (min_le_right _ _) (min_le_right _ _)⟩
  have h1 : min (5 / 1000 : K) (min (((target : K) - c) / orbW ms p) (1 - p.2))
      ≤ ((target : K) - c) / orbW ms p := le_trans (min_le_right _ _) (min_le_left _ _)
  calc _ ≤ ((target : K) - c) / orbW ms p * orbW ms p :=
        mul_le_mul_of_nonneg_right h1 hw.le
    _ = (target : K) - c := by field_simp

lemma occIncrease_cases (ms : ModelSpace K) (target : Int) (p : Nat × K) (c : K) :
    occIncrease ms target p c = 5 / 1000 ∨
    occIncrease ms target p c = ((target : K) - c) / orbW ms p ∨
    occIncrease ms target p c = 1 - p.2 := by
  unfold occIncrease
  rw [orbW_eq]
  rcases min_choice (5 / 1000 : K) (min (((target : K) - c) / orbW ms p) (1 - p.2)) with h | h
  · left; exact h
  · rw [h]
    rcases min_choice (((target : K) - c) / orbW ms p) (1 - p.2) with h2 | h2
    · right; left; exact h2
    · right; right; exact h2

lemma occIncrease_nonneg (ms : ModelSpace K) (target : Int) (p : Nat × K) (c : K)
    (hw : 0 < orbW ms p) (hd : 0 ≤ (target : K) - c) (hh : p.2 ≤ 1) :
    0 ≤ occIncrease ms target p c := by
  unfold occIncrease
  rw [orbW_eq]
  refine le_min (by norm_num) (le_min (div_nonneg hd hw.le) (by linarith))

lemma occIncrease_pos (ms : ModelSpace K) (target : Int) (p : Nat × K) (c : K)
    (hw : 0 < orbW ms p) (hd : 0 < (target : K) - c) (hh : p.2 < 1) :
    0 < occIncrease ms target p c := by
  unfold occIncrease
  rw [orbW_eq]
  refine lt_min (by norm_num) (lt_min (div_pos hd hw) (by linarith))

lemma occIncrease_sat (ms : ModelSpace K) (target : Int) (p : Nat × K) (c : K)
    (hw : 0 < orbW ms p) (hd : 0 ≤ (target : K) - c) (hh : p.2 = 1) :
    occIncrease ms target p c = 0 := by
  apply le_antisymm
  · have := (occIncrease_le ms target p c hw).2.2
    rw [hh] at this; linarith
  · exact occIncrease_nonneg ms target p c hw hd hh.le

lemma backfillPassP_cons (ext : External K) (ms : ModelSpace K) (skip : Int → Bool)
    (target : Int) (p : Nat × K) (t : List (Nat × K)) (c : K × Bool) :
    backfillPassP ext ms skip target (p :: t) c
      = ((backfillStepP ext ms skip target p c).1
            :: (backfillPassP ext ms skip target t (backfillStepP ext ms skip target p c).2).1,
          (backfillPassP ext ms skip target t (backfillStepP ext ms skip target p c).2).2) := rfl

lemma backfillPassP_flag (ext : External K) (ms : ModelSpace K) (skip : Int → Bool)
    (target : Int) (l : List (Nat × K)) (c : K × Bool) (hb : c.2 = true) :
    backfillPassP ext ms skip target l c = (l, c) := by
  induction l with
  | nil => rfl
  | cons p t ih =>
    rw [backfillPassP_cons, backfillStepP_skip ext ms skip target p c (Or.inl hb), ih]

lemma backfillPassP_fst (ext : External K) (ms : ModelSpace K) (skip : Int → Bool)
    (target : Int) (l : List (Nat × K)) : ∀ c : K × Bool,
    (backfillPassP ext ms skip target l c).1.map Prod.fst = l.map Prod.fst := by
  induction l with
  | nil => intro c; rfl
  | cons p t ih =>
    intro c
    rw [backfillPassP_cons]
    simp only [List.map_cons, ih]
    congr 1
    unfold backfillStepP
    dsimp only
    split_ifs <;> rfl

/-- A pass adds to the running count what it adds to the weighted occupations. -/
lemma backfillPassP_count (ext : External K) (ms : ModelSpace K) (skip : Int → Bool)
    (target : Int) (l : List (Nat × K)) : ∀ c : K × Bool,
    (backfillPassP ext ms skip target l c).2.1
        - countP ms skip (backfillPassP ext ms skip target l c).1
      = c.1 - countP ms skip l := by
  induction l with
  | nil => intro c; rfl
  | cons p t ih =>
    intro c
    rw [backfillPassP_cons]
    have h := ih (backfillStepP ext ms skip target p c).2
    by_cases hs : c.2 = true ∨ skip (ms.GetOrbit p.1).tz2 = true
    · rw [backfillStepP_skip ext ms skip target p c hs] at h ⊢
      simp only [countP, List.map_cons, List.sum_cons] at h ⊢
      linarith
    · push_neg at hs
      have hb : c.2 = false := by simpa using hs.1
      have hk : skip (ms.GetOrbit p.1).tz2 = false := by simpa using hs.2
      rw [backfillStepP_act ext ms skip target p c hb hk] at h ⊢
      simp only [countP, List.map_cons, List.sum_cons, hk] at h ⊢
      have e : orbW ms (p.1, p.2 + occIncrease ms target p c.1) = orbW ms p := rfl
      simp only [e, Bool.false_eq_true, if_false] at h ⊢
      linarith

/-- A pass leaves the entries it skips as they are. -/
lemma backfillPassP_skipped (ext : External K) (ms : ModelSpace K) (skip : Int → Bool)
    (target : Int) (l : List (Nat × K)) : ∀ c : K × Bool,
    (backfillPassP ext ms skip target l c).1.filter (fun p => skip (ms.GetOrbit p.1).tz2)
      = l.filter (fun p => skip (ms.GetOrbit p.1).tz2) := by
  induction l with
  | nil => intro c; rfl
  | cons p t ih =>
    intro c
    rw [backfillPassP_cons]
    by_cases hs : c.2 = true ∨ skip (ms.GetOrbit p.1).tz2 = true
    · rw [backfillStepP_skip ext ms skip target p c hs]
      simp only [List.filter_cons, ih]
    · push_neg at hs
      have hb : c.2 = false := by simpa using hs.1
      have hk : skip (ms.GetOrbit p.1).tz2 = false := by simpa using hs.2
      rw [backfillStepP_act ext ms skip target p c hb hk]
      simp only [List.filter_cons, ih, hk]
      simp

/-- The entries a pass works on, the running count and the flag are those of the pass run
on the list without the skipped entries. -/
lemma backfillPassP_active (ext : External K) (ms : ModelSpace K) (skip : Int → Bool)
    (target : Int) (l : List (Nat × K)) : ∀ c : K × Bool,
    (backfillPassP ext ms skip target l c).1.filter (fun p => !skip (ms.GetOrbit p.1).tz2)
      = (backfillPassP ext ms skip target
          (l.filter (fun p => !skip (ms.GetOrbit p.1).tz2)) c).1 ∧
    (backfillPassP ext ms skip target l c).2
      = (backfillPassP ext ms skip target
          (l.filter (fun p => !skip (ms.GetOrbit p.1).tz2)) c).2 := by
  induction l with
  | nil => intro c; exact ⟨rfl, rfl⟩
  | cons p t ih =>
    intro c
    rw [backfillPassP_cons]
    by_cases hk : skip (ms.GetOrbit p.1).tz2 = true
    · rw [backfillStepP_skip ext ms skip target p c (Or.inr hk)]
      simp only [List.filter_cons, hk, Bool.not_true, Bool.false_eq_true, if_false]
      exact ih c
    · have hk2 : skip (ms.GetOrbit p.1).tz2 = false := by simpa using hk
      have hfst : (backfillStepP ext ms skip target p c).1.1 = p.1 := by
        unfold backfillStepP
        dsimp only
        split_ifs <;> rfl
      have e1 : List.filter (fun p => !skip (ms.GetOrbit p.1).tz2) (p :: t)
          = p :: List.filter (fun p => !skip (ms.GetOrbit p.1).tz2) t := by
        simp [List.filter_cons, hk2]
      rw [e1, backfillPassP_cons]
      have e2 : List.filter (fun p => !skip (ms.GetOrbit p.1).tz2)
          ((backfillStepP ext ms skip target p c).1
            :: (backfillPassP ext ms skip target t (backfillStepP ext ms skip target p c).2).1)
          = (backfillStepP ext ms skip target p c).1
            :: List.filter (fun p => !skip (ms.GetOrbit p.1).tz2)
              (backfillPassP ext ms skip target t (backfillStepP ext ms skip target p c).2).1 := by
        simp [List.filter_cons, hfst, hk2]
      rw [e2]
      obtain ⟨i1, i2⟩ := ih (backfillStepP ext ms skip target p c).2
      exact ⟨by rw [i1], i2⟩

/-- Bounds kept by a pass that starts with a non-negative deficit: the deficit stays
non-negative, occupations above a threshold `t < 1` stay above it, occupations that are at
most 1 stay so. -/
lemma backfillPassP_bounds (ext : External K) (ms : ModelSpace K) (skip : Int → Bool)
    (target : Int) (t0 : K) (ht0 : t0 < 1) (l : List (Nat × K)) : ∀ c : K × Bool,
    (∀ p ∈ l, 0 < orbW ms p) → 0 ≤ (target : K) - c.1 →
    0 ≤ (target : K) - (backfillPassP ext ms skip target l c).2.1 ∧
    ((∀ p ∈ l, t0 < p.2) → ∀ p ∈ (backfillPassP ext ms skip target l c).1, t0 < p.2) ∧
    ((∀ p ∈ l, p.2 ≤ 1) → ∀ p ∈ (backfillPassP ext ms skip target l c).1, p.2 ≤ 1) := by
  induction l with
  | nil => intro c _ hd; exact ⟨hd, fun h => h, fun h => h⟩
  | cons p t ih =>
    intro c hw hd
    rw [backfillPassP_cons]
    have hwp : 0 < orbW ms p := hw p (List.mem_cons_self _ _)
    have hwt : ∀ q ∈ t, 0 < orbW ms q := fun q hq => hw q (List.mem_cons_of_mem _ hq)
    by_cases hs : c.2 = true ∨ skip (ms.GetOrbit p.1).tz2 = true
    · rw [backfillStepP_skip ext ms skip target p c hs]
      obtain ⟨i1, i2, i3⟩ := ih c hwt hd
      refine ⟨i1, ?_, ?_⟩
      · intro h q hq
        rcases List.mem_cons.mp hq with rfl | hq
        · exact h _ (List.mem_cons_self _ _)
        · exact i2 (fun q hq => h q (List.mem_cons_of_mem _ hq)) q hq
      · intro h q hq
        rcases List.mem_cons.mp hq with rfl | hq
        · exact h _ (List.mem_cons_self _ _)
        · exact i3 (fun q hq => h q (List.mem_cons_of_mem _ hq)) q hq
    · push_neg at hs
      have hb : c.2 = false := by simpa using hs.1
      have hk : skip (ms.GetOrbit p.1).tz2 = false := by simpa using hs.2
      rw [backfillStepP_act ext ms skip target p c hb hk]
      obtain ⟨l1, l2, l3⟩ := occIncrease_le ms target p c.1 hwp
      have hd2 : 0 ≤ (target : K) - (c.1 + occIncrease ms target p c.1 * orbW ms p) := by
        linarith
      obtain ⟨i1, i2, i3⟩ := ih (c.1 + occIncrease ms target p c.1 * orbW ms p,
        decide ((target : K) - (c.1 + occIncrease ms target p c.1 * orbW ms p) < ext.OCC_CUT))
        hwt hd2
      refine ⟨i1, ?_, ?_⟩
      · intro h q hq
        rcases List.mem_cons.mp hq with rfl | hq
        · have hp := h p (List.mem_cons_self _ _)
          show t0 < p.2 + occIncrease ms target p c.1
          rcases occIncrease_cases ms target p c.1 with e | e | e
          · rw [e]; linarith [show (0 : K) < 5 / 1000 by norm_num]
          · rw [e]; linarith [div_nonneg hd hwp.le]
          · rw [e]; linarith
        · exact i2 (fun q hq => h q (List.mem_cons_of_mem _ hq)) q hq
      · intro h q hq
        rcases List.mem_cons.mp hq with rfl | hq
        · show p.2 + occIncrease ms target p c.1 ≤ 1
          linarith
        · exact i3 (fun q hq => h q (List.mem_cons_of_mem _ hq)) q hq

lemma backfillPot_cons (ms : ModelSpace K) (skip : Int → Bool) (p : Nat × K)
    (t : List (Nat × K)) :
    backfillPot ms skip (p :: t)
      = (if skip (ms.GetOrbit p.1).tz2 then 0
          else 200 * ((1 - p.2) * orbW ms p) + (if p.2 < 1 then 1 else 0))
        + backfillPot ms skip t := by
  unfold backfillPot headroomP unsatP
  simp only [List.map_cons, List.sum_cons]
  split_ifs <;> ring

lemma headroomP_cons (ms : ModelSpace K) (skip : Int → Bool) (p : Nat × K)
    (t : List (Nat × K)) :
    headroomP ms skip (p :: t)
      = (if skip (ms.GetOrbit p.1).tz2 then 0 else (1 - p.2) * orbW ms p)
        + headroomP ms skip t := by
  unfold headroomP
  simp only [List.map_cons, List.sum_cons]

/-- In a pass that starts with a non-negative deficit on occupations that are at most 1, the
running count does not decrease and the termination measure does not increase. -/
lemma backfillPassP_mono (ext : External K) (ms : ModelSpace K) (skip : Int → Bool)
    (target : Int) (l : List (Nat × K)) : ∀ c : K × Bool,
    (∀ p ∈ l, 0 < orbW ms p) → (∀ p ∈ l, p.2 ≤ 1) → 0 ≤ (target : K) - c.1 →
    c.1 ≤ (backfillPassP ext ms skip target l c).2.1 ∧
    backfillPot ms skip (backfillPassP ext ms skip target l c).1 ≤ backfillPot ms skip l := by
  induction l with
  | nil => intro c _ _ _; exact ⟨le_refl _, le_refl _⟩
  | cons p t ih =>
    intro c hw hle hd
    rw [backfillPassP_cons]
    have hwp : 0 < orbW ms p := hw p (List.mem_cons_self _ _)
    have hwt : ∀ q ∈ t, 0 < orbW ms q := fun q hq => hw q (List.mem_cons_of_mem _ hq)
    have hlp : p.2 ≤ 1 := hle p (List.mem_cons_self _ _)
    have hlt : ∀ q ∈ t, q.2 ≤ 1 := fun q hq => hle q (List.mem_cons_of_mem _ hq)
    by_cases hs : c.2 = true ∨ skip (ms.GetOrbit p.1).tz2 = true
    · rw [backfillStepP_skip ext ms skip target p c hs]
      obtain ⟨i1, i2⟩ := ih c hwt hlt hd
      refine ⟨i1, ?_⟩
      rw [backfillPot_cons, backfillPot_cons]
      linarith
    · push_neg at hs
      have hb : c.2 = false := by simpa using hs.1
      have hk : skip (ms.GetOrbit p.1).tz2 = false := by simpa using hs.2
      rw [backfillStepP_act ext ms skip target p c hb hk]
      obtain ⟨l1, l2, l3⟩ := occIncrease_le ms target p c.1 hwp
      have hn := occIncrease_nonneg ms target p c.1 hwp hd hlp
      have hd2 : 0 ≤ (target : K) - (c.1 + occIncrease ms target p c.1 * orbW ms p) := by
        linarith
      obtain ⟨i1, i2⟩ := ih (c.1 + occIncrease ms target p c.1 * orbW ms p,
        decide ((target : K) - (c.1 + occIncrease ms target p c.1 * orbW ms p) < ext.OCC_CUT))
        hwt hlt hd2
      have hm : 0 ≤ occIncrease ms target p c.1 * orbW ms p := mul_nonneg hn hwp.le
      refine ⟨by dsimp only at i1 ⊢; linarith, ?_⟩
      rw [backfillPot_cons, backfillPot_cons]
      have e : orbW ms (p.1, p.2 + occIncrease ms target p c.1) = orbW ms p := rfl
      simp only [hk, Bool.false_eq_true, if_false, e]
      have h1 : (if p.2 + occIncrease ms target p c.1 < 1 then (1 : K) else 0)
          ≤ (if p.2 < 1 then 1 else 0) := by
        split_ifs with a b
        · exact le_refl _
        · exact absurd (by linarith) b
        · norm_num
        · exact le_refl _
      have h2 : (1 - (p.2 + occIncrease ms target p c.1)) * orbW ms p
          ≤ (1 - p.2) * orbW ms p := by nlinarith
      linarith

/-- A pass that is entered with a deficit above the cut and with headroom left raises the
running count, and either lowers the termination measure by at least 1 or closes the
deficit. -/
lemma backfillPassP_progress (ext : External K) (ms : ModelSpace K) (skip : Int → Bool)
    (target : Int) (hcut : 0 ≤ ext.OCC_CUT) (l : List (Nat × K)) : ∀ c : K × Bool,
    (∀ p ∈ l, 1 ≤ orbW ms p) → (∀ p ∈ l, p.2 ≤ 1) → c.2 = false →
    ext.OCC_CUT < (target : K) - c.1 → 0 < headroomP ms skip l →
    c.1 < (backfillPassP ext ms skip target l c).2.1 ∧
    (backfillPot ms skip (backfillPassP ext ms skip target l c).1 + 1 ≤ backfillPot ms skip l ∨
      (target : K) - (backfillPassP ext ms skip target l c).2.1 ≤ ext.OCC_CUT) := by
  induction l with
  | nil =>
    intro c _ _ _ _ hH
    simp [headroomP] at hH
  | cons p t ih =>
    intro c hw hle hb hd hH
    rw [backfillPassP_cons]
    have hwp1 : 1 ≤ orbW ms p := hw p (List.mem_cons_self _ _)
    have hwp : 0 < orbW ms p := lt_of_lt_of_le one_pos hwp1
    have hwt : ∀ q ∈ t, 1 ≤ orbW ms q := fun q hq => hw q (List.mem_cons_of_mem _ hq)
    have hwt0 : ∀ q ∈ t, 0 < orbW ms q := fun q hq => lt_of_lt_of_le one_pos (hwt q hq)
    have hlp : p.2 ≤ 1 := hle p (List.mem_cons_self _ _)
    have hlt : ∀ q ∈ t, q.2 ≤ 1 := fun q hq => hle q (List.mem_cons_of_mem _ hq)
    rw [headroomP_cons] at hH
    by_cases hk : skip (ms.GetOrbit p.1).tz2 = true
    · rw [backfillStepP_skip ext ms skip target p c (Or.inr hk)]
      rw [if_pos hk, zero_add] at hH
      obtain ⟨i1, i2⟩ := ih c hwt hlt hb hd hH
      refine ⟨i1, ?_⟩
      rw [backfillPot_cons, backfillPot_cons]
      rcases i2 with i2 | i2
      · left; linarith
      · right; exact i2
    · have hk2 : skip (ms.GetOrbit p.1).tz2 = false := by simpa using hk
      rw [backfillStepP_act ext ms skip target p c hb hk2]
      rw [if_neg hk] at hH
      obtain ⟨l1, l2, l3⟩ := occIncrease_le ms target p c.1 hwp
      have hd0 : 0 ≤ (target : K) - c.1 := by linarith
      have e : orbW ms (p.1, p.2 + occIncrease ms target p c.1) = orbW ms p := rfl
      by_cases hsat : p.2 < 1
      · have hpos := occIncrease_pos ms target p c.1 hwp (by linarith) hsat
        have hd2 : 0 ≤ (target : K) - (c.1 + occIncrease ms target p c.1 * orbW ms p) := by
          linarith
        obtain ⟨m1, m2⟩ := backfillPassP_mono ext ms skip target t
          (c.1 + occIncrease ms target p c.1 * orbW ms p,
            decide ((target : K) - (c.1 + occIncrease ms target p c.1 * orbW ms p)
              < ext.OCC_CUT)) hwt0 hlt hd2
        have hm : 0 < occIncrease ms target p c.1 * orbW ms p := mul_pos hpos hwp
        refine ⟨by dsimp only at m1 ⊢; linarith, ?_⟩
        rw [backfillPot_cons, backfillPot_cons]
        simp only [hk2, Bool.false_eq_true, if_false, e, if_pos hsat]
        rcases occIncrease_cases ms target p c.1 with e1 | e1 | e1
        · left
          have h1 : (if p.2 + occIncrease ms target p c.1 < 1 then (1 : K) else 0) ≤ 1 := by
            split_ifs <;> norm_num
          have h2 : 200 * ((1 - (p.2 + occIncrease ms target p c.1)) * orbW ms p)
              = 200 * ((1 - p.2) * orbW ms p) - orbW ms p := by
            rw [e1]; ring
          linarith
        · right
          have h3 : occIncrease ms target p c.1 * orbW ms p = (target : K) - c.1 := by
            rw [e1]; field_simp
          dsimp only at m1
          linarith
        · left
          have h1 : p.2 + occIncrease ms target p c.1 = 1 := by rw [e1]; ring
          rw [h1]
          simp only [sub_self, zero_mul, mul_zero, lt_irrefl, if_false]
          have : 0 ≤ 200 * ((1 - p.2) * orbW ms p) :=
            mul_nonneg (by norm_num) (mul_nonneg (by linarith) hwp.le)
          linarith
      · have hp1 : p.2 = 1 := le_antisymm hlp (not_lt.mp hsat)
        have hz := occIncrease_sat ms target p c.1 hwp hd0 hp1
        rw [hz]
        simp only [zero_mul, add_zero]
        have hfl : decide ((target : K) - c.1 < ext.OCC_CUT) = false := by
          simp only [decide_eq_false_iff_not, not_lt]; exact hd.le
        rw [hfl]
        rw [hp1, sub_self, zero_mul, zero_add] at hH
        obtain ⟨i1, i2⟩ := ih (c.1, false) hwt hlt rfl hd hH
        refine ⟨i1, ?_⟩
        rw [backfillPot_cons, backfillPot_cons]
        have e2 : orbW ms (p.1, p.2) = orbW ms p := rfl
        simp only [hk2, Bool.false_eq_true, if_false, e2]
        rcases i2 with i2 | i2
        · left; linarith
        · right; exact i2

/-- The termination measure is non-negative on occupations that are at most 1, and the
headroom vanishes when it does. -/
lemma backfillPot_nonneg (ms : ModelSpace K) (skip : Int → Bool) (l : List (Nat × K)) :
    (∀ p ∈ l, 0 < orbW ms p) → (∀ p ∈ l, p.2 ≤ 1) →
    0 ≤ headroomP ms skip l ∧ 200 * headroomP ms skip l ≤ backfillPot ms skip l := by
  induction l with
  | nil => intro _ _; simp [headroomP, backfillPot, unsatP]
  | cons p t ih =>
    intro hw hle
    obtain ⟨i1, i2⟩ := ih (fun q hq => hw q (List.mem_cons_of_mem _ hq))
      (fun q hq => hle q (List.mem_cons_of_mem _ hq))
    have hwp : 0 < orbW ms p := hw p (List.mem_cons_self _ _)
    have hlp : p.2 ≤ 1 := hle p (List.mem_cons_self _ _)
    rw [headroomP_cons, backfillPot_cons]
    have h0 : 0 ≤ (1 - p.2) * orbW ms p := mul_nonneg (by linarith) hwp.le
    split_ifs
    · constructor <;> linarith
    · constructor <;> linarith
    · constructor <;> linarith

lemma backfillPass_zip (ext : External K) (ms : ModelSpace K) (skip : Int → Bool)
    (target : Int) (orbs : List Nat) (occ : List K) (c : K) (hlen : occ.length = orbs.length) :
    (backfillPass ext ms skip target orbs occ c).1.length = orbs.length ∧
    List.zip orbs (backfillPass ext ms skip target orbs occ c).1
      = (backfillPassP ext ms skip target (List.zip orbs occ) (c, false)).1 ∧
    (backfillPass ext ms skip target orbs occ c).2.1
      = (backfillPassP ext ms skip target (List.zip orbs occ) (c, false)).2.1 ∧
    (backfillPass ext ms skip target orbs occ c).2.2
      = (backfillPassP ext ms skip target (List.zip orbs occ) (c, false)).2.2 := by
  obtain ⟨h1, h2, h3⟩ := backfillPass_sim ext ms skip target orbs occ c false hlen
  unfold backfillPass
  exact ⟨by rw [h1, hlen], h2, by rw [h3], by rw [h3]⟩

lemma backfillLoop_exit (ext : External K) (ms : ModelSpace K) (skip : Int → Bool)
    (target : Int) (orbs : List Nat) (fuel : Nat) (occ : List K) (c : K)
    (h : ¬ ((target : K) - c > ext.OCC_CUT)) :
    backfillLoop ext ms skip target orbs fuel occ c = some (occ, c) := by
  cases fuel with
  | zero => simp only [backfillLoop, if_neg h]
  | succ f => simp only [backfillLoop, if_neg h]

lemma backfillLoop_succ (ext : External K) (ms : ModelSpace K) (skip : Int → Bool)
    (target : Int) (orbs : List Nat) (fuel : Nat) (occ : List K) (c : K)
    (h : (target : K) - c > ext.OCC_CUT) :
    backfillLoop ext ms skip target orbs (fuel + 1) occ c
      = backfillLoop ext ms skip target orbs fuel
          (backfillPass ext ms skip target orbs occ c).1
          (backfillPass ext ms skip target orbs occ c).2.1 := by
  simp only [backfillLoop, if_pos h]

lemma backfillLoop_zero (ext : External K) (ms : ModelSpace K) (skip : Int → Bool)
    (target : Int) (orbs : List Nat) (occ : List K) (c : K)
    (h : (target : K) - c > ext.OCC_CUT) :
    backfillLoop ext ms skip target orbs 0 occ c = none := by
  simp only [backfillLoop, if_pos h]

/-- A property of `(hole_occ_tmp, count)` kept by every pass that the loop runs holds when
the loop exits, and the loop condition is then false. -/
lemma backfillLoop_inv (ext : External K) (ms : ModelSpace K) (skip : Int → Bool)
    (target : Int) (orbs : List Nat) (P : List K → K → Prop)
    (hpass : ∀ occ c, P occ c → (target : K) - c > ext.OCC_CUT →
      P (backfillPass ext ms skip target orbs occ c).1
        (backfillPass ext ms skip target orbs occ c).2.1) :
    ∀ (fuel : Nat) (occ : List K) (c : K) (r : List K × K), P occ c →
      backfillLoop ext ms skip target orbs fuel occ c = some r →
      P r.1 r.2 ∧ (target : K) - r.2 ≤ ext.OCC_CUT := by
  intro fuel
  induction fuel with
  | zero =>
    intro occ c r hP h
    by_cases hc : (target : K) - c > ext.OCC_CUT
    · rw [backfillLoop_zero ext ms skip target orbs occ c hc] at h
      exact absurd h (by simp)
    · rw [backfillLoop_exit ext ms skip target orbs 0 occ c hc] at h
      cases h
      exact ⟨hP, not_lt.mp hc⟩
  | succ f ih =>
    intro occ c r hP h
    by_cases hc : (target : K) - c > ext.OCC_CUT
    · rw [backfillLoop_succ ext ms skip target orbs f occ c hc] at h
      exact ih _ _ r (hpass occ c hP hc) h
    · rw [backfillLoop_exit ext ms skip target orbs (f + 1) occ c hc] at h
      cases h
      exact ⟨hP, not_lt.mp hc⟩

lemma backfillPassP_headroom (ext : External K) (ms : ModelSpace K) (skip : Int → Bool)
    (target : Int) (l : List (Nat × K)) : ∀ c : K × Bool,
    (backfillPassP ext ms skip target l c).2.1
        + headroomP ms skip (backfillPassP ext ms skip target l c).1
      = c.1 + headroomP ms skip l := by
  induction l with
  | nil => intro c; rfl
  | cons p t ih =>
    intro c
    rw [backfillPassP_cons]
    have h := ih (backfillStepP ext ms skip target p c).2
    by_cases hs : c.2 = true ∨ skip (ms.GetOrbit p.1).tz2 = true
    · rw [backfillStepP_skip ext ms skip target p c hs] at h ⊢
      rw [headroomP_cons, headroomP_cons]
      linarith
    · push_neg at hs
      have hb : c.2 = false := by simpa using hs.1
      have hk : skip (ms.GetOrbit p.1).tz2 = false := by simpa using hs.2
      rw [backfillStepP_act ext ms skip target p c hb hk] at h ⊢
      rw [headroomP_cons, headroomP_cons]
      have e : orbW ms (p.1, p.2 + occIncrease ms target p c.1) = orbW ms p := rfl
      simp only [e, hk, Bool.false_eq_true, if_false] at h ⊢
      linarith

lemma zip_forall_snd {α β : Type} (l1 : List α) (l2 : List β) (h : l2.length = l1.length)
    (Q : β → Prop) : (∀ x ∈ l2, Q x) ↔ ∀ p ∈ List.zip l1 l2, Q p.2 := by
  constructor
  · intro hx p hp
    exact hx p.2 (List.of_mem_zip (a := p.1) (b := p.2) hp).2
  · intro hp x hx
    rw [← List.map_snd_zip l1 l2 h.le] at hx
    obtain ⟨p, hp1, hp2⟩ := List.mem_map.mp hx
    rw [← hp2]
    exact hp p hp1

lemma zip_orbW_pos (ms : ModelSpace K) (orbs : List Nat) (occ : List K)
    (hj : ∀ o ∈ orbs, 0 ≤ (ms.GetOrbit o).j2) :
    ∀ p ∈ List.zip orbs occ, 1 ≤ orbW ms p := by
  intro p hp
  exact orbW_ge_one ms p (hj p.1 (List.of_mem_zip (a := p.1) (b := p.2) hp).1)

/-- Termination of a back-fill loop: when the termination measure is at most `B`, the loop
exits within `B` passes. -/
lemma backfillLoop_terminates (ext : External K) (ms : ModelSpace K) (skip : Int → Bool)
    (target : Int) (orbs : List Nat) (hcut : 0 ≤ ext.OCC_CUT)
    (hj : ∀ o ∈ orbs, 0 ≤ (ms.GetOrbit o).j2) :
    ∀ (B : Nat) (occ : List K) (c : K), occ.length = orbs.length → (∀ x ∈ occ, x ≤ 1) →
      (target : K) - c - headroomP ms skip (List.zip orbs occ) ≤ ext.OCC_CUT →
      backfillPot ms skip (List.zip orbs occ) ≤ (B : K) →
      ∀ fuel, B ≤ fuel → (backfillLoop ext ms skip target orbs fuel occ c).isSome := by
  intro B
  induction B with
  | zero =>
    intro occ c hlen hle hcap hpot fuel _
    have hw := zip_orbW_pos ms orbs occ hj
    obtain ⟨n1, n2⟩ := backfillPot_nonneg ms skip (List.zip orbs occ)
      (fun p hp => lt_of_lt_of_le one_pos (hw p hp)) ((zip_forall_snd orbs occ hlen _).mp hle)
    have : ¬ ((target : K) - c > ext.OCC_CUT) := by
      simp only [Nat.cast_zero] at hpot
      intro h; linarith
    rw [backfillLoop_exit ext ms skip target orbs fuel occ c this]
    rfl
  | succ B ih =>
    intro occ c hlen hle hcap hpot fuel hfuel
    by_cases hc : (target : K) - c > ext.OCC_CUT
    · obtain ⟨f, rfl⟩ : ∃ f, fuel = f + 1 := ⟨fuel - 1, by omega⟩
      rw [backfillLoop_succ ext ms skip target orbs f occ c hc]
      have hw := zip_orbW_pos ms orbs occ hj
      have hw0 : ∀ p ∈ List.zip orbs occ, 0 < orbW ms p :=
        fun p hp => lt_of_lt_of_le one_pos (hw p hp)
      have hlz := (zip_forall_snd orbs occ hlen (fun x => x ≤ 1)).mp hle
      obtain ⟨z1, z2, z3, _⟩ := backfillPass_zip ext ms skip target orbs occ c hlen
      have hd0 : 0 ≤ (target : K) - c := by linarith
      obtain ⟨_, _, b3⟩ := backfillPassP_bounds ext ms skip target 0 one_pos
        (List.zip orbs occ) (c, false) hw0 hd0
      have hhr := backfillPassP_headroom ext ms skip target (List.zip orbs occ) (c, false)
      have hH : 0 < headroomP ms skip (List.zip orbs occ) := by linarith
      obtain ⟨p1, p2⟩ := backfillPassP_progress ext ms skip target hcut (List.zip orbs occ)
        (c, false) hw hlz rfl hc hH
      have hle2 : ∀ x ∈ (backfillPass ext ms skip target orbs occ c).1, x ≤ 1 := by
        rw [zip_forall_snd orbs _ z1 (fun x => x ≤ 1), z2]
        exact b3 hlz
      rcases p2 with p2 | p2
      · apply ih _ _ z1 hle2
        · rw [z2, z3]; dsimp only at hhr; linarith
        · rw [z2]; push_cast at hpot; linarith
        · omega
      · have : ¬ ((target : K) - (backfillPass ext ms skip target orbs occ c).2.1
            > ext.OCC_CUT) := by
          rw [z3]; exact not_lt.mpr p2
        rw [backfillLoop_exit ext ms skip target orbs f _ _ this]
        rfl
    · rw [backfillLoop_exit ext ms skip target orbs fuel occ c hc]
      rfl

/-- The selection loop, started from any state: the kept orbits are appended in the order
of the list, with their occupations, and the counts grow by the kept terms. -/
lemma keepLoop_aux (ms : ModelSpace K) (Occ : Vec K) : ∀ (L : List Nat) (s : BackfillState K),
    L.foldl (keepStep ms Occ) s
      = ⟨s.holeorbs_tmp ++ L.filter (fun i => decide (Occ i > 2 / 100)),
          s.hole_occ_tmp ++ (L.filter (fun i => decide (Occ i > 2 / 100))).map Occ,
          s.NfromTr + ((L.filter (fun i => decide (Occ i > 2 / 100))).map (fun i =>
            ((Int.tdiv (1 + (ms.GetOrbit i).tz2) 2 : Int) : K) * Occ i
              * (((ms.GetOrbit i).j2 + 1 : Int) : K))).sum,
          s.ZfromTr + ((L.filter (fun i => decide (Occ i > 2 / 100))).map (fun i =>
            ((Int.tdiv (1 - (ms.GetOrbit i).tz2) 2 : Int) : K) * Occ i
              * (((ms.GetOrbit i).j2 + 1 : Int) : K))).sum⟩ := by
  intro L
  induction L with
  | nil => intro s; simp
  | cons i t ih =>
    intro s
    rw [List.foldl_cons, ih]
    unfold keepStep
    by_cases h : Occ i > 2 / 100
    · simp only [h, if_true, List.filter_cons, decide_True, List.map_cons, List.sum_cons,
        List.append_assoc, List.singleton_append, add_assoc]
    · simp only [h, if_false, List.filter_cons, decide_False]
      simp

lemma keepLoop_spec (ms : ModelSpace K) (Occ : Vec K) :
    (keepLoop ms Occ).holeorbs_tmp = ms.all_orbits.filter (fun i => decide (Occ i > 2 / 100)) ∧
    (keepLoop ms Occ).hole_occ_tmp = (keepLoop ms Occ).holeorbs_tmp.map Occ ∧
    (keepLoop ms Occ).NfromTr = ((keepLoop ms Occ).holeorbs_tmp.map (fun i =>
        ((Int.tdiv (1 + (ms.GetOrbit i).tz2) 2 : Int) : K) * Occ i
          * (((ms.GetOrbit i).j2 + 1 : Int) : K))).sum ∧
    (keepLoop ms Occ).ZfromTr = ((keepLoop ms Occ).holeorbs_tmp.map (fun i =>
        ((Int.tdiv (1 - (ms.GetOrbit i).tz2) 2 : Int) : K) * Occ i
          * (((ms.GetOrbit i).j2 + 1 : Int) : K))).sum := by
  unfold keepLoop
  rw [keepLoop_aux]
  simp

lemma zip_map_self {α β : Type} (f : α → β) (l : List α) :
    List.zip l (l.map f) = l.map (fun x => (x, f x)) := by
  induction l with
  | nil => rfl
  | cons a t ih => simp [ih]

lemma sum_ite_filter {α : Type} (l : List α) (f : α → Bool) (g : α → K) :
    (l.map (fun p => if f p then g p else 0)).sum = ((l.filter f).map g).sum := by
  induction l with
  | nil => rfl
  | cons a t ih =>
    by_cases h : f a = true
    · simp [List.filter_cons, h, ih]
    · simp [List.filter_cons, h, ih]

lemma backfillStep_skipped (ext : External K) (ms : ModelSpace K) (skip : Int → Bool)
    (target : Int) (orbs : List Nat) (s : List K × K × Bool) (i k : Nat)
    (hk : skip (ms.GetOrbit (orbs.getD k 0)).tz2 = true) :
    (backfillStep ext ms skip target orbs s i).1.getD k 0 = s.1.getD k 0 := by
  unfold backfillStep
  dsimp only
  split_ifs with h1 h2
  · rfl
  · rfl
  · rw [getD_set_orbit]
    have : ¬ (i = k ∧ i < s.1.length) := by
      rintro ⟨rfl, _⟩
      exact h2 hk
    rw [if_neg this]

lemma backfillPass_skipped (ext : External K) (ms : ModelSpace K) (skip : Int → Bool)
    (target : Int) (orbs : List Nat) (occ : List K) (c : K) (k : Nat)
    (hk : skip (ms.GetOrbit (orbs.getD k 0)).tz2 = true) :
    (backfillPass ext ms skip target orbs occ c).1.getD k 0 = occ.getD k 0 := by
  unfold backfillPass
  exact foldl_inv (fun s : List K × K × Bool => s.1.getD k 0 = occ.getD k 0)
    (backfillStep ext ms skip target orbs) _ _ rfl
    (fun s i _ hs => by
      show (backfillStep ext ms skip target orbs s i).1.getD k 0 = occ.getD k 0
      rw [backfillStep_skipped ext ms skip target orbs s i k hk]; exact hs)

/-- What holds when a back-fill loop exits, for a non-negative cut. -/
lemma backfillLoop_spec_pos (ext : External K) (ms : ModelSpace K) (skip : Int → Bool)
    (target : Int) (orbs : List Nat) (hcut : 0 ≤ ext.OCC_CUT)
    (hj : ∀ o ∈ orbs, 0 ≤ (ms.GetOrbit o).j2)
    (fuel : Nat) (occ : List K) (c : K) (r : List K × K) (hlen : occ.length = orbs.length)
    (h : backfillLoop ext ms skip target orbs fuel occ c = some r) :
    (r.1.length = orbs.length ∧
      r.2 - countP ms skip (List.zip orbs r.1) = c - countP ms skip (List.zip orbs occ) ∧
      (List.zip orbs r.1).filter (fun p => skip (ms.GetOrbit p.1).tz2)
        = (List.zip orbs occ).filter (fun p => skip (ms.GetOrbit p.1).tz2) ∧
      (r = (occ, c) ∨ 0 ≤ (target : K) - r.2) ∧
      (∀ t0 : K, t0 < 1 → (∀ x ∈ occ, t0 < x) → ∀ x ∈ r.1, t0 < x) ∧
      ((∀ x ∈ occ, x ≤ 1) → ∀ x ∈ r.1, x ≤ 1) ∧
      (∀ k, skip (ms.GetOrbit (orbs.getD k 0)).tz2 = true → r.1.getD k 0 = occ.getD k 0)) ∧
    (target : K) - r.2 ≤ ext.OCC_CUT := by
  refine backfillLoop_inv ext ms skip target orbs
    (fun o x => o.length = orbs.length ∧
      x - countP ms skip (List.zip orbs o) = c - countP ms skip (List.zip orbs occ) ∧
      (List.zip orbs o).filter (fun p => skip (ms.GetOrbit p.1).tz2)
        = (List.zip orbs occ).filter (fun p => skip (ms.GetOrbit p.1).tz2) ∧
      ((o, x) = (occ, c) ∨ 0 ≤ (target : K) - x) ∧
      (∀ t0 : K, t0 < 1 → (∀ y ∈ occ, t0 < y) → ∀ y ∈ o, t0 < y) ∧
      ((∀ y ∈ occ, y ≤ 1) → ∀ y ∈ o, y ≤ 1) ∧
      (∀ k, skip (ms.GetOrbit (orbs.getD k 0)).tz2 = true → o.getD k 0 = occ.getD k 0))
    ?_ fuel occ c r ⟨hlen, rfl, rfl, Or.inl rfl, fun _ _ hx => hx, fun hx => hx, fun _ _ => rfl⟩ h
  rintro o x ⟨q1, q2, q3, _, q5, q6, q7⟩ hc
  obtain ⟨z1, z2, z3, _⟩ := backfillPass_zip ext ms skip target orbs o x q1
  have hw := zip_orbW_pos ms orbs o hj
  have hw0 : ∀ p ∈ List.zip orbs o, 0 < orbW ms p :=
    fun p hp => lt_of_lt_of_le one_pos (hw p hp)
  have hd0 : 0 ≤ (target : K) - x := by linarith
  have hcount := backfillPassP_count ext ms skip target (List.zip orbs o) (x, false)
  have hskip := backfillPassP_skipped ext ms skip target (List.zip orbs o) (x, false)
  refine ⟨z1, ?_, ?_, Or.inr ?_, ?_, ?_, ?_⟩
  · rw [z2, z3]; dsimp only at hcount; linarith
  · rw [z2, hskip]; exact q3
  · rw [z3]
    exact (backfillPassP_bounds ext ms skip target 0 one_pos (List.zip orbs o) (x, false)
      hw0 hd0).1
  · intro t0 ht0 hy
    rw [zip_forall_snd orbs _ z1 (fun y => t0 < y), z2]
    exact (backfillPassP_bounds ext ms skip target t0 ht0 (List.zip orbs o) (x, false)
      hw0 hd0).2.1 ((zip_forall_snd orbs o q1 _).mp (q5 t0 ht0 hy))
  · intro hy
    rw [zip_forall_snd orbs _ z1 (fun y => y ≤ 1), z2]
    exact (backfillPassP_bounds ext ms skip target 0 one_pos (List.zip orbs o) (x, false)
      hw0 hd0).2.2 ((zip_forall_snd orbs o q1 _).mp (q6 hy))
  · intro k hk
    rw [backfillPass_skipped ext ms skip target orbs o x k hk]
    exact q7 k hk

/-- A pass either changes nothing or leaves a non-negative deficit. -/
lemma backfillPassP_same_or_nonneg (ext : External K) (ms : ModelSpace K) (skip : Int → Bool)
    (target : Int) (l : List (Nat × K)) : ∀ c : K × Bool, (∀ p ∈ l, 0 < orbW ms p) →
    backfillPassP ext ms skip target l c = (l, c) ∨
      0 ≤ (target : K) - (backfillPassP ext ms skip target l c).2.1 := by
  induction l with
  | nil => intro c _; left; rfl
  | cons p t ih =>
    intro c hw
    have hwt : ∀ q ∈ t, 0 < orbW ms q := fun q hq => hw q (List.mem_cons_of_mem _ hq)
    rw [backfillPassP_cons]
    by_cases hs : c.2 = true ∨ skip (ms.GetOrbit p.1).tz2 = true
    · rw [backfillStepP_skip ext ms skip target p c hs]
      rcases ih c hwt with h | h
      · left; rw [h]
      · right; exact h
    · push_neg at hs
      have hb : c.2 = false := by simpa using hs.1
      have hk : skip (ms.GetOrbit p.1).tz2 = false := by simpa using hs.2
      rw [backfillStepP_act ext ms skip target p c hb hk]
      right
      obtain ⟨_, l2, _⟩ := occIncrease_le ms target p c.1 (hw p (List.mem_cons_self _ _))
      exact (backfillPassP_bounds ext ms skip target 0 one_pos t _ hwt (by
        show 0 ≤ (target : K) - (c.1 + occIncrease ms target p c.1 * orbW ms p)
        linarith)).1

/-- With a negative cut, a back-fill loop entered with a non-negative deficit does not
exit. -/
lemma backfillLoop_negcut_none (ext : External K) (ms : ModelSpace K) (skip : Int → Bool)
    (target : Int) (orbs : List Nat) (hcut : ext.OCC_CUT < 0)
    (hj : ∀ o ∈ orbs, 0 ≤ (ms.GetOrbit o).j2) :
    ∀ (fuel : Nat) (occ : List K) (c : K), occ.length = orbs.length →
      0 ≤ (target : K) - c → backfillLoop ext ms skip target orbs fuel occ c = none := by
  intro fuel
  induction fuel with
  | zero =>
    intro occ c _ hd
    exact backfillLoop_zero ext ms skip target orbs occ c (lt_of_lt_of_le hcut hd)
  | succ f ih =>
    intro occ c hlen hd
    rw [backfillLoop_succ ext ms skip target orbs f occ c (lt_of_lt_of_le hcut hd)]
    obtain ⟨z1, _, z3, _⟩ := backfillPass_zip ext ms skip target orbs occ c hlen
    refine ih _ _ z1 ?_
    rw [z3]
    exact (backfillPassP_bounds ext ms skip target 0 one_pos (List.zip orbs occ) (c, false)
      (fun p hp => lt_of_lt_of_le one_pos (zip_orbW_pos ms orbs occ hj p hp)) hd).1

/-- With a negative cut, a back-fill loop that exits has run no pass that changed the
state. -/
lemma backfillLoop_negcut (ext : External K) (ms : ModelSpace K) (skip : Int → Bool)
    (target : Int) (orbs : List Nat) (hcut : ext.OCC_CUT < 0)
    (hj : ∀ o ∈ orbs, 0 ≤ (ms.GetOrbit o).j2) :
    ∀ (fuel : Nat) (occ : List K) (c : K) (r : List K × K), occ.length = orbs.length →
      backfillLoop ext ms skip target orbs fuel occ c = some r → r = (occ, c) := by
  intro fuel
  induction fuel with
  | zero =>
    intro occ c r _ h
    by_cases hc : (target : K) - c > ext.OCC_CUT
    · rw [backfillLoop_zero ext ms skip target orbs occ c hc] at h
      exact absurd h (by simp)
    · rw [backfillLoop_exit ext ms skip target orbs 0 occ c hc] at h
      exact (Option.some.inj h).symm
  | succ f ih =>
    intro occ c r hlen h
    by_cases hc : (target : K) - c > ext.OCC_CUT
    · rw [backfillLoop_succ ext ms skip target orbs f occ c hc] at h
      obtain ⟨z1, z2, z3, z4⟩ := backfillPass_zip ext ms skip target orbs occ c hlen
      rcases backfillPassP_same_or_nonneg ext ms skip target (List.zip orbs occ) (c, false)
        (fun p hp => lt_of_lt_of_le one_pos (zip_orbW_pos ms orbs occ hj p hp)) with hP | hP
      · rw [hP] at z2 z3
        have hocc : (backfillPass ext ms skip target orbs occ c).1 = occ := by
          have := congrArg (List.map Prod.snd) z2
          rwa [List.map_snd_zip _ _ z1.le, List.map_snd_zip _ _ hlen.le] at this
        rw [hocc, z3] at h
        exact ih occ c r hlen h
      · rw [← z3] at hP
        rw [backfillLoop_negcut_none ext ms skip target orbs hcut hj f _ _ z1 hP] at h
        exact absurd h (by simp)
    · rw [backfillLoop_exit ext ms skip target orbs (f + 1) occ c hc] at h
      exact (Option.some.inj h).symm

/-- What holds when a back-fill loop exits. -/
lemma backfillLoop_spec (ext : External K) (ms : ModelSpace K) (skip : Int → Bool)
    (target : Int) (orbs : List Nat)
    (hj : ∀ o ∈ orbs, 0 ≤ (ms.GetOrbit o).j2)
    (fuel : Nat) (occ : List K) (c : K) (r : List K × K) (hlen : occ.length = orbs.length)
    (h : backfillLoop ext ms skip target orbs fuel occ c = some r) :
    (r.1.length = orbs.length ∧
      r.2 - countP ms skip (List.zip orbs r.1) = c - countP ms skip (List.zip orbs occ) ∧
      (List.zip orbs r.1).filter (fun p => skip (ms.GetOrbit p.1).tz2)
        = (List.zip orbs occ).filter (fun p => skip (ms.GetOrbit p.1).tz2) ∧
      (r = (occ, c) ∨ 0 ≤ (target : K) - r.2) ∧
      (∀ t0 : K, t0 < 1 → (∀ x ∈ occ, t0 < x) → ∀ x ∈ r.1, t0 < x) ∧
      ((∀ x ∈ occ, x ≤ 1) → ∀ x ∈ r.1, x ≤ 1) ∧
      (∀ k, skip (ms.GetOrbit (orbs.getD k 0)).tz2 = true → r.1.getD k 0 = occ.getD k 0)) ∧
    (target : K) - r.2 ≤ ext.OCC_CUT := by
  by_cases hcut : 0 ≤ ext.OCC_CUT
  · exact backfillLoop_spec_pos ext ms skip target orbs hcut hj fuel occ c r hlen h
  · have hr := backfillLoop_negcut ext ms skip target orbs (not_le.mp hcut) hj fuel occ c r hlen h
    have hex := (backfillLoop_inv ext ms skip target orbs (fun _ _ => True)
      (fun _ _ _ _ => trivial) fuel occ c r trivial h).2
    subst hr
    exact ⟨⟨hlen, rfl, rfl, Or.inl rfl, fun _ _ hx => hx, fun hx => hx, fun _ _ => rfl⟩, hex⟩

lemma speciesCount_filter (ms : ModelSpace K) (sp : Int → Bool) (orbs : List Nat)
    (occ : List K) :
    speciesCount ms sp orbs occ
      = (((List.zip orbs occ).filter (fun p => sp (ms.GetOrbit p.1).tz2)).map
          (fun p => p.2 * orbW ms p)).sum := by
  unfold speciesCount
  exact sum_ite_filter (List.zip orbs occ) (fun p => sp (ms.GetOrbit p.1).tz2)
    (fun p => p.2 * orbW ms p)

lemma countP_species (ms : ModelSpace K) (skip sp : Int → Bool) (orbs : List Nat)
    (occ : List K)
    (h : ∀ o ∈ orbs, skip (ms.GetOrbit o).tz2 = !sp (ms.GetOrbit o).tz2) :
    countP ms skip (List.zip orbs occ) = speciesCount ms sp orbs occ := by
  unfold countP speciesCount
  apply map_sum_congr
  intro p hp
  have := h p.1 (List.of_mem_zip (a := p.1) (b := p.2) hp).1
  rw [this]
  cases sp (ms.GetOrbit p.1).tz2 <;> simp [orbW]

lemma protonSkip_species (ms : ModelSpace K)
    (htz : ∀ i ∈ ms.all_orbits, (ms.GetOrbit i).tz2 = -1 ∨ (ms.GetOrbit i).tz2 = 1) (i : Nat)
    (hi : i ∈ ms.all_orbits) :
    protonSkip (ms.GetOrbit i).tz2 = !decide ((ms.GetOrbit i).tz2 < 0) ∧
    neutronSkip (ms.GetOrbit i).tz2 = !decide ((ms.GetOrbit i).tz2 > 0) := by
  unfold protonSkip neutronSkip
  rcases htz i hi with h | h <;> rw [h] <;> decide

lemma keepLoop_sub (ms : ModelSpace K) (Occ : Vec K) :
    (∀ o ∈ (keepLoop ms Occ).holeorbs_tmp, o ∈ ms.all_orbits) ∧
    (keepLoop ms Occ).hole_occ_tmp.length = (keepLoop ms Occ).holeorbs_tmp.length := by
  obtain ⟨h1, h2, _, _⟩ := keepLoop_spec ms Occ
  constructor
  · intro o ho
    rw [h1] at ho
    exact (List.mem_filter.mp ho).1
  · rw [h2, List.length_map]

/-- When `tz2` is `-1` or `+1` on every orbit, the counts accumulated by the selection loop
are the weighted counts of the kept proton and neutron orbits. -/
lemma keepLoop_counts (ms : ModelSpace K) (Occ : Vec K)
    (htz : ∀ i ∈ ms.all_orbits, (ms.GetOrbit i).tz2 = -1 ∨ (ms.GetOrbit i).tz2 = 1) :
    (keepLoop ms Occ).ZfromTr = speciesCount ms (fun t => decide (t < 0))
        (keepLoop ms Occ).holeorbs_tmp (keepLoop ms Occ).hole_occ_tmp ∧
    (keepLoop ms Occ).NfromTr = speciesCount ms (fun t => decide (t > 0))
        (keepLoop ms Occ).holeorbs_tmp (keepLoop ms Occ).hole_occ_tmp := by
  obtain ⟨h1, h2, h3, h4⟩ := keepLoop_spec ms Occ
  have hsub := (keepLoop_sub ms Occ).1
  constructor
  · rw [h4]
    unfold speciesCount
    rw [h2, zip_map_self, List.map_map]
    apply map_sum_congr
    intro i hi
    rcases htz i (hsub i hi) with h | h <;> simp [h]
  · rw [h3]
    unfold speciesCount
    rw [h2, zip_map_self, List.map_map]
    apply map_sum_congr
    intro i hi
    rcases htz i (hsub i hi) with h | h <;> simp [h]

lemma backfill_some (ext : External K) (ms : ModelSpace K) (A : Int) (Occ : Vec K)
    (fuel : Nat) (r : BackfillState K) (h : backfill ext ms A Occ fuel = some r) :
    ∃ r1 r2 : List K × K,
      backfillLoop ext ms protonSkip ms.Zref (keepLoop ms Occ).holeorbs_tmp fuel
        (keepLoop ms Occ).hole_occ_tmp (keepLoop ms Occ).ZfromTr = some r1 ∧
      backfillLoop ext ms neutronSkip (A - ms.Zref) (keepLoop ms Occ).holeorbs_tmp fuel
        r1.1 (keepLoop ms Occ).NfromTr = some r2 ∧
      r = ⟨(keepLoop ms Occ).holeorbs_tmp, r2.1, r2.2, r1.2⟩ := by
  unfold backfill protonStage neutronStage at h
  simp only [Option.bind_eq_some, Option.map_eq_some'] at h
  obtain ⟨s1, ⟨r1, h1, rfl⟩, r2, h2, rfl⟩ := h
  exact ⟨r1, r2, h1, h2, rfl⟩

/-- The two back-fill loops, read off a finished run of the back-filling part: each species'
running count is the weighted count of its kept orbits, the loop condition is false for both
species, and a loop that ran a pass leaves a non-negative deficit. -/
lemma backfill_counts (ext : External K) (ms : ModelSpace K) (A : Int) (Occ : Vec K)
    (fuel : Nat) (r : BackfillState K) (hwf : OrbitsWF ms)
    (h : backfill ext ms A Occ fuel = some r) :
    r.ZfromTr = speciesCount ms (fun t => decide (t < 0)) r.holeorbs_tmp r.hole_occ_tmp ∧
    r.NfromTr = speciesCount ms (fun t => decide (t > 0)) r.holeorbs_tmp r.hole_occ_tmp ∧
    (ms.Zref : K) - r.ZfromTr ≤ ext.OCC_CUT ∧
    ((A - ms.Zref : Int) : K) - r.NfromTr ≤ ext.OCC_CUT ∧
    (r.ZfromTr = (keepLoop ms Occ).ZfromTr ∨ 0 ≤ (ms.Zref : K) - r.ZfromTr) ∧
    (r.NfromTr = (keepLoop ms Occ).NfromTr ∨ 0 ≤ ((A - ms.Zref : Int) : K) - r.NfromTr) := by
  obtain ⟨r1, r2, h1, h2, rfl⟩ := backfill_some ext ms A Occ fuel r h
  obtain ⟨hsub, hlen⟩ := keepLoop_sub ms Occ
  obtain ⟨hZ0, hN0⟩ := keepLoop_counts ms Occ (fun i hi => (hwf i hi).1)
  have hj : ∀ o ∈ (keepLoop ms Occ).holeorbs_tmp, 0 ≤ (ms.GetOrbit o).j2 :=
    fun o ho => (hwf o (hsub o ho)).2
  obtain ⟨⟨a1, a2, a3, a4, _, _, _⟩, a8⟩ := backfillLoop_spec ext ms protonSkip ms.Zref
    (keepLoop ms Occ).holeorbs_tmp hj fuel _ _ r1 hlen h1
  obtain ⟨⟨b1, b2, b3, b4, _, _, _⟩, b8⟩ := backfillLoop_spec ext ms neutronSkip (A - ms.Zref)
    (keepLoop ms Occ).holeorbs_tmp hj fuel _ _ r2 a1 h2
  have hp : ∀ occ : List K, countP ms protonSkip (List.zip (keepLoop ms Occ).holeorbs_tmp occ)
      = speciesCount ms (fun t => decide (t < 0)) (keepLoop ms Occ).holeorbs_tmp occ :=
    fun occ => countP_species ms protonSkip _ _ occ
      (fun o ho => (protonSkip_species ms (fun i hi => (hwf i hi).1) o (hsub o ho)).1)
  have hn : ∀ occ : List K, countP ms neutronSkip (List.zip (keepLoop ms Occ).holeorbs_tmp occ)
      = speciesCount ms (fun t => decide (t > 0)) (keepLoop ms Occ).holeorbs_tmp occ :=
    fun occ => countP_species ms neutronSkip _ _ occ
      (fun o ho => (protonSkip_species ms (fun i hi => (hwf i hi).1) o (hsub o ho)).2)
  -- the neutron loop leaves the proton entries, the proton loop the neutron entries
  have e1 : speciesCount ms (fun t => decide (t < 0)) (keepLoop ms Occ).holeorbs_tmp r2.1
      = speciesCount ms (fun t => decide (t < 0)) (keepLoop ms Occ).holeorbs_tmp r1.1 := by
    rw [speciesCount_filter, speciesCount_filter]
    exact congrArg (fun l => (List.map (fun p => p.2 * orbW ms p) l).sum) b3
  have e2 : speciesCount ms (fun t => decide (t > 0)) (keepLoop ms Occ).holeorbs_tmp r1.1
      = speciesCount ms (fun t => decide (t > 0)) (keepLoop ms Occ).holeorbs_tmp
          (keepLoop ms Occ).hole_occ_tmp := by
    rw [speciesCount_filter, speciesCount_filter]
    exact congrArg (fun l => (List.map (fun p => p.2 * orbW ms p) l).sum) a3
  rw [hp, hp] at a2
  rw [hn, hn] at b2
  have hZ : r1.2 = speciesCount ms (fun t => decide (t < 0))
      (keepLoop ms Occ).holeorbs_tmp r2.1 := by rw [e1]; linarith
  have hN : r2.2 = speciesCount ms (fun t => decide (t > 0))
      (keepLoop ms Occ).holeorbs_tmp r2.1 := by linarith
  refine ⟨hZ, hN, a8, b8, ?_, ?_⟩
  · rcases a4 with a4 | a4
    · left; rw [a4]
    · right; exact a4
  · rcases b4 with b4 | b4
    · left; rw [b4]
    · right; exact b4

/-- C13 (as amended). Back-fill conservation.  With `tz2 = -1` or `+1` and `j2 >= 0` on every
orbit, for every occupation vector and every target `(Z, N = A - Z)` for
which the back-fill loops finish, each species has `target - sum hole_occ*(j2+1) <= OCC_CUT`
over its kept orbits (protons `tz2 < 0`, neutrons `tz2 > 0`); and
`|target - sum hole_occ*(j2+1)| <= OCC_CUT` holds for a species whose kept orbits, as
selected at lines 77-88, did not hold more than `target + OCC_CUT`. -/
theorem C13_backfill_conservation (ext : External K) (ms : ModelSpace K) (A : Int)
    (Occ : Vec K) (fuel : Nat) (r : BackfillState K) (hwf : OrbitsWF ms)
    (h : backfill ext ms A Occ fuel = some r) :
    ((ms.Zref : K)
        - speciesCount ms (fun t => decide (t < 0)) r.holeorbs_tmp r.hole_occ_tmp
        ≤ ext.OCC_CUT ∧
      ((A - ms.Zref : Int) : K)
        - speciesCount ms (fun t => decide (t > 0)) r.holeorbs_tmp r.hole_occ_tmp
        ≤ ext.OCC_CUT) ∧
    (speciesCount ms (fun t => decide (t < 0)) (keepLoop ms Occ).holeorbs_tmp
        (keepLoop ms Occ).hole_occ_tmp ≤ (ms.Zref : K) + ext.OCC_CUT →
      |(ms.Zref : K)
        - speciesCount ms (fun t => decide (t < 0)) r.holeorbs_tmp r.hole_occ_tmp|
        ≤ ext.OCC_CUT) ∧
    (speciesCount ms (fun t => decide (t > 0)) (keepLoop ms Occ).holeorbs_tmp
        (keepLoop ms Occ).hole_occ_tmp ≤ ((A - ms.Zref : Int) : K) + ext.OCC_CUT →
      |((A - ms.Zref : Int) : K)
        - speciesCount ms (fun t => decide (t > 0)) r.holeorbs_tmp r.hole_occ_tmp|
        ≤ ext.OCC_CUT) := by
  obtain ⟨c1, c2, c3, c4, c5, c6⟩ := backfill_counts ext ms A Occ fuel r hwf h
  obtain ⟨hZ0, hN0⟩ := keepLoop_counts ms Occ (fun i hi => (hwf i hi).1)
  rw [← c1, ← c2, ← hZ0, ← hN0]
  refine ⟨⟨c3, c4⟩, fun h0 => ?_, fun h0 => ?_⟩
  · rw [abs_le]
    refine ⟨?_, c3⟩
    rcases c5 with c5 | c5
    · rw [c5]; linarith
    · linarith
  · rw [abs_le]
    refine ⟨?_, c4⟩
    rcases c6 with c6 | c6
    · rw [c6]; linarith
    · linarith

/-- C14 (as amended). Back-fill bounds.  With `j2 >= 0` on every orbit, for every
occupation vector for which the back-fill loops finish, every entry of the final
`hole_occ` is greater than `0.02`; and every entry is at most 1 when every kept eigenvalue
`Occ(i)` is at most 1. -/
theorem C14_backfill_bounds (ext : External K) (ms : ModelSpace K) (A : Int)
    (Occ : Vec K) (fuel : Nat) (r : BackfillState K)
    (hj : ∀ i ∈ ms.all_orbits, 0 ≤ (ms.GetOrbit i).j2)
    (h : backfill ext ms A Occ fuel = some r) :
    (∀ x ∈ r.hole_occ_tmp, 2 / 100 < x) ∧
    ((∀ i ∈ ms.all_orbits, 2 / 100 < Occ i → Occ i ≤ 1) →
      ∀ x ∈ r.hole_occ_tmp, 2 / 100 < x ∧ x ≤ 1) := by
  obtain ⟨r1, r2, h1, h2, rfl⟩ := backfill_some ext ms A Occ fuel r h
  obtain ⟨hsub, hlen⟩ := keepLoop_sub ms Occ
  obtain ⟨k1, k2, _, _⟩ := keepLoop_spec ms Occ
  have hj2 : ∀ o ∈ (keepLoop ms Occ).holeorbs_tmp, 0 ≤ (ms.GetOrbit o).j2 :=
    fun o ho => hj o (hsub o ho)
  obtain ⟨⟨a1, _, _, _, a5, a6, _⟩, _⟩ := backfillLoop_spec ext ms protonSkip ms.Zref
    (keepLoop ms Occ).holeorbs_tmp hj2 fuel _ _ r1 hlen h1
  obtain ⟨⟨_, _, _, _, b5, b6, _⟩, _⟩ := backfillLoop_spec ext ms neutronSkip (A - ms.Zref)
    (keepLoop ms Occ).holeorbs_tmp hj2 fuel _ _ r2 a1 h2
  have h0 : ∀ x ∈ (keepLoop ms Occ).hole_occ_tmp, (2 / 100 : K) < x := by
    intro x hx
    rw [k2, k1] at hx
    obtain ⟨i, hi, rfl⟩ := List.mem_map.mp hx
    simpa using (List.mem_filter.mp hi).2
  have hlow : ∀ x ∈ r2.1, (2 / 100 : K) < x :=
    b5 _ (by norm_num) (a5 _ (by norm_num) h0)
  refine ⟨hlow, fun hle x hx => ⟨hlow x hx, ?_⟩⟩
  have h1 : ∀ x ∈ (keepLoop ms Occ).hole_occ_tmp, x ≤ 1 := by
    intro x hx
    rw [k2] at hx
    obtain ⟨i, hi, rfl⟩ := List.mem_map.mp hx
    refine hle i (hsub i hi) ?_
    rw [k1] at hi
    simpa using (List.mem_filter.mp hi).2
  exact b6 (a6 h1) x hx

lemma headroomP_pos (ms : ModelSpace K) (skip : Int → Bool) (l : List (Nat × K))
    (hw : ∀ p ∈ l, 0 < orbW ms p) (hle : ∀ p ∈ l, p.2 ≤ 1)
    (hex : ∃ p ∈ l, skip (ms.GetOrbit p.1).tz2 = false ∧ p.2 < 1) :
    0 < headroomP ms skip l := by
  obtain ⟨p, hp, hs, hlt⟩ := hex
  unfold headroomP
  have hnn : ∀ x ∈ l.map (fun p => if skip (ms.GetOrbit p.1).tz2 then 0
      else (1 - p.2) * orbW ms p), (0 : K) ≤ x := by
    intro x hx
    obtain ⟨q, hq, rfl⟩ := List.mem_map.mp hx
    split_ifs
    · exact le_refl _
    · exact mul_nonneg (by linarith [hle q hq]) (hw q hq).le
  have hmem : (1 - p.2) * orbW ms p ∈ l.map (fun p => if skip (ms.GetOrbit p.1).tz2 then 0
      else (1 - p.2) * orbW ms p) := by
    refine List.mem_map.mpr ⟨p, hp, ?_⟩
    simp [hs]
  have := List.single_le_sum hnn _ hmem
  have hpos : 0 < (1 - p.2) * orbW ms p := mul_pos (by linarith) (hw p hp)
  linarith

/-- C15. Back-fill termination, for either loop (`skip` is the test of its `continue`: the
orbits of the loop's species are the kept orbits it does not skip).  If every kept
occupation is at most 1 and the deficit `target - count` minus the total headroom
`sum (1 - hole_occ)*(j2+1)` of the species is at most `OCC_CUT`, then the loop exits after
finitely many passes (for every large enough pass bound it returns, with the loop condition
false); a pass entered with an orbit of the species below 1 strictly lowers the deficit; and
a pass keeps the hypotheses, so that this holds for every pass of the loop.  Over an
Archimedean field, with `OCC_CUT >= 0` and `j2 >= 0`. -/
theorem C15_backfill_termination [Archimedean K] (ext : External K) (ms : ModelSpace K)
    (skip : Int → Bool) (target : Int) (orbs : List Nat) (occ : List K) (c : K)
    (hlen : occ.length = orbs.length) (hcut : 0 ≤ ext.OCC_CUT)
    (hj : ∀ o ∈ orbs, 0 ≤ (ms.GetOrbit o).j2) (hle : ∀ x ∈ occ, x ≤ 1)
    (hcap : (target : K) - c - headroomP ms skip (List.zip orbs occ) ≤ ext.OCC_CUT) :
    (∃ fuel, ∀ fuel2, fuel ≤ fuel2 →
      ∃ r, backfillLoop ext ms skip target orbs fuel2 occ c = some r ∧
        (target : K) - r.2 ≤ ext.OCC_CUT) ∧
    ((target : K) - c > ext.OCC_CUT →
      (∃ p ∈ List.zip orbs occ, skip (ms.GetOrbit p.1).tz2 = false ∧ p.2 < 1) →
      (target : K) - (backfillPass ext ms skip target orbs occ c).2.1 < (target : K) - c) ∧
    ((target : K) - c > ext.OCC_CUT →
      (backfillPass ext ms skip target orbs occ c).1.length = orbs.length ∧
      (∀ x ∈ (backfillPass ext ms skip target orbs occ c).1, x ≤ 1) ∧
      (target : K) - (backfillPass ext ms skip target orbs occ c).2.1
        - headroomP ms skip (List.zip orbs (backfillPass ext ms skip target orbs occ c).1)
        ≤ ext.OCC_CUT) := by
  have hw := zip_orbW_pos ms orbs occ hj
  have hw0 : ∀ p ∈ List.zip orbs occ, 0 < orbW ms p :=
    fun p hp => lt_of_lt_of_le one_pos (hw p hp)
  have hlz := (zip_forall_snd orbs occ hlen (fun x => x ≤ 1)).mp hle
  obtain ⟨z1, z2, z3, _⟩ := backfillPass_zip ext ms skip target orbs occ c hlen
  refine ⟨?_, ?_, ?_⟩
  · obtain ⟨B, hB⟩ := exists_nat_ge (backfillPot ms skip (List.zip orbs occ))
    refine ⟨B, fun fuel2 hf => ?_⟩
    have hs := backfillLoop_terminates ext ms skip target orbs hcut hj B occ c hlen hle hcap hB
      fuel2 hf
    obtain ⟨r, hr⟩ := Option.isSome_iff_exists.mp hs
    exact ⟨r, hr, (backfillLoop_inv ext ms skip target orbs (fun _ _ => True)
      (fun _ _ _ _ => trivial) fuel2 occ c r trivial hr).2⟩
  · intro hc hex
    have hH := headroomP_pos ms skip (List.zip orbs occ) hw0 hlz hex
    have := (backfillPassP_progress ext ms skip target hcut (List.zip orbs occ) (c, false)
      hw hlz rfl hc hH).1
    rw [z3]
    dsimp only at this
    linarith
  · intro hc
    have hd0 : 0 ≤ (target : K) - c := by linarith
    refine ⟨z1, ?_, ?_⟩
    · rw [zip_forall_snd orbs _ z1 (fun y => y ≤ 1), z2]
      exact (backfillPassP_bounds ext ms skip target 0 one_pos (List.zip orbs occ) (c, false)
        hw0 hd0).2.2 hlz
    · have hhr := backfillPassP_headroom ext ms skip target (List.zip orbs occ) (c, false)
      rw [z2, z3]
      dsimp only at hhr
      linarith

/-- A pass over saturated orbits changes nothing. -/
lemma backfillPassP_saturated (ext : External K) (ms : ModelSpace K) (skip : Int → Bool)
    (target : Int) (c : K) (hcut : 0 ≤ ext.OCC_CUT) (hd : (target : K) - c > ext.OCC_CUT)
    (l : List (Nat × K)) (hw : ∀ p ∈ l, 0 < orbW ms p)
    (hsat : ∀ p ∈ l, skip (ms.GetOrbit p.1).tz2 = false → p.2 = 1) :
    backfillPassP ext ms skip target l (c, false) = (l, (c, false)) := by
  induction l with
  | nil => rfl
  | cons p t ih =>
    have iht := ih (fun q hq => hw q (List.mem_cons_of_mem _ hq))
      (fun q hq => hsat q (List.mem_cons_of_mem _ hq))
    rw [backfillPassP_cons]
    by_cases hk : skip (ms.GetOrbit p.1).tz2 = true
    · rw [backfillStepP_skip ext ms skip target p (c, false) (Or.inr hk), iht]
    · have hk2 : skip (ms.GetOrbit p.1).tz2 = false := by simpa using hk
      have hp1 := hsat p (List.mem_cons_self _ _) hk2
      have hz := occIncrease_sat ms target p c (hw p (List.mem_cons_self _ _))
        (by linarith) hp1
      rw [backfillStepP_act ext ms skip target p (c, false) rfl hk2]
      dsimp only
      rw [hz]
      simp only [zero_mul, add_zero]
      have hfl : decide ((target : K) - c < ext.OCC_CUT) = false := by
        simp only [decide_eq_false_iff_not, not_lt]; exact hd.le
      rw [hfl, iht]

/-- C16. Back-fill saturation, for either loop (`skip` is the test of its `continue`).  If the
deficit exceeds `OCC_CUT` and every kept orbit that the loop does not skip has occupation
exactly 1 (or there is none), then one full pass of the `for` loop leaves `hole_occ_tmp` and
the running count as they are and does not take the `break`, and the `while` loop does not
exit: for every pass bound it is still running when the bound is reached.  With
`OCC_CUT >= 0` and `j2 >= 0`. -/
theorem C16_backfill_saturation (ext : External K) (ms : ModelSpace K)
    (skip : Int → Bool) (target : Int) (orbs : List Nat) (occ : List K) (c : K)
    (hlen : occ.length = orbs.length) (hcut : 0 ≤ ext.OCC_CUT)
    (hj : ∀ o ∈ orbs, 0 ≤ (ms.GetOrbit o).j2)
    (hdef : (target : K) - c > ext.OCC_CUT)
    (hsat : ∀ p ∈ List.zip orbs occ, skip (ms.GetOrbit p.1).tz2 = false → p.2 = 1) :
    backfillPass ext ms skip target orbs occ c = (occ, c, false) ∧
    ∀ fuel, backfillLoop ext ms skip target orbs fuel occ c = none := by
  have hw := zip_orbW_pos ms orbs occ hj
  have hw0 : ∀ p ∈ List.zip orbs occ, 0 < orbW ms p :=
    fun p hp => lt_of_lt_of_le one_pos (hw p hp)
  obtain ⟨z1, z2, z3, z4⟩ := backfillPass_zip ext ms skip target orbs occ c hlen
  have hP := backfillPassP_saturated ext ms skip target c hcut hdef (List.zip orbs occ) hw0 hsat
  rw [hP] at z2 z3 z4
  have hocc : (backfillPass ext ms skip target orbs occ c).1 = occ := by
    have := congrArg (List.map Prod.snd) z2
    rwa [List.map_snd_zip _ _ z1.le, List.map_snd_zip _ _ hlen.le] at this
  have hpass : backfillPass ext ms skip target orbs occ c = (occ, c, false) :=
    Prod.ext hocc (Prod.ext z3 z4)
  refine ⟨hpass, fun fuel => ?_⟩
  induction fuel with
  | zero => exact backfillLoop_zero ext ms skip target orbs occ c hdef
  | succ f ih =>
    rw [backfillLoop_succ ext ms skip target orbs f occ c hdef, hpass]
    exact ih

/-- Two runs of a back-fill loop that start from the same running count and the same
entries of the loop's species end with the same entries of that species and the same count,
whatever the entries of the other species and the pass bounds are. -/
lemma backfillLoop_rel (ext : External K) (ms : ModelSpace K) (skip : Int → Bool)
    (target : Int) (orbs1 orbs2 : List Nat) :
    ∀ (fuel1 fuel2 : Nat) (occ1 occ2 : List K) (c : K) (r1 r2 : List K × K),
      occ1.length = orbs1.length → occ2.length = orbs2.length →
      (List.zip orbs1 occ1).filter (fun p => !skip (ms.GetOrbit p.1).tz2)
        = (List.zip orbs2 occ2).filter (fun p => !skip (ms.GetOrbit p.1).tz2) →
      backfillLoop ext ms skip target orbs1 fuel1 occ1 c = some r1 →
      backfillLoop ext ms skip target orbs2 fuel2 occ2 c = some r2 →
      (List.zip orbs1 r1.1).filter (fun p => !skip (ms.GetOrbit p.1).tz2)
        = (List.zip orbs2 r2.1).filter (fun p => !skip (ms.GetOrbit p.1).tz2) ∧
      r1.2 = r2.2 := by
  intro fuel1
  induction fuel1 with
  | zero =>
    intro fuel2 occ1 occ2 c r1 r2 _ _ hf h1 h2
    by_cases hc : (target : K) - c > ext.OCC_CUT
    · rw [backfillLoop_zero ext ms skip target orbs1 occ1 c hc] at h1
      exact absurd h1 (by simp)
    · rw [backfillLoop_exit ext ms skip target orbs1 0 occ1 c hc] at h1
      rw [backfillLoop_exit ext ms skip target orbs2 fuel2 occ2 c hc] at h2
      cases h1; cases h2
      exact ⟨hf, rfl⟩
  | succ f1 ih =>
    intro fuel2 occ1 occ2 c r1 r2 hl1 hl2 hf h1 h2
    by_cases hc : (target : K) - c > ext.OCC_CUT
    · cases fuel2 with
      | zero =>
        rw [backfillLoop_zero ext ms skip target orbs2 occ2 c hc] at h2
        exact absurd h2 (by simp)
      | succ f2 =>
        rw [backfillLoop_succ ext ms skip target orbs1 f1 occ1 c hc] at h1
        rw [backfillLoop_succ ext ms skip target orbs2 f2 occ2 c hc] at h2
        obtain ⟨y1, y2, y3, _⟩ := backfillPass_zip ext ms skip target orbs1 occ1 c hl1
        obtain ⟨z1, z2, z3, _⟩ := backfillPass_zip ext ms skip target orbs2 occ2 c hl2
        obtain ⟨p1, p2⟩ := backfillPassP_active ext ms skip target (List.zip orbs1 occ1) (c, false)
        obtain ⟨q1, q2⟩ := backfillPassP_active ext ms skip target (List.zip orbs2 occ2) (c, false)
        have hceq : (backfillPass ext ms skip target orbs1 occ1 c).2.1
            = (backfillPass ext ms skip target orbs2 occ2 c).2.1 := by
          rw [y3, z3, p2, q2, hf]
        rw [← hceq] at h2
        refine ih f2 _ _ _ r1 r2 y1 z1 ?_ h1 h2
        rw [y2, z2, p1, q1, hf]
    · rw [backfillLoop_exit ext ms skip target orbs1 (f1 + 1) occ1 c hc] at h1
      rw [backfillLoop_exit ext ms skip target orbs2 fuel2 occ2 c hc] at h2
      cases h1; cases h2
      exact ⟨hf, rfl⟩

/-- A back-fill loop leaves the entries it skips as they are and keeps the length of
`hole_occ_tmp`. -/
lemma backfillLoop_frame (ext : External K) (ms : ModelSpace K) (skip : Int → Bool)
    (target : Int) (orbs : List Nat) (fuel : Nat) (occ : List K) (c : K) (r : List K × K)
    (h : backfillLoop ext ms skip target orbs fuel occ c = some r) :
    (∀ k, skip (ms.GetOrbit (orbs.getD k 0)).tz2 = true → r.1.getD k 0 = occ.getD k 0) ∧
    (occ.length = orbs.length → r.1.length = orbs.length ∧
      (List.zip orbs r.1).filter (fun p => skip (ms.GetOrbit p.1).tz2)
        = (List.zip orbs occ).filter (fun p => skip (ms.GetOrbit p.1).tz2)) := by
  constructor
  · exact (backfillLoop_inv ext ms skip target orbs
      (fun o _ => ∀ k, skip (ms.GetOrbit (orbs.getD k 0)).tz2 = true → o.getD k 0 = occ.getD k 0)
      (fun o x q _ k hk => by
        rw [backfillPass_skipped ext ms skip target orbs o x k hk]; exact q k hk)
      fuel occ c r (fun _ _ => rfl) h).1
  · intro hlen
    exact (backfillLoop_inv ext ms skip target orbs
      (fun o _ => o.length = orbs.length ∧
        (List.zip orbs o).filter (fun p => skip (ms.GetOrbit p.1).tz2)
          = (List.zip orbs occ).filter (fun p => skip (ms.GetOrbit p.1).tz2))
      (fun o x q _ => by
        obtain ⟨z1, z2, _, _⟩ := backfillPass_zip ext ms skip target orbs o x q.1
        refine ⟨z1, ?_⟩
        rw [z2, backfillPassP_skipped]
        exact q.2)
      fuel occ c r ⟨hlen, rfl⟩ h).1

/-- The kept proton orbits and their occupations after the selection loop depend only on
the occupations of the proton orbits. -/
lemma keepLoop_protons (ms : ModelSpace K) (Occ1 Occ2 : Vec K)
    (hag : ∀ i ∈ ms.all_orbits, (ms.GetOrbit i).tz2 < 0 → Occ1 i = Occ2 i) :
    (List.zip (keepLoop ms Occ1).holeorbs_tmp (keepLoop ms Occ1).hole_occ_tmp).filter
        (fun p => decide ((ms.GetOrbit p.1).tz2 < 0))
      = (List.zip (keepLoop ms Occ2).holeorbs_tmp (keepLoop ms Occ2).hole_occ_tmp).filter
        (fun p => decide ((ms.GetOrbit p.1).tz2 < 0)) := by
  obtain ⟨a1, a2, _, _⟩ := keepLoop_spec ms Occ1
  obtain ⟨b1, b2, _, _⟩ := keepLoop_spec ms Occ2
  rw [a2, b2, zip_map_self, zip_map_self, a1, b1]
  generalize ms.all_orbits = L at hag
  induction L with
  | nil => rfl
  | cons i t ih =>
    have iht := ih (fun j hj => hag j (List.mem_cons_of_mem _ hj))
    by_cases hz : (ms.GetOrbit i).tz2 < 0
    · have e := hag i (List.mem_cons_self _ _) hz
      by_cases hk : Occ2 i > 2 / 100
      · simp [List.filter_cons, e, hk, hz, iht]
      · simp [List.filter_cons, e, hk, iht]
    · by_cases hk1 : Occ1 i > 2 / 100 <;> by_cases hk2 : Occ2 i > 2 / 100 <;>
        simp [List.filter_cons, hk1, hk2, hz, iht]

lemma DiagonalizeRho_frame (ext : External K) (fuel : Nat) (hf hf3 : HFMBPT K)
    (h : HFMBPT.DiagonalizeRho ext fuel hf = Except.ok hf3) :
    ∃ (Cm : Mat K) (Oc : Vec K), hf3 = { hf with C_HF2NAT := Cm, Occ := Oc } := by
  unfold HFMBPT.DiagonalizeRho at h
  split at h
  · cases h
  · split at h
    · cases h
    · rename_i Cm2 Oc2 _
      cases h
      exact ⟨Cm2, Oc2, rfl⟩

lemma setOccNat_loop_frame (Occ : Vec K) (L : List Nat) (ms : ModelSpace K) :
    (L.foldl (fun ms i => ms.setOccNat i |Occ i|) ms).all_orbits = ms.all_orbits ∧
    (L.foldl (fun ms i => ms.setOccNat i |Occ i|) ms).holes = ms.holes ∧
    (L.foldl (fun ms i => ms.setOccNat i |Occ i|) ms).particles = ms.particles :=
  foldl_inv (fun m : ModelSpace K => m.all_orbits = ms.all_orbits ∧ m.holes = ms.holes ∧
      m.particles = ms.particles)
    (fun ms i => ms.setOccNat i |Occ i|) L ms ⟨rfl, rfl, rfl⟩
    (fun _ _ _ hs => hs)

/-- Lines 31-62 of `GetNaturalOrbitals` do not write to `use_NAT_occupations`, `holeorbs`,
`hole_occ`, nor to the index sets of the model space. -/
lemma head_frame (ext : External K) (fuel : Nat) (hf hf5 : HFMBPT K) (H : Operator K)
    (h : HFMBPT.GetNaturalOrbitals_head ext fuel hf H = Except.ok hf5) :
    hf5.use_NAT_occupations = hf.use_NAT_occupations ∧ hf5.holeorbs = hf.holeorbs ∧
    hf5.hole_occ = hf.hole_occ ∧ hf5.modelspace.all_orbits = hf.modelspace.all_orbits ∧
    hf5.modelspace.holes = hf.modelspace.holes ∧
    hf5.modelspace.particles = hf.modelspace.particles := by
  cases h3 : HFMBPT.DiagonalizeRho ext fuel
      (HFMBPT.GetDensityMatrix ext { hf with rho := matZeros, Occ := fun _ => 0 } H) with
  | error e =>
    rw [head_of_fatal ext fuel hf H e h3] at h
    cases h
  | ok hf3 =>
    rw [head_of_diagonalized ext fuel hf H hf3 h3] at h
    obtain ⟨Cm, Oc, rfl⟩ := DiagonalizeRho_frame ext fuel _ hf3 h3
    split_ifs at h
    cases h
    obtain ⟨f1, f2, f3⟩ := setOccNat_loop_frame Oc hf.modelspace.all_orbits hf.modelspace
    exact ⟨rfl, rfl, rfl, f1, f2, f3⟩

/-- C18. Kept orbits.  For a state `hf5` at line 64 on which the back-filling part finishes
with the locals `s`: when `use_NAT_occupations` is set, lines 64-134 return with `holeorbs`
equal to the list of the orbits `i` of `all_orbits`, in its order, with `Occ(i) > 0.02`, with
`hole_occ` of the same length, the loops having changed neither the kept orbits nor the
length of `hole_occ_tmp`; when it is not set, lines 64-134 return the state as it is,
whatever `UpdateReference` is.  When lines 31-62 return `hf5`, `GetNaturalOrbitals` is
lines 64-134 run on it, and `use_NAT_occupations`, `holeorbs`, `hole_occ` and the index sets
of the model space are those of the call.  The constructor leaves `use_NAT_occupations`
false, and on a constructed engine `GetNaturalOrbitals` is lines 31-62 alone. -/
theorem C18_kept_orbits (ext : External K) (UpdateReference : HFMBPT K → ModelSpace K)
    (fuel : Nat) (A : Int) (hf5 : HFMBPT K) (s : BackfillState K)
    (hs : backfill ext hf5.modelspace A hf5.Occ fuel = some s) :
    (hf5.use_NAT_occupations = true →
      ∃ hf7, HFMBPT.GetNaturalOrbitals_backfill ext UpdateReference fuel A hf5 = Except.ok hf7 ∧
        hf7.holeorbs
          = hf5.modelspace.all_orbits.filter (fun i => decide (hf5.Occ i > 2 / 100)) ∧
        hf7.hole_occ = s.hole_occ_tmp ∧
        hf7.hole_occ.length = hf7.holeorbs.length ∧
        s.holeorbs_tmp = (keepLoop hf5.modelspace hf5.Occ).holeorbs_tmp ∧
        s.hole_occ_tmp.length = (keepLoop hf5.modelspace hf5.Occ).hole_occ_tmp.length) ∧
    (hf5.use_NAT_occupations = false →
      HFMBPT.GetNaturalOrbitals_backfill ext UpdateReference fuel A hf5 = Except.ok hf5) ∧
    (∀ (hf : HFMBPT K) (H : Operator K),
      HFMBPT.GetNaturalOrbitals_head ext fuel hf H = Except.ok hf5 →
      HFMBPT.GetNaturalOrbitals ext UpdateReference fuel hf H
        = HFMBPT.GetNaturalOrbitals_backfill ext UpdateReference fuel
            hf.modelspace.TargetMass hf5 ∧
      hf5.use_NAT_occupations = hf.use_NAT_occupations ∧
      hf5.holeorbs = hf.holeorbs ∧ hf5.hole_occ = hf.hole_occ ∧
      hf5.modelspace.all_orbits = hf.modelspace.all_orbits ∧
      hf5.modelspace.holes = hf.modelspace.holes ∧
      hf5.modelspace.particles = hf.modelspace.particles) ∧
    (∀ (base : HFMBPT K) (H : Operator K),
      (HFMBPT.construct base).use_NAT_occupations = false ∧
      HFMBPT.GetNaturalOrbitals ext UpdateReference fuel (HFMBPT.construct base) H
        = HFMBPT.GetNaturalOrbitals_head ext fuel (HFMBPT.construct base) H) := by
  refine ⟨fun hflag => ?_, fun hflag => ?_, fun hf H h5 => ?_, fun base H => ⟨rfl, ?_⟩⟩
  · obtain ⟨r1, r2, h1, h2, hr⟩ := backfill_some ext hf5.modelspace A hf5.Occ fuel s hs
    obtain ⟨k1, _, _, _⟩ := keepLoop_spec hf5.modelspace hf5.Occ
    obtain ⟨_, hlen⟩ := keepLoop_sub hf5.modelspace hf5.Occ
    obtain ⟨a1, _⟩ := (backfillLoop_frame ext hf5.modelspace protonSkip _ _ fuel _ _ r1 h1).2 hlen
    obtain ⟨b1, _⟩ := (backfillLoop_frame ext hf5.modelspace neutronSkip _ _ fuel _ _ r2 h2).2 a1
    refine ⟨{ hf5 with
        holeorbs := s.holeorbs_tmp, hole_occ := s.hole_occ_tmp
        modelspace := UpdateReference
          { hf5 with holeorbs := s.holeorbs_tmp, hole_occ := s.hole_occ_tmp } },
      ?_, ?_, rfl, ?_, ?_, ?_⟩
    · unfold HFMBPT.GetNaturalOrbitals_backfill
      rw [if_pos hflag, hs]
    · show s.holeorbs_tmp = _
      rw [hr, k1]
    · show s.hole_occ_tmp.length = s.holeorbs_tmp.length
      rw [hr]; exact b1
    · rw [hr]
    · rw [hr]; show r2.1.length = _
      rw [b1, hlen]
  · unfold HFMBPT.GetNaturalOrbitals_backfill
    rw [if_neg (by simp [hflag])]
  · refine ⟨?_, head_frame ext fuel hf hf5 H h5⟩
    unfold HFMBPT.GetNaturalOrbitals
    rw [h5]
  · unfold HFMBPT.GetNaturalOrbitals
    cases h6 : HFMBPT.GetNaturalOrbitals_head ext fuel (HFMBPT.construct base) H with
    | error e => rfl
    | ok hf6 =>
      have hfl := (head_frame ext fuel _ hf6 H h6).1
      show HFMBPT.GetNaturalOrbitals_backfill ext UpdateReference fuel _ hf6 = Except.ok hf6
      unfold HFMBPT.GetNaturalOrbitals_backfill
      rw [if_neg]
      rw [hfl]
      simp [HFMBPT.construct]

/-- C17. Species independence of the back-fill, with `tz2 = -1` or `+1` on every orbit.  The
proton loop changes neither `NfromTr`, nor the kept orbits, nor the `hole_occ_tmp` entry of
a kept orbit with `tz2 > 0`; the neutron loop changes neither `ZfromTr`, nor the kept orbits,
nor the entry of a kept orbit with `tz2 < 0`; and two finished runs over the same model space
(hence the same `Z`) whose occupation vectors agree on the orbits with `tz2 < 0` end with the
same kept proton orbits and the same occupations on them, whatever the mass numbers, the
neutron occupations and the pass bounds are. -/
theorem C17_species_independence (ext : External K) (ms : ModelSpace K)
    (htz : ∀ i ∈ ms.all_orbits, (ms.GetOrbit i).tz2 = -1 ∨ (ms.GetOrbit i).tz2 = 1) :
    (∀ (Z : Int) (fuel : Nat) (s s2 : BackfillState K),
      protonStage ext ms Z fuel s = some s2 →
      s2.NfromTr = s.NfromTr ∧ s2.holeorbs_tmp = s.holeorbs_tmp ∧
      ∀ k, (ms.GetOrbit (s.holeorbs_tmp.getD k 0)).tz2 > 0 →
        s2.hole_occ_tmp.getD k 0 = s.hole_occ_tmp.getD k 0) ∧
    (∀ (N : Int) (fuel : Nat) (s s2 : BackfillState K),
      neutronStage ext ms N fuel s = some s2 →
      s2.ZfromTr = s.ZfromTr ∧ s2.holeorbs_tmp = s.holeorbs_tmp ∧
      ∀ k, (ms.GetOrbit (s.holeorbs_tmp.getD k 0)).tz2 < 0 →
        s2.hole_occ_tmp.getD k 0 = s.hole_occ_tmp.getD k 0) ∧
    (∀ (A1 A2 : Int) (Occ1 Occ2 : Vec K) (fuel1 fuel2 : Nat) (r1 r2 : BackfillState K),
      (∀ i ∈ ms.all_orbits, (ms.GetOrbit i).tz2 < 0 → Occ1 i = Occ2 i) →
      backfill ext ms A1 Occ1 fuel1 = some r1 → backfill ext ms A2 Occ2 fuel2 = some r2 →
      (List.zip r1.holeorbs_tmp r1.hole_occ_tmp).filter
          (fun p => decide ((ms.GetOrbit p.1).tz2 < 0))
        = (List.zip r2.holeorbs_tmp r2.hole_occ_tmp).filter
          (fun p => decide ((ms.GetOrbit p.1).tz2 < 0))) := by
  refine ⟨?_, ?_, ?_⟩
  · intro Z fuel s s2 h
    unfold protonStage at h
    obtain ⟨r, hr, rfl⟩ := Option.map_eq_some'.mp h
    refine ⟨rfl, rfl, fun k hk => ?_⟩
    exact (backfillLoop_frame ext ms protonSkip Z _ fuel _ _ r hr).1 k
      (by simpa [protonSkip] using hk)
  · intro N fuel s s2 h
    unfold neutronStage at h
    obtain ⟨r, hr, rfl⟩ := Option.map_eq_some'.mp h
    refine ⟨rfl, rfl, fun k hk => ?_⟩
    exact (backfillLoop_frame ext ms neutronSkip N _ fuel _ _ r hr).1 k
      (by simpa [neutronSkip] using hk)
  · intro A1 A2 Occ1 Occ2 fuel1 fuel2 r1 r2 hag h1 h2
    obtain ⟨p1, n1, hp1, hn1, rfl⟩ := backfill_some ext ms A1 Occ1 fuel1 r1 h1
    obtain ⟨p2, n2, hp2, hn2, rfl⟩ := backfill_some ext ms A2 Occ2 fuel2 r2 h2
    obtain ⟨hsub1, hlen1⟩ := keepLoop_sub ms Occ1
    obtain ⟨hsub2, hlen2⟩ := keepLoop_sub ms Occ2
    have hk := keepLoop_protons ms Occ1 Occ2 hag
    -- on the kept orbits the proton loop works on the entries with `tz2 < 0`
    have hact : ∀ (Occ : Vec K) (occ : List K),
        (List.zip (keepLoop ms Occ).holeorbs_tmp occ).filter
            (fun p => !protonSkip (ms.GetOrbit p.1).tz2)
          = (List.zip (keepLoop ms Occ).holeorbs_tmp occ).filter
            (fun p => decide ((ms.GetOrbit p.1).tz2 < 0)) := by
      intro Occ occ
      apply List.filter_congr
      intro p hp
      have hmem := (keepLoop_sub ms Occ).1 p.1 (List.of_mem_zip (a := p.1) (b := p.2) hp).1
      rw [(protonSkip_species ms htz p.1 hmem).1]
      simp
    -- equal starting counts
    have hZ : (keepLoop ms Occ1).ZfromTr = (keepLoop ms Occ2).ZfromTr := by
      rw [(keepLoop_counts ms Occ1 htz).1, (keepLoop_counts ms Occ2 htz).1,
        speciesCount_filter, speciesCount_filter, hk]
    rw [hZ] at hp1
    obtain ⟨e1, _⟩ := backfillLoop_rel ext ms protonSkip ms.Zref _ _ fuel1 fuel2 _ _ _ p1 p2
      hlen1 hlen2 (by rw [hact, hact]; exact hk) hp1 hp2
    rw [hact, hact] at e1
    obtain ⟨a1, _⟩ := (backfillLoop_frame ext ms protonSkip _ _ fuel1 _ _ p1 hp1).2 hlen1
    obtain ⟨a2, _⟩ := (backfillLoop_frame ext ms protonSkip _ _ fuel2 _ _ p2 hp2).2 hlen2
    obtain ⟨_, b1⟩ := (backfillLoop_frame ext ms neutronSkip _ _ fuel1 _ _ n1 hn1).2 a1
    obtain ⟨_, b2⟩ := (backfillLoop_frame ext ms neutronSkip _ _ fuel2 _ _ n2 hn2).2 a2
    have hb1 : (List.zip (keepLoop ms Occ1).holeorbs_tmp n1.1).filter
          (fun p => decide ((ms.GetOrbit p.1).tz2 < 0))
        = (List.zip (keepLoop ms Occ1).holeorbs_tmp p1.1).filter
          (fun p => decide ((ms.GetOrbit p.1).tz2 < 0)) := b1
    have hb2 : (List.zip (keepLoop ms Occ2).holeorbs_tmp n2.1).filter
          (fun p => decide ((ms.GetOrbit p.1).tz2 < 0))
        = (List.zip (keepLoop ms Occ2).holeorbs_tmp p2.1).filter
          (fun p => decide ((ms.GetOrbit p.1).tz2 < 0)) := b2
    show (List.zip (keepLoop ms Occ1).holeorbs_tmp n1.1).filter _
      = (List.zip (keepLoop ms Occ2).holeorbs_tmp n2.1).filter _
    rw [hb1, hb2, e1]

end BackfillTheorems

section ReorderFixedPoint
variable {K : Type} [LinearOrderedField K]

/-- A fold whose steps never lower a counter, and leave the state as it is when they do not
raise it: if the counter is the same at the end, no step changed the state. -/
lemma foldl_counter {α β : Type} (cnt : β → Nat) (f : β → α → β)
    (hmono : ∀ s x, cnt s ≤ cnt (f s x)) (hfix : ∀ s x, cnt (f s x) = cnt s → f s x = s) :
    ∀ (l : List α) (s : β), cnt s ≤ cnt (l.foldl f s) ∧
      (cnt (l.foldl f s) = cnt s → l.foldl f s = s ∧ ∀ x ∈ l, f s x = s) := by
  intro l
  induction l with
  | nil => intro s; exact ⟨le_refl _, fun _ => ⟨rfl, fun x hx => absurd hx (List.not_mem_nil x)⟩⟩
  | cons x t ih =>
    intro s
    rw [List.foldl_cons]
    obtain ⟨i1, i2⟩ := ih (f s x)
    refine ⟨le_trans (hmono s x) i1, fun h => ?_⟩
    have h1 : cnt (f s x) = cnt s := le_antisymm (by rw [← h]; exact i1) (hmono s x)
    have h2 := hfix s x h1
    obtain ⟨j1, j2⟩ := i2 (h.trans h1.symm)
    refine ⟨j1.trans h2, fun y hy => ?_⟩
    rcases List.mem_cons.mp hy with rfl | hy
    · exact h2
    · have := j2 y hy
      rw [h2] at this
      exact this

lemma swapStep_count (s : ReorderState K) (i j : Nat) :
    s.2.2 ≤ (swapStep s i j).2.2 ∧
    ((swapStep s i j).2.2 = s.2.2 → swapStep s i j = s ∧ ¬ (|s.1 i j| > |s.1 i i|)) := by
  unfold swapStep
  split_ifs with h
  · exact ⟨Nat.le_succ _, fun h2 => absurd h2 (Nat.succ_ne_self _)⟩
  · exact ⟨le_refl _, fun _ => ⟨rfl, h⟩⟩

/-- A pass that counts no swap has found the fixed point and changed nothing. -/
lemma reorderPass_zero (m : Nat) (Cmat : Mat K) (Occ : Vec K)
    (h : (reorderPass m Cmat Occ).2.2 = 0) :
    reorderPass m Cmat Occ = (Cmat, Occ, 0) ∧ ReorderStable m Cmat := by
  have inner : ∀ (i : Nat) (s : ReorderState K),
      s.2.2 ≤ ((List.range i).foldl (fun s j => swapStep s i j) s).2.2 ∧
      (((List.range i).foldl (fun s j => swapStep s i j) s).2.2 = s.2.2 →
        (List.range i).foldl (fun s j => swapStep s i j) s = s ∧
        ∀ j ∈ List.range i, swapStep s i j = s) :=
    fun i s => foldl_counter (fun s : ReorderState K => s.2.2) (fun s j => swapStep s i j)
      (fun s j => (swapStep_count s i j).1) (fun s j hh => ((swapStep_count s i j).2 hh).1)
      (List.range i) s
  have outer := foldl_counter (fun s : ReorderState K => s.2.2)
    (fun s i => (List.range i).foldl (fun s j => swapStep s i j) s)
    (fun s i => (inner i s).1) (fun s i hh => ((inner i s).2 hh).1)
    (List.range m) (Cmat, Occ, 0)
  obtain ⟨o1, o2⟩ := outer.2 h
  refine ⟨o1, fun i j hi hj => ?_⟩
  have h1 := o2 i (List.mem_range.mpr hi)
  have h2 := ((inner i (Cmat, Occ, 0)).2 (by rw [h1])).2 j (List.mem_range.mpr hj)
  exact ((swapStep_count (Cmat, Occ, 0) i j).2 (by rw [h2])).2

/-- On a fixed point a pass makes no swap. -/
lemma reorderPass_stable (m : Nat) (Cmat : Mat K) (Occ : Vec K) (h : ReorderStable m Cmat) :
    reorderPass m Cmat Occ = (Cmat, Occ, 0) := by
  refine reorderPass_inv (fun s => s = (Cmat, Occ, 0)) m ?_ Cmat Occ rfl
  intro s i j hs hi hj
  subst hs
  unfold swapStep
  rw [if_neg (h i j hi hj)]

lemma reorderLoop_of_stable (m fuel : Nat) (Cmat : Mat K) (Occ : Vec K)
    (h : ReorderStable m Cmat) : reorderLoop m (fuel + 1) Cmat Occ = some (Cmat, Occ) := by
  unfold reorderLoop
  dsimp only
  rw [reorderPass_stable m Cmat Occ h]
  simp

/-- The swap loop exits on a fixed point of its scan. -/
lemma reorderLoop_result_stable (m : Nat) : ∀ (fuel : Nat) (Cmat : Mat K) (Occ : Vec K)
    (r : Mat K × Vec K), reorderLoop m fuel Cmat Occ = some r → ReorderStable m r.1 := by
  intro fuel
  induction fuel with
  | zero => intro Cmat Occ r h; simp [reorderLoop] at h
  | succ f ih =>
    intro Cmat Occ r h
    unfold reorderLoop at h
    dsimp only at h
    split_ifs at h with hs
    · exact ih _ _ r h
    · have h0 : (reorderPass m Cmat Occ).2.2 = 0 := by omega
      obtain ⟨e, hst⟩ := reorderPass_zero m Cmat Occ h0
      rw [e] at h
      rw [← Option.some.inj h]
      exact hst

lemma reorderStable_mono (m1 m2 : Nat) (Cmat : Mat K) (hle : m1 ≤ m2)
    (h : ReorderStable m2 Cmat) : ReorderStable m1 Cmat :=
  fun i j hi hj => h i j (lt_of_lt_of_le hi hle) hj

/-- The swap loop of one channel keeps the fixed points reached for the other channels. -/
lemma reorderLoop_keeps (m m2 fuel : Nat) (Cmat : Mat K) (Occ : Vec K) (r : Mat K × Vec K)
    (h : reorderLoop m fuel Cmat Occ = some r) (hst : ReorderStable m2 Cmat) :
    ReorderStable m2 r.1 := by
  by_cases hle : m ≤ m2
  · cases fuel with
    | zero => simp [reorderLoop] at h
    | succ f =>
      rw [reorderLoop_of_stable m f Cmat Occ (reorderStable_mono m m2 Cmat hle hst)] at h
      rw [← Option.some.inj h]
      exact hst
  · exact reorderStable_mono m2 m r.1 (by omega) (reorderLoop_result_stable m fuel Cmat Occ r h)

lemma reorderStable_negCol (m : Nat) (Cmat : Mat K) (k : Nat) (h : ReorderStable m Cmat) :
    ReorderStable m (negCol Cmat k) := by
  intro i j hi hj
  have e : ∀ c, |negCol Cmat k i c| = |Cmat i c| := by
    intro c
    unfold negCol
    split_ifs
    · rw [mul_neg_one, abs_neg]
    · rfl
  rw [e, e]
  exact h i j hi hj

lemma fixSigns_diag (n_rows : Nat) (Cmat : Mat K) :
    ∀ i, i < n_rows → 0 ≤ fixSigns n_rows Cmat i i := by
  induction n_rows with
  | zero => intro i hi; exact absurd hi (Nat.not_lt_zero _)
  | succ n ih =>
    intro i hi
    have e : fixSigns (n + 1) Cmat
        = if fixSigns n Cmat n n < 0 then negCol (fixSigns n Cmat) n else fixSigns n Cmat := by
      unfold fixSigns
      rw [List.range_succ, List.foldl_append]
      rfl
    rw [e]
    by_cases hin : i = n
    · subst hin
      split_ifs with hneg
      · unfold negCol
        rw [if_pos rfl]
        linarith
      · exact not_lt.mp hneg
    · have hi2 : i < n := by omega
      split_ifs with hneg
      · unfold negCol
        rw [if_neg hin]
        exact ih i hi2
      · exact ih i hi2

lemma fixSigns_id (n_rows : Nat) (Cmat : Mat K) (h : ∀ i, i < n_rows → 0 ≤ Cmat i i) :
    fixSigns n_rows Cmat = Cmat := by
  unfold fixSigns
  refine foldl_inv (fun s : Mat K => s = Cmat) _ _ _ rfl fun s i hi hs => ?_
  subst hs
  rw [if_neg (not_lt.mpr (h i (List.mem_range.mp hi)))]

/-- What one channel of `ReorderHFMBPTCoefficients` leaves: the fixed point of its own scan,
the fixed points that held before, and non-negative diagonal entries. -/
lemma reorderChannel_spec (fuel n_rows : Nat) (orbvec : List Nat) (Cmat : Mat K) (Occ : Vec K)
    (r : Mat K × Vec K) (h : reorderChannel fuel n_rows orbvec Cmat Occ = some r) :
    ReorderStable (orbvec.length - 1) r.1 ∧
    (∀ m2, ReorderStable m2 Cmat → ReorderStable m2 r.1) ∧
    (∀ i, i < n_rows → 0 ≤ r.1 i i) := by
  unfold reorderChannel at h
  obtain ⟨r2, h2, rfl⟩ := Option.map_eq_some'.mp h
  refine ⟨?_, fun m2 hst => ?_, fixSigns_diag n_rows r2.1⟩
  · exact fixSigns_inv (fun Cm => ReorderStable (orbvec.length - 1) Cm) n_rows
      (fun Cm i hP => reorderStable_negCol _ Cm i hP) r2.1
      (reorderLoop_result_stable _ fuel Cmat Occ r2 h2)
  · exact fixSigns_inv (fun Cm => ReorderStable m2 Cm) n_rows
      (fun Cm i hP => reorderStable_negCol _ Cm i hP) r2.1
      (reorderLoop_keeps _ m2 fuel Cmat Occ r2 h2 hst)

/-- State left by a run of `ReorderHFMBPTCoefficients`. -/
lemma Reorder_fixed (fuel n_rows : Nat) : ∀ (l : List (List Nat)) (b r : Mat K × Vec K),
    l.foldl (fun st orbvec =>
      st.bind (fun res => reorderChannel fuel n_rows orbvec res.1 res.2)) (some b) = some r →
    (∀ m2, ReorderStable m2 b.1 → ReorderStable m2 r.1) ∧
    (∀ ch ∈ l, ReorderStable (ch.length - 1) r.1) ∧
    (l ≠ [] → ∀ i, i < n_rows → 0 ≤ r.1 i i) := by
  intro l
  induction l with
  | nil =>
    intro b r h
    rw [List.foldl_nil] at h
    rw [← Option.some.inj h]
    exact ⟨fun _ hst => hst, fun ch hch => absurd hch (List.not_mem_nil ch),
      fun hne => absurd rfl hne⟩
  | cons x t ih =>
    intro b r h
    rw [List.foldl_cons, Option.some_bind] at h
    cases hx : reorderChannel fuel n_rows x b.1 b.2 with
    | none =>
      rw [hx, foldl_bind_none] at h
      exact absurd h (by simp)
    | some b2 =>
      rw [hx] at h
      obtain ⟨s1, s2, s3⟩ := reorderChannel_spec fuel n_rows x b.1 b.2 b2 hx
      obtain ⟨i1, i2, i3⟩ := ih b2 r h
      refine ⟨fun m2 hst => i1 m2 (s2 m2 hst), fun ch hch => ?_, fun _ => ?_⟩
      · rcases List.mem_cons.mp hch with rfl | hch
        · exact i1 _ s1
        · exact i2 ch hch
      · by_cases ht : t = []
        · subst ht
          rw [List.foldl_nil] at h
          rw [← Option.some.inj h]
          exact s3
        · exact i3 ht

/-- On the state left by a run, every channel is passed without a change. -/
lemma Reorder_again (fuel n_rows : Nat) (b : Mat K × Vec K)
    (hdiag : ∀ i, i < n_rows → 0 ≤ b.1 i i) : ∀ (l : List (List Nat)),
    (∀ ch ∈ l, ReorderStable (ch.length - 1) b.1) →
    l.foldl (fun st orbvec =>
      st.bind (fun res => reorderChannel (fuel + 1) n_rows orbvec res.1 res.2)) (some b)
      = some b := by
  intro l
  induction l with
  | nil => intro _; rfl
  | cons x t ih =>
    intro hst
    rw [List.foldl_cons, Option.some_bind]
    have hx : reorderChannel (fuel + 1) n_rows x b.1 b.2 = some b := by
      unfold reorderChannel
      rw [reorderLoop_of_stable _ fuel b.1 b.2 (hst x (List.mem_cons_self _ _))]
      rw [Option.map_some', fixSigns_id n_rows b.1 hdiag]
    rw [hx]
    exact ih (fun ch hch => hst ch (List.mem_cons_of_mem _ hch))

/-- C19. Idempotence of the reordering: for every matrix `C_HF2NAT` (block-diagonal or not)
and every vector `Occ`, `ReorderHFMBPTCoefficients` returns (the pass bound being above
`size ^ (size - 1)` for every channel), and a second run on what it returns changes neither
`C_HF2NAT` nor `Occ`. -/
theorem C19_reorder_idempotent (fuel n_rows : Nat) (channels : List (List Nat))
    (Cmat : Mat K) (Occ : Vec K)
    (hfuel : ∀ orbvec ∈ channels, (orbvec.length - 1 + 1) ^ (orbvec.length - 1) < fuel) :
    ∃ r, ReorderHFMBPTCoefficients fuel n_rows channels Cmat Occ = some r ∧
      ReorderHFMBPTCoefficients fuel n_rows channels r.1 r.2 = some r := by
  obtain ⟨r, hr⟩ := Option.isSome_iff_exists.mp
    (Reorder_isSome fuel n_rows channels hfuel Cmat Occ)
  refine ⟨r, hr, ?_⟩
  cases channels with
  | nil =>
    rfl
  | cons x t =>
    have hpos : 0 < fuel := lt_of_le_of_lt (Nat.zero_le _) (hfuel x (List.mem_cons_self _ _))
    obtain ⟨f, rfl⟩ : ∃ f, fuel = f + 1 := ⟨fuel - 1, by omega⟩
    unfold ReorderHFMBPTCoefficients at hr ⊢
    obtain ⟨_, h2, h3⟩ := Reorder_fixed (f + 1) n_rows (x :: t) (Cmat, Occ) r hr
    exact Reorder_again f n_rows r (h3 (List.cons_ne_nil _ _)) (x :: t) h2

end ReorderFixedPoint

section ExampleRuns

lemma exKeepFill : keepLoop exMS4 exOccFill
    = ⟨[0, 1], [999 / 1000, 499 / 500], 499 / 250, 999 / 500⟩ := by
  simp [keepLoop, keepStep, exMS4, exOccFill, ModelSpace.GetOrbit]
  norm_num

lemma exPassZ : backfillPass exExt exMS4 protonSkip 2 [0, 1] [999 / 1000, 499 / 500] (999 / 500)
    = ([1, 499 / 500], 2, true) := by
  unfold backfillPass
  rw [show List.range ([0, 1] : List Nat).length = [0, 1] from rfl,
    List.foldl_cons, List.foldl_cons, List.foldl_nil]
  have h0 : backfillStep exExt exMS4 protonSkip 2 [0, 1]
      ([999 / 1000, 499 / 500], 999 / 500, false) 0 = ([1, 499 / 500], 2, true) := by
    simp [backfillStep, exMS4, exExt, ModelSpace.GetOrbit, protonSkip]
    norm_num [min_def]
  rw [h0]
  rfl

lemma exPassN : backfillPass exExt exMS4 neutronSkip 2 [0, 1] [1, 499 / 500] (499 / 250)
    = ([1, 1], 2, true) := by
  unfold backfillPass
  rw [show List.range ([0, 1] : List Nat).length = [0, 1] from rfl,
    List.foldl_cons, List.foldl_cons, List.foldl_nil]
  have h0 : backfillStep exExt exMS4 neutronSkip 2 [0, 1]
      ([1, 499 / 500], 499 / 250, false) 0 = ([1, 499 / 500], 499 / 250, false) := by
    simp [backfillStep, exMS4, ModelSpace.GetOrbit, neutronSkip]
  have h1 : backfillStep exExt exMS4 neutronSkip 2 [0, 1]
      ([1, 499 / 500], 499 / 250, false) 1 = ([1, 1], 2, true) := by
    simp [backfillStep, exMS4, exExt, ModelSpace.GetOrbit, neutronSkip]
    norm_num [min_def]
  rw [h0, h1]

lemma exLoopZ : backfillLoop exExt exMS4 protonSkip 2 [0, 1] 1 [999 / 1000, 499 / 500]
    (999 / 500) = some ([1, 499 / 500], 2) := by
  rw [backfillLoop_succ exExt exMS4 protonSkip 2 [0, 1] 0 _ _ (by norm_num [exExt]), exPassZ]
  exact backfillLoop_exit exExt exMS4 protonSkip 2 [0, 1] 0 _ _ (by norm_num [exExt])

lemma exLoopN : backfillLoop exExt exMS4 neutronSkip 2 [0, 1] 1 [1, 499 / 500]
    (499 / 250) = some ([1, 1], 2) := by
  rw [backfillLoop_succ exExt exMS4 neutronSkip 2 [0, 1] 0 _ _ (by norm_num [exExt]), exPassN]
  exact backfillLoop_exit exExt exMS4 neutronSkip 2 [0, 1] 0 _ _ (by norm_num [exExt])

lemma exFill_run : backfill exExt exMS4 4 exOccFill 1 = some ⟨[0, 1], [1, 1], 2, 2⟩ := by
  unfold backfill protonStage neutronStage
  rw [exKeepFill]
  have hZ : exMS4.Zref = 2 := rfl
  rw [hZ]
  dsimp only
  rw [exLoopZ]
  rw [Option.map_some', Option.some_bind]
  dsimp only
  rw [show ((4 : Int) - 2) = 2 from rfl, exLoopN]
  rfl

lemma exKeepExcess : keepLoop exMS4 exOccExcess
    = ⟨[0, 1, 2], [1, 1, 3 / 100], 2, 103 / 50⟩ := by
  simp [keepLoop, keepStep, exMS4, exOccExcess, ModelSpace.GetOrbit]
  norm_num

lemma exExcess_run : backfill exExt exMS4 4 exOccExcess 0
    = some ⟨[0, 1, 2], [1, 1, 3 / 100], 2, 103 / 50⟩ := by
  unfold backfill protonStage neutronStage
  rw [exKeepExcess]
  have hZ : exMS4.Zref = 2 := rfl
  rw [hZ]
  dsimp only
  rw [backfillLoop_exit exExt exMS4 protonSkip 2 _ 0 _ _ (by norm_num [exExt])]
  rw [Option.map_some', Option.some_bind]
  dsimp only
  rw [backfillLoop_exit exExt exMS4 neutronSkip _ _ 0 _ _ (by norm_num [exExt])]
  rfl

lemma exKeepOver : keepLoop exMS4 exOccOver = ⟨[0, 1], [11 / 10, 1], 2, 11 / 5⟩ := by
  simp [keepLoop, keepStep, exMS4, exOccOver, ModelSpace.GetOrbit]
  norm_num

lemma exOver_run : backfill exExt exMS4 4 exOccOver 0 = some ⟨[0, 1], [11 / 10, 1], 2, 11 / 5⟩ := by
  unfold backfill protonStage neutronStage
  rw [exKeepOver]
  have hZ : exMS4.Zref = 2 := rfl
  rw [hZ]
  dsimp only
  rw [backfillLoop_exit exExt exMS4 protonSkip 2 _ 0 _ _ (by norm_num [exExt])]
  rw [Option.map_some', Option.some_bind]
  dsimp only
  rw [backfillLoop_exit exExt exMS4 neutronSkip _ _ 0 _ _ (by norm_num [exExt])]
  rfl

lemma exKeepFill2 : keepLoop exMS4 exOccFill2
    = ⟨[0, 1, 3], [999 / 1000, 1 / 2, 1 / 2], 2, 999 / 500⟩ := by
  simp [keepLoop, keepStep, exMS4, exOccFill2, ModelSpace.GetOrbit]
  norm_num

lemma exPassZ2 : backfillPass exExt exMS4 protonSkip 2 [0, 1, 3] [999 / 1000, 1 / 2, 1 / 2]
    (999 / 500) = ([1, 1 / 2, 1 / 2], 2, true) := by
  unfold backfillPass
  rw [show List.range ([0, 1, 3] : List Nat).length = [0, 1, 2] from rfl,
    List.foldl_cons, List.foldl_cons, List.foldl_cons, List.foldl_nil]
  have h0 : backfillStep exExt exMS4 protonSkip 2 [0, 1, 3]
      ([999 / 1000, 1 / 2, 1 / 2], 999 / 500, false) 0 = ([1, 1 / 2, 1 / 2], 2, true) := by
    simp [backfillStep, exMS4, exExt, ModelSpace.GetOrbit, protonSkip]
    norm_num [min_def]
  rw [h0]
  rfl

lemma exFill2_run : backfill exExt exMS4 4 exOccFill2 1
    = some ⟨[0, 1, 3], [1, 1 / 2, 1 / 2], 2, 2⟩ := by
  unfold backfill protonStage neutronStage
  rw [exKeepFill2]
  have hZ : exMS4.Zref = 2 := rfl
  rw [hZ]
  dsimp only
  rw [backfillLoop_succ exExt exMS4 protonSkip 2 _ 0 _ _ (by norm_num [exExt]), exPassZ2]
  rw [backfillLoop_exit exExt exMS4 protonSkip 2 _ 0 _ _ (by norm_num [exExt])]
  rw [Option.map_some', Option.some_bind]
  dsimp only
  rw [backfillLoop_exit exExt exMS4 neutronSkip _ _ 1 _ _ (by norm_num [exExt])]
  rfl

lemma exMS4_orbitsWF : OrbitsWF exMS4 := by
  intro i hi
  have h : i = 0 ∨ i = 1 ∨ i = 2 ∨ i = 3 := by simpa [exMS4] using hi
  rcases h with rfl | rfl | rfl | rfl <;> decide

lemma exMS4_getOrbit :
    exMS4.GetOrbit 0 = ⟨0, 0, 1, -1, 1, 0⟩ ∧ exMS4.GetOrbit 1 = ⟨0, 0, 1, 1, 1, 0⟩ ∧
    exMS4.GetOrbit 2 = ⟨1, 0, 1, -1, 0, 0⟩ ∧ exMS4.GetOrbit 3 = ⟨1, 0, 1, 1, 0, 0⟩ :=
  ⟨rfl, rfl, rfl, rfl⟩

lemma exExt_cut : (0 : ℚ) ≤ exExt.OCC_CUT := by norm_num [exExt]

/-- C13 as stated fails: for the eigenvalues `(1, 1, 0.03, -0.03)` over `exMS4` (weighted
trace 4) the kept proton orbits hold `2.06 > Z = 2`, neither loop runs a pass, and
`|Z - 2.06| = 0.06 > OCC_CUT`. -/
theorem C13_counterexample :
    ∃ r, backfill exExt exMS4 4 exOccExcess 0 = some r ∧
      ¬ (|((exMS4.Zref : Int) : ℚ)
          - speciesCount exMS4 (fun t => decide (t < 0)) r.holeorbs_tmp r.hole_occ_tmp|
        ≤ exExt.OCC_CUT) := by
  refine ⟨_, exExcess_run, ?_⟩
  obtain ⟨g0, g1, g2, _⟩ := exMS4_getOrbit
  have hs : speciesCount exMS4 (fun t => decide (t < 0)) [0, 1, 2] [1, 1, 3 / 100]
      = 103 / 50 := by
    simp [speciesCount, g0, g1, g2]
    norm_num
  rw [hs]
  norm_num [exMS4, exExt, abs_of_neg]

/-- C14 as stated fails: for the eigenvalues `(1.1, 1, -0.1, 0)` over `exMS4` (weighted
trace 4) neither loop runs a pass and the final `hole_occ` holds `1.1 > 1`. -/
theorem C14_counterexample :
    ∃ r, backfill exExt exMS4 4 exOccOver 0 = some r ∧
      ¬ (∀ x ∈ r.hole_occ_tmp, 2 / 100 < x ∧ x ≤ 1) := by
  refine ⟨_, exOver_run, ?_⟩
  intro h
  have := (h (11 / 10) (by simp)).2
  norm_num at this

/-- C13 (as amended) exercised on `exMS4` with a deficit of `0.002` protons and `0.004`
neutrons, which one pass of each loop fills. -/
theorem C13_backfill_conservation_witness :
    |((exMS4.Zref : Int) : ℚ) - speciesCount exMS4 (fun t => decide (t < 0)) [0, 1] [1, 1]|
      ≤ exExt.OCC_CUT :=
  (C13_backfill_conservation exExt exMS4 4 exOccFill 1 ⟨[0, 1], [1, 1], 2, 2⟩
    exMS4_orbitsWF exFill_run).2.1 (by
      rw [exKeepFill]
      obtain ⟨g0, g1, _, _⟩ := exMS4_getOrbit
      simp [speciesCount, g0, g1]
      norm_num [exMS4, exExt])

/-- C14 (as amended) exercised on the run of `exOccFill` over `exMS4`. -/
theorem C14_backfill_bounds_witness :
    (∀ x ∈ [(1 : ℚ), 1], 2 / 100 < x) ∧ (∀ x ∈ [(1 : ℚ), 1], 2 / 100 < x ∧ x ≤ 1) :=
  ⟨(C14_backfill_bounds exExt exMS4 4 exOccFill 1 ⟨[0, 1], [1, 1], 2, 2⟩
      (fun i hi => (exMS4_orbitsWF i hi).2) exFill_run).1,
    (C14_backfill_bounds exExt exMS4 4 exOccFill 1 ⟨[0, 1], [1, 1], 2, 2⟩
      (fun i hi => (exMS4_orbitsWF i hi).2) exFill_run).2 (by
        intro i hi _
        have h : i = 0 ∨ i = 1 ∨ i = 2 ∨ i = 3 := by simpa [exMS4] using hi
        rcases h with rfl | rfl | rfl | rfl <;> norm_num [exOccFill])⟩

lemma exOrbs_j2 : ∀ o ∈ ([0, 1] : List Nat), 0 ≤ (exMS4.GetOrbit o).j2 := by
  intro o ho
  have h : o = 0 ∨ o = 1 := by simpa using ho
  rcases h with rfl | rfl <;> decide

/-- C15 exercised on the proton loop of the run of `exOccFill` over `exMS4`. -/
theorem C15_backfill_termination_witness :
    (∃ fuel, ∀ fuel2, fuel ≤ fuel2 →
      ∃ r, backfillLoop exExt exMS4 protonSkip 2 [0, 1] fuel2 [999 / 1000, 499 / 500]
          (999 / 500) = some r ∧ ((2 : Int) : ℚ) - r.2 ≤ exExt.OCC_CUT) ∧
    ((2 : Int) : ℚ) - (backfillPass exExt exMS4 protonSkip 2 [0, 1] [999 / 1000, 499 / 500]
        (999 / 500)).2.1 < ((2 : Int) : ℚ) - 999 / 500 := by
  obtain ⟨g0, g1, _, _⟩ := exMS4_getOrbit
  obtain ⟨h1, h2, _⟩ := C15_backfill_termination exExt exMS4 protonSkip 2 [0, 1]
    [999 / 1000, 499 / 500] (999 / 500) rfl exExt_cut exOrbs_j2
    (by intro x hx; have h : x = 999 / 1000 ∨ x = 499 / 500 := by simpa using hx
        rcases h with rfl | rfl <;> norm_num)
    (by simp [headroomP, orbW, g0, g1, protonSkip]; norm_num [exExt])
  refine ⟨h1, h2 (by norm_num [exExt]) ⟨(0, 999 / 1000), by simp, ?_, by norm_num⟩⟩
  simp [g0, protonSkip]

/-- C16 exercised on `exMS4` with one saturated kept proton orbit and the target `Z = 3`. -/
theorem C16_backfill_saturation_witness :
    backfillPass exExt exMS4 protonSkip 3 [0, 1] [1, 1] 2 = ([1, 1], 2, false) ∧
    ∀ fuel, backfillLoop exExt exMS4 protonSkip 3 [0, 1] fuel [1, 1] 2 = none :=
  C16_backfill_saturation exExt exMS4 protonSkip 3 [0, 1] [1, 1] 2 rfl exExt_cut exOrbs_j2
    (by norm_num [exExt])
    (by intro p hp _
        have h : p = (0, 1) ∨ p = (1, 1) := by simpa using hp
        rcases h with rfl | rfl <;> rfl)

/-- C17 exercised on two runs over `exMS4` that keep different neutron orbits. -/
theorem C17_species_independence_witness :
    (List.zip [0, 1] [(1 : ℚ), 1]).filter (fun p => decide ((exMS4.GetOrbit p.1).tz2 < 0))
      = (List.zip [0, 1, 3] [(1 : ℚ), 1 / 2, 1 / 2]).filter
          (fun p => decide ((exMS4.GetOrbit p.1).tz2 < 0)) :=
  (C17_species_independence exExt exMS4 (fun i hi => (exMS4_orbitsWF i hi).1)).2.2
    4 4 exOccFill exOccFill2 1 1 ⟨[0, 1], [1, 1], 2, 2⟩ ⟨[0, 1, 3], [1, 1 / 2, 1 / 2], 2, 2⟩
    (by intro i hi hz
        have h : i = 0 ∨ i = 1 ∨ i = 2 ∨ i = 3 := by simpa [exMS4] using hi
        obtain ⟨g0, g1, g2, g3⟩ := exMS4_getOrbit
        rcases h with rfl | rfl | rfl | rfl
        · rfl
        · rw [g1] at hz; exact absurd hz (by decide)
        · rfl
        · rw [g3] at hz; exact absurd hz (by decide))
    exFill_run exFill2_run

/-- C18 exercised on `exMS4` with `use_NAT_occupations` set. -/
theorem C18_kept_orbits_witness :
    ∃ hf7, HFMBPT.GetNaturalOrbitals_backfill exExt (fun hf => hf.modelspace) 1 4 exHF4n
        = Except.ok hf7 ∧
      hf7.holeorbs = exMS4.all_orbits.filter (fun i => decide (exOccFill i > 2 / 100)) ∧
      hf7.hole_occ = [1, 1] := by
  obtain ⟨hf7, h1, h2, h3, _⟩ := (C18_kept_orbits exExt (fun hf => hf.modelspace) 1 4 exHF4n
    ⟨[0, 1], [1, 1], 2, 2⟩ exFill_run).1 rfl
  exact ⟨hf7, h1, h2, h3⟩

/-- C19 exercised on the two channels of `exMS4`, from minus the identity. -/
theorem C19_reorder_idempotent_witness :
    ∃ r, ReorderHFMBPTCoefficients 3 4 [[0, 2], [1, 3]]
        (fun i j => if i = j then (-1 : ℚ) else 0) (fun _ => 0) = some r ∧
      ReorderHFMBPTCoefficients 3 4 [[0, 2], [1, 3]] r.1 r.2 = some r :=
  C19_reorder_idempotent 3 4 [[0, 2], [1, 3]] (fun i j => if i = j then (-1 : ℚ) else 0)
    (fun _ => 0) exHF4_fuel

/-- The rotation that `DiagonalizeRho` leaves for the density `diag(0.1, 0.1, 0.9, 0.9)`
over the channels `{0, 2}` and `{1, 3}`: in the channel `{0, 2}` the member orbits `2 > 0`
have `|C_HF2NAT(2,0)| = 1 > 0 = |C_HF2NAT(2,2)|`. -/
theorem C20_reorder_raw_indices :
    ∃ hf2, HFMBPT.DiagonalizeRho exExtTotal 3 exHF4r = Except.ok hf2 ∧
      |hf2.C_HF2NAT 2 0| = 1 ∧ |hf2.C_HF2NAT 2 2| = 0 ∧
      ¬ (|hf2.C_HF2NAT 2 0| ≤ |hf2.C_HF2NAT 2 2|) := by
  obtain ⟨r1, r2, h1, h2, h3⟩ := DiagonalizeRho_ok exExtTotal 3 exHF4r (fun _ _ => rfl)
    exHF4_fuel
  obtain ⟨hA, _, _⟩ := diagonalizeChannels_spec exExtTotal exHF4r.rho
    exHF4r.Hbare_OneBodyChannels exHF4r.C_HF2NAT exHF4r.Occ r1 exMS4_channelsWF.2.1 h1
  obtain ⟨eig, vec, he, hC, _⟩ := hA [0, 2] (by simp [exHF4r, exHF4])
  have hv : vec = matEye := by
    have : some ((fun k => submat exHF4r.rho [0, 2] [0, 2] k k), (matEye : Mat ℚ))
        = some (eig, vec) := he
    exact (Prod.mk.inj (Option.some.inj this)).2.symm
  have e20 : r1.1 2 0 = 1 := by
    rw [hC 2 (by simp) 0 (by simp), hv]
    simp [matEye, List.indexOf_cons, List.insertionSort, List.orderedInsert]
  have e22 : r1.1 2 2 = 0 := by
    rw [hC 2 (by simp) 2 (by simp), hv]
    simp [matEye, List.indexOf_cons, List.insertionSort, List.orderedInsert]
  have hP := Reorder_inv (fun (Cm : Mat ℚ) (_ : Vec ℚ) => |Cm 2 0| = 1 ∧ |Cm 2 2| = 0) 3
    exHF4r.modelspace.GetNumberOrbits exHF4r.Hbare_OneBodyChannels
    (fun orbvec Cm Oc i j horb _ hi hj _ => by
      have h2 : orbvec = [0, 2] ∨ orbvec = [1, 3] := by simpa [exHF4r, exHF4] using horb
      rcases h2 with rfl | rfl <;> simp at hi <;> omega)
    (fun Cm Oc i hPc => by
      have e : ∀ a b, |negCol Cm i a b| = |Cm a b| := by
        intro a b
        unfold negCol
        split_ifs
        · rw [mul_neg_one, abs_neg]
        · rfl
      show |negCol Cm i 2 0| = 1 ∧ |negCol Cm i 2 2| = 0
      rw [e, e]; exact hPc)
    r1.1 r1.2 r2 (by
      show |r1.1 2 0| = 1 ∧ |r1.1 2 2| = 0
      rw [e20, e22]; norm_num) h2
  refine ⟨_, h3, hP.1, hP.2, ?_⟩
  show ¬ (|r2.1 2 0| ≤ |r2.1 2 2|)
  rw [hP.1, hP.2]
  norm_num

end ExampleRuns

section SignFixing
variable {K : Type} [LinearOrderedField K]

lemma fixSigns_succ (n : Nat) (Cmat : Mat K) :
    fixSigns (n + 1) Cmat
      = if fixSigns n Cmat n n < 0 then negCol (fixSigns n Cmat) n else fixSigns n Cmat := by
  unfold fixSigns
  rw [List.range_succ, List.foldl_append]
  rfl

/-- Closed form of the sign-fixing loop: column `j < n_rows` is negated exactly when its
diagonal entry is negative, the other columns are left alone. -/
lemma fixSigns_apply (n_rows : Nat) (Cmat : Mat K) (row j : Nat) :
    fixSigns n_rows Cmat row j
      = if j < n_rows ∧ Cmat j j < 0 then - Cmat row j else Cmat row j := by
  induction n_rows generalizing row j with
  | zero => simp [fixSigns]
  | succ n ih =>
    rw [fixSigns_succ]
    have hnn : fixSigns n Cmat n n = Cmat n n := by
      rw [ih]; simp
    rw [hnn]
    by_cases hneg : Cmat n n < 0
    · rw [if_pos hneg]
      unfold negCol
      by_cases hj : j = n
      · subst hj
        simp only [if_true]
        rw [ih]
        simp [hneg]
      · rw [if_neg hj, ih]
        have : (j < n + 1) ↔ j < n := by omega
        simp only [this]
    · rw [if_neg hneg, ih]
      by_cases hj : j = n
      · subst hj
        simp [hneg]
      · have : (j < n + 1) ↔ j < n := by omega
        simp only [this]

lemma fixSigns_column (n_rows : Nat) (Cmat : Mat K) (j : Nat) :
    (∀ row, fixSigns n_rows Cmat row j = Cmat row j) ∨
    (∀ row, fixSigns n_rows Cmat row j = - Cmat row j) := by
  by_cases h : j < n_rows ∧ Cmat j j < 0
  · right; intro row; rw [fixSigns_apply, if_pos h]
  · left; intro row; rw [fixSigns_apply, if_neg h]

/-- The matrix returned for a non-empty channel list is the sign-fixing loop run on some
matrix (the one left by the swap loop of the last channel). -/
lemma Reorder_last (fuel n_rows : Nat) : ∀ (l : List (List Nat)) (b r : Mat K × Vec K),
    l ≠ [] →
    l.foldl (fun st orbvec =>
      st.bind (fun res => reorderChannel fuel n_rows orbvec res.1 res.2)) (some b) = some r →
    ∃ Cpre, r.1 = fixSigns n_rows Cpre := by
  intro l
  induction l with
  | nil => intro b r h; exact absurd rfl h
  | cons ch t ih =>
    intro b r _ h
    rw [List.foldl_cons] at h
    cases hc : reorderChannel fuel n_rows ch b.1 b.2 with
    | none =>
      rw [show (some b).bind (fun res => reorderChannel fuel n_rows ch res.1 res.2)
        = reorderChannel fuel n_rows ch b.1 b.2 from rfl, hc, foldl_bind_none] at h
      exact absurd h (by simp)
    | some b2 =>
      rw [show (some b).bind (fun res => reorderChannel fuel n_rows ch res.1 res.2)
        = reorderChannel fuel n_rows ch b.1 b.2 from rfl, hc] at h
      by_cases ht : t = []
      · subst ht
        simp only [List.foldl_nil, Option.some.injEq] at h
        subst h
        unfold reorderChannel at hc
        cases hl : reorderLoop (ch.length - 1) fuel b.1 b.2 with
        | none => rw [hl] at hc; exact absurd hc (by simp)
        | some res =>
          rw [hl] at hc
          simp only [Option.map_some', Option.some.injEq] at hc
          exact ⟨res.1, by rw [← hc]⟩
      · exact ih b2 r ht h

/-- Every column of the result is plus or minus a column of the argument. -/
lemma Reorder_columns (fuel n_rows : Nat) (channels : List (List Nat)) (Cmat : Mat K)
    (Occ : Vec K) (r : Mat K × Vec K)
    (h : ReorderHFMBPTCoefficients fuel n_rows channels Cmat Occ = some r) :
    ∀ j, ∃ k, (∀ row, r.1 row j = Cmat row k) ∨ (∀ row, r.1 row j = - Cmat row k) := by
  refine Reorder_inv (fun Cm _ => ∀ j, ∃ k, (∀ row, Cm row j = Cmat row k) ∨
    (∀ row, Cm row j = - Cmat row k)) fuel n_rows channels ?_ ?_ Cmat Occ r ?_ h
  · intro orbvec Cm Oc i j _ hP _ _ _ c
    unfold swap_cols
    by_cases hci : c = i
    · obtain ⟨k, hk⟩ := hP j
      exact ⟨k, by simpa [hci] using hk⟩
    · by_cases hcj : c = j
      · obtain ⟨k, hk⟩ := hP i
        subst hcj
        exact ⟨k, by simpa [hci] using hk⟩
      · obtain ⟨k, hk⟩ := hP c
        exact ⟨k, by simpa [hci, hcj] using hk⟩
  · intro Cm Oc i hP c
    obtain ⟨k, hk⟩ := hP c
    refine ⟨k, ?_⟩
    unfold negCol
    by_cases hci : c = i
    · rcases hk with hk | hk
      · right; intro row; simp [hci, ← hk]
      · left; intro row; rw [if_pos hci, hk]; ring
    · simpa [hci] using hk
  · intro j; exact ⟨j, Or.inl (fun _ => rfl)⟩

/-- C21. Sign fixing.  When `ReorderHFMBPTCoefficients` returns for a non-empty list of
channels, `C_HF2NAT(i,i) >= 0` for every orbit `i < n_rows`; the matrix returned is the
sign-fixing loop run on a matrix `Cpre` (the one the last swap loop left), column `j` of
the result is column `j` of `Cpre` or minus it, negated exactly when `j < n_rows` and
`Cpre(j,j) < 0`; and every column of the result is plus or minus a column of the argument
of the call. -/
theorem C21_sign_fixing (fuel n_rows : Nat) (channels : List (List Nat)) (Cmat : Mat K)
    (Occ : Vec K) (r : Mat K × Vec K) (hne : channels ≠ [])
    (h : ReorderHFMBPTCoefficients fuel n_rows channels Cmat Occ = some r) :
    (∀ i, i < n_rows → 0 ≤ r.1 i i) ∧
    (∃ Cpre, r.1 = fixSigns n_rows Cpre ∧
      (∀ row j, r.1 row j = if j < n_rows ∧ Cpre j j < 0 then - Cpre row j else Cpre row j) ∧
      (∀ j, (∀ row, r.1 row j = Cpre row j) ∨ (∀ row, r.1 row j = - Cpre row j))) ∧
    (∀ j, ∃ k, (∀ row, r.1 row j = Cmat row k) ∨ (∀ row, r.1 row j = - Cmat row k)) := by
  refine ⟨(Reorder_fixed fuel n_rows channels (Cmat, Occ) r h).2.2 hne, ?_,
    Reorder_columns fuel n_rows channels Cmat Occ r h⟩
  obtain ⟨Cpre, hC⟩ := Reorder_last fuel n_rows channels (Cmat, Occ) r hne h
  refine ⟨Cpre, hC, ?_, ?_⟩
  · intro row j; rw [hC, fixSigns_apply]
  · intro j; rw [hC]; exact fixSigns_column n_rows Cpre j

/-- C22. Termination of the reordering.  For every matrix, every `Occ` and every channel,
the loop `while (nswaps > 0)` exits: with any pass bound above `size ^ (size - 1)` it
returns, and the matrix it returns admits no further swap.  A swap at `(i, j)`, `j < i`,
made because `|C(i,j)| > |C(i,i)|`, strictly increases `|C(i,i)|`, leaves `C(k,k)` as it
is for every `k` other than `i` and `j` (in particular for every `k > i`; the entry
`C(j,j)` becomes the former `C(j,i)`), and strictly increases the measure
`reorderMeasure`, which stays below `size ^ (size - 1)`. -/
theorem C22_reorder_termination (orbvec : List Nat) (Cmat : Mat K) (Occ : Vec K) :
    (∀ fuel, (orbvec.length - 1 + 1) ^ (orbvec.length - 1) < fuel →
      ∃ r, reorderLoop (orbvec.length - 1) fuel Cmat Occ = some r ∧
        ReorderStable (orbvec.length - 1) r.1) ∧
    (∀ (Cm : Mat K) (i j : Nat), j < i → |Cm i j| > |Cm i i| →
      |swap_cols Cm i j i i| > |Cm i i| ∧
      (∀ k, k ≠ i → k ≠ j → swap_cols Cm i j k k = Cm k k) ∧
      (∀ k, i < k → swap_cols Cm i j k k = Cm k k) ∧
      swap_cols Cm i j j j = Cm j i ∧
      (∀ m, i < m → reorderMeasure m Cm < reorderMeasure m (swap_cols Cm i j))) ∧
    (∀ (m : Nat) (Cm : Mat K), reorderMeasure m Cm < (m + 1) ^ m) := by
  refine ⟨?_, ?_, fun m Cm => reorderMeasure_lt m Cm⟩
  · intro fuel hfuel
    have hs := reorderLoop_isSome_of_bound (orbvec.length - 1) fuel Cmat Occ hfuel
    obtain ⟨r, hr⟩ := Option.isSome_iff_exists.mp hs
    exact ⟨r, hr, reorderLoop_result_stable _ fuel Cmat Occ r hr⟩
  · intro Cm i j hji hgt
    refine ⟨?_, ?_, ?_, ?_, ?_⟩
    · simpa [swap_cols] using hgt
    · intro k hki hkj; simp [swap_cols, hki, hkj]
    · intro k hk
      have h1 : k ≠ i := by omega
      have h2 : k ≠ j := by omega
      simp [swap_cols, h1, h2]
    · have h1 : j ≠ i := by omega
      simp [swap_cols, h1]
    · intro m hm; exact reorderMeasure_swap m Cm i j hm hji hgt

end SignFixing

section NaturalOccupations
variable {K : Type} [LinearOrderedField K]

/-- A returning first part of `GetNaturalOrbitals` went through a returning
`DiagonalizeRho` and the assignments of lines 52-61. -/
lemma head_inv (ext : External K) (fuel : Nat) (hf hf5 : HFMBPT K) (H : Operator K)
    (h : HFMBPT.GetNaturalOrbitals_head ext fuel hf H = Except.ok hf5) :
    ∃ hf3, HFMBPT.DiagonalizeRho ext fuel
        (HFMBPT.GetDensityMatrix ext { hf with rho := matZeros, Occ := fun _ => 0 } H)
        = Except.ok hf3 ∧
      hf5 = { hf3 with
        C_HO2NAT := matMul hf.modelspace.GetNumberOrbits hf3.C hf3.C_HF2NAT
        modelspace := hf3.modelspace.all_orbits.foldl
          (fun ms i => ms.setOccNat i |hf3.Occ i|) hf3.modelspace } := by
  cases h3 : HFMBPT.DiagonalizeRho ext fuel
      (HFMBPT.GetDensityMatrix ext { hf with rho := matZeros, Occ := fun _ => 0 } H) with
  | error e =>
    rw [head_of_fatal ext fuel hf H e h3] at h
    cases h
  | ok hf3 =>
    rw [head_of_diagonalized ext fuel hf H hf3 h3] at h
    split_ifs at h with hc
    refine ⟨hf3, rfl, ?_⟩
    injection h with h
    exact h.symm

/-- Lines 64-134 leave `C`, `C_HF2NAT`, `C_HO2NAT` and `Occ` as they are, and the model
space is either left alone (flag not set) or replaced by what `UpdateReference` returns. -/
lemma backfill_frame (ext : External K) (UpdateReference : HFMBPT K → ModelSpace K)
    (fuel : Nat) (A : Int) (hf5 hf7 : HFMBPT K)
    (h : HFMBPT.GetNaturalOrbitals_backfill ext UpdateReference fuel A hf5 = Except.ok hf7) :
    hf7.C = hf5.C ∧ hf7.C_HF2NAT = hf5.C_HF2NAT ∧ hf7.C_HO2NAT = hf5.C_HO2NAT ∧
    hf7.Occ = hf5.Occ ∧ hf7.rho = hf5.rho ∧
    ((hf5.use_NAT_occupations = false ∧ hf7.modelspace = hf5.modelspace) ∨
     (hf5.use_NAT_occupations = true ∧ ∃ hf6 : HFMBPT K,
        hf6.modelspace = hf5.modelspace ∧ hf7.modelspace = UpdateReference hf6)) := by
  unfold HFMBPT.GetNaturalOrbitals_backfill at h
  by_cases hflag : hf5.use_NAT_occupations = true
  · rw [if_pos hflag] at h
    cases hb : backfill ext hf5.modelspace A hf5.Occ fuel with
    | none => rw [hb] at h; cases h
    | some s =>
      rw [hb] at h
      injection h with h
      subst h
      exact ⟨rfl, rfl, rfl, rfl, rfl, Or.inr ⟨hflag,
        { hf5 with holeorbs := s.holeorbs_tmp, hole_occ := s.hole_occ_tmp }, rfl, rfl⟩⟩
  · rw [if_neg hflag] at h
    injection h with h
    subst h
    exact ⟨rfl, rfl, rfl, rfl, rfl, Or.inl ⟨by simpa using hflag, rfl⟩⟩

/-- When lines 31-62 return, `GetNaturalOrbitals` is lines 64-134 run on their state. -/
lemma GetNaturalOrbitals_of_head (ext : External K)
    (UpdateReference : HFMBPT K → ModelSpace K) (fuel : Nat) (hf hf5 : HFMBPT K)
    (H : Operator K) (h5 : HFMBPT.GetNaturalOrbitals_head ext fuel hf H = Except.ok hf5) :
    HFMBPT.GetNaturalOrbitals ext UpdateReference fuel hf H
      = HFMBPT.GetNaturalOrbitals_backfill ext UpdateReference fuel
          hf.modelspace.TargetMass hf5 := by
  unfold HFMBPT.GetNaturalOrbitals
  rw [h5]

/-- With `use_NAT_occupations` not set, lines 64-134 return the state as it is. -/
lemma backfill_flag_off (ext : External K) (UpdateReference : HFMBPT K → ModelSpace K)
    (fuel : Nat) (A : Int) (hf5 : HFMBPT K) (hflag : hf5.use_NAT_occupations = false) :
    HFMBPT.GetNaturalOrbitals_backfill ext UpdateReference fuel A hf5 = Except.ok hf5 := by
  unfold HFMBPT.GetNaturalOrbitals_backfill
  rw [if_neg]
  rw [hflag]
  decide

/-- The modelled `UpdateReference` leaves `occ_nat` of every orbit as it is. -/
lemma UpdateReference_occ_nat (h : HFMBPT K) (i : Nat) :
    ((HFMBPT.UpdateReference h).GetOrbit i).occ_nat = (h.modelspace.GetOrbit i).occ_nat := by
  unfold HFMBPT.UpdateReference ModelSpace.GetOrbit
  dsimp only
  by_cases hi : i < h.modelspace.GetNumberOrbits
  · rw [List.getD_eq_getElem _ _ (by simpa using hi)]
    simp [ModelSpace.GetOrbit]
  · have hlen : ((List.range h.modelspace.GetNumberOrbits).map (fun i =>
        ({ h.modelspace.Orbits.getD i ⟨0, 0, 0, 0, 0, 0⟩ with
          occ := if i ∈ h.holeorbs then h.hole_occ.getD (h.holeorbs.indexOf i) 0 else 0 } :
          Orbit K))).length ≤ i := by
      simpa using hi
    have hi2 : h.modelspace.Orbits.length ≤ i := not_lt.mp hi
    rw [List.getD_eq_default _ _ hlen, List.getD_eq_default _ _ hi2]

/-- What the code of `GetNaturalOrbitals` establishes, whatever `UpdateReference` does to the
model space: in the state returned `C_HO2NAT = C * C_HF2NAT`, and there is a state `hf6`
with the `Occ` of the state returned in which every orbit has `occ_nat = |Occ(i)|`, which is
the state returned when `use_NAT_occupations` is not set and the state on which
`UpdateReference` is called (line 132, the last statement) when it is set. -/
lemma GetNaturalOrbitals_at_update (ext : External K)
    (UpdateReference : HFMBPT K → ModelSpace K) (fuel : Nat) (hf hf7 : HFMBPT K)
    (H : Operator K)
    (h : HFMBPT.GetNaturalOrbitals ext UpdateReference fuel hf H = Except.ok hf7) :
    hf7.C_HO2NAT = matMul hf.modelspace.GetNumberOrbits hf7.C hf7.C_HF2NAT ∧
    ∃ hf6 : HFMBPT K, hf6.Occ = hf7.Occ ∧
      (∀ i ∈ hf.modelspace.all_orbits, i < hf.modelspace.GetNumberOrbits →
        (hf6.modelspace.GetOrbit i).occ_nat = |hf7.Occ i|) ∧
      ((hf.use_NAT_occupations = false ∧ hf7.modelspace = hf6.modelspace) ∨
       (hf.use_NAT_occupations = true ∧ hf7.modelspace = UpdateReference hf6)) := by
  unfold HFMBPT.GetNaturalOrbitals at h
  cases h5 : HFMBPT.GetNaturalOrbitals_head ext fuel hf H with
  | error e => rw [h5] at h; cases h
  | ok hf5 =>
    rw [h5] at h
    simp only at h
    obtain ⟨hf3, h3, e5⟩ := head_inv ext fuel hf hf5 H h5
    obtain ⟨Cm, Oc, e3⟩ := DiagonalizeRho_frame ext fuel _ hf3 h3
    have hflag5 := (head_frame ext fuel hf hf5 H h5).1
    subst e3
    have hms : hf5.modelspace = hf.modelspace.all_orbits.foldl
        (fun ms i => ms.setOccNat i |Oc i|) hf.modelspace := by rw [e5]; rfl
    have hOc : hf5.Occ = Oc := by rw [e5]
    have hCHO : hf5.C_HO2NAT = matMul hf.modelspace.GetNumberOrbits hf5.C hf5.C_HF2NAT := by
      rw [e5]
    clear e5 h3 h5
    have hl : ∀ i ∈ hf.modelspace.all_orbits, i < hf.modelspace.GetNumberOrbits →
        (hf5.modelspace.GetOrbit i).occ_nat = |hf5.Occ i| := by
      intro i hi hin
      have hl := (occ_nat_loop Oc hf.modelspace.all_orbits hf.modelspace).2 i hin
      rw [if_pos hi] at hl
      rw [hms, hOc]
      exact hl
    unfold HFMBPT.GetNaturalOrbitals_backfill at h
    by_cases hflag : hf.use_NAT_occupations = true
    · rw [if_pos (hflag5.trans hflag)] at h
      revert h
      cases hb : backfill ext hf5.modelspace hf.modelspace.TargetMass hf5.Occ fuel with
      | none => intro h; cases h
      | some s =>
        intro h
        injection h with h
        subst h
        exact ⟨hCHO, { hf5 with holeorbs := s.holeorbs_tmp, hole_occ := s.hole_occ_tmp }, rfl,
          hl, Or.inr ⟨hflag, rfl⟩⟩
    · rw [if_neg (fun hc => hflag (hflag5.symm.trans hc))] at h
      injection h with h
      subst h
      exact ⟨hCHO, hf5, rfl, hl, Or.inl ⟨by simpa using hflag, rfl⟩⟩

/-- With `use_NAT_occupations` set and the back-filling part finished with the locals `s`,
lines 64-134 assign `holeorbs` and `hole_occ` and replace the model space by what
`UpdateReference` returns. -/
lemma backfill_flag_on (ext : External K) (UpdateReference : HFMBPT K → ModelSpace K)
    (fuel : Nat) (A : Int) (hf5 : HFMBPT K) (s : BackfillState K)
    (hflag : hf5.use_NAT_occupations = true)
    (hb : backfill ext hf5.modelspace A hf5.Occ fuel = some s) :
    HFMBPT.GetNaturalOrbitals_backfill ext UpdateReference fuel A hf5
      = Except.ok { hf5 with
          holeorbs := s.holeorbs_tmp, hole_occ := s.hole_occ_tmp
          modelspace := UpdateReference
            { hf5 with holeorbs := s.holeorbs_tmp, hole_occ := s.hole_occ_tmp } } := by
  unfold HFMBPT.GetNaturalOrbitals_backfill
  rw [if_pos hflag, hb]

/-- C25. After a non-fatal `GetNaturalOrbitals`, every orbit `i` of `all_orbits` has
`occ_nat = |Occ(i)|`, hence `occ_nat >= 0` whatever the sign of `Occ(i)` is, and
`C_HO2NAT = C * C_HF2NAT` (product over the orbits), `UpdateReference` being the function
modelled from the specification (it is called last when `use_NAT_occupations` is set, and
it is the only code between lines 62 and the return that writes to the model space).
What lines 31-134 establish by themselves holds whatever `UpdateReference` is: the state
returned has `C_HO2NAT = C * C_HF2NAT`, and every orbit has `occ_nat = |Occ(i)|` in the
state returned when the flag is not set, and in the state on which `UpdateReference` is
called when it is set. -/
theorem C25_natural_occupations (ext : External K) (fuel : Nat) (hf hf7 : HFMBPT K)
    (H : Operator K)
    (h : HFMBPT.GetNaturalOrbitals ext HFMBPT.UpdateReference fuel hf H = Except.ok hf7) :
    (∀ i ∈ hf.modelspace.all_orbits, i < hf.modelspace.GetNumberOrbits →
      (hf7.modelspace.GetOrbit i).occ_nat = |hf7.Occ i| ∧
      0 ≤ (hf7.modelspace.GetOrbit i).occ_nat) ∧
    hf7.C_HO2NAT = matMul hf.modelspace.GetNumberOrbits hf7.C hf7.C_HF2NAT ∧
    (∀ (UpdateReference : HFMBPT K → ModelSpace K) (hf8 : HFMBPT K),
      HFMBPT.GetNaturalOrbitals ext UpdateReference fuel hf H = Except.ok hf8 →
      hf8.C_HO2NAT = matMul hf.modelspace.GetNumberOrbits hf8.C hf8.C_HF2NAT ∧
      ∃ hf6 : HFMBPT K, hf6.Occ = hf8.Occ ∧
        (∀ i ∈ hf.modelspace.all_orbits, i < hf.modelspace.GetNumberOrbits →
          (hf6.modelspace.GetOrbit i).occ_nat = |hf8.Occ i|) ∧
        ((hf.use_NAT_occupations = false ∧ hf8.modelspace = hf6.modelspace) ∨
         (hf.use_NAT_occupations = true ∧ hf8.modelspace = UpdateReference hf6))) := by
  obtain ⟨hC, hf6, hO, hocc, hcase⟩ :=
    GetNaturalOrbitals_at_update ext HFMBPT.UpdateReference fuel hf hf7 H h
  refine ⟨fun i hi hin => ?_, hC, fun UR hf8 h8 => ?_⟩
  · have hval : (hf7.modelspace.GetOrbit i).occ_nat = |hf7.Occ i| := by
      rcases hcase with ⟨_, hm⟩ | ⟨_, hm⟩
      · rw [hm]
        exact hocc i hi hin
      · rw [hm, UpdateReference_occ_nat]
        exact hocc i hi hin
    exact ⟨hval, hval ▸ abs_nonneg _⟩
  · exact GetNaturalOrbitals_at_update ext UR fuel hf hf8 H h8

end NaturalOccupations

section NormalOrderedTheorems
variable {K : Type} [LinearOrderedField K]

lemma hnat_rho {T3 : Type} (ext : External K) (code : MeanFieldCode K T3)
    (Hbare : Operator3 K) (s : MeanField K) (particle_rank : Int) :
    (HFMBPT.GetNormalOrderedHNAT ext code Hbare s particle_rank).1.hf.rho = s.hf.rho := rfl

/-- State in which the channel loop of `GetNormalOrderedHNAT` runs: `rho` replaced by the
hole density, then `UpdateF` and `CalcEHF`. -/
lemma hnat_state {T3 : Type} (ext : External K) (code : MeanFieldCode K T3)
    (Hbare : Operator3 K) (s : MeanField K) (particle_rank : Int) :
    (HFMBPT.GetNormalOrderedHNAT ext code Hbare s particle_rank).1
      = { (if particle_rank > 2 then
            (code.GetTransformed3B (HFMBPT.hnatMeanField code s) Hbare).1
          else HFMBPT.hnatMeanField code s) with
          hf := { (if particle_rank > 2 then
            (code.GetTransformed3B (HFMBPT.hnatMeanField code s) Hbare).1
          else HFMBPT.hnatMeanField code s).hf with
            rho := s.hf.rho } } := by
  unfold HFMBPT.GetNormalOrderedHNAT
  by_cases h : particle_rank > 2
  · simp only [if_pos h]
  · simp only [if_neg h]

/-- C26. `GetNormalOrderedHNAT` has no lasting effect on `rho`: for every particle rank
and every state, `rho` in the state it leaves is `rho` of the state it was entered with
(line 420 restores the copy saved at line 312, whatever `UpdateF`, `CalcEHF` and
`GetTransformed3B` did to `rho` in between); and when these three member functions do not
write `C_HO2NAT`, `holeorbs` and `hole_occ`, these are unchanged as well. -/
theorem C26_rho_restored {T3 : Type} (ext : External K) (code : MeanFieldCode K T3)
    (Hbare : Operator3 K) (s : MeanField K) (particle_rank : Int)
    (hU : KeepsNAT code.UpdateF) (hE : KeepsNAT code.CalcEHF)
    (hG : KeepsNAT (fun x => (code.GetTransformed3B x Hbare).1)) :
    (HFMBPT.GetNormalOrderedHNAT ext code Hbare s particle_rank).1.hf.rho = s.hf.rho ∧
    (HFMBPT.GetNormalOrderedHNAT ext code Hbare s particle_rank).1.hf.C_HO2NAT
      = s.hf.C_HO2NAT ∧
    (HFMBPT.GetNormalOrderedHNAT ext code Hbare s particle_rank).1.hf.holeorbs
      = s.hf.holeorbs ∧
    (HFMBPT.GetNormalOrderedHNAT ext code Hbare s particle_rank).1.hf.hole_occ
      = s.hf.hole_occ := by
  refine ⟨rfl, ?_⟩
  rw [hnat_state]
  have h3 : KeepsNAT (fun x => code.CalcEHF (code.UpdateF x)) := by
    intro x
    obtain ⟨a1, a2, a3⟩ := hU x
    obtain ⟨b1, b2, b3⟩ := hE (code.UpdateF x)
    exact ⟨b1.trans a1, b2.trans a2, b3.trans a3⟩
  obtain ⟨c1, c2, c3⟩ : (HFMBPT.hnatMeanField code s).hf.C_HO2NAT = s.hf.C_HO2NAT ∧
      (HFMBPT.hnatMeanField code s).hf.holeorbs = s.hf.holeorbs ∧
      (HFMBPT.hnatMeanField code s).hf.hole_occ = s.hf.hole_occ :=
    h3 { s with hf := { s.hf with rho := HFMBPT.holeDensity s.hf } }
  by_cases h : particle_rank > 2
  · simp only [if_pos h]
    obtain ⟨d1, d2, d3⟩ := hG (HFMBPT.hnatMeanField code s)
    exact ⟨d1.trans c1, d2.trans c2, d3.trans c3⟩
  · simp only [if_neg h]
    exact ⟨c1, c2, c3⟩

/-- C27. `GetNormalOrderedHNAT` attaches a three-body tensor if and only if
`particle_rank > 2`, and then it is the one that `GetTransformed3B(Hbare)` returns in the
state left by `CalcEHF`.  For `particle_rank <= 2` (in particular 2) the operator returned
has no three-body tensor and neither it nor the state left depends on `GetTransformed3B`,
which is not called, whatever `Hbare` (of particle rank 3 or not) is. -/
theorem C27_three_body_gate {T3 : Type} (ext : External K) (code : MeanFieldCode K T3)
    (Hbare : Operator3 K) (s : MeanField K) (particle_rank : Int) :
    ((HFMBPT.GetNormalOrderedHNAT ext code Hbare s particle_rank).2.ThreeBody.isSome = true
      ↔ particle_rank > 2) ∧
    (particle_rank > 2 →
      (HFMBPT.GetNormalOrderedHNAT ext code Hbare s particle_rank).2.ThreeBody
        = some (code.GetTransformed3B (HFMBPT.hnatMeanField code s) Hbare).2) ∧
    (¬ particle_rank > 2 →
      (HFMBPT.GetNormalOrderedHNAT ext code Hbare s particle_rank).2.ThreeBody = none ∧
      ∀ G : MeanField K → Operator3 K → MeanField K × T3,
        HFMBPT.GetNormalOrderedHNAT ext { code with GetTransformed3B := G } Hbare s
            particle_rank
          = HFMBPT.GetNormalOrderedHNAT ext code Hbare s particle_rank) ∧
    (HFMBPT.GetNormalOrderedHNAT ext code Hbare s 2).2.ThreeBody = none ∧
    (HFMBPT.GetNormalOrderedHNAT ext code Hbare s particle_rank).2.particle_rank
      = particle_rank := by
  refine ⟨?_, ?_, ?_, ?_, ?_⟩
  · unfold HFMBPT.GetNormalOrderedHNAT
    by_cases h : particle_rank > 2
    · simp [h]
    · simp [h]
  · intro h
    unfold HFMBPT.GetNormalOrderedHNAT
    simp only [if_pos h]
  · intro h
    constructor
    · unfold HFMBPT.GetNormalOrderedHNAT
      simp only [if_neg h]
    · intro G
      unfold HFMBPT.GetNormalOrderedHNAT
      simp only [if_neg h]
      rfl
  · unfold HFMBPT.GetNormalOrderedHNAT
    simp
  · unfold HFMBPT.GetNormalOrderedHNAT
    by_cases h : particle_rank > 2
    · simp only [if_pos h]
    · simp only [if_neg h]

lemma holeDensity_apply (hf : HFMBPT K) (i j : Nat) :
    HFMBPT.holeDensity hf i j
      = ∑ k ∈ range hf.holeorbs.length,
          hf.C_HO2NAT i (hf.holeorbs.getD k 0) * hf.hole_occ.getD k 0
            * hf.C_HO2NAT j (hf.holeorbs.getD k 0) := rfl

/-- C28. The density that `GetNormalOrderedHNAT` substitutes for `rho` (the state handed
to `UpdateF` holds it) is
`rho(i,j) = sum_k C_HO2NAT(i, holeorbs[k]) * hole_occ[k] * C_HO2NAT(j, holeorbs[k])`.  It
is symmetric, and when `C_HO2NAT` has orthonormal columns on the `n` orbits, `holeorbs`
holds orbits below `n` and `hole_occ` is as long as `holeorbs`, its trace
`sum_(i<n) rho(i,i)` is the sum of `hole_occ`. -/
theorem C28_hole_density (hf : HFMBPT K) (n : Nat)
    (hortho : OrthoCols n hf.C_HO2NAT) (hlt : ∀ o ∈ hf.holeorbs, o < n)
    (hlen : hf.hole_occ.length = hf.holeorbs.length) :
    (∀ i j, HFMBPT.holeDensity hf i j
      = ∑ k ∈ range hf.holeorbs.length,
          hf.C_HO2NAT i (hf.holeorbs.getD k 0) * hf.hole_occ.getD k 0
            * hf.C_HO2NAT j (hf.holeorbs.getD k 0)) ∧
    IsSymm (HFMBPT.holeDensity hf) ∧
    ∑ i ∈ range n, HFMBPT.holeDensity hf i i = hf.hole_occ.sum ∧
    (∀ (T3 : Type) (ext : External K) (code : MeanFieldCode K T3) (Hbare : Operator3 K)
      (s : MeanField K) (particle_rank : Int),
      HFMBPT.GetNormalOrderedHNAT ext code Hbare s particle_rank
        = HFMBPT.GetNormalOrderedHNAT ext
            { code with UpdateF := (fun _ => code.UpdateF
                { s with hf := { s.hf with rho := HFMBPT.holeDensity s.hf } }) }
            Hbare s particle_rank) := by
  refine ⟨fun i j => rfl, ?_, ?_, fun _ _ _ _ _ _ => rfl⟩
  · intro i j
    rw [holeDensity_apply, holeDensity_apply]
    exact Finset.sum_congr rfl (fun k _ => by ring)
  · simp only [holeDensity_apply]
    have hsum : hf.hole_occ.sum = ∑ k ∈ range hf.hole_occ.length, hf.hole_occ.getD k 0 := by
      have h0 := sum_range_getD hf.hole_occ (0 : K) id
      simp only [id, List.map_id_fun, List.map_id] at h0
      exact h0.symm
    rw [Finset.sum_comm, hsum, hlen]
    refine Finset.sum_congr rfl (fun k hk => ?_)
    have hk2 : k < hf.holeorbs.length := Finset.mem_range.mp hk
    have ho : hf.holeorbs.getD k 0 < n := by
      apply hlt
      rw [List.getD_eq_getElem _ _ hk2]
      exact List.getElem_mem _
    have h1 := hortho (hf.holeorbs.getD k 0) (hf.holeorbs.getD k 0) ho ho
    rw [if_pos rfl] at h1
    unfold matMul matT at h1
    calc ∑ i ∈ range n, hf.C_HO2NAT i (hf.holeorbs.getD k 0) * hf.hole_occ.getD k 0
            * hf.C_HO2NAT i (hf.holeorbs.getD k 0)
        = hf.hole_occ.getD k 0 * ∑ i ∈ range n, hf.C_HO2NAT i (hf.holeorbs.getD k 0)
            * hf.C_HO2NAT i (hf.holeorbs.getD k 0) := by
          rw [Finset.mul_sum]
          exact Finset.sum_congr rfl (fun i _ => by ring)
      _ = hf.hole_occ.getD k 0 := by rw [h1, mul_one]

lemma hnatD_eq_Dket (ext : External K) (Cmat : Mat K) (tbc : TwoBodyChannel) :
    hnatD ext Cmat tbc = DketEntry ext Cmat tbc := rfl

lemma hnatBody_fst (ext : External K) (ms : ModelSpace K) (Hbare : Operator3 K)
    (rho Cmat : Mat K) (tbc : TwoBodyChannel) (i : Nat) (s : Mat K × Mat K) (j : Nat) :
    (hnatBody ext ms Hbare rho Cmat tbc i s j).1 = matSet s.1 i j (hnatD ext Cmat tbc i j) := by
  unfold hnatBody
  dsimp only
  split_ifs <;> rfl

lemma hnatBody_snd_low (ext : External K) (ms : ModelSpace K) (Hbare : Operator3 K)
    (rho Cmat : Mat K) (tbc : TwoBodyChannel) (i : Nat) (s : Mat K × Mat K) (j : Nat)
    (h : Hbare.ParticleRank < 3) :
    (hnatBody ext ms Hbare rho Cmat tbc i s j).2 = s.2 := by
  unfold hnatBody
  dsimp only
  rw [if_pos h]

lemma hnatInner_fst (ext : External K) (ms : ModelSpace K) (Hbare : Operator3 K)
    (rho Cmat : Mat K) (tbc : TwoBodyChannel) (i : Nat) (r c : Nat) :
    ∀ (l : List Nat) (s : Mat K × Mat K),
      (l.foldl (hnatBody ext ms Hbare rho Cmat tbc i) s).1 r c
        = if r = i ∧ c ∈ l then hnatD ext Cmat tbc r c else s.1 r c := by
  intro l
  induction l with
  | nil => intro s; simp
  | cons j t ih =>
    intro s
    rw [List.foldl_cons, ih, hnatBody_fst]
    unfold matSet
    by_cases h1 : r = i ∧ c ∈ t
    · rw [if_pos h1, if_pos ⟨h1.1, List.mem_cons_of_mem _ h1.2⟩]
    · rw [if_neg h1]
      by_cases h2 : r = i ∧ c = j
      · rw [if_pos h2, if_pos ⟨h2.1, by rw [h2.2]; exact List.mem_cons_self _ _⟩, h2.1, h2.2]
      · rw [if_neg h2, if_neg]
        rintro ⟨a, b⟩
        rcases List.mem_cons.mp b with b | b
        · exact h2 ⟨a, b⟩
        · exact h1 ⟨a, b⟩

lemma hnatOuter_fst (ext : External K) (ms : ModelSpace K) (Hbare : Operator3 K)
    (rho Cmat : Mat K) (tbc : TwoBodyChannel) (l2 : List Nat) (r c : Nat) :
    ∀ (l : List Nat) (s : Mat K × Mat K),
      (l.foldl (fun s i => l2.foldl (hnatBody ext ms Hbare rho Cmat tbc i) s) s).1 r c
        = if r ∈ l ∧ c ∈ l2 then hnatD ext Cmat tbc r c else s.1 r c := by
  intro l
  induction l with
  | nil => intro s; simp
  | cons i t ih =>
    intro s
    rw [List.foldl_cons, ih, hnatInner_fst]
    by_cases h1 : r ∈ t ∧ c ∈ l2
    · rw [if_pos h1, if_pos ⟨List.mem_cons_of_mem _ h1.1, h1.2⟩]
    · rw [if_neg h1]
      by_cases h2 : r = i ∧ c ∈ l2
      · rw [if_pos h2, if_pos ⟨by rw [h2.1]; exact List.mem_cons_self _ _, h2.2⟩]
      · rw [if_neg h2, if_neg]
        rintro ⟨a, b⟩
        rcases List.mem_cons.mp a with a | a
        · exact h2 ⟨a, b⟩
        · exact h1 ⟨a, b⟩

/-- The matrix `D` left by the loops holds the entry formula on the block. -/
lemma hnatLoops_fst (ext : External K) (ms : ModelSpace K) (Hbare : Operator3 K)
    (rho Cmat : Mat K) (tbc : TwoBodyChannel) (r c : Nat) :
    (hnatLoops ext ms Hbare rho Cmat tbc).1 r c
      = if r < tbc.GetNumberKets ∧ c < tbc.GetNumberKets then hnatD ext Cmat tbc r c else 0 := by
  unfold hnatLoops
  rw [hnatOuter_fst]
  simp only [List.mem_range]
  rfl

/-- With `Hbare` of particle rank below 3 the loops leave `V3NO = 0`. -/
lemma hnatLoops_snd_low (ext : External K) (ms : ModelSpace K) (Hbare : Operator3 K)
    (rho Cmat : Mat K) (tbc : TwoBodyChannel) (h : Hbare.ParticleRank < 3) :
    (hnatLoops ext ms Hbare rho Cmat tbc).2 = matZeros := by
  unfold hnatLoops
  refine foldl_inv (fun s : Mat K × Mat K => s.2 = matZeros) _ _ _ rfl ?_
  intro s i _ hs
  refine foldl_inv (fun s : Mat K × Mat K => s.2 = matZeros) _ _ _ hs ?_
  intro s2 j _ hs2
  show (hnatBody ext ms Hbare rho Cmat tbc i s2 j).2 = matZeros
  rw [hnatBody_snd_low _ _ _ _ _ _ _ _ _ h, hs2]

lemma matMul_congr (n : Nat) (A A2 B B2 : Mat K) (i j : Nat)
    (hA : ∀ k, k < n → A i k = A2 i k) (hB : ∀ k, k < n → B k j = B2 k j) :
    matMul n A B i j = matMul n A2 B2 i j := by
  unfold matMul
  exact Finset.sum_congr rfl (fun k hk => by
    rw [hA k (Finset.mem_range.mp hk), hB k (Finset.mem_range.mp hk)])

/-- Entries of the block written for a channel, in terms of the entry formula of `Dket`. -/
lemma hnatBlock_el (ext : External K) (ms : ModelSpace K) (Hbare : Operator3 K)
    (rho Cmat : Mat K) (ch : Nat) (r c : Nat)
    (hr : r < (ms.GetTwoBodyChannel ch).GetNumberKets)
    (hc : c < (ms.GetTwoBodyChannel ch).GetNumberKets) :
    (hnatBlock ext ms Hbare rho Cmat ch).el r c
      = matMul (ms.GetTwoBodyChannel ch).GetNumberKets
          (matMul (ms.GetTwoBodyChannel ch).GetNumberKets
            (matT (DketEntry ext Cmat (ms.GetTwoBodyChannel ch)))
            (fun a b => (Hbare.op.MatEl ch ch).el a b
              + (hnatLoops ext ms Hbare rho Cmat (ms.GetTwoBodyChannel ch)).2 a b))
          (DketEntry ext Cmat (ms.GetTwoBodyChannel ch)) r c := by
  unfold hnatBlock
  dsimp only
  refine matMul_congr _ _ _ _ _ r c (fun k hk => ?_) (fun k hk => ?_)
  · refine matMul_congr _ _ _ _ _ r k (fun k2 hk2 => ?_) (fun _ _ => rfl)
    unfold matT
    rw [hnatLoops_fst, if_pos ⟨hk2, hr⟩, hnatD_eq_Dket]
  · rw [hnatLoops_fst, if_pos ⟨hk, hc⟩, hnatD_eq_Dket]

/-- C29. For every two-body channel `ch < nchan`, the block that `GetNormalOrderedHNAT`
writes has the entries of `D^T * (V2 + V3NO) * D`, where `D` is given on the block by the
entry formula of `Dket` in `TransformHOToNATBasis` (lines 378-384 and 263-274 build the
same value from `C_HO2NAT`) and `V3NO` is the matrix left by lines 386-404.  When `Hbare`
has particle rank below 3, `V3NO = 0`, and on a channel whose key `[ch, ch]` is stored in
`Hbare` with a block as large as the channel, the block has the dimensions and the entries
of the block `[ch, ch]` that `TransformHOToNATBasis(Hbare)` returns in the state in which the channel loop runs. -/
theorem C29_two_body_block {T3 : Type} (ext : External K) (code : MeanFieldCode K T3)
    (Hbare : Operator3 K) (s : MeanField K) (particle_rank : Int) (ch : Nat)
    (s3 : MeanField K) (hs3 : s3 = HFMBPT.hnatMeanField code s)
    (hch : ch < s3.hf.modelspace.GetNumberTwoBodyChannels) :
    ((HFMBPT.GetNormalOrderedHNAT ext code Hbare s particle_rank).2.TwoBody ch).n_rows
      = (s3.hf.modelspace.GetTwoBodyChannel ch).GetNumberKets ∧
    ((HFMBPT.GetNormalOrderedHNAT ext code Hbare s particle_rank).2.TwoBody ch).n_cols
      = (s3.hf.modelspace.GetTwoBodyChannel ch).GetNumberKets ∧
    (∀ r c, r < (s3.hf.modelspace.GetTwoBodyChannel ch).GetNumberKets →
      c < (s3.hf.modelspace.GetTwoBodyChannel ch).GetNumberKets →
      ((HFMBPT.GetNormalOrderedHNAT ext code Hbare s particle_rank).2.TwoBody ch).el r c
        = matMul (s3.hf.modelspace.GetTwoBodyChannel ch).GetNumberKets
            (matMul (s3.hf.modelspace.GetTwoBodyChannel ch).GetNumberKets
              (matT (DketEntry ext s3.hf.C_HO2NAT (s3.hf.modelspace.GetTwoBodyChannel ch)))
              (fun a b => (Hbare.op.MatEl ch ch).el a b
                + (hnatLoops ext s3.hf.modelspace Hbare s3.hf.rho s3.hf.C_HO2NAT
                    (s3.hf.modelspace.GetTwoBodyChannel ch)).2 a b))
            (DketEntry ext s3.hf.C_HO2NAT (s3.hf.modelspace.GetTwoBodyChannel ch)) r c) ∧
    (∀ (Cmat : Mat K) (tbc : TwoBodyChannel) (i j : Nat),
      hnatD ext Cmat tbc i j = DketEntry ext Cmat tbc i j) ∧
    (Hbare.ParticleRank < 3 →
      (hnatLoops ext s3.hf.modelspace Hbare s3.hf.rho s3.hf.C_HO2NAT
        (s3.hf.modelspace.GetTwoBodyChannel ch)).2 = matZeros ∧
      ((ch, ch) ∈ Hbare.op.MatElKeys →
        (Hbare.op.MatEl ch ch).n_rows
          = (s3.hf.modelspace.GetTwoBodyChannel ch).GetNumberKets →
        (Hbare.op.MatEl ch ch).n_cols
          = (s3.hf.modelspace.GetTwoBodyChannel ch).GetNumberKets →
        ((HFMBPT.GetNormalOrderedHNAT ext code Hbare s particle_rank).2.TwoBody ch).n_rows
          = ((HFMBPT.TransformHOToNATBasis ext s3.hf Hbare.op).MatEl ch ch).n_rows ∧
        ((HFMBPT.GetNormalOrderedHNAT ext code Hbare s particle_rank).2.TwoBody ch).n_cols
          = ((HFMBPT.TransformHOToNATBasis ext s3.hf Hbare.op).MatEl ch ch).n_cols ∧
        ∀ r c, r < (s3.hf.modelspace.GetTwoBodyChannel ch).GetNumberKets →
          c < (s3.hf.modelspace.GetTwoBodyChannel ch).GetNumberKets →
          ((HFMBPT.GetNormalOrderedHNAT ext code Hbare s particle_rank).2.TwoBody ch).el r c
            = ((HFMBPT.TransformHOToNATBasis ext s3.hf Hbare.op).MatEl ch ch).el r c)) := by
  have hT : (HFMBPT.GetNormalOrderedHNAT ext code Hbare s particle_rank).2.TwoBody ch
      = hnatBlock ext s3.hf.modelspace Hbare s3.hf.rho s3.hf.C_HO2NAT ch := by
    subst hs3
    unfold HFMBPT.GetNormalOrderedHNAT
    by_cases h : particle_rank > 2
    · simp only [if_pos h]
      rw [if_pos hch]
    · simp only [if_neg h]
      rw [if_pos hch]
  rw [hT]
  refine ⟨rfl, rfl, fun r c hr hc => hnatBlock_el ext _ Hbare _ _ ch r c hr hc,
    fun _ _ _ _ => rfl, fun hlow => ?_⟩
  have hz := hnatLoops_snd_low ext s3.hf.modelspace Hbare s3.hf.rho s3.hf.C_HO2NAT
    (s3.hf.modelspace.GetTwoBodyChannel ch) hlow
  refine ⟨hz, fun hkey hrows hcols => ?_⟩
  have hTr : (HFMBPT.TransformHOToNATBasis ext s3.hf Hbare.op).MatEl ch ch
      = transformBlock ext s3.hf.modelspace s3.hf.C_HO2NAT ch ch (Hbare.op.MatEl ch ch) := by
    unfold HFMBPT.TransformHOToNATBasis transformOperator
    simp only [if_pos hkey]
  rw [hTr]
  refine ⟨hrows.symm, hcols.symm, fun r c hr hc => ?_⟩
  rw [hnatBlock_el ext _ Hbare _ _ ch r c hr hc, hz]
  unfold transformBlock
  simp only [if_true, hrows, hcols]
  refine matMul_congr _ _ _ _ _ r c (fun k _ => ?_) (fun _ _ => rfl)
  refine matMul_congr _ _ _ _ _ r k (fun _ _ => rfl) (fun k2 _ => ?_)
  simp [matZeros]

end NormalOrderedTheorems

section ThreeBodyElement
variable {K : Type} [LinearOrderedField K]

/-- A loop that skips the indices `x` with `skip x` and otherwise adds `g x`. -/
lemma foldl_skip_eq {α : Type} (l : List α) (skip : α → Prop) [DecidablePred skip]
    (inner : K → α → K) (g : α → K) (h : ∀ V x, inner V x = V + g x) :
    ∀ V, l.foldl (fun V x => if skip x then V else inner V x) V
      = V + (l.map (fun x => if skip x then 0 else g x)).sum := by
  refine foldl_add_eq _ _ (fun V x => ?_) l
  by_cases hs : skip x
  · simp [hs]
  · simp [hs, h]

lemma sum_ite_zero {α : Type} (l : List α) (c : Prop) [Decidable c] (g : α → K) :
    (if c then 0 else (l.map g).sum) = (l.map (fun x => if c then 0 else g x)).sum := by
  by_cases hc : c
  · simp [hc]
  · simp [hc]

/-- Six nested loops, the five outer ones with a `continue`, as nested sums. -/
lemma nested_loops_sum (lA lB lC lD lE lF : List Nat) (sA sB sC sD sE : Nat → Prop)
    [DecidablePred sA] [DecidablePred sB] [DecidablePred sC] [DecidablePred sD]
    [DecidablePred sE] (T : Nat → Nat → Nat → Nat → Nat → Nat → K) :
    lA.foldl (fun V alpha => if sA alpha then V else
      lB.foldl (fun V beta => if sB beta then V else
        lC.foldl (fun V gamma => if sC gamma then V else
          lD.foldl (fun V delta => if sD delta then V else
            lE.foldl (fun V epsilon => if sE epsilon then V else
              lF.foldl (fun V phi => V + T alpha beta gamma delta epsilon phi) V) V) V) V) V) 0
      = (lA.map (fun alpha => if sA alpha then 0 else
          (lB.map (fun beta => if sB beta then 0 else
            (lC.map (fun gamma => if sC gamma then 0 else
              (lD.map (fun delta => if sD delta then 0 else
                (lE.map (fun epsilon => if sE epsilon then 0 else
                  (lF.map (fun phi => T alpha beta gamma delta epsilon phi)).sum)).sum)).sum)).sum)).sum)).sum := by
  have h6 : ∀ alpha beta gamma delta epsilon (V : K),
      lF.foldl (fun V phi => V + T alpha beta gamma delta epsilon phi) V
        = V + (lF.map (fun phi => T alpha beta gamma delta epsilon phi)).sum :=
    fun alpha beta gamma delta epsilon V => foldl_add_eq _ _ (fun _ _ => rfl) lF V
  have h5 : ∀ alpha beta gamma delta (V : K),
      lE.foldl (fun V epsilon => if sE epsilon then V else
        lF.foldl (fun V phi => V + T alpha beta gamma delta epsilon phi) V) V
        = V + (lE.map (fun epsilon => if sE epsilon then 0 else
            (lF.map (fun phi => T alpha beta gamma delta epsilon phi)).sum)).sum :=
    fun alpha beta gamma delta V => foldl_skip_eq lE sE _ _
      (fun V epsilon => h6 alpha beta gamma delta epsilon V) V
  have h4 : ∀ alpha beta gamma (V : K),
      lD.foldl (fun V delta => if sD delta then V else
        lE.foldl (fun V epsilon => if sE epsilon then V else
          lF.foldl (fun V phi => V + T alpha beta gamma delta epsilon phi) V) V) V
        = V + (lD.map (fun delta => if sD delta then 0 else
            (lE.map (fun epsilon => if sE epsilon then 0 else
              (lF.map (fun phi => T alpha beta gamma delta epsilon phi)).sum)).sum)).sum :=
    fun alpha beta gamma V => foldl_skip_eq lD sD _ _
      (fun V delta => h5 alpha beta gamma delta V) V
  have h3 : ∀ alpha beta (V : K),
      lC.foldl (fun V gamma => if sC gamma then V else
        lD.foldl (fun V delta => if sD delta then V else
          lE.foldl (fun V epsilon => if sE epsilon then V else
            lF.foldl (fun V phi => V + T alpha beta gamma delta epsilon phi) V) V) V) V
        = V + (lC.map (fun gamma => if sC gamma then 0 else
            (lD.map (fun delta => if sD delta then 0 else
              (lE.map (fun epsilon => if sE epsilon then 0 else
                (lF.map (fun phi => T alpha beta gamma delta epsilon phi)).sum)).sum)).sum)).sum :=
    fun alpha beta V => foldl_skip_eq lC sC _ _
      (fun V gamma => h4 alpha beta gamma V) V
  have h2 : ∀ alpha (V : K),
      lB.foldl (fun V beta => if sB beta then V else
        lC.foldl (fun V gamma => if sC gamma then V else
          lD.foldl (fun V delta => if sD delta then V else
            lE.foldl (fun V epsilon => if sE epsilon then V else
              lF.foldl (fun V phi => V + T alpha beta gamma delta epsilon phi) V) V) V) V) V
        = V + (lB.map (fun beta => if sB beta then 0 else
            (lC.map (fun gamma => if sC gamma then 0 else
              (lD.map (fun delta => if sD delta then 0 else
                (lE.map (fun epsilon => if sE epsilon then 0 else
                  (lF.map (fun phi => T alpha beta gamma delta epsilon phi)).sum)).sum)).sum)).sum)).sum :=
    fun alpha V => foldl_skip_eq lB sB _ _
      (fun V beta => h3 alpha beta V) V
  rw [foldl_skip_eq lA sA _ _ (fun V alpha => h2 alpha V) 0, zero_add]

/-- The loops of `GetTransformed3bme` as nested sums, each of the five outer ones skipping
the indices below the threshold. -/
lemma GetTransformed3bme_nested (hf : HFMBPT K) (OpIn : Operator3 K) (Jab Jde J2 : Int)
    (a b c d e f : Nat) :
    HFMBPT.GetTransformed3bme hf OpIn Jab Jde J2 a b c d e f
      = ((OpIn.OneBodyChannels (hf.modelspace.key a)).map (fun alpha =>
          if |hf.C_HO2NAT alpha a| < 1 / 100000000 then 0 else
          ((OpIn.OneBodyChannels (hf.modelspace.key b)).map (fun beta =>
            if |hf.C_HO2NAT beta b| < 1 / 100000000 then 0 else
            ((OpIn.OneBodyChannels (hf.modelspace.key c)).map (fun gamma =>
              if |hf.C_HO2NAT gamma c| < 1 / 100000000 then 0 else
              ((OpIn.OneBodyChannels (hf.modelspace.key d)).map (fun delta =>
                if |hf.C_HO2NAT delta d| < 1 / 100000000 then 0 else
                ((OpIn.OneBodyChannels (hf.modelspace.key e)).map (fun epsilon =>
                  if |hf.C_HO2NAT epsilon e| < 1 / 100000000 then 0 else
                  ((OpIn.OneBodyChannels (hf.modelspace.key f)).map (fun phi =>
                    OpIn.GetME_pn Jab Jde J2 alpha beta gamma delta epsilon phi
                      * hf.C_HO2NAT alpha a * hf.C_HO2NAT beta b * hf.C_HO2NAT gamma c
                      * hf.C_HO2NAT delta d * hf.C_HO2NAT epsilon e
                      * hf.C_HO2NAT phi f)).sum)).sum)).sum)).sum)).sum)).sum :=
  nested_loops_sum _ _ _ _ _ _
    (fun alpha => |hf.C_HO2NAT alpha a| < 1 / 100000000)
    (fun beta => |hf.C_HO2NAT beta b| < 1 / 100000000)
    (fun gamma => |hf.C_HO2NAT gamma c| < 1 / 100000000)
    (fun delta => |hf.C_HO2NAT delta d| < 1 / 100000000)
    (fun epsilon => |hf.C_HO2NAT epsilon e| < 1 / 100000000)
    (fun alpha beta gamma delta epsilon phi =>
      OpIn.GetME_pn Jab Jde J2 alpha beta gamma delta epsilon phi
        * hf.C_HO2NAT alpha a * hf.C_HO2NAT beta b * hf.C_HO2NAT gamma c
        * hf.C_HO2NAT delta d * hf.C_HO2NAT epsilon e * hf.C_HO2NAT phi f)

lemma list_sum_zero {α : Type} (l : List α) : (l.map (fun _ => (0 : K))).sum = 0 := by
  induction l with
  | nil => rfl
  | cons x t ih => rw [List.map_cons, List.sum_cons, ih, add_zero]

/-- The value returned is the sum over the tuples whose first five coefficients reach the
threshold. -/
lemma GetTransformed3bme_five (hf : HFMBPT K) (OpIn : Operator3 K) (Jab Jde J2 : Int)
    (a b c d e f : Nat) :
    HFMBPT.GetTransformed3bme hf OpIn Jab Jde J2 a b c d e f
      = transformed3bmeFive hf OpIn Jab Jde J2 a b c d e f := by
  rw [GetTransformed3bme_nested]
  unfold transformed3bmeFive
  dsimp only
  refine map_sum_congr _ _ _ (fun alpha _ => ?_)
  by_cases h1 : |hf.C_HO2NAT alpha a| < 1 / 100000000
  · simp only [if_pos h1, not_le.mpr h1, false_and, if_false, list_sum_zero]
  rw [if_neg h1]
  refine map_sum_congr _ _ _ (fun beta _ => ?_)
  by_cases h2 : |hf.C_HO2NAT beta b| < 1 / 100000000
  · simp only [if_pos h2, not_le.mpr h2, false_and, and_false, if_false, list_sum_zero]
  rw [if_neg h2]
  refine map_sum_congr _ _ _ (fun gamma _ => ?_)
  by_cases h3 : |hf.C_HO2NAT gamma c| < 1 / 100000000
  · simp only [if_pos h3, not_le.mpr h3, false_and, and_false, if_false, list_sum_zero]
  rw [if_neg h3]
  refine map_sum_congr _ _ _ (fun delta _ => ?_)
  by_cases h4 : |hf.C_HO2NAT delta d| < 1 / 100000000
  · simp only [if_pos h4, not_le.mpr h4, false_and, and_false, if_false, list_sum_zero]
  rw [if_neg h4]
  refine map_sum_congr _ _ _ (fun epsilon _ => ?_)
  by_cases h5 : |hf.C_HO2NAT epsilon e| < 1 / 100000000
  · simp only [if_pos h5, not_le.mpr h5, and_false, if_false, list_sum_zero]
  rw [if_neg h5]
  refine map_sum_congr _ _ _ (fun phi _ => ?_)
  rw [if_pos ⟨not_lt.mp h1, not_lt.mp h2, not_lt.mp h3, not_lt.mp h4, not_lt.mp h5⟩]

/-- C30 (as amended). `GetTransformed3bme` returns the sum, over all old-basis 6-tuples
`(alpha..phi)` taken from the one-body channels of the requested orbits `(a..f)`, of the
old three-body element times the six factors `C_HO2NAT(alpha,a) ... C_HO2NAT(phi,f)`,
restricted to the tuples in which each of the first five factors
`C_HO2NAT(alpha,a) ... C_HO2NAT(epsilon,e)` has magnitude at least `1e-8`; the sixth factor
`C_HO2NAT(phi,f)` is not tested, and a tuple with only that factor below `1e-8` adds its
product. -/
theorem C30_transformed_3bme (hf : HFMBPT K) (OpIn : Operator3 K) (Jab Jde J2 : Int)
    (a b c d e f : Nat) :
    HFMBPT.GetTransformed3bme hf OpIn Jab Jde J2 a b c d e f
      = transformed3bmeFive hf OpIn Jab Jde J2 a b c d e f :=
  GetTransformed3bme_five hf OpIn Jab Jde J2 a b c d e f

end ThreeBodyElement

section ScenarioTheorems
variable {K : Type} [LinearOrderedField K]

/-- Two orthonormal eigenvectors of `[[0.9, 0.05], [0.05, 0.1]]` with eigenvalues
`e0 <= e1`: both eigenvalues are roots of `x^2 - x + 0.0875`, they differ and add up to
1. -/
lemma eig2_roots (x0 y0 x1 y1 e0 e1 : K)
    (a0 : 9 / 10 * x0 + 1 / 20 * y0 = e0 * x0) (b0 : 1 / 20 * x0 + 1 / 10 * y0 = e0 * y0)
    (a1 : 9 / 10 * x1 + 1 / 20 * y1 = e1 * x1) (b1 : 1 / 20 * x1 + 1 / 10 * y1 = e1 * y1)
    (n0 : x0 * x0 + y0 * y0 = 1) (n1 : x1 * x1 + y1 * y1 = 1)
    (o : x0 * x1 + y0 * y1 = 0) (hle : e0 ≤ e1) :
    e0 * e0 - e0 + 7 / 80 = 0 ∧ e1 * e1 - e1 + 7 / 80 = 0 ∧ e0 < e1 ∧ e0 + e1 = 1 := by
  have hx0 : (e0 * e0 - e0 + 7 / 80) * x0 = 0 := by
    linear_combination (1 / 10 - e0) * a0 - (1 / 20) * b0
  have hy0 : (e0 * e0 - e0 + 7 / 80) * y0 = 0 := by
    linear_combination (-(1 / 20)) * a0 + (9 / 10 - e0) * b0
  have hx1 : (e1 * e1 - e1 + 7 / 80) * x1 = 0 := by
    linear_combination (1 / 10 - e1) * a1 - (1 / 20) * b1
  have hy1 : (e1 * e1 - e1 + 7 / 80) * y1 = 0 := by
    linear_combination (-(1 / 20)) * a1 + (9 / 10 - e1) * b1
  have p0 : e0 * e0 - e0 + 7 / 80 = 0 := by
    linear_combination x0 * hx0 + y0 * hy0 - (e0 * e0 - e0 + 7 / 80) * n0
  have p1 : e1 * e1 - e1 + 7 / 80 = 0 := by
    linear_combination x1 * hx1 + y1 * hy1 - (e1 * e1 - e1 + 7 / 80) * n1
  have hne : e0 ≠ e1 := by
    intro he
    rw [← he] at a1
    have hc : y0 * x1 - y1 * x0 = 0 := by
      linear_combination 20 * x1 * a0 - 20 * x0 * a1
    have key : (x0 * x0 + y0 * y0) * (x1 * x1 + y1 * y1)
        = (y0 * x1 - y1 * x0) ^ 2 + (x0 * x1 + y0 * y1) ^ 2 := by ring
    rw [n0, n1, hc, o] at key
    norm_num at key
  have hlt : e0 < e1 := lt_of_le_of_ne hle hne
  refine ⟨p0, p1, hlt, ?_⟩
  have hprod : (e0 - e1) * (e0 + e1 - 1) = 0 := by
    linear_combination p0 - p1
  rcases mul_eq_zero.mp hprod with h | h
  · exact absurd (sub_eq_zero.mp h) hne
  · linear_combination h

/-- The larger root of `x^2 - x + 0.0875` lies between 0.90311 and 0.90312. -/
lemma root_bounds (e0 e1 : K) (p1 : e1 * e1 - e1 + 7 / 80 = 0) (hlt : e0 < e1)
    (hsum : e0 + e1 = 1) :
    90311 / 100000 < e1 ∧ e1 < 90312 / 100000 ∧
    9688 / 100000 < e0 ∧ e0 < 9689 / 100000 := by
  have hhalf : 1 / 2 < e1 := by linarith
  have hlo : 90311 / 100000 < e1 := by
    by_contra hc
    push_neg at hc
    nlinarith [mul_nonneg (sub_nonneg.mpr hhalf.le) (sub_nonneg.mpr hc)]
  have hhi : e1 < 90312 / 100000 := by
    by_contra hc
    push_neg at hc
    nlinarith [mul_nonneg (sub_nonneg.mpr hhalf.le) (sub_nonneg.mpr hc)]
  refine ⟨hlo, hhi, by linarith, by linarith⟩

/-- On a block of size 2 the solver `scExt` returns the eigenvalues `scEig` and the
eigenvectors `scVec`. -/
lemma scExt_eig (s nm np : K) (A : Mat K) :
    (scExt s nm np).eig_sym 2 A = some (scEig s, scVec s nm np) := rfl

lemma scExt_eig_inv (s nm np : K) (m : Nat) (A : Mat K) (eig : Vec K) (vec : Mat K)
    (h : (scExt s nm np).eig_sym m A = some (eig, vec)) :
    m = 2 ∧ eig = scEig s ∧ vec = scVec s nm np := by
  unfold scExt at h
  dsimp only at h
  by_cases hm : m = 2
  · rw [if_pos hm] at h
    injection h with h
    injection h with h1 h2
    exact ⟨hm, h1.symm, h2.symm⟩
  · rw [if_neg hm] at h
    cases h

/-- The eigenvalues returned by `scExt` are in ascending order. -/
lemma scExt_ascending (s nm np : K) (hs : 0 ≤ s) : EigAscending (scExt s nm np) := by
  intro m A eig vec h a b hab hb
  obtain ⟨hm, he, _⟩ := scExt_eig_inv s nm np m A eig vec h
  subst hm
  subst he
  unfold scEig
  by_cases ha : a = 0
  · by_cases hb0 : b = 0
    · rw [if_pos ha, if_pos hb0]
    · rw [if_pos ha, if_neg hb0]
      linarith
  · have hb0 : b ≠ 0 := by omega
    rw [if_neg ha, if_neg hb0]

/-- The eigenvectors returned by `scExt` are orthonormal. -/
lemma scExt_ortho (s nm np : K) (h : ScenarioRoots s nm np) : EigOrthoSpec (scExt s nm np) := by
  obtain ⟨_, hs, hnm, hnm2, hnp, hnp2⟩ := h
  intro m A eig vec _ he a b ha hb
  obtain ⟨hm, _, hv⟩ := scExt_eig_inv s nm np m A eig vec he
  subst hm
  subst hv
  have hnm0 : nm ≠ 0 := ne_of_gt hnm
  have hnp0 : np ≠ 0 := ne_of_gt hnp
  have ha2 : a = 0 ∨ a = 1 := by omega
  have hb2 : b = 0 ∨ b = 1 := by omega
  rcases ha2 with rfl | rfl <;> rcases hb2 with rfl | rfl
  · simp only [Finset.sum_range_succ, Finset.sum_range_zero, scVec]
    norm_num
    field_simp
    linear_combination hs - hnm2
  · simp only [Finset.sum_range_succ, Finset.sum_range_zero, scVec]
    norm_num
    field_simp
    linear_combination (-1) * hs
  · simp only [Finset.sum_range_succ, Finset.sum_range_zero, scVec]
    norm_num
    field_simp
    linear_combination (-1) * hs
  · simp only [Finset.sum_range_succ, Finset.sum_range_zero, scVec]
    norm_num
    field_simp
    linear_combination hs - hnp2

/-- Each eigenvalue returned by `scExt` matches its eigenvector column on the block of
`scRho`. -/
lemma scExt_eigvec (s nm np : K) (h : ScenarioRoots s nm np) :
    EigVecOnChannels (scExt s nm np) (scRho K) [[0, 1]] := by
  obtain ⟨_, hs, hnm, hnm2, hnp, hnp2⟩ := h
  intro ch hch eig vec he r c hr hc
  rw [List.mem_singleton] at hch
  subst hch
  obtain ⟨_, he1, hv⟩ := scExt_eig_inv s nm np _ _ eig vec he
  subst he1
  subst hv
  have hnm0 : nm ≠ 0 := ne_of_gt hnm
  have hnp0 : np ≠ 0 := ne_of_gt hnp
  have hr2 : r = 0 ∨ r = 1 := by
    have : r < 2 := hr
    omega
  have hc2 : c = 0 ∨ c = 1 := by
    have : c < 2 := hc
    omega
  rcases hr2 with rfl | rfl <;> rcases hc2 with rfl | rfl
  · simp [Finset.sum_range_succ, submat, scRho, scVec, scEig]
    field_simp
    ring
  · simp [Finset.sum_range_succ, submat, scRho, scVec, scEig]
    field_simp
    ring
  · simp [Finset.sum_range_succ, submat, scRho, scVec, scEig]
    field_simp
    linear_combination (-200 * nm ^ 2) * hs
  · simp [Finset.sum_range_succ, submat, scRho, scVec, scEig]
    field_simp
    linear_combination (-200 * np ^ 2) * hs

/-- The square roots exist over the reals. -/
lemma scenarioRoots_real :
    ScenarioRoots (Real.sqrt 65) (Real.sqrt (130 + 16 * Real.sqrt 65))
      (Real.sqrt (130 - 16 * Real.sqrt 65)) := by
  have h0 : (0 : ℝ) ≤ Real.sqrt 65 := Real.sqrt_nonneg 65
  have h1 : Real.sqrt 65 * Real.sqrt 65 = 65 := Real.mul_self_sqrt (by norm_num)
  have h2 : Real.sqrt 65 < 65 / 8 := by nlinarith
  have h3 : (0 : ℝ) < 130 + 16 * Real.sqrt 65 := by linarith
  have h4 : (0 : ℝ) < 130 - 16 * Real.sqrt 65 := by linarith
  exact ⟨h0, h1, Real.sqrt_pos.mpr h3, Real.mul_self_sqrt h3.le, Real.sqrt_pos.mpr h4,
    Real.mul_self_sqrt h4.le⟩

/-- A returning `DiagonalizeRho` went through a returning block assignment and a returning
reordering. -/
lemma DiagonalizeRho_inv (ext : External K) (fuel : Nat) (hf hf2 : HFMBPT K)
    (h : HFMBPT.DiagonalizeRho ext fuel hf = Except.ok hf2) :
    ∃ r1 r2 : Mat K × Vec K,
      diagonalizeChannels ext hf.rho hf.Hbare_OneBodyChannels hf.C_HF2NAT hf.Occ = some r1 ∧
      ReorderHFMBPTCoefficients fuel hf.modelspace.GetNumberOrbits hf.Hbare_OneBodyChannels
        r1.1 r1.2 = some r2 ∧
      hf2 = { hf with C_HF2NAT := r2.1, Occ := r2.2 } := by
  unfold HFMBPT.DiagonalizeRho at h
  cases h1 : diagonalizeChannels ext hf.rho hf.Hbare_OneBodyChannels hf.C_HF2NAT hf.Occ with
  | none => rw [h1] at h; cases h
  | some r1 =>
    rw [h1] at h
    obtain ⟨Cm, Oc⟩ := r1
    dsimp only at h
    cases h2 : ReorderHFMBPTCoefficients fuel hf.modelspace.GetNumberOrbits
        hf.Hbare_OneBodyChannels Cm Oc with
    | none => rw [h2] at h; cases h
    | some r2 =>
      rw [h2] at h
      obtain ⟨Cm2, Oc2⟩ := r2
      dsimp only at h
      injection h with h
      exact ⟨(Cm, Oc), (Cm2, Oc2), rfl, h2, h.symm⟩

/-- With one orbit pair to scan (`size - 1 = 1`) the pass makes no comparison and no swap. -/
lemma reorderPass_one (Cmat : Mat K) (Occ : Vec K) : reorderPass 1 Cmat Occ = (Cmat, Occ, 0) := by
  simp [reorderPass, List.range_succ]

/-- On a single channel of 2 orbits the reordering makes no swap: it returns after one pass
with `Occ` as it is and `C_HF2NAT` changed by the sign-fixing loop only. -/
lemma Reorder_two (fuel n_rows : Nat) (ch : List Nat) (Cmat : Mat K) (Occ : Vec K)
    (hch : ch.length = 2) (hfuel : 0 < fuel) :
    ReorderHFMBPTCoefficients fuel n_rows [ch] Cmat Occ = some (fixSigns n_rows Cmat, Occ) := by
  obtain ⟨k, rfl⟩ : ∃ k, fuel = k + 1 := ⟨fuel - 1, by omega⟩
  unfold ReorderHFMBPTCoefficients
  rw [List.foldl_cons, List.foldl_nil, Option.some_bind]
  unfold reorderChannel
  rw [hch]
  have : reorderLoop (2 - 1) (k + 1) Cmat Occ = some (Cmat, Occ) := by
    show reorderLoop 1 (k + 1) Cmat Occ = some (Cmat, Occ)
    unfold reorderLoop
    rw [reorderPass_one]
    simp
  rw [this]
  rfl

/-- In a list sorted by `r`, an element found earlier is related to one found later. -/
lemma rel_of_indexOf_lt (r : Nat → Nat → Prop) : ∀ (l : List Nat), l.Pairwise r →
    ∀ a b, b ∈ l → l.indexOf a < l.indexOf b → r a b := by
  intro l
  induction l with
  | nil => intro _ a b hb; cases hb
  | cons x t ih =>
    intro hp a b hb hlt
    rw [List.pairwise_cons] at hp
    by_cases hbx : x = b
    · subst hbx
      rw [List.indexOf_cons_self] at hlt
      exact absurd hlt (Nat.not_lt_zero _)
    · have hbt : b ∈ t := by
        rcases List.mem_cons.mp hb with h | h
        · exact absurd h.symm hbx
        · exact h
      by_cases hax : x = a
      · subst hax
        exact hp.1 b hbt
      · rw [List.indexOf_cons_ne _ hax, List.indexOf_cons_ne _ hbx] at hlt
        exact ih hp.2 a b hbt (by omega)

/-- In the descending sort of a channel a larger orbit index is found no later than a
smaller one. -/
lemma indexOf_sortDesc (ch : List Nat) (a b : Nat) (hb : b ∈ ch) (hab : a ≤ b) :
    (ch.insertionSort (fun x y => y ≤ x)).indexOf b
      ≤ (ch.insertionSort (fun x y => y ≤ x)).indexOf a := by
  by_contra hc
  push_neg at hc
  have hs : (ch.insertionSort (fun x y => y ≤ x)).Pairwise (fun x y => y ≤ x) := by
    have : IsTotal Nat (fun x y => y ≤ x) := ⟨fun x y => le_total y x⟩
    have : IsTrans Nat (fun x y => y ≤ x) := ⟨fun x y z hxy hyz => le_trans hyz hxy⟩
    exact List.sorted_insertionSort (fun x y => y ≤ x) ch
  have hb2 : b ∈ ch.insertionSort (fun x y => y ≤ x) :=
    (List.perm_insertionSort _ ch).mem_iff.mpr hb
  have hba : b ≤ a := rel_of_indexOf_lt _ _ hs a b hb2 hc
  have : a = b := le_antisymm hab hba
  subst this
  exact lt_irrefl _ hc

/-- Position of an orbit of the channel in its descending sort. -/
lemma indexOf_sortDesc_lt (ch : List Nat) (j : Nat) (hj : j ∈ ch) :
    (ch.insertionSort (fun x y => y ≤ x)).indexOf j < ch.length := by
  have hj2 : j ∈ ch.insertionSort (fun x y => y ≤ x) :=
    (List.perm_insertionSort _ ch).mem_iff.mpr hj
  have := List.indexOf_lt_length.mpr hj2
  rwa [List.length_insertionSort] at this

/-- Block assignment of `DiagonalizeRho` with an eigen-solver that returns its eigenvalues
in ascending order: within each channel `Occ` does not increase with the orbit index, and
column `j` of `C_HF2NAT` holds the eigenvector whose eigenvalue `Occ(j)` holds. -/
lemma assignment_order (ext : External K) (hasc : EigAscending ext) (rho : Mat K)
    (channels : List (List Nat)) (Cmat : Mat K) (Occ : Vec K) (r1 : Mat K × Vec K)
    (hpw : channels.Pairwise (fun c1 c2 => ∀ a ∈ c1, a ∉ c2))
    (h1 : diagonalizeChannels ext rho channels Cmat Occ = some r1) :
    ∀ ch ∈ channels,
      (∀ a ∈ ch, ∀ b ∈ ch, a ≤ b → r1.2 b ≤ r1.2 a) ∧
      ∃ eig vec, ext.eig_sym ch.length (submat rho ch ch) = some (eig, vec) ∧
        ∀ j ∈ ch, ∃ k, k < ch.length ∧ r1.2 j = eig k ∧
          ∀ i ∈ ch, r1.1 i j = vec (ch.indexOf i) k := by
  intro ch hch
  obtain ⟨eig, vec, he, hC, hO⟩ :=
    (diagonalizeChannels_spec ext rho channels Cmat Occ r1 hpw h1).1 ch hch
  constructor
  · intro a ha b hb hab
    rw [hO a ha, hO b hb]
    exact hasc _ _ eig vec he _ _ (indexOf_sortDesc ch a b hb hab) (indexOf_sortDesc_lt ch a ha)
  · exact ⟨eig, vec, he, fun j hj => ⟨_, indexOf_sortDesc_lt ch j hj, hO j hj,
      fun i hi => hC i hi j hj⟩⟩

/-- Core of the scenario: on the single channel `[0, 1]` holding
`[[0.9, 0.05], [0.05, 0.1]]`, with an exact eigen-solver that orders its eigenvalues, the
values that `DiagonalizeRho` stores in `Occ` are the two roots of `x^2 - x + 0.0875`, the
larger one on orbit 0. -/
lemma scenario_core (ext : External K) (fuel : Nat) (hf hf2 : HFMBPT K)
    (hch : hf.Hbare_OneBodyChannels = [[0, 1]])
    (h00 : hf.rho 0 0 = 9 / 10) (h01 : hf.rho 0 1 = 1 / 20) (h10 : hf.rho 1 0 = 1 / 20)
    (h11 : hf.rho 1 1 = 1 / 10)
    (hvec : EigVecOnChannels ext hf.rho [[0, 1]]) (horth : EigOrthoSpec ext)
    (hasc : EigAscending ext)
    (h : HFMBPT.DiagonalizeRho ext fuel hf = Except.ok hf2) :
    hf2.Occ 0 * hf2.Occ 0 - hf2.Occ 0 + 7 / 80 = 0 ∧
    hf2.Occ 1 * hf2.Occ 1 - hf2.Occ 1 + 7 / 80 = 0 ∧
    hf2.Occ 1 < hf2.Occ 0 ∧ hf2.Occ 1 + hf2.Occ 0 = 1 := by
  obtain ⟨r1, r2, h1, h2, e2⟩ := DiagonalizeRho_inv ext fuel hf hf2 h
  rw [hch] at h1 h2
  have hpw : ([[0, 1]] : List (List Nat)).Pairwise (fun c1 c2 => ∀ a ∈ c1, a ∉ c2) :=
    List.pairwise_singleton _ _
  obtain ⟨eig, vec, he, _, hO⟩ :=
    (diagonalizeChannels_spec ext hf.rho _ _ _ r1 hpw h1).1 [0, 1] (List.mem_singleton_self _)
  have hsort : ([0, 1] : List Nat).insertionSort (fun x y => y ≤ x) = [1, 0] := by decide
  rw [hsort] at hO
  have hO0 : r1.2 0 = eig 1 := by
    have := hO 0 (by simp)
    simpa using this
  have hO1 : r1.2 1 = eig 0 := by
    have := hO 1 (by simp)
    simpa using this
  have hkeep : r2.2 = r1.2 := by
    refine Reorder_inv (fun _ Oc => Oc = r1.2) fuel _ [[0, 1]] ?_ ?_ r1.1 r1.2 r2 rfl h2
    · intro orbvec Cm Oc i j horb _ hi hj _
      rw [List.mem_singleton] at horb
      subst horb
      simp at hi
      omega
    · intro Cm Oc i hP
      exact hP
  have hOcc0 : hf2.Occ 0 = eig 1 := by rw [e2]; show r2.2 0 = eig 1; rw [hkeep, hO0]
  have hOcc1 : hf2.Occ 1 = eig 0 := by rw [e2]; show r2.2 1 = eig 0; rw [hkeep, hO1]
  have hE := hvec [0, 1] (List.mem_singleton_self _) eig vec he
  have hsym : ∀ r c, r < 2 → c < 2 →
      submat hf.rho [0, 1] [0, 1] r c = submat hf.rho [0, 1] [0, 1] c r := by
    intro r c hr hc
    have hr2 : r = 0 ∨ r = 1 := by omega
    have hc2 : c = 0 ∨ c = 1 := by omega
    rcases hr2 with rfl | rfl <;> rcases hc2 with rfl | rfl <;> simp [submat, h01, h10]
  have hN := horth 2 _ eig vec hsym he
  have a0 := hE 0 0 (by decide) (by decide)
  have b0 := hE 1 0 (by decide) (by decide)
  have a1 := hE 0 1 (by decide) (by decide)
  have b1 := hE 1 1 (by decide) (by decide)
  have n0 := hN 0 0 (by decide) (by decide)
  have n1 := hN 1 1 (by decide) (by decide)
  have o := hN 0 1 (by decide) (by decide)
  simp [Finset.sum_range_succ, submat, h00, h01, h10, h11] at a0 b0 a1 b1 n0 n1 o
  have hle := hasc 2 _ eig vec he 0 1 (by decide) (by decide)
  obtain ⟨p0, p1, hlt, hsum⟩ := eig2_roots (vec 0 0) (vec 1 0) (vec 0 1) (vec 1 1)
    (eig 0) (eig 1) (by linear_combination a0) (by linear_combination b0)
    (by linear_combination a1) (by linear_combination b1) n0 n1 o hle
  rw [hOcc0, hOcc1]
  exact ⟨p1, p0, hlt, hsum⟩

/-- C23 (as amended). For the symmetric matrix `rho = [[0.9, 0.05], [0.05, 0.1]]` on a
single channel of 2 orbits, with an eigen-solver that returns exact orthonormal
eigenvectors and its eigenvalues in ascending order, the two values that `DiagonalizeRho`
stores in `Occ` are the roots of `x^2 - x + 0.0875 = 0`, and they equal 0.9031 and 0.0969 to
four decimal places: `Occ(0)` is within 0.00005 of 0.9031 and `Occ(1)` within 0.00005 of
0.0969. -/
theorem C23_scenario_eigenvalues (ext : External K) (fuel : Nat) (hf hf2 : HFMBPT K)
    (hch : hf.Hbare_OneBodyChannels = [[0, 1]])
    (h00 : hf.rho 0 0 = 9 / 10) (h01 : hf.rho 0 1 = 1 / 20) (h10 : hf.rho 1 0 = 1 / 20)
    (h11 : hf.rho 1 1 = 1 / 10)
    (hvec : EigVecOnChannels ext hf.rho [[0, 1]]) (horth : EigOrthoSpec ext)
    (hasc : EigAscending ext)
    (h : HFMBPT.DiagonalizeRho ext fuel hf = Except.ok hf2) :
    hf2.Occ 0 * hf2.Occ 0 - hf2.Occ 0 + 7 / 80 = 0 ∧
    hf2.Occ 1 * hf2.Occ 1 - hf2.Occ 1 + 7 / 80 = 0 ∧
    |hf2.Occ 0 - 9031 / 10000| ≤ 5 / 100000 ∧
    |hf2.Occ 1 - 969 / 10000| ≤ 5 / 100000 := by
  obtain ⟨p0, p1, hlt, hsum⟩ :=
    scenario_core ext fuel hf hf2 hch h00 h01 h10 h11 hvec horth hasc h
  obtain ⟨b1, b2, b3, b4⟩ := root_bounds (hf2.Occ 1) (hf2.Occ 0) p0 hlt hsum
  refine ⟨p0, p1, ?_, ?_⟩
  · rw [abs_le]; constructor <;> linarith
  · rw [abs_le]; constructor <;> linarith

/-- C24. With an eigen-solver that returns its eigenvalues in ascending order, the block
assignment of `DiagonalizeRho` (channels pairwise disjoint) leaves, within each channel,
`Occ` non-increasing with increasing orbit index, and column `j` of `C_HF2NAT` holds, on the
rows of the channel, the eigenvector `k` whose eigenvalue `Occ(j)` holds.  On a single
channel of 2 orbits the reordering makes no swap: it returns `Occ` as it is and `C_HF2NAT`
with signs fixed.  In the scenario `rho = [[0.9, 0.05], [0.05, 0.1]]` with an exact
solver, the final result has `Occ(0) > Occ(1)`, the larger occupation on the orbit whose
diagonal entry of `rho` is larger. -/
theorem C24_assignment_order (ext : External K) (hasc : EigAscending ext) :
    (∀ (rho : Mat K) (channels : List (List Nat)) (Cmat : Mat K) (Occ : Vec K)
      (r1 : Mat K × Vec K),
      channels.Pairwise (fun c1 c2 => ∀ a ∈ c1, a ∉ c2) →
      diagonalizeChannels ext rho channels Cmat Occ = some r1 →
      ∀ ch ∈ channels,
        (∀ a ∈ ch, ∀ b ∈ ch, a ≤ b → r1.2 b ≤ r1.2 a) ∧
        ∃ eig vec, ext.eig_sym ch.length (submat rho ch ch) = some (eig, vec) ∧
          ∀ j ∈ ch, ∃ k, k < ch.length ∧ r1.2 j = eig k ∧
            ∀ i ∈ ch, r1.1 i j = vec (ch.indexOf i) k) ∧
    (∀ (fuel n_rows : Nat) (ch : List Nat) (Cmat : Mat K) (Occ : Vec K),
      ch.length = 2 → 0 < fuel →
      (reorderPass (ch.length - 1) Cmat Occ).2.2 = 0 ∧
      ReorderHFMBPTCoefficients fuel n_rows [ch] Cmat Occ
        = some (fixSigns n_rows Cmat, Occ)) ∧
    (∀ (fuel : Nat) (hf hf2 : HFMBPT K),
      hf.Hbare_OneBodyChannels = [[0, 1]] →
      hf.rho 0 0 = 9 / 10 → hf.rho 0 1 = 1 / 20 → hf.rho 1 0 = 1 / 20 →
      hf.rho 1 1 = 1 / 10 →
      EigVecOnChannels ext hf.rho [[0, 1]] → EigOrthoSpec ext →
      HFMBPT.DiagonalizeRho ext fuel hf = Except.ok hf2 →
      hf2.Occ 0 > hf2.Occ 1 ∧ hf.rho 0 0 > hf.rho 1 1) := by
  refine ⟨fun rho channels Cmat Occ r1 hpw h1 =>
      assignment_order ext hasc rho channels Cmat Occ r1 hpw h1,
    fun fuel n_rows ch Cmat Occ hch hfuel => ⟨?_, Reorder_two fuel n_rows ch Cmat Occ hch hfuel⟩,
    fun fuel hf hf2 hch h00 h01 h10 h11 hvec horth h => ⟨?_, ?_⟩⟩
  · rw [hch]
    show (reorderPass 1 Cmat Occ).2.2 = 0
    rw [reorderPass_one]
  · exact (scenario_core ext fuel hf hf2 hch h00 h01 h10 h11 hvec horth hasc h).2.2.1
  · rw [h00, h11]
    norm_num

end ScenarioTheorems

section ScenarioRuns

lemma scHF_fuel (K : Type) [LinearOrderedField K] : ∀ ch ∈ (scHF K).Hbare_OneBodyChannels,
    (ch.length - 1 + 1) ^ (ch.length - 1) < 3 := by
  intro ch hch
  have : ch = [0, 1] := by simpa [scHF] using hch
  subst this
  decide

lemma scHF_rho (K : Type) [LinearOrderedField K] :
    (scHF K).rho 0 0 = 9 / 10 ∧ (scHF K).rho 0 1 = 1 / 20 ∧ (scHF K).rho 1 0 = 1 / 20 ∧
    (scHF K).rho 1 1 = 1 / 10 := by
  refine ⟨?_, ?_, ?_, ?_⟩ <;> simp [scHF, scRho]

/-- The scenario over the reals: `DiagonalizeRho` returns, and what it stores are the two
roots, the larger one on orbit 0. -/
lemma scenario_real_run :
    ∃ hf2 : HFMBPT ℝ,
      HFMBPT.DiagonalizeRho (scExt (Real.sqrt 65) (Real.sqrt (130 + 16 * Real.sqrt 65))
        (Real.sqrt (130 - 16 * Real.sqrt 65))) 3 (scHF ℝ) = Except.ok hf2 := by
  obtain ⟨r1, r2, _, _, h3⟩ := DiagonalizeRho_ok (scExt (Real.sqrt 65)
    (Real.sqrt (130 + 16 * Real.sqrt 65)) (Real.sqrt (130 - 16 * Real.sqrt 65))) 3 (scHF ℝ)
    (fun ch hch => by
      have : ch = [0, 1] := by simpa [scHF] using hch
      subst this
      rfl) (scHF_fuel ℝ)
  exact ⟨_, h3⟩

/-- C23 as stated fails: over the reals, with the exact eigen-solver (orthonormal
eigenvectors, ascending eigenvalues `(10 -+ sqrt 65)/20`), `DiagonalizeRho` stores
`Occ(0) = 0.90311...` and `Occ(1) = 0.09688...`, neither of which is within 0.00005 of
0.9056 or of 0.0944. -/
theorem C23_counterexample :
    ∃ hf2 : HFMBPT ℝ,
      EigVecOnChannels (scExt (Real.sqrt 65) (Real.sqrt (130 + 16 * Real.sqrt 65))
        (Real.sqrt (130 - 16 * Real.sqrt 65))) (scHF ℝ).rho [[0, 1]] ∧
      EigOrthoSpec (scExt (Real.sqrt 65) (Real.sqrt (130 + 16 * Real.sqrt 65))
        (Real.sqrt (130 - 16 * Real.sqrt 65))) ∧
      EigAscending (scExt (Real.sqrt 65) (Real.sqrt (130 + 16 * Real.sqrt 65))
        (Real.sqrt (130 - 16 * Real.sqrt 65))) ∧
      HFMBPT.DiagonalizeRho (scExt (Real.sqrt 65) (Real.sqrt (130 + 16 * Real.sqrt 65))
        (Real.sqrt (130 - 16 * Real.sqrt 65))) 3 (scHF ℝ) = Except.ok hf2 ∧
      ¬ (|hf2.Occ 0 - 9056 / 10000| ≤ 5 / 100000) ∧
      ¬ (|hf2.Occ 1 - 944 / 10000| ≤ 5 / 100000) ∧
      ¬ (|hf2.Occ 1 - 9056 / 10000| ≤ 5 / 100000) ∧
      ¬ (|hf2.Occ 0 - 944 / 10000| ≤ 5 / 100000) := by
  obtain ⟨hf2, h⟩ := scenario_real_run
  have hv := scExt_eigvec _ _ _ scenarioRoots_real
  have ho := scExt_ortho _ _ _ scenarioRoots_real
  have ha := scExt_ascending (Real.sqrt 65) (Real.sqrt (130 + 16 * Real.sqrt 65))
    (Real.sqrt (130 - 16 * Real.sqrt 65)) scenarioRoots_real.1
  obtain ⟨r00, r01, r10, r11⟩ := scHF_rho ℝ
  obtain ⟨p0, _, hlt, hsum⟩ := scenario_core _ 3 (scHF ℝ) hf2 rfl r00 r01 r10 r11 hv ho ha h
  obtain ⟨b1, b2, b3, b4⟩ := root_bounds (hf2.Occ 1) (hf2.Occ 0) p0 hlt hsum
  refine ⟨hf2, hv, ho, ha, h, ?_, ?_, ?_, ?_⟩
  · intro hc; rw [abs_le] at hc; linarith [hc.1]
  · intro hc; rw [abs_le] at hc; linarith [hc.2]
  · intro hc; rw [abs_le] at hc; linarith [hc.1]
  · intro hc; rw [abs_le] at hc; linarith [hc.2]

/-- C23 (as amended) exercised over the reals with the exact eigen-solver. -/
theorem C23_scenario_eigenvalues_witness :
    ∃ hf2 : HFMBPT ℝ,
      HFMBPT.DiagonalizeRho (scExt (Real.sqrt 65) (Real.sqrt (130 + 16 * Real.sqrt 65))
        (Real.sqrt (130 - 16 * Real.sqrt 65))) 3 (scHF ℝ) = Except.ok hf2 ∧
      |hf2.Occ 0 - 9031 / 10000| ≤ 5 / 100000 ∧
      |hf2.Occ 1 - 969 / 10000| ≤ 5 / 100000 := by
  obtain ⟨hf2, h⟩ := scenario_real_run
  exact ⟨hf2, h, (C23_scenario_eigenvalues _ 3 (scHF ℝ) hf2 rfl (scHF_rho ℝ).1
    (scHF_rho ℝ).2.1 (scHF_rho ℝ).2.2.1 (scHF_rho ℝ).2.2.2
    (scExt_eigvec _ _ _ scenarioRoots_real) (scExt_ortho _ _ _ scenarioRoots_real)
    (scExt_ascending _ _ _ scenarioRoots_real.1) h).2.2⟩

/-- C24 exercised over the reals with the exact eigen-solver of the scenario. -/
theorem C24_assignment_order_witness :
    ∃ hf2 : HFMBPT ℝ,
      HFMBPT.DiagonalizeRho (scExt (Real.sqrt 65) (Real.sqrt (130 + 16 * Real.sqrt 65))
        (Real.sqrt (130 - 16 * Real.sqrt 65))) 3 (scHF ℝ) = Except.ok hf2 ∧
      hf2.Occ 0 > hf2.Occ 1 := by
  obtain ⟨hf2, h⟩ := scenario_real_run
  exact ⟨hf2, h, ((C24_assignment_order _ (scExt_ascending _ _ _ scenarioRoots_real.1)).2.2
    3 (scHF ℝ) hf2 rfl (scHF_rho ℝ).1 (scHF_rho ℝ).2.1 (scHF_rho ℝ).2.2.1 (scHF_rho ℝ).2.2.2
    (scExt_eigvec _ _ _ scenarioRoots_real) (scExt_ortho _ _ _ scenarioRoots_real) h).1⟩

end ScenarioRuns

section ExampleRuns3

/-- C21 exercised on the two channels of `exMS4`, from minus the identity. -/
theorem C21_sign_fixing_witness :
    ∃ r : Mat ℚ × Vec ℚ,
      ReorderHFMBPTCoefficients 3 4 [[0, 2], [1, 3]] (fun i j => - matEye i j) (fun _ => 0)
        = some r ∧
      0 ≤ r.1 0 0 ∧ 0 ≤ r.1 1 1 ∧ 0 ≤ r.1 2 2 ∧ 0 ≤ r.1 3 3 := by
  obtain ⟨r, hr⟩ := Option.isSome_iff_exists.mp
    (Reorder_isSome 3 4 [[0, 2], [1, 3]] exHF4_fuel (fun i j => - matEye i j) (fun _ => (0 : ℚ)))
  have h := (C21_sign_fixing 3 4 [[0, 2], [1, 3]] _ _ r (by simp) hr).1
  exact ⟨r, hr, h 0 (by decide), h 1 (by decide), h 2 (by decide), h 3 (by decide)⟩

/-- The first part of `GetNaturalOrbitals` returns on `exHF4` with the eigen-solver that
always returns: the weighted trace of the density matrix is 4. -/
lemma exHF4_head : ∃ hf5, HFMBPT.GetNaturalOrbitals_head exExtTotal 3 exHF4 exH4
    = Except.ok hf5 := by
  obtain ⟨r1, r2, _, _, h3⟩ := DiagonalizeRho_ok exExtTotal 3
    (HFMBPT.GetDensityMatrix exExtTotal { exHF4 with rho := matZeros, Occ := fun _ => 0 } exH4)
    (fun _ _ => rfl) exHF4_fuel
  have key := head_of_diagonalized exExtTotal 3 exHF4 exH4 _ h3
  have hR : AfromTr exMS4
      (HFMBPT.GetDensityMatrix exExtTotal
        { exHF4 with rho := matZeros, Occ := fun _ => 0 } exH4).rho = 4 := by
    have h := AfromTr_filling exExtTotal { exHF4 with Occ := fun _ => 0 } exH4
      exMS4_integerFilling
    have h4 : exHF4.modelspace.GetNumberOrbits = 4 := rfl
    rw [show ({ exHF4 with Occ := fun _ => 0 } : HFMBPT ℚ).modelspace = exHF4.modelspace
      from rfl, h4] at h
    refine Eq.trans h ?_
    simp [Finset.sum_range_succ, ModelSpace.GetOrbit, exHF4, exMS4]
    norm_num
  rw [if_neg] at key
  · exact ⟨_, key⟩
  · show ¬ |AfromTr exMS4 (HFMBPT.GetDensityMatrix exExtTotal
        { exHF4 with rho := matZeros, Occ := fun _ => 0 } exH4).rho - ((4 : Int) : ℚ)|
        > 1 / 100000000
    rw [hR]
    norm_num

lemma exHe_rho_diag (i : Nat) (hi : i < 2) :
    (HFMBPT.GetDensityMatrix exExtTotal
      { exHFHe with rho := matZeros, Occ := fun _ => 0 } exH4).rho i i = 1 := by
  have hrho : (HFMBPT.GetDensityMatrix exExtTotal
      { exHFHe with rho := matZeros, Occ := fun _ => 0 } exH4).rho i i
      = DensityMatrixHH exExtTotal exMSHe exH4
          (DensityMatrixPP exExtTotal exMSHe exH4 matZeros) i i := by
    unfold HFMBPT.GetDensityMatrix
    exact PH_diag exExtTotal _ exH4 _ i
  have hr : DensityMatrixHH_r exExtTotal exMSHe exH4 i i = 0 := rfl
  rw [hrho, HH_diag exExtTotal exMSHe exH4 _ (by decide) i]
  have hi2 : i = 0 ∨ i = 1 := by omega
  rcases hi2 with rfl | rfl
  · rw [if_pos (by decide), if_pos ⟨by decide, by
      simp [exMSHe, exExtTotal, exExt, ModelSpace.GetOrbit]; norm_num⟩, hr]
    simp [exMSHe, ModelSpace.GetOrbit]
  · rw [if_pos (by decide), if_pos ⟨by decide, by
      simp [exMSHe, exExtTotal, exExt, ModelSpace.GetOrbit]; norm_num⟩, hr]
    simp [exMSHe, ModelSpace.GetOrbit]

/-- The run of `GetNaturalOrbitals` on the closed core `exHFHe` with `use_NAT_occupations`
set returns: the density matrix is the identity, both orbits are kept with occupation 1,
no back-fill pass is needed, and `UpdateReference` is called. -/
lemma exHe_run : ∃ hf7,
    HFMBPT.GetNaturalOrbitals exExtTotal HFMBPT.UpdateReference 2 exHFHe exH4 = Except.ok hf7 ∧
    hf7.use_NAT_occupations = true ∧ hf7.holeorbs = [0, 1] ∧ hf7.hole_occ = [1, 1] ∧
    hf7.Occ 0 = 1 ∧ hf7.Occ 1 = 1 := by
  obtain ⟨r1, r2, h1, h2, h3⟩ := DiagonalizeRho_ok exExtTotal 2
    (HFMBPT.GetDensityMatrix exExtTotal { exHFHe with rho := matZeros, Occ := fun _ => 0 } exH4)
    (fun _ _ => rfl) (by
      intro ch hch
      have h2 : ch = [0] ∨ ch = [1] := by
        simpa [HFMBPT.GetDensityMatrix, exHFHe] using hch
      rcases h2 with rfl | rfl <;> decide)
  obtain ⟨hA, _, _⟩ := diagonalizeChannels_spec exExtTotal _ _ _ _ r1
    (by
      show List.Pairwise (fun c1 c2 : List Nat => ∀ a ∈ c1, a ∉ c2) [[0], [1]]
      simp) h1
  have hOcc1 : r1.2 0 = 1 ∧ r1.2 1 = 1 := by
    constructor
    · obtain ⟨eig, vec, he, _, hO⟩ := hA [0] (List.Mem.head _)
      have he2 : eig = fun k => submat (HFMBPT.GetDensityMatrix exExtTotal
          { exHFHe with rho := matZeros, Occ := fun _ => 0 } exH4).rho [0] [0] k k :=
        (Prod.mk.inj (Option.some.inj he)).1.symm
      rw [hO 0 (by simp), he2]
      exact exHe_rho_diag 0 (by decide)
    · obtain ⟨eig, vec, he, _, hO⟩ := hA [1] (List.Mem.tail _ (List.Mem.head _))
      have he2 : eig = fun k => submat (HFMBPT.GetDensityMatrix exExtTotal
          { exHFHe with rho := matZeros, Occ := fun _ => 0 } exH4).rho [1] [1] k k :=
        (Prod.mk.inj (Option.some.inj he)).1.symm
      rw [hO 1 (by simp), he2]
      exact exHe_rho_diag 1 (by decide)
  have hOcc2 : r2.2 0 = 1 ∧ r2.2 1 = 1 :=
    Reorder_inv (fun (_ : Mat ℚ) (Oc : Vec ℚ) => Oc 0 = 1 ∧ Oc 1 = 1) 2 _ _
      (fun orbvec Cm Oc i j horb _ hi hj _ => by
        have h2 : orbvec = [0] ∨ orbvec = [1] := by
          simpa [HFMBPT.GetDensityMatrix, exHFHe] using horb
        rcases h2 with rfl | rfl <;> simp at hi)
      (fun Cm Oc i hPc => hPc) r1.1 r1.2 r2 hOcc1 h2
  have key := head_of_diagonalized exExtTotal 2 exHFHe exH4 _ h3
  have hA4 : AfromTr exMSHe (HFMBPT.GetDensityMatrix exExtTotal
      { exHFHe with rho := matZeros, Occ := fun _ => 0 } exH4).rho = 4 := by
    rw [AfromTr_eq_sum]
    have hN : exMSHe.GetNumberOrbits = 2 := rfl
    rw [hN, Finset.sum_range_succ, Finset.sum_range_succ, Finset.sum_range_zero,
      exHe_rho_diag 0 (by decide), exHe_rho_diag 1 (by decide)]
    simp [exMSHe, ModelSpace.GetOrbit]
    norm_num
  rw [if_neg (by
    show ¬ |AfromTr exMSHe (HFMBPT.GetDensityMatrix exExtTotal
        { exHFHe with rho := matZeros, Occ := fun _ => 0 } exH4).rho - ((4 : Int) : ℚ)|
        > 1 / 100000000
    rw [hA4]
    norm_num)] at key
  obtain ⟨hf5, h5, hms, hOc, hfl⟩ : ∃ hf5 : HFMBPT ℚ,
      HFMBPT.GetNaturalOrbitals_head exExtTotal 2 exHFHe exH4 = Except.ok hf5 ∧
      hf5.modelspace = exMSHe.all_orbits.foldl (fun ms i => ms.setOccNat i |r2.2 i|) exMSHe ∧
      hf5.Occ = r2.2 ∧ hf5.use_NAT_occupations = true := ⟨_, key, rfl, rfl, rfl⟩
  have hkeep : keepLoop hf5.modelspace hf5.Occ = ⟨[0, 1], [1, 1], 2, 2⟩ := by
    have t0 : ((exMSHe.all_orbits.foldl (fun ms i => ms.setOccNat i |r2.2 i|)
        exMSHe).GetOrbit 0).tz2 = -1 := rfl
    have t1 : ((exMSHe.all_orbits.foldl (fun ms i => ms.setOccNat i |r2.2 i|)
        exMSHe).GetOrbit 1).tz2 = 1 := rfl
    have j0 : ((exMSHe.all_orbits.foldl (fun ms i => ms.setOccNat i |r2.2 i|)
        exMSHe).GetOrbit 0).j2 = 1 := rfl
    have j1 : ((exMSHe.all_orbits.foldl (fun ms i => ms.setOccNat i |r2.2 i|)
        exMSHe).GetOrbit 1).j2 = 1 := rfl
    have ha : (exMSHe.all_orbits.foldl (fun ms i => ms.setOccNat i |r2.2 i|)
        exMSHe).all_orbits = [0, 1] := rfl
    rw [hms, hOc]
    unfold keepLoop
    rw [ha, List.foldl_cons, List.foldl_cons, List.foldl_nil]
    unfold keepStep
    simp only [t0, t1, j0, j1, hOcc2.1, hOcc2.2]
    norm_num
  have hback : backfill exExtTotal hf5.modelspace exHFHe.modelspace.TargetMass hf5.Occ 2
      = some ⟨[0, 1], [1, 1], 2, 2⟩ := by
    unfold backfill protonStage neutronStage
    rw [hkeep]
    have hZ : hf5.modelspace.Zref = 2 := by rw [hms]; rfl
    have hT : exHFHe.modelspace.TargetMass = 4 := rfl
    rw [hZ, hT]
    dsimp only
    rw [backfillLoop_exit _ _ _ _ _ _ _ _ (by norm_num [exExtTotal, exExt]),
      Option.map_some', Option.some_bind]
    dsimp only
    rw [show ((4 : Int) - 2) = 2 from rfl,
      backfillLoop_exit _ _ _ _ _ _ _ _ (by norm_num [exExtTotal, exExt])]
    rfl
  rw [GetNaturalOrbitals_of_head exExtTotal _ 2 exHFHe hf5 exH4 h5,
    backfill_flag_on exExtTotal _ 2 _ hf5 _ hfl hback]
  refine ⟨_, rfl, hfl, rfl, rfl, ?_, ?_⟩
  · show hf5.Occ 0 = 1
    rw [hOc]
    exact hOcc2.1
  · show hf5.Occ 1 = 1
    rw [hOc]
    exact hOcc2.2

/-- C25 exercised on the closed core `exHFHe` with `use_NAT_occupations` set, so that
`UpdateReference` is called: in the state returned both orbits have
`occ_nat = |Occ(i)| = 1` and `C_HO2NAT = C * C_HF2NAT`. -/
theorem C25_natural_occupations_witness :
    ∃ hf7,
      HFMBPT.GetNaturalOrbitals exExtTotal HFMBPT.UpdateReference 2 exHFHe exH4
        = Except.ok hf7 ∧
      hf7.use_NAT_occupations = true ∧
      (hf7.modelspace.GetOrbit 0).occ_nat = |hf7.Occ 0| ∧
      (hf7.modelspace.GetOrbit 1).occ_nat = |hf7.Occ 1| ∧
      (hf7.modelspace.GetOrbit 0).occ_nat = 1 ∧
      hf7.C_HO2NAT = matMul 2 hf7.C hf7.C_HF2NAT := by
  obtain ⟨hf7, h7, hflag, _, _, hO0, _⟩ := exHe_run
  have h := C25_natural_occupations exExtTotal 2 exHFHe hf7 exH4 h7
  have h0 := (h.1 0 (by decide) (by decide)).1
  refine ⟨hf7, h7, hflag, h0, (h.1 1 (by decide) (by decide)).1, ?_, h.2.1⟩
  rw [h0, hO0]
  norm_num

/-- C26 exercised over `exMS2` with member functions that leave the state as it is. -/
theorem C26_rho_restored_witness :
    (HFMBPT.GetNormalOrderedHNAT exExt exCode exOp3 exMF2 3).1.hf.rho = exMF2.hf.rho ∧
    (HFMBPT.GetNormalOrderedHNAT exExt exCode exOp3 exMF2 3).1.hf.holeorbs = [0] :=
  ⟨(C26_rho_restored exExt exCode exOp3 exMF2 3 (fun _ => ⟨rfl, rfl, rfl⟩)
      (fun _ => ⟨rfl, rfl, rfl⟩) (fun _ => ⟨rfl, rfl, rfl⟩)).1,
   (C26_rho_restored exExt exCode exOp3 exMF2 3 (fun _ => ⟨rfl, rfl, rfl⟩)
      (fun _ => ⟨rfl, rfl, rfl⟩) (fun _ => ⟨rfl, rfl, rfl⟩)).2.2.1⟩

lemma exMF2_ortho : OrthoCols 2 exMF2.hf.C_HO2NAT := by
  intro i j hi hj
  have hi2 : i = 0 ∨ i = 1 := by omega
  have hj2 : j = 0 ∨ j = 1 := by omega
  rcases hi2 with rfl | rfl <;> rcases hj2 with rfl | rfl <;>
    simp [matMul, matT, exMF2, exHF2, matEye, Finset.sum_range_succ]

/-- C28 exercised over `exMS2`: one hole orbit with occupation 1 and the identity as
`C_HO2NAT`. -/
theorem C28_hole_density_witness :
    IsSymm (HFMBPT.holeDensity exMF2.hf) ∧
    ∑ i ∈ range 2, HFMBPT.holeDensity exMF2.hf i i = ([1] : List ℚ).sum :=
  ⟨(C28_hole_density exMF2.hf 2 exMF2_ortho (by decide) rfl).2.1,
   (C28_hole_density exMF2.hf 2 exMF2_ortho (by decide) rfl).2.2.1⟩

/-- C29 exercised over `exMS2` on its two-body channel, with `Hbare` of particle rank 2. -/
theorem C29_two_body_block_witness :
    ((HFMBPT.GetNormalOrderedHNAT exExt exCode exOp3 exMF2 2).2.TwoBody 0).n_rows = 3 ∧
    (∀ r c, r < 3 → c < 3 →
      ((HFMBPT.GetNormalOrderedHNAT exExt exCode exOp3 exMF2 2).2.TwoBody 0).el r c
        = ((HFMBPT.TransformHOToNATBasis exExt exMF2.hf exOp2).MatEl 0 0).el r c) :=
  ⟨(C29_two_body_block exExt exCode exOp3 exMF2 2 0 _ rfl (by decide)).1,
   (((C29_two_body_block exExt exCode exOp3 exMF2 2 0 _ rfl (by decide)).2.2.2.2
      (by decide)).2 (by decide) rfl rfl).2.2⟩

lemma exMS2_key0 : exHF3.modelspace.key 0 = (0, 1, -1) := rfl

lemma exMS2_key1 : exHF3.modelspace.key 1 = (0, 1, -1) := rfl

/-- C30 as stated fails: over `exMS2` with `C_HO2NAT(0,1) = 1e-9`, the element
`(a..f) = (0,0,0,0,0,1)` of a constant tensor gets `1e-9` from the tuple
`(0,0,0,0,0,0)`, whose sixth factor is below `1e-8`, on top of the term 1 of the tuple
`(0,0,0,0,0,1)`. -/
theorem C30_counterexample :
    HFMBPT.GetTransformed3bme exHF3 exOp3 0 0 1 0 0 0 0 0 1 = 1 + 1 / 1000000000 ∧
    transformed3bmeSix exHF3 exOp3 0 0 1 0 0 0 0 0 1 = 1 ∧
    HFMBPT.GetTransformed3bme exHF3 exOp3 0 0 1 0 0 0 0 0 1
      ≠ transformed3bmeSix exHF3 exOp3 0 0 1 0 0 0 0 0 1 := by
  have h1 : HFMBPT.GetTransformed3bme exHF3 exOp3 0 0 1 0 0 0 0 0 1 = 1 + 1 / 1000000000 := by
    unfold HFMBPT.GetTransformed3bme
    simp only [exMS2_key0, exMS2_key1]
    simp [exOp3, exMS2, exHF3, exTiny]
    norm_num
  have h2 : transformed3bmeSix exHF3 exOp3 0 0 1 0 0 0 0 0 1 = 1 := by
    unfold transformed3bmeSix
    simp only [exMS2_key0, exMS2_key1]
    simp [exOp3, exMS2, exHF3, exTiny]
    rw [abs_of_pos (by norm_num)]
    norm_num
  refine ⟨h1, h2, ?_⟩
  rw [h1, h2]
  norm_num

end ExampleRuns3

section LevelMixing
variable {K : Type} [LinearOrderedField K]

/-- The level-mixing term in terms of a non-negative square root `S` of `V2 + E^2`. -/
lemma levelMixing_bounds_aux (V2 E S : K) (hV : 0 ≤ V2) (hE : 0 < E) (hS0 : 0 ≤ S)
    (hS : S * S = V2 + E * E) :
    E ≤ S ∧ 0 ≤ 1 / 2 * (S - E) / S ∧ 1 / 2 * (S - E) / S < 1 / 2 ∧
    V2 / (4 * E ^ 2) - 3 * V2 ^ 2 / (16 * E ^ 4) ≤ 1 / 2 * (S - E) / S ∧
    1 / 2 * (S - E) / S ≤ V2 / (4 * E ^ 2) := by
  have hES : E ≤ S := by
    by_contra hc
    push_neg at hc
    nlinarith
  have hSpos : 0 < S := lt_of_lt_of_le hE hES
  have hd : 0 ≤ S - E := sub_nonneg.mpr hES
  have hV2 : V2 = S * S - E * E := by linarith
  have hE2 : (0 : K) < 4 * E ^ 2 := by positivity
  have hE4 : (0 : K) < 16 * E ^ 4 := by positivity
  refine ⟨hES, ?_, ?_, ?_, ?_⟩
  · exact div_nonneg (mul_nonneg (by norm_num) hd) hSpos.le
  · rw [div_lt_iff₀ hSpos]
    linarith
  · have key : 1 / 2 * (S - E) / S - (V2 / (4 * E ^ 2) - 3 * V2 ^ 2 / (16 * E ^ 4))
        = (S - E) ^ 3 * (3 * (S - E) ^ 2 + 15 * (S - E) * E + 20 * E ^ 2)
            / (16 * E ^ 4 * S) := by
      rw [hV2]
      field_simp
      ring
    have hnn : 0 ≤ (S - E) ^ 3 * (3 * (S - E) ^ 2 + 15 * (S - E) * E + 20 * E ^ 2)
        / (16 * E ^ 4 * S) := by
      apply div_nonneg
      · apply mul_nonneg (pow_nonneg hd 3)
        have := mul_nonneg hd hE.le
        positivity
      · positivity
    linarith
  · have key : V2 / (4 * E ^ 2) - 1 / 2 * (S - E) / S
        = (S - E) ^ 2 * (S + 2 * E) / (4 * E ^ 2 * S) := by
      rw [hV2]
      field_simp
      ring
    have hnn : 0 ≤ (S - E) ^ 2 * (S + 2 * E) / (4 * E ^ 2 * S) := by
      apply div_nonneg
      · apply mul_nonneg (sq_nonneg _)
        linarith
      · positivity
    linarith

/-- C31. Bounds of the level-mixing term `t = 0.5*(sqrt(V2 + E^2) - E)/sqrt(V2 + E^2)` of
`DensityMatrixPP` and `DensityMatrixHH`, for every `V2 >= 0` and every `E > 0`, where
`sqrt` returns the non-negative square root of `V2 + E^2`: `0 <= t < 1/2` and
`V2/(4 E^2) - 3 V2^2/(16 E^4) <= t <= V2/(4 E^2)`; with `E^2` a quarter of the magnitude
`D` of the denominator product, as the code sets it, `t <= V2 / D`. -/
theorem C31_level_mixing_bounds (ext : External K) (V2 E : K) (hV : 0 ≤ V2) (hE : 0 < E)
    (hS0 : 0 ≤ ext.sqrt (V2 + E * E))
    (hS : ext.sqrt (V2 + E * E) * ext.sqrt (V2 + E * E) = V2 + E * E) :
    0 ≤ levelMixing ext V2 E ∧ levelMixing ext V2 E < 1 / 2 ∧
    V2 / (4 * E ^ 2) - 3 * V2 ^ 2 / (16 * E ^ 4) ≤ levelMixing ext V2 E ∧
    levelMixing ext V2 E ≤ V2 / (4 * E ^ 2) ∧
    (∀ D : K, E * E = D / 4 → levelMixing ext V2 E ≤ V2 / D) := by
  obtain ⟨_, h1, h2, h3, h4⟩ :=
    levelMixing_bounds_aux V2 E (ext.sqrt (V2 + E * E)) hV hE hS0 hS
  refine ⟨h1, h2, h3, h4, fun D hD => ?_⟩
  have : V2 / (4 * E ^ 2) = V2 / D := by
    rw [pow_two, hD]
    congr 1
    ring
  rw [← this]
  exact h4

end LevelMixing

section LevelMixingRuns

lemma exExt_sqrt_four : exExt.sqrt (3 + 1 * 1) = 2 := by
  have h := exExt_sqrtSpec.2.2 2 (by norm_num)
  rw [show (3 : ℚ) + 1 * 1 = 2 * 2 by norm_num]
  exact h

/-- C31 exercised over the rationals with `V2 = 3` and `E = 1`, where the term is `1/4`. -/
theorem C31_level_mixing_bounds_witness :
    (0 : ℚ) ≤ levelMixing exExt 3 1 ∧ levelMixing exExt 3 1 < 1 / 2 ∧
    (3 : ℚ) / (4 * 1 ^ 2) - 3 * 3 ^ 2 / (16 * 1 ^ 4) ≤ levelMixing exExt 3 1 ∧
    levelMixing exExt 3 1 ≤ 3 / (4 * 1 ^ 2) :=
  have h := C31_level_mixing_bounds exExt 3 1 (by norm_num) (by norm_num)
    (by rw [exExt_sqrt_four]; norm_num) (by rw [exExt_sqrt_four]; norm_num)
  ⟨h.1, h.2.1, h.2.2.1, h.2.2.2.1⟩

end LevelMixingRuns

section LevelMixingRadicand
variable {K : Type} [LinearOrderedField K]

/-- The body of the innermost loop of `DensityMatrixPP` in terms of the denominator
product, `tbme` and `epsilon` of the term. -/
lemma PP_body_eq (ext : External K) (ms : ModelSpace K) (H : Operator K)
    (a b c i j : Nat) (r : K) :
    DensityMatrixPP_body ext ms H a b c i j r
      = if |DensityMatrixPP_denom H a b c i j| < 1 / 100000000 then r
        else r + levelMixing ext (DensityMatrixPP_tbme ms H a b c i j)
          (DensityMatrixPP_epsilon ext H a b c i j) :=
  rfl

/-- The body of the innermost loop of `DensityMatrixHH` in terms of the denominator
product, `tbme` and `epsilon` of the term. -/
lemma HH_body_eq (ext : External K) (ms : ModelSpace K) (H : Operator K)
    (i j a b k : Nat) (r : K) :
    DensityMatrixHH_body ext ms H i j a b k r
      = if |DensityMatrixHH_denom H i j a b k| < 1 / 100000000 then r
        else r + levelMixing ext (DensityMatrixHH_tbme ms H i j a b k)
          (DensityMatrixHH_epsilon ext H i j a b k) :=
  rfl

lemma foldl_nonneg {α : Type} (l : List α) (f : K → α → K)
    (h : ∀ t x, x ∈ l → 0 ≤ t → 0 ≤ f t x) : 0 ≤ l.foldl f 0 :=
  foldl_inv (fun t => 0 ≤ t) f l 0 le_rfl fun s x hx hs => h s x hx hs

lemma Jrange_nonneg (Jmin Jmax J : Int) (h0 : 0 ≤ Jmin) (hJ : J ∈ Jrange Jmin Jmax) :
    0 ≤ J := by
  unfold Jrange at hJ
  simp only [List.mem_map, List.bind_eq_flatMap, List.mem_flatMap, List.mem_range, List.pure_def,
    List.mem_singleton] at hJ
  obtain ⟨k, ⟨n, -, rfl⟩, rfl⟩ := hJ
  exact add_nonneg h0 (Int.ofNat_nonneg n)

lemma tdiv_two_nonneg (x : Int) (hx : 0 ≤ x) : 0 ≤ Int.tdiv x 2 :=
  Int.tdiv_nonneg hx (by norm_num)

/-- For a diagonal pair `a = b` and a Hermitian lookup the value of `tbme` in
`DensityMatrixPP` is a sum of squares with non-negative weights. -/
lemma PP_tbme_diag_nonneg (ms : ModelSpace K) (H : Operator K)
    (hH : ∀ J p q r s, H.GetTBME_J J p q r s = H.GetTBME_J J r s p q) (a c i j : Nat) :
    0 ≤ DensityMatrixPP_tbme ms H a a c i j := by
  unfold DensityMatrixPP_tbme
  dsimp only
  refine mul_nonneg (foldl_nonneg _ _ fun t J hJ ht => ?_) ?_
  · have hJ0 : 0 ≤ J := Jrange_nonneg _ _ J
      (tdiv_two_nonneg _ (le_max_of_le_left (abs_nonneg _))) hJ
    have h1 : (0 : K) ≤ ((2 * J + 1 : Int) : K) := by exact_mod_cast (by omega : 0 ≤ 2 * J + 1)
    rw [hH J i j a c, mul_assoc]
    exact add_nonneg ht (mul_nonneg h1 (mul_self_nonneg _))
  · rw [← pow_two]
    exact mul_nonneg (sq_nonneg _) (sq_nonneg _)

/-- For a diagonal pair `i = j` and a Hermitian lookup the value of `tbme` in
`DensityMatrixHH` is non-negative when the occupation of the orbit is. -/
lemma HH_tbme_diag_nonneg (ms : ModelSpace K) (H : Operator K)
    (hH : ∀ J p q r s, H.GetTBME_J J p q r s = H.GetTBME_J J r s p q) (i a b k : Nat) :
    0 ≤ DensityMatrixHH_tbme ms H i i a b k := by
  unfold DensityMatrixHH_tbme
  dsimp only
  refine mul_nonneg (foldl_nonneg _ _ fun t J hJ ht => ?_) ?_
  · have hJ0 : 0 ≤ J := Jrange_nonneg _ _ J
      (tdiv_two_nonneg _ (le_max_of_le_left (abs_nonneg _))) hJ
    have h1 : (0 : K) ≤ ((2 * J + 1 : Int) : K) := by exact_mod_cast (by omega : 0 ≤ 2 * J + 1)
    rw [hH J i k a b, mul_assoc]
    exact add_nonneg ht (mul_nonneg h1 (mul_self_nonneg _))
  · rw [mul_assoc]
    exact mul_nonneg (sq_nonneg _) (mul_self_nonneg _)

/-- For a term that passes the threshold test, `epsilon` is strictly positive, so the
radicand `tbme + epsilon^2` is strictly positive whenever `tbme` is non-negative. -/
lemma radicand_pos_of_nonneg (ext : External K) (hs : SqrtSpec ext) (x tbme : K)
    (hx : ¬ |x| < 1 / 100000000) (ht : 0 ≤ tbme) :
    0 < tbme + 1 / 2 * ext.sqrt |x| * (1 / 2 * ext.sqrt |x|) ∧
    0 < ext.sqrt (tbme + 1 / 2 * ext.sqrt |x| * (1 / 2 * ext.sqrt |x|)) := by
  have h2 := (levelMixing_divisor_pos ext hs x hx).1
  have h3 : 0 < tbme + 1 / 2 * ext.sqrt |x| * (1 / 2 * ext.sqrt |x|) :=
    add_pos_of_nonneg_of_pos ht (mul_pos h2 h2)
  exact ⟨h3, hs.2.1 _ h3⟩

end LevelMixingRadicand

section LevelMixingRadicandRuns

lemma exMS3_tbme : DensityMatrixPP_tbme exMS3 exH3 2 1 1 0 0 = -9 := by
  have hmin : Int.tdiv (max |(exMS3.GetOrbit 2).j2 - (exMS3.GetOrbit 1).j2|
      (max |(exMS3.GetOrbit 0).j2 - (exMS3.GetOrbit 0).j2|
        |(exMS3.GetOrbit 1).j2 - (exMS3.GetOrbit 1).j2|)) 2 = 0 := by decide
  have hmax : Int.tdiv (min ((exMS3.GetOrbit 2).j2 + (exMS3.GetOrbit 1).j2)
      (min ((exMS3.GetOrbit 0).j2 + (exMS3.GetOrbit 0).j2)
        ((exMS3.GetOrbit 1).j2 + (exMS3.GetOrbit 1).j2))) 2 = 1 := by decide
  have hr : Jrange 0 1 = [0, 1] := by decide
  unfold DensityMatrixPP_tbme
  dsimp only
  rw [hmin, hmax, hr]
  simp [exMS3, exH3, ModelSpace.GetOrbit]
  norm_num

lemma exMS3_denom : DensityMatrixPP_denom exH3 2 1 1 0 0 = 4 := by
  simp [DensityMatrixPP_denom, exH3]
  norm_num

lemma exMS3_epsilon : DensityMatrixPP_epsilon exExt exH3 2 1 1 0 0 = 1 := by
  unfold DensityMatrixPP_epsilon
  rw [exMS3_denom, abs_of_pos (by norm_num), show (4 : ℚ) = 3 + 1 * 1 by norm_num,
    exExt_sqrt_four]
  norm_num

/-- C32. A term that `DensityMatrixPP` evaluates with a negative radicand. Model space: one
filled and two empty proton `s1/2` orbits (0; 1, 2) in one one-body channel; single-particle
energies `0, 1, 1`; a Hermitian interaction acting in `J = 0` with elements `3`, and `-3`
when orbit 2 is involved. For the pair `(a, b) = (2, 1)` none of the tests of the loops
over `a`, `b`, `c = 1`, `i = 0`, `j = 0` skips, the denominator product is `2 * 2 = 4`, so
`epsilon = 1`, and `tbme = (2 1|V|0 0) (0 0|V|1 1) = -9`: the body adds the level-mixing
term of `tbme = -9` and `epsilon = 1`, whose radicand `tbme + epsilon^2` is `-8`. -/
theorem C32_offdiagonal_radicand_negative :
    (2 ∈ exMS3.all_orbits ∧ ¬ (1 - (exMS3.GetOrbit 2).occ < exExt.OCC_CUT) ∧
      1 ∈ exMS3.OneBodyChannels ((exMS3.GetOrbit 2).l, (exMS3.GetOrbit 2).j2,
        (exMS3.GetOrbit 2).tz2) ∧ ¬ (1 > 2) ∧
      (exMS3.GetOrbit 2).j2 = (exMS3.GetOrbit 1).j2 ∧
      (exMS3.GetOrbit 2).l = (exMS3.GetOrbit 1).l ∧
      (exMS3.GetOrbit 2).tz2 = (exMS3.GetOrbit 1).tz2 ∧
      ¬ (1 - (exMS3.GetOrbit 1).occ < exExt.OCC_CUT) ∧
      1 ∈ exMS3.particles ∧ 0 ∈ exMS3.holes) ∧
    (∀ J p q r s, exH3.GetTBME_J J p q r s = exH3.GetTBME_J J r s p q) ∧
    ¬ |DensityMatrixPP_denom exH3 2 1 1 0 0| < 1 / 100000000 ∧
    (∀ r, DensityMatrixPP_body exExt exMS3 exH3 2 1 1 0 0 r
      = r + levelMixing exExt (-9) 1) ∧
    DensityMatrixPP_tbme exMS3 exH3 2 1 1 0 0
      + DensityMatrixPP_epsilon exExt exH3 2 1 1 0 0
        * DensityMatrixPP_epsilon exExt exH3 2 1 1 0 0 = -8 ∧
    ¬ (0 : ℚ) < DensityMatrixPP_tbme exMS3 exH3 2 1 1 0 0
      + DensityMatrixPP_epsilon exExt exH3 2 1 1 0 0
        * DensityMatrixPP_epsilon exExt exH3 2 1 1 0 0 := by
  have hd : ¬ |DensityMatrixPP_denom exH3 2 1 1 0 0| < 1 / 100000000 := by
    rw [exMS3_denom, abs_of_pos (by norm_num)]
    norm_num
  refine ⟨?_, ?_, hd, fun r => ?_, ?_, ?_⟩
  · simp [exMS3, exExt, ModelSpace.GetOrbit]
    norm_num
  · intro J p q r s
    simp only [exH3]
    by_cases hJ : J ≠ 0
    · rw [if_pos hJ, if_pos hJ]
    · rw [if_neg hJ, if_neg hJ]
      congr 1
      exact propext ⟨by tauto, by tauto⟩
  · rw [PP_body_eq, if_neg hd, exMS3_tbme, exMS3_epsilon]
  · rw [exMS3_tbme, exMS3_epsilon]
    norm_num
  · rw [exMS3_tbme, exMS3_epsilon]
    norm_num

end LevelMixingRadicandRuns

section ParallelFrame
variable {K : Type} [LinearOrderedField K]

/-- One pass of the body for the pair `(i, j)` changes `V3NO` at `(i, j)` and `(j, i)`
only, and only when `i <= j`. -/
lemma hnatBody_snd_frame (ext : External K) (ms : ModelSpace K) (Hbare : Operator3 K)
    (rho Cmat : Mat K) (tbc : TwoBodyChannel) (i : Nat) (s : Mat K × Mat K) (j r c : Nat)
    (h : min r c ≠ i) :
    (hnatBody ext ms Hbare rho Cmat tbc i s j).2 r c = s.2 r c := by
  unfold hnatBody
  dsimp only
  by_cases h1 : Hbare.ParticleRank < 3
  · rw [if_pos h1]
  · rw [if_neg h1]
    by_cases h2 : i > j
    · rw [if_pos h2]
    · rw [if_neg h2]
      have hij : i ≤ j := not_lt.mp h2
      have hA : ¬ (r = j ∧ c = i) := by
        rintro ⟨rfl, rfl⟩
        exact h (min_eq_right hij)
      have hB : ¬ (r = i ∧ c = j) := by
        rintro ⟨rfl, rfl⟩
        exact h (min_eq_left hij)
      show matSet (matSet s.2 i j _) j i _ r c = s.2 r c
      unfold matSet
      rw [if_neg hA, if_neg hB]

/-- One pass of the body for the pair `(i, j)` leaves every entry of `V3NO` other than
`(i, j)` and `(j, i)` as it is. -/
lemma hnatBody_snd_other (ext : External K) (ms : ModelSpace K) (Hbare : Operator3 K)
    (rho Cmat : Mat K) (tbc : TwoBodyChannel) (i : Nat) (s : Mat K × Mat K) (j r c : Nat)
    (hA : ¬ (r = i ∧ c = j)) (hB : ¬ (r = j ∧ c = i)) :
    (hnatBody ext ms Hbare rho Cmat tbc i s j).2 r c = s.2 r c := by
  unfold hnatBody
  dsimp only
  by_cases h1 : Hbare.ParticleRank < 3
  · rw [if_pos h1]
  · rw [if_neg h1]
    by_cases h2 : i > j
    · rw [if_pos h2]
    · rw [if_neg h2]
      show matSet (matSet s.2 i j _) j i _ r c = s.2 r c
      unfold matSet
      rw [if_neg hB, if_neg hA]

/-- With `Hbare` of particle rank 3 and `i <= j` the pass for the pair `(i, j)` writes the
entry `V3NO(j, i)`, of row `j`. -/
lemma hnatBody_snd_mirror (ext : External K) (ms : ModelSpace K) (Hbare : Operator3 K)
    (rho Cmat : Mat K) (tbc : TwoBodyChannel) (i : Nat) (s : Mat K × Mat K) (j : Nat)
    (h1 : ¬ Hbare.ParticleRank < 3) (h2 : i ≤ j) :
    (hnatBody ext ms Hbare rho Cmat tbc i s j).2 j i
      = if (tbc.GetKet j).p = (tbc.GetKet j).q then
          (if (tbc.GetKet i).p = (tbc.GetKet i).q then
            hnatV3acc ms Hbare rho tbc.J (tbc.GetKet i) (tbc.GetKet j) (s.2 i j)
              / ((2 * tbc.J + 1 : Int) : K) / ext.SQRT2
          else hnatV3acc ms Hbare rho tbc.J (tbc.GetKet i) (tbc.GetKet j) (s.2 i j)
              / ((2 * tbc.J + 1 : Int) : K)) / ext.SQRT2
        else
          (if (tbc.GetKet i).p = (tbc.GetKet i).q then
            hnatV3acc ms Hbare rho tbc.J (tbc.GetKet i) (tbc.GetKet j) (s.2 i j)
              / ((2 * tbc.J + 1 : Int) : K) / ext.SQRT2
          else hnatV3acc ms Hbare rho tbc.J (tbc.GetKet i) (tbc.GetKet j) (s.2 i j)
              / ((2 * tbc.J + 1 : Int) : K)) := by
  unfold hnatBody
  dsimp only
  rw [if_neg h1, if_neg (not_lt.mpr h2)]
  show matSet (matSet s.2 i j _) j i _ j i = _
  unfold matSet
  rw [if_pos ⟨rfl, rfl⟩, if_pos ⟨rfl, rfl⟩]

/-- C33. Write set of the body executed for the outer index `i` in the loop of
`GetNormalOrderedHNAT` over the kets of a channel (the inner loop over any list of `j`):
every entry `D(r,c)` with `r != i` is unchanged; every entry `V3NO(r,c)` with
`min(r,c) != i` is unchanged, so that the entries of `V3NO` the body writes are those of
row `i` from the diagonal on and, by the assignment `V3NO(j,i) = V3NO(i,j)` of line 403,
their mirror images in column `i`; and when `Hbare` has particle rank below 3 the body
does not write `V3NO` at all. -/
theorem C33_parallel_write_set (ext : External K) (ms : ModelSpace K) (Hbare : Operator3 K)
    (rho Cmat : Mat K) (tbc : TwoBodyChannel) (i : Nat) (l : List Nat) (s : Mat K × Mat K) :
    (∀ r c, r ≠ i → (l.foldl (hnatBody ext ms Hbare rho Cmat tbc i) s).1 r c = s.1 r c) ∧
    (∀ r c, min r c ≠ i →
      (l.foldl (hnatBody ext ms Hbare rho Cmat tbc i) s).2 r c = s.2 r c) ∧
    (Hbare.ParticleRank < 3 → (l.foldl (hnatBody ext ms Hbare rho Cmat tbc i) s).2 = s.2) := by
  refine ⟨fun r c hr => ?_, fun r c hrc => ?_, fun hlow => ?_⟩
  · rw [hnatInner_fst, if_neg (fun h => hr h.1)]
  · refine foldl_inv (fun t : Mat K × Mat K => t.2 r c = s.2 r c) _ l s rfl ?_
    intro t j _ ht
    show (hnatBody ext ms Hbare rho Cmat tbc i t j).2 r c = s.2 r c
    rw [hnatBody_snd_frame ext ms Hbare rho Cmat tbc i t j r c hrc, ht]
  · refine foldl_inv (fun t : Mat K × Mat K => t.2 = s.2) _ l s rfl ?_
    intro t j _ ht
    show (hnatBody ext ms Hbare rho Cmat tbc i t j).2 = s.2
    rw [hnatBody_snd_low _ _ _ _ _ _ _ _ _ hlow, ht]

end ParallelFrame

section ParallelFrameRuns

lemma exOp3r_v3acc (v : ℚ) :
    hnatV3acc exMS2 exOp3r matEye 0 ⟨0, 0⟩ ⟨0, 1⟩ v = v + 2 := by
  have h0 : ¬ (2 * (exMS2.GetOrbit 0).n + (exMS2.GetOrbit 0).l + e2pair exMS2 ⟨0, 0⟩
      > exOp3r.E3max) := by decide
  have h1 : ¬ (2 * (exMS2.GetOrbit 1).n + (exMS2.GetOrbit 1).l + e2pair exMS2 ⟨0, 0⟩
      > exOp3r.E3max) := by decide
  have h2 : ¬ (2 * (exMS2.GetOrbit 0).n + (exMS2.GetOrbit 0).l + e2pair exMS2 ⟨0, 1⟩
      > exOp3r.E3max) := by decide
  have h3 : ¬ (2 * (exMS2.GetOrbit 1).n + (exMS2.GetOrbit 1).l + e2pair exMS2 ⟨0, 1⟩
      > exOp3r.E3max) := by decide
  have c0 : exOp3r.OneBodyChannels ((exMS2.GetOrbit 0).l, (exMS2.GetOrbit 0).j2,
      (exMS2.GetOrbit 0).tz2) = [0, 1] := by decide
  have c1 : exOp3r.OneBodyChannels ((exMS2.GetOrbit 1).l, (exMS2.GetOrbit 1).j2,
      (exMS2.GetOrbit 1).tz2) = [0, 1] := by decide
  have ha : exMS2.all_orbits = [0, 1] := rfl
  unfold hnatV3acc
  rw [ha]
  simp only [List.foldl_cons, List.foldl_nil, h0, h1, h2, h3, c0, c1, if_false]
  simp [matEye, exOp3r]
  ring

/-- C33 fails as stated when `Hbare` has particle rank 3: over the channel of `exMS2` (kets
`(0,0), (0,1), (1,1)`, `J = 0`) with constant three-body elements 1 and `rho = 1`, the body
executed for the outer index `i = 0`, started from `V3NO = 0`, leaves `V3NO(1,0) = 10/7`,
an entry of row `1` (the sum over `a, b` is 2, divided by `SQRT2` for the bra `(0,0)`, and
`exExt` has `7/5` for `SQRT2`). -/
theorem C33_counterexample :
    (((List.range (exMS2.GetTwoBodyChannel 0).GetNumberKets).foldl
      (hnatBody exExt exMS2 exOp3r matEye matEye (exMS2.GetTwoBodyChannel 0) 0)
      (matZeros, matZeros)).2 1 0 = 10 / 7) ∧
    (matZeros : Mat ℚ) 1 0 = 0 ∧
    ¬ (∀ r c, r ≠ 0 →
      ((List.range (exMS2.GetTwoBodyChannel 0).GetNumberKets).foldl
        (hnatBody exExt exMS2 exOp3r matEye matEye (exMS2.GetTwoBodyChannel 0) 0)
        (matZeros, matZeros)).2 r c = (matZeros : Mat ℚ) r c) := by
  have hl : List.range (exMS2.GetTwoBodyChannel 0).GetNumberKets = [0, 1, 2] := by decide
  have hrank : ¬ exOp3r.ParticleRank < 3 := by decide
  have hk0 : (exMS2.GetTwoBodyChannel 0).GetKet 0 = ⟨0, 0⟩ := by decide
  have hk1 : (exMS2.GetTwoBodyChannel 0).GetKet 1 = ⟨0, 1⟩ := by decide
  have hJ : (exMS2.GetTwoBodyChannel 0).J = 0 := by decide
  have hval : ((List.range (exMS2.GetTwoBodyChannel 0).GetNumberKets).foldl
      (hnatBody exExt exMS2 exOp3r matEye matEye (exMS2.GetTwoBodyChannel 0) 0)
      (matZeros, matZeros)).2 1 0 = 10 / 7 := by
    rw [hl]
    simp only [List.foldl_cons, List.foldl_nil]
    rw [hnatBody_snd_other _ _ _ _ _ _ _ _ 2 1 0 (by decide) (by decide),
      hnatBody_snd_mirror _ _ _ _ _ _ _ _ 1 hrank (by decide),
      hnatBody_snd_other _ _ _ _ _ _ _ _ 0 0 1 (by decide) (by decide),
      hk0, hk1, hJ, exOp3r_v3acc]
    simp [matZeros, exExt]
    norm_num
  have hz : (matZeros : Mat ℚ) 1 0 = 0 := rfl
  refine ⟨hval, hz, fun h => ?_⟩
  have h2 := h 1 0 (by decide)
  rw [hval, hz] at h2
  norm_num at h2

end ParallelFrameRuns

section DensityPH
variable {K : Type} [LinearOrderedField K]

lemma PH_body1_eq (ms : ModelSpace K) (H : Operator K) (i a b c j : Nat) (r : K) :
    DensityMatrixPH_body1 ms H i a b c j r
      = if DensityMatrixPH_denom1 H i a b c j < 1 / 100000000 then r
        else r + DensityMatrixPH_tbme1 ms H i a b c j / DensityMatrixPH_denom1 H i a b c j :=
  rfl

lemma PH_body2_eq (ms : ModelSpace K) (H : Operator K) (i a b j k : Nat) (r : K) :
    DensityMatrixPH_body2 ms H i a b j k r
      = if DensityMatrixPH_denom2 H i a b j k < 1 / 100000000 then r
        else r + DensityMatrixPH_tbme2 ms H i a b j k / DensityMatrixPH_denom2 H i a b j k :=
  rfl

lemma PH_body1_add (ms : ModelSpace K) (H : Operator K) (i a b c j : Nat) (r : K) :
    DensityMatrixPH_body1 ms H i a b c j r
      = r + (if 1 / 100000000 ≤ DensityMatrixPH_denom1 H i a b c j then
          DensityMatrixPH_tbme1 ms H i a b c j / DensityMatrixPH_denom1 H i a b c j
        else 0) := by
  rw [PH_body1_eq]
  by_cases h : DensityMatrixPH_denom1 H i a b c j < 1 / 100000000
  · rw [if_pos h, if_neg (not_le.mpr h), add_zero]
  · rw [if_neg h, if_pos (not_lt.mp h)]

lemma PH_body2_add (ms : ModelSpace K) (H : Operator K) (i a b j k : Nat) (r : K) :
    DensityMatrixPH_body2 ms H i a b j k r
      = r + (if 1 / 100000000 ≤ DensityMatrixPH_denom2 H i a b j k then
          DensityMatrixPH_tbme2 ms H i a b j k / DensityMatrixPH_denom2 H i a b j k
        else 0) := by
  rw [PH_body2_eq]
  by_cases h : DensityMatrixPH_denom2 H i a b j k < 1 / 100000000
  · rw [if_pos h, if_neg (not_le.mpr h), add_zero]
  · rw [if_neg h, if_pos (not_lt.mp h)]

/-- The value `r` of the first diagram is the restricted sum. -/
lemma PH_r1_sum (ext : External K) (ms : ModelSpace K) (H : Operator K) (i a : Nat) :
    DensityMatrixPH_r1 ext ms H i a = DensityMatrixPH_sum1 ext ms H i a := by
  unfold DensityMatrixPH_r1 DensityMatrixPH_sum1
  rw [foldl_skip_eq ms.particles (fun b => 1 - (ms.GetOrbit b).occ < ext.OCC_CUT) _
    (fun b => (ms.particles.map (fun c =>
      if 1 - (ms.GetOrbit c).occ < ext.OCC_CUT then 0 else
      (ms.holes.map (fun j =>
        if 1 / 100000000 ≤ DensityMatrixPH_denom1 H i a b c j then
          DensityMatrixPH_tbme1 ms H i a b c j / DensityMatrixPH_denom1 H i a b c j
        else 0)).sum)).sum)
    (fun V b => foldl_skip_eq ms.particles
      (fun c => 1 - (ms.GetOrbit c).occ < ext.OCC_CUT) _
      (fun c => (ms.holes.map (fun j =>
        if 1 / 100000000 ≤ DensityMatrixPH_denom1 H i a b c j then
          DensityMatrixPH_tbme1 ms H i a b c j / DensityMatrixPH_denom1 H i a b c j
        else 0)).sum)
      (fun V c => foldl_add_eq _ _ (fun r j => PH_body1_add ms H i a b c j r) ms.holes V) V) 0,
    zero_add]

/-- The value `r` of the second diagram is the restricted sum. -/
lemma PH_r2_sum (ext : External K) (ms : ModelSpace K) (H : Operator K) (i a : Nat) :
    DensityMatrixPH_r2 ext ms H i a = DensityMatrixPH_sum2 ext ms H i a := by
  unfold DensityMatrixPH_r2 DensityMatrixPH_sum2
  rw [foldl_skip_eq ms.particles (fun b => 1 - (ms.GetOrbit b).occ < ext.OCC_CUT) _
    (fun b => (ms.holes.map (fun j =>
      (ms.holes.map (fun k =>
        if 1 / 100000000 ≤ DensityMatrixPH_denom2 H i a b j k then
          DensityMatrixPH_tbme2 ms H i a b j k / DensityMatrixPH_denom2 H i a b j k
        else 0)).sum)).sum)
    (fun V b => foldl_add_eq _
      (fun j => (ms.holes.map (fun k =>
        if 1 / 100000000 ≤ DensityMatrixPH_denom2 H i a b j k then
          DensityMatrixPH_tbme2 ms H i a b j k / DensityMatrixPH_denom2 H i a b j k
        else 0)).sum)
      (fun V j => foldl_add_eq _ _ (fun r k => PH_body2_add ms H i a b j k r) ms.holes V)
      ms.holes V) 0,
    zero_add]

/-- C34. In both diagrams of `DensityMatrixPH` a term is added only when the product of its
two energy denominators, `(e_a - e_i)(e_b + e_c - e_i - e_j)` resp.
`(e_a - e_i)(e_a + e_b - e_k - e_j)`, is at least `1e-8`: the body of the innermost loop
leaves `r` as it is when the product is below `1e-8` (negative products included) and adds
`tbme / product` otherwise, the divisor then being strictly positive; the value `r` of
each diagram is the unregularized sum restricted to the terms with product `>= 1e-8`; and
`DensityMatrixPH` adds `r * 0.5 / (j2+1)` of the first diagram to `rho(a,i)` and
`rho(i,a)` and subtracts that of the second. -/
theorem C34_ph_denominators (ext : External K) (ms : ModelSpace K) (H : Operator K) :
    (∀ i a b c j r,
      (DensityMatrixPH_denom1 H i a b c j < 1 / 100000000 →
        DensityMatrixPH_body1 ms H i a b c j r = r) ∧
      (¬ DensityMatrixPH_denom1 H i a b c j < 1 / 100000000 →
        0 < DensityMatrixPH_denom1 H i a b c j ∧
        DensityMatrixPH_body1 ms H i a b c j r
          = r + DensityMatrixPH_tbme1 ms H i a b c j / DensityMatrixPH_denom1 H i a b c j)) ∧
    (∀ i a b j k r,
      (DensityMatrixPH_denom2 H i a b j k < 1 / 100000000 →
        DensityMatrixPH_body2 ms H i a b j k r = r) ∧
      (¬ DensityMatrixPH_denom2 H i a b j k < 1 / 100000000 →
        0 < DensityMatrixPH_denom2 H i a b j k ∧
        DensityMatrixPH_body2 ms H i a b j k r
          = r + DensityMatrixPH_tbme2 ms H i a b j k / DensityMatrixPH_denom2 H i a b j k)) ∧
    (∀ i a, DensityMatrixPH_r1 ext ms H i a = DensityMatrixPH_sum1 ext ms H i a) ∧
    (∀ i a, DensityMatrixPH_r2 ext ms H i a = DensityMatrixPH_sum2 ext ms H i a) ∧
    (∀ rho, DensityMatrixPH ext ms H rho
      = DensityMatrixPH_loop ext ms
          (fun i a => -(DensityMatrixPH_sum2 ext ms H i a * (1 / 2)
            / (((ms.GetOrbit a).j2 + 1 : Int) : K)))
          (DensityMatrixPH_loop ext ms
            (fun i a => DensityMatrixPH_sum1 ext ms H i a * (1 / 2)
              / (((ms.GetOrbit a).j2 + 1 : Int) : K)) rho)) := by
  refine ⟨fun i a b c j r => ⟨fun h => ?_, fun h => ⟨?_, ?_⟩⟩,
    fun i a b j k r => ⟨fun h => ?_, fun h => ⟨?_, ?_⟩⟩,
    PH_r1_sum ext ms H, PH_r2_sum ext ms H, fun rho => ?_⟩
  · rw [PH_body1_eq, if_pos h]
  · exact lt_of_lt_of_le (by norm_num) (not_lt.mp h)
  · rw [PH_body1_eq, if_neg h]
  · rw [PH_body2_eq, if_pos h]
  · exact lt_of_lt_of_le (by norm_num) (not_lt.mp h)
  · rw [PH_body2_eq, if_neg h]
  · unfold DensityMatrixPH
    simp only [PH_r1_sum, PH_r2_sum]

/-- C35. `DensityMatrixPH` never changes a diagonal entry of `rho`, for every input
(fractional occupations included): with the channel orbit `a` equal to the hole `i` the
factor `e_a - e_i` is 0, the body of the innermost loop leaves `r` as it is for every
term, `r = 0` is what both diagrams add to `rho(i,i)`, and an update for `a != i` writes
off-diagonal entries only; hence the weighted trace `sum_i rho(i,i) (j2_i + 1)` is the same
before and after `DensityMatrixPH`. -/
theorem C35_ph_diagonal (ext : External K) (ms : ModelSpace K) (H : Operator K)
    (rho : Mat K) :
    (∀ d, DensityMatrixPH ext ms H rho d d = rho d d) ∧
    (∀ i b c j, DensityMatrixPH_denom1 H i i b c j = 0) ∧
    (∀ i b j k, DensityMatrixPH_denom2 H i i b j k = 0) ∧
    (∀ i b c j r, DensityMatrixPH_body1 ms H i i b c j r = r) ∧
    (∀ i b j k r, DensityMatrixPH_body2 ms H i i b j k r = r) ∧
    (∀ i, DensityMatrixPH_r1 ext ms H i i = 0 ∧ DensityMatrixPH_r2 ext ms H i i = 0) ∧
    (∀ (a i : Nat) (v : K) (d : Nat), a ≠ i → addPair rho a i v d d = rho d d) ∧
    (∀ i d, addPair rho i i (0 : K) d d = rho d d) ∧
    AfromTr ms (DensityMatrixPH ext ms H rho) = AfromTr ms rho := by
  refine ⟨PH_diag ext ms H rho, ?_, ?_, PH_body1_diag ms H, PH_body2_diag ms H,
    fun i => ⟨PH_r1_diag ext ms H i, PH_r2_diag ext ms H i⟩, ?_, ?_, ?_⟩
  · intro i b c j
    unfold DensityMatrixPH_denom1
    rw [sub_self, zero_mul]
  · intro i b j k
    unfold DensityMatrixPH_denom2
    rw [sub_self, zero_mul]
  · intro a i v d hai
    rw [addPair_apply, if_neg hai, if_neg]
    rintro (⟨h1, h2⟩ | ⟨h1, h2⟩)
    · exact hai (h1.symm.trans h2)
    · exact hai (h2.symm.trans h1)
  · intro i d
    rw [addPair_apply, if_pos rfl]
    by_cases h : d = i ∧ d = i
    · rw [if_pos h, h.1, add_zero, add_zero]
    · rw [if_neg h]
  · rw [AfromTr_eq_sum, AfromTr_eq_sum]
    exact Finset.sum_congr rfl (fun d _ => by rw [PH_diag])

end DensityPH

section AssignFrame
variable {K : Type} [LinearOrderedField K]

lemma pointAssign_foldl {α : Type} (f : Mat K → α → Mat K) (r c : Nat)
    (h : ∀ x, PointAssign (fun rho => f rho x) r c) (l : List α) :
    PointAssign (fun rho => l.foldl f rho) r c := by
  induction l with
  | nil => exact Or.inl fun rho => rfl
  | cons x t ih =>
    rcases ih with h1 | ⟨v, h1⟩
    · rcases h x with h2 | ⟨w, h2⟩
      · exact Or.inl fun rho => by
          show (t.foldl f (f rho x)) r c = rho r c
          rw [← h2 rho]
          exact h1 (f rho x)
      · exact Or.inr ⟨w, fun rho => by
          show (t.foldl f (f rho x)) r c = w
          rw [← h2 rho]
          exact h1 (f rho x)⟩
    · exact Or.inr ⟨v, fun rho => h1 (f rho x)⟩

lemma pointAssign_id (r c : Nat) : PointAssign (fun rho : Mat K => rho) r c :=
  Or.inl fun _ => rfl

lemma pointAssign_setPair (a b : Nat) (v : K) (r c : Nat) :
    PointAssign (fun rho : Mat K => matSet (matSet rho a b v) b a v) r c := by
  by_cases h : (r = a ∧ c = b) ∨ (r = b ∧ c = a)
  · exact Or.inr ⟨v, fun rho => by
      show matSet (matSet rho a b v) b a v r c = v
      rw [setPair_apply, if_pos h]⟩
  · exact Or.inl fun rho => by
      show matSet (matSet rho a b v) b a v r c = rho r c
      rw [setPair_apply, if_neg h]

/-- Each entry of the result of `DensityMatrixPP` is either the entry of the input or a value
that does not depend on the input: the function assigns. -/
lemma PP_pointAssign (ext : External K) (ms : ModelSpace K) (H : Operator K) (r c : Nat) :
    PointAssign (DensityMatrixPP ext ms H) r c := by
  show PointAssign (fun rho => DensityMatrixPP ext ms H rho) r c
  unfold DensityMatrixPP
  refine pointAssign_foldl _ r c (fun a => ?_) _
  dsimp only
  split_ifs
  · exact pointAssign_id r c
  · refine pointAssign_foldl _ r c (fun b => ?_) _
    dsimp only
    split_ifs <;> first | exact pointAssign_id r c | exact pointAssign_setPair _ _ _ r c

/-- Off the diagonal each entry of the result of `DensityMatrixHH` is either the entry of
the input or a value that does not depend on the input. -/
lemma HH_pointAssign_offdiag (ext : External K) (ms : ModelSpace K) (H : Operator K)
    (r c : Nat) (hrc : r ≠ c) :
    PointAssign (DensityMatrixHH ext ms H) r c := by
  show PointAssign (fun rho => DensityMatrixHH ext ms H rho) r c
  unfold DensityMatrixHH
  refine pointAssign_foldl _ r c (fun i => ?_) _
  dsimp only
  have hne : ¬ (r = i ∧ c = i) := fun h => hrc (h.1.trans h.2.symm)
  have hin : PointAssign (fun rho : Mat K =>
      (ms.OneBodyChannels ((ms.GetOrbit i).l, (ms.GetOrbit i).j2, (ms.GetOrbit i).tz2)).foldl
        (fun rho j =>
          if j > i then rho else
          if (ms.GetOrbit j).occ < ext.OCC_CUT then rho else
          matSet (matSet rho i j (-DensityMatrixHH_r ext ms H i j * (1 / 2)
              / (((ms.GetOrbit i).j2 + 1 : Int) : K)))
            j i (-DensityMatrixHH_r ext ms H i j * (1 / 2)
              / (((ms.GetOrbit i).j2 + 1 : Int) : K))) rho) r c := by
    refine pointAssign_foldl _ r c (fun j => ?_) _
    dsimp only
    split_ifs <;> first | exact pointAssign_id r c | exact pointAssign_setPair _ _ _ r c
  rcases hin with h1 | ⟨v, h1⟩
  · exact Or.inl fun rho => by
      show matSet _ i i _ r c = rho r c
      unfold matSet
      rw [if_neg hne]
      exact h1 rho
  · exact Or.inr ⟨v, fun rho => by
      show matSet _ i i _ r c = v
      unfold matSet
      rw [if_neg hne]
      exact h1 rho⟩

lemma occ_zero_of_guard (ext : External K) (ms : ModelSpace K) (hIF : IntegerFilling ms)
    (hcut0 : 0 < ext.OCC_CUT) (x : Nat) (hx : x < ms.GetNumberOrbits)
    (hg : ¬ (1 - (ms.GetOrbit x).occ < ext.OCC_CUT)) : (ms.GetOrbit x).occ = 0 := by
  rcases hIF.1 x hx with h | h
  · exact h
  · exact absurd (by rw [h, sub_self]; exact hcut0) hg

lemma occ_one_of_guard (ext : External K) (ms : ModelSpace K) (hIF : IntegerFilling ms)
    (hcut0 : 0 < ext.OCC_CUT) (x : Nat) (hx : x < ms.GetNumberOrbits)
    (hg : ¬ ((ms.GetOrbit x).occ < ext.OCC_CUT)) : (ms.GetOrbit x).occ = 1 := by
  rcases hIF.1 x hx with h | h
  · exact absurd (by rw [h]; exact hcut0) hg
  · exact h

/-- Under integer filling `DensityMatrixPP` writes only entries whose two orbits have
occupation 0. -/
lemma PP_untouched (ext : External K) (ms : ModelSpace K) (H : Operator K)
    (hIF : IntegerFilling ms) (hcut0 : 0 < ext.OCC_CUT) (r c : Nat)
    (h : ¬ ((ms.GetOrbit r).occ = 0 ∧ (ms.GetOrbit c).occ = 0)) (rho : Mat K) :
    DensityMatrixPP ext ms H rho r c = rho r c := by
  unfold DensityMatrixPP
  refine foldl_inv (fun s : Mat K => s r c = rho r c) _ _ _ rfl fun s a ha hs => ?_
  have haN : a < ms.GetNumberOrbits := (hIF.2.2.2.2.2.1 a).mp ha
  dsimp only
  by_cases g1 : 1 - (ms.GetOrbit a).occ < ext.OCC_CUT
  · rw [if_pos g1]
    exact hs
  · rw [if_neg g1]
    have hoa := occ_zero_of_guard ext ms hIF hcut0 a haN g1
    refine foldl_inv (fun s : Mat K => s r c = rho r c) _ _ _ hs fun s2 b _ hs2 => ?_
    dsimp only
    by_cases g2 : b > a
    · rw [if_pos g2]
      exact hs2
    · rw [if_neg g2]
      have hbN : b < ms.GetNumberOrbits := lt_of_le_of_lt (not_lt.mp g2) haN
      split_ifs with g3 g4 g5 g6
      · exact hs2
      · exact hs2
      · exact hs2
      · exact hs2
      · have hob := occ_zero_of_guard ext ms hIF hcut0 b hbN g6
        rw [setPair_apply, if_neg]
        · exact hs2
        · rintro (⟨rfl, rfl⟩ | ⟨rfl, rfl⟩)
          · exact h ⟨hoa, hob⟩
          · exact h ⟨hob, hoa⟩

/-- Under integer filling `DensityMatrixHH` writes only entries whose two orbits have
occupation 1. -/
lemma HH_untouched (ext : External K) (ms : ModelSpace K) (H : Operator K)
    (hIF : IntegerFilling ms) (hcut0 : 0 < ext.OCC_CUT) (r c : Nat)
    (h : ¬ ((ms.GetOrbit r).occ = 1 ∧ (ms.GetOrbit c).occ = 1)) (rho : Mat K) :
    DensityMatrixHH ext ms H rho r c = rho r c := by
  unfold DensityMatrixHH
  refine foldl_inv (fun s : Mat K => s r c = rho r c) _ _ _ rfl fun s i hi hs => ?_
  obtain ⟨hiN, hoi⟩ := (hIF.2.2.1 i).mp hi
  dsimp only
  have hne : ¬ (r = i ∧ c = i) := by
    rintro ⟨rfl, rfl⟩
    exact h ⟨hoi, hoi⟩
  unfold matSet
  rw [if_neg hne]
  refine foldl_inv (fun s : Mat K => s r c = rho r c) _ _ _ hs fun s2 j _ hs2 => ?_
  dsimp only
  by_cases g2 : j > i
  · rw [if_pos g2]
    exact hs2
  · rw [if_neg g2]
    have hjN : j < ms.GetNumberOrbits := lt_of_le_of_lt (not_lt.mp g2) hiN
    by_cases g3 : (ms.GetOrbit j).occ < ext.OCC_CUT
    · rw [if_pos g3]
      exact hs2
    · rw [if_neg g3]
      have hoj := occ_one_of_guard ext ms hIF hcut0 j hjN g3
      rw [if_neg, if_neg]
      · exact hs2
      · rintro ⟨rfl, rfl⟩
        exact h ⟨hoi, hoj⟩
      · rintro ⟨rfl, rfl⟩
        exact h ⟨hoj, hoi⟩

/-- Under integer filling the diagonal entry of a hole is assigned by `DensityMatrixHH`. -/
lemma HH_pointAssign (ext : External K) (ms : ModelSpace K) (H : Operator K)
    (hIF : IntegerFilling ms) (hcut1 : ext.OCC_CUT ≤ 1) (r c : Nat) :
    PointAssign (DensityMatrixHH ext ms H) r c := by
  by_cases hrc : r = c
  · subst hrc
    by_cases hh : r ∈ ms.holes
    · obtain ⟨hrN, hor⟩ := (hIF.2.2.1 r).mp hh
      have hg : r ∈ ms.OneBodyChannels (ms.key r) ∧ ¬ ((ms.GetOrbit r).occ < ext.OCC_CUT) :=
        ⟨hIF.2.2.2.2.2.2.1 r hrN, by rw [hor]; exact not_lt.mpr hcut1⟩
      exact Or.inr ⟨_, fun rho => by
        rw [HH_diag ext ms H rho hIF.2.1 r, if_pos hh, if_pos hg]⟩
    · exact Or.inl fun rho => by
        rw [HH_diag ext ms H rho hIF.2.1 r, if_neg hh]
  · exact HH_pointAssign_offdiag ext ms H r c hrc

/-- Under integer filling the two functions commute. -/
lemma PP_HH_comm (ext : External K) (ms : ModelSpace K) (H : Operator K)
    (hIF : IntegerFilling ms) (hcut0 : 0 < ext.OCC_CUT) (hcut1 : ext.OCC_CUT ≤ 1)
    (rho : Mat K) :
    DensityMatrixHH ext ms H (DensityMatrixPP ext ms H rho)
      = DensityMatrixPP ext ms H (DensityMatrixHH ext ms H rho) := by
  funext r c
  by_cases hS : (ms.GetOrbit r).occ = 1 ∧ (ms.GetOrbit c).occ = 1
  · have hP : ¬ ((ms.GetOrbit r).occ = 0 ∧ (ms.GetOrbit c).occ = 0) := by
      rintro ⟨h0, -⟩
      rw [hS.1] at h0
      exact one_ne_zero h0
    rw [PP_untouched ext ms H hIF hcut0 r c hP (DensityMatrixHH ext ms H rho)]
    rcases HH_pointAssign ext ms H hIF hcut1 r c with h1 | ⟨v, h1⟩
    · rw [h1, h1, PP_untouched ext ms H hIF hcut0 r c hP rho]
    · rw [h1, h1]
  · rw [HH_untouched ext ms H hIF hcut0 r c hS (DensityMatrixPP ext ms H rho)]
    rcases PP_pointAssign ext ms H r c with h1 | ⟨v, h1⟩
    · rw [h1, h1, HH_untouched ext ms H hIF hcut0 r c hS rho]
    · rw [h1, h1]

/-- C36. `DensityMatrixPP` and `DensityMatrixHH` assign the entries they compute: every
entry of the result of `DensityMatrixPP`, and every off-diagonal entry of the result of
`DensityMatrixHH`, is either the entry of the input or a value that does not depend on the
input. If every occupation is 0 or 1, with `holes` the orbits of occupation 1, and
`0 < OCC_CUT <= 1`, then `DensityMatrixPP` leaves every entry unchanged unless both orbits
have occupation 0, `DensityMatrixHH` assigns its diagonal entries too and leaves every
entry unchanged unless both orbits have occupation 1, no entry is in both sets, a value
written by `DensityMatrixPP` survives `DensityMatrixHH`, and `GetDensityMatrix` gives the
same `rho` with the two calls exchanged. With an orbit `d` listed in `holes` whose
occupation passes both cuts (`1 - occ >= OCC_CUT` and `occ >= OCC_CUT`), both functions
write `rho(d,d)`, and after the two calls the entry holds the hole-hole value
`-r_HH * 0.5/(j2+1) + occ`, whatever `DensityMatrixPP` wrote. -/
theorem C36_assignments (ext : External K) (ms : ModelSpace K) (H : Operator K) :
    (∀ r c, PointAssign (DensityMatrixPP ext ms H) r c) ∧
    (∀ r c, r ≠ c → PointAssign (DensityMatrixHH ext ms H) r c) ∧
    (IntegerFilling ms → 0 < ext.OCC_CUT → ext.OCC_CUT ≤ 1 →
      (∀ r c, PointAssign (DensityMatrixHH ext ms H) r c) ∧
      (∀ rho r c, ¬ ((ms.GetOrbit r).occ = 0 ∧ (ms.GetOrbit c).occ = 0) →
        DensityMatrixPP ext ms H rho r c = rho r c) ∧
      (∀ rho r c, ¬ ((ms.GetOrbit r).occ = 1 ∧ (ms.GetOrbit c).occ = 1) →
        DensityMatrixHH ext ms H rho r c = rho r c) ∧
      (∀ r c, ¬ (((ms.GetOrbit r).occ = 0 ∧ (ms.GetOrbit c).occ = 0) ∧
        ((ms.GetOrbit r).occ = 1 ∧ (ms.GetOrbit c).occ = 1))) ∧
      (∀ rho r c, (ms.GetOrbit r).occ = 0 ∧ (ms.GetOrbit c).occ = 0 →
        DensityMatrixHH ext ms H (DensityMatrixPP ext ms H rho) r c
          = DensityMatrixPP ext ms H rho r c) ∧
      (∀ rho, DensityMatrixHH ext ms H (DensityMatrixPP ext ms H rho)
        = DensityMatrixPP ext ms H (DensityMatrixHH ext ms H rho)) ∧
      (∀ hf : HFMBPT K, hf.modelspace = ms →
        (HFMBPT.GetDensityMatrix ext hf H).rho
          = DensityMatrixPH ext ms H
              (DensityMatrixPP ext ms H (DensityMatrixHH ext ms H hf.rho)))) ∧
    (ms.holes.Nodup → ∀ d, d ∈ ms.holes → d ∈ ms.all_orbits →
      d ∈ ms.OneBodyChannels (ms.key d) →
      ¬ (1 - (ms.GetOrbit d).occ < ext.OCC_CUT) → ¬ ((ms.GetOrbit d).occ < ext.OCC_CUT) →
      ∀ rho,
        DensityMatrixPP ext ms H rho d d
          = DensityMatrixPP_r ext ms H d d * (1 / 2) / (((ms.GetOrbit d).j2 + 1 : Int) : K) ∧
        DensityMatrixHH ext ms H (DensityMatrixPP ext ms H rho) d d
          = -(DensityMatrixHH_r ext ms H d d) * (1 / 2)
              / (((ms.GetOrbit d).j2 + 1 : Int) : K) + (ms.GetOrbit d).occ) := by
  refine ⟨PP_pointAssign ext ms H, HH_pointAssign_offdiag ext ms H, ?_, ?_⟩
  · intro hIF hcut0 hcut1
    refine ⟨HH_pointAssign ext ms H hIF hcut1,
      fun rho r c h => PP_untouched ext ms H hIF hcut0 r c h rho,
      fun rho r c h => HH_untouched ext ms H hIF hcut0 r c h rho, ?_, ?_,
      PP_HH_comm ext ms H hIF hcut0 hcut1, ?_⟩
    · rintro r c ⟨⟨h0, -⟩, ⟨h1, -⟩⟩
      rw [h0] at h1
      exact zero_ne_one h1
    · intro rho r c h0
      refine HH_untouched ext ms H hIF hcut0 r c ?_ _
      rintro ⟨h1, -⟩
      rw [h0.1] at h1
      exact zero_ne_one h1
    · intro hf hms
      subst hms
      unfold HFMBPT.GetDensityMatrix
      dsimp only
      rw [PP_HH_comm ext hf.modelspace H hIF hcut0 hcut1]
  · intro hnd d hh hall hch g1 g2 rho
    refine ⟨?_, ?_⟩
    · rw [PP_diag, if_pos ⟨hall, hch, g1⟩]
    · rw [HH_diag ext ms H _ hnd d, if_pos hh, if_pos ⟨hch, g2⟩]

end AssignFrame

section AssignFrameRuns

/-- C36 exercised over the rationals: on the integer filling `exMS4` the two functions
commute for every `rho`; on the model space `exMSfrac`, whose only orbit has occupation
`1/2`, both write `rho(0,0)`, the value after `DensityMatrixPP` then `DensityMatrixHH` is
the hole-hole value `1/2`, and in the other order it is the particle-particle value `0`. -/
theorem C36_assignments_witness :
    (∀ rho : Mat ℚ, DensityMatrixHH exExt exMS4 exH4 (DensityMatrixPP exExt exMS4 exH4 rho)
      = DensityMatrixPP exExt exMS4 exH4 (DensityMatrixHH exExt exMS4 exH4 rho)) ∧
    (∀ rho : Mat ℚ,
      DensityMatrixHH exExt exMSfrac exH4 (DensityMatrixPP exExt exMSfrac exH4 rho) 0 0
        = 1 / 2 ∧
      DensityMatrixPP exExt exMSfrac exH4 (DensityMatrixHH exExt exMSfrac exH4 rho) 0 0
        = 0) := by
  have h4 := (C36_assignments exExt exMS4 exH4).2.2.1 exMS4_integerFilling
    (by norm_num [exExt]) (by norm_num [exExt])
  have hf := (C36_assignments exExt exMSfrac exH4).2.2.2 (by decide) 0 (by decide)
    (by decide) (by decide)
    (by simp [exMSfrac, exExt, ModelSpace.GetOrbit]; norm_num)
    (by simp [exMSfrac, exExt, ModelSpace.GetOrbit]; norm_num)
  have hPr : DensityMatrixPP_r exExt exMSfrac exH4 0 0 = 0 := rfl
  have hHr : DensityMatrixHH_r exExt exMSfrac exH4 0 0 = 0 := rfl
  have hocc : (exMSfrac.GetOrbit 0).occ = 1 / 2 := rfl
  refine ⟨h4.2.2.2.2.2.1, fun rho => ⟨?_, ?_⟩⟩
  · rw [(hf rho).2, hHr, hocc]
    norm_num
  · rw [(hf (DensityMatrixHH exExt exMSfrac exH4 rho)).1, hPr]
    norm_num

end AssignFrameRuns

section IdentityRotation
variable {K : Type} [LinearOrderedField K]

/-- With the identity as rotation the entry of `Dket` for two kets ordered `p <= q` is 1
when the kets are equal and 0 otherwise. -/
lemma DketEntry_eye_kets (ext : External K) (hS : ext.SQRT2 ≠ 0) (tbc : TwoBodyChannel)
    (i j : Nat) (h1 : (tbc.GetKet i).p ≤ (tbc.GetKet i).q)
    (h2 : (tbc.GetKet j).p ≤ (tbc.GetKet j).q) :
    DketEntry ext matEye tbc i j = if tbc.GetKet i = tbc.GetKet j then 1 else 0 := by
  unfold DketEntry
  dsimp only
  generalize tbc.GetKet i = k1 at h1 ⊢
  generalize tbc.GetKet j = k2 at h2 ⊢
  obtain ⟨p1, q1⟩ := k1
  obtain ⟨p2, q2⟩ := k2
  simp only [matEye, Ket.mk.injEq] at h1 h2 ⊢
  by_cases hp : p1 = p2
  · by_cases hq : q1 = q2
    · subst hp hq
      by_cases hpq : p1 = q1
      · subst hpq
        simp [hS]
      · have hqp : ¬ q1 = p1 := fun h => hpq h.symm
        simp [hpq, hqp]
    · subst hp
      have hx : ¬ (q1 = p1 ∧ p1 = q2) := by
        rintro ⟨rfl, rfl⟩
        exact hq rfl
      by_cases hpq : p1 = q1
      · subst hpq
        simp [hq]
      · have hqp : ¬ q1 = p1 := fun h => hpq h.symm
        simp [hq, hpq, hqp]
  · have hx : ¬ (q1 = p2 ∧ p1 = q2) ∨ p1 = q1 := by
      by_cases hpq : p1 = q1
      · exact Or.inr hpq
      · refine Or.inl ?_
        rintro ⟨rfl, rfl⟩
        omega
    by_cases hpq : p1 = q1
    · subst hpq
      simp [hp]
    · have hy : ¬ (q1 = p2 ∧ p1 = q2) := by
        rcases hx with h | h
        · exact h
        · exact absurd h hpq
      have hz : (if q1 = p2 then (1 : K) else 0) * (if p1 = q2 then 1 else 0) = 0 := by
        by_cases ha : q1 = p2
        · by_cases hb : p1 = q2
          · exact absurd ⟨ha, hb⟩ hy
          · simp [hb]
        · simp [ha]
      simp [hp, hpq, hz]

lemma getKet_mem (tbc : TwoBodyChannel) (i : Nat) (hi : i < tbc.GetNumberKets) :
    tbc.GetKet i ∈ tbc.kets := by
  unfold TwoBodyChannel.GetKet
  rw [List.getD_eq_getElem _ _ hi]
  exact List.getElem_mem _

lemma getKet_inj (tbc : TwoBodyChannel) (hnd : tbc.kets.Nodup) (i j : Nat)
    (hi : i < tbc.GetNumberKets) (hj : j < tbc.GetNumberKets) :
    tbc.GetKet i = tbc.GetKet j ↔ i = j := by
  unfold TwoBodyChannel.GetKet
  rw [List.getD_eq_getElem _ _ hi, List.getD_eq_getElem _ _ hj]
  exact hnd.getElem_inj_iff

/-- With the identity as rotation `Dket` is the identity on the kets of a channel that
lists distinct pairs `p <= q`. -/
lemma DketEntry_eye (ext : External K) (hS : ext.SQRT2 ≠ 0) (tbc : TwoBodyChannel)
    (hnd : tbc.kets.Nodup) (hpq : ∀ k ∈ tbc.kets, k.p ≤ k.q) (i j : Nat)
    (hi : i < tbc.GetNumberKets) (hj : j < tbc.GetNumberKets) :
    DketEntry ext matEye tbc i j = if i = j then 1 else 0 := by
  rw [DketEntry_eye_kets ext hS tbc i j (hpq _ (getKet_mem tbc i hi))
    (hpq _ (getKet_mem tbc j hj))]
  by_cases h : i = j
  · rw [if_pos h, if_pos ((getKet_inj tbc hnd i j hi hj).mpr h)]
  · rw [if_neg h, if_neg (fun h2 => h ((getKet_inj tbc hnd i j hi hj).mp h2))]

lemma DbraEntry_eq_Dket (ext : External K) (Cmat : Mat K) (tbc : TwoBodyChannel)
    (i j : Nat) : DbraEntry ext Cmat tbc i j = DketEntry ext Cmat tbc j i := rfl

lemma DbraEntry_eye (ext : External K) (hS : ext.SQRT2 ≠ 0) (tbc : TwoBodyChannel)
    (hnd : tbc.kets.Nodup) (hpq : ∀ k ∈ tbc.kets, k.p ≤ k.q) (i j : Nat)
    (hi : i < tbc.GetNumberKets) (hj : j < tbc.GetNumberKets) :
    DbraEntry ext matEye tbc i j = if i = j then 1 else 0 := by
  rw [DbraEntry_eq_Dket, DketEntry_eye ext hS tbc hnd hpq j i hj hi]
  by_cases h : i = j
  · rw [if_pos h, if_pos h.symm]
  · rw [if_neg h, if_neg (fun h2 => h h2.symm)]

/-- A channel fetched with `GetTwoBodyChannel` is one of the listed channels or has no
ket. -/
lemma getTwoBodyChannel_cases (ms : ModelSpace K) (ch : Nat) :
    ms.GetTwoBodyChannel ch ∈ ms.TwoBodyChannels ∨ (ms.GetTwoBodyChannel ch).kets = [] := by
  unfold ModelSpace.GetTwoBodyChannel
  by_cases h : ch < ms.TwoBodyChannels.length
  · rw [List.getD_eq_getElem _ _ h]
    exact Or.inl (List.getElem_mem _)
  · rw [List.getD_eq_default _ _ (not_lt.mp h)]
    exact Or.inr rfl

lemma getTwoBodyChannel_kets (ms : ModelSpace K)
    (hk : ∀ tbc ∈ ms.TwoBodyChannels, tbc.kets.Nodup ∧ ∀ k ∈ tbc.kets, k.p ≤ k.q)
    (ch : Nat) :
    (ms.GetTwoBodyChannel ch).kets.Nodup ∧ ∀ k ∈ (ms.GetTwoBodyChannel ch).kets, k.p ≤ k.q := by
  rcases getTwoBodyChannel_cases ms ch with h | h
  · exact hk _ h
  · rw [h]
    exact ⟨List.nodup_nil, fun k hk => absurd hk (List.not_mem_nil k)⟩

/-- Product with matrices that are the identity on the first `n` rows resp. the first `m`
columns. -/
lemma matMul_sandwich_eye2 (n m : Nat) (E1 E2 O : Mat K)
    (hE1 : ∀ i j, i < n → j < n → E1 i j = if i = j then 1 else 0)
    (hE2 : ∀ i j, i < m → j < m → E2 i j = if i = j then 1 else 0)
    (i j : Nat) (hi : i < n) (hj : j < m) :
    matMul m (matMul n E1 O) E2 i j = O i j := by
  have h1 : ∀ k, k < m → matMul n E1 O i k = O i k := by
    intro k _
    rw [matMul_congr_left n E1 (fun a b => if a = b then 1 else 0) O i k
      (fun q hq => hE1 i q hi hq)]
    exact matMul_eye_left n O i k hi
  rw [matMul_congr_left m (matMul n E1 O) O E2 i j h1]
  rw [matMul_congr_right m O E2 (fun a b => if a = b then 1 else 0) i j
      (fun q hq => hE2 q j hq hj)]
  exact matMul_eye_right m O i j hj

/-- With the identity as rotation the block written for a key is the stored block. -/
lemma transformBlock_eye (ext : External K) (hS : ext.SQRT2 ≠ 0) (ms : ModelSpace K)
    (hk : ∀ tbc ∈ ms.TwoBodyChannels, tbc.kets.Nodup ∧ ∀ k ∈ tbc.kets, k.p ≤ k.q)
    (ch_bra ch_ket : Nat) (IN : Block K)
    (hr : IN.n_rows ≤ (ms.GetTwoBodyChannel ch_bra).GetNumberKets)
    (hc : IN.n_cols ≤ (ms.GetTwoBodyChannel ch_ket).GetNumberKets) :
    (transformBlock ext ms matEye ch_bra ch_ket IN).n_rows = IN.n_rows ∧
    (transformBlock ext ms matEye ch_bra ch_ket IN).n_cols = IN.n_cols ∧
    ∀ r c, r < IN.n_rows → c < IN.n_cols →
      (transformBlock ext ms matEye ch_bra ch_ket IN).el r c = IN.el r c := by
  refine ⟨rfl, rfl, fun r c hr2 hc2 => ?_⟩
  obtain ⟨hndb, hpqb⟩ := getTwoBodyChannel_kets ms hk ch_bra
  obtain ⟨hndk, hpqk⟩ := getTwoBodyChannel_kets ms hk ch_ket
  unfold transformBlock
  dsimp only
  refine matMul_sandwich_eye2 _ _ _ _ _ (fun i j hi hj => ?_) (fun i j hi hj => ?_) r c hr2 hc2
  · by_cases hch : ch_bra = ch_ket
    · rw [if_pos hch]
      subst hch
      show DketEntry ext matEye _ j i = _
      rw [DketEntry_eye ext hS _ hndk hpqk j i (lt_of_lt_of_le hj hr) (lt_of_lt_of_le hi hr)]
      by_cases h : i = j
      · rw [if_pos h, if_pos h.symm]
      · rw [if_neg h, if_neg (fun h2 => h h2.symm)]
    · rw [if_neg hch]
      exact DbraEntry_eye ext hS _ hndb hpqb i j (lt_of_lt_of_le hi hr) (lt_of_lt_of_le hj hr)
  · exact DketEntry_eye ext hS _ hndk hpqk i j (lt_of_lt_of_le hi hc) (lt_of_lt_of_le hj hc)

lemma sum_single (l : List Nat) (a : Nat) (g : Nat → K) :
    l.count a = 1 → (∀ x ∈ l, x ≠ a → g x = 0) → (l.map g).sum = g a := by
  induction l with
  | nil => intro h; simp at h
  | cons x t ih =>
    intro hc hg
    rw [List.map_cons, List.sum_cons]
    by_cases hx : x = a
    · subst hx
      have h0 : t.count x = 0 := by
        rw [List.count_cons_self] at hc
        omega
      have hnot : x ∉ t := List.count_eq_zero.mp h0
      have hz : (t.map g).sum = 0 := by
        rw [map_sum_congr t g (fun _ => 0) (fun y hy =>
          hg y (List.mem_cons_of_mem _ hy) (fun h => hnot (h ▸ hy))), list_sum_zero]
      rw [hz, add_zero]
    · rw [List.count_cons_of_ne (fun h => hx h.symm)] at hc
      rw [hg x (List.mem_cons_self _ _) hx, zero_add]
      exact ih hc (fun y hy => hg y (List.mem_cons_of_mem _ hy))

lemma eye_small (x a : Nat) (h : x ≠ a) : |(matEye : Mat K) x a| < 1 / 100000000 := by
  unfold matEye
  rw [if_neg h, abs_zero]
  norm_num

lemma eye_big (a : Nat) : ¬ |(matEye : Mat K) a a| < 1 / 100000000 := by
  unfold matEye
  rw [if_pos rfl, abs_one]
  norm_num

/-- With `C_HO2NAT` the identity and each requested orbit listed once in its one-body
channel, `GetTransformed3bme` returns the element of the input operator. -/
lemma GetTransformed3bme_eye (hf : HFMBPT K) (OpIn : Operator3 K) (Jab Jde J2 : Int)
    (a b c d e f : Nat) (hC : hf.C_HO2NAT = matEye)
    (hA : (OpIn.OneBodyChannels (hf.modelspace.key a)).count a = 1)
    (hB : (OpIn.OneBodyChannels (hf.modelspace.key b)).count b = 1)
    (hCc : (OpIn.OneBodyChannels (hf.modelspace.key c)).count c = 1)
    (hD : (OpIn.OneBodyChannels (hf.modelspace.key d)).count d = 1)
    (hE : (OpIn.OneBodyChannels (hf.modelspace.key e)).count e = 1)
    (hF : (OpIn.OneBodyChannels (hf.modelspace.key f)).count f = 1) :
    HFMBPT.GetTransformed3bme hf OpIn Jab Jde J2 a b c d e f
      = OpIn.GetME_pn Jab Jde J2 a b c d e f := by
  rw [GetTransformed3bme_nested, hC]
  rw [sum_single (OpIn.OneBodyChannels (hf.modelspace.key a)) a _ hA
      (fun x _ hx => if_pos (eye_small x a hx)), if_neg (eye_big a)]
  rw [sum_single (OpIn.OneBodyChannels (hf.modelspace.key b)) b _ hB
      (fun x _ hx => if_pos (eye_small x b hx)), if_neg (eye_big b)]
  rw [sum_single (OpIn.OneBodyChannels (hf.modelspace.key c)) c _ hCc
      (fun x _ hx => if_pos (eye_small x c hx)), if_neg (eye_big c)]
  rw [sum_single (OpIn.OneBodyChannels (hf.modelspace.key d)) d _ hD
      (fun x _ hx => if_pos (eye_small x d hx)), if_neg (eye_big d)]
  rw [sum_single (OpIn.OneBodyChannels (hf.modelspace.key e)) e _ hE
      (fun x _ hx => if_pos (eye_small x e hx)), if_neg (eye_big e)]
  rw [sum_single (OpIn.OneBodyChannels (hf.modelspace.key f)) f _ hF
      (fun x _ hx => by simp [matEye, hx])]
  simp [matEye]

/-- C37. Identity rotation. Right after construction `C_HF2NAT` and `C_HO2NAT` are the
identity. When `C_HF2NAT` is the identity, `PhysConst::SQRT2` is not zero, every two-body
channel lists distinct pairs `(p,q)` with `p <= q` and every stored block is no larger than
the ket lists of its two channels, then every matrix `Dket` and `Dbra` built by
`TransformHFToNATBasis` is the identity and the returned operator has the zero-body term,
the one-body matrix (on the orbits of the model space), the block keys, the block
dimensions and the block entries of the input. When `C_HO2NAT` is the identity and each of
the orbits `a..f` is listed once in the one-body channel of its quantum numbers,
`GetTransformed3bme` returns the element of the input operator for the same six
indices. -/
theorem C37_identity_rotation (ext : External K) (hf : HFMBPT K) (OpHF : Operator K)
    (hS : ext.SQRT2 ≠ 0)
    (hk : ∀ tbc ∈ hf.modelspace.TwoBodyChannels,
      tbc.kets.Nodup ∧ ∀ k ∈ tbc.kets, k.p ≤ k.q)
    (hdim : ∀ key ∈ OpHF.MatElKeys,
      (OpHF.MatEl key.1 key.2).n_rows ≤ (hf.modelspace.GetTwoBodyChannel key.1).GetNumberKets ∧
      (OpHF.MatEl key.1 key.2).n_cols ≤ (hf.modelspace.GetTwoBodyChannel key.2).GetNumberKets) :
    (∀ base : HFMBPT K, (HFMBPT.construct base).C_HF2NAT = matEye ∧
      (HFMBPT.construct base).C_HO2NAT = matEye) ∧
    (∀ tbc ∈ hf.modelspace.TwoBodyChannels, ∀ i j, i < tbc.GetNumberKets →
      j < tbc.GetNumberKets →
      DketEntry ext matEye tbc i j = (if i = j then 1 else 0) ∧
      DbraEntry ext matEye tbc i j = (if i = j then 1 else 0)) ∧
    (hf.C_HF2NAT = matEye →
      (HFMBPT.TransformHFToNATBasis ext hf OpHF).ZeroBody = OpHF.ZeroBody ∧
      (∀ r c, r < hf.modelspace.GetNumberOrbits → c < hf.modelspace.GetNumberOrbits →
        (HFMBPT.TransformHFToNATBasis ext hf OpHF).OneBody r c = OpHF.OneBody r c) ∧
      (HFMBPT.TransformHFToNATBasis ext hf OpHF).MatElKeys = OpHF.MatElKeys ∧
      (∀ ch_bra ch_ket,
        ((HFMBPT.TransformHFToNATBasis ext hf OpHF).MatEl ch_bra ch_ket).n_rows
          = (OpHF.MatEl ch_bra ch_ket).n_rows ∧
        ((HFMBPT.TransformHFToNATBasis ext hf OpHF).MatEl ch_bra ch_ket).n_cols
          = (OpHF.MatEl ch_bra ch_ket).n_cols ∧
        ∀ r c, r < (OpHF.MatEl ch_bra ch_ket).n_rows → c < (OpHF.MatEl ch_bra ch_ket).n_cols →
          ((HFMBPT.TransformHFToNATBasis ext hf OpHF).MatEl ch_bra ch_ket).el r c
            = (OpHF.MatEl ch_bra ch_ket).el r c)) ∧
    (hf.C_HO2NAT = matEye → ∀ (OpIn : Operator3 K) (Jab Jde J2 : Int) (a b c d e f : Nat),
      (∀ x ∈ [a, b, c, d, e, f],
        (OpIn.OneBodyChannels (hf.modelspace.key x)).count x = 1) →
      HFMBPT.GetTransformed3bme hf OpIn Jab Jde J2 a b c d e f
        = OpIn.GetME_pn Jab Jde J2 a b c d e f) := by
  refine ⟨fun base => ⟨rfl, rfl⟩, fun tbc htbc i j hi hj => ?_, fun hC => ?_,
    fun hC OpIn Jab Jde J2 a b c d e f hx => ?_⟩
  · exact ⟨DketEntry_eye ext hS tbc (hk tbc htbc).1 (hk tbc htbc).2 i j hi hj,
      DbraEntry_eye ext hS tbc (hk tbc htbc).1 (hk tbc htbc).2 i j hi hj⟩
  · unfold HFMBPT.TransformHFToNATBasis
    rw [hC]
    refine ⟨rfl, fun r c hr hc => ?_, rfl, fun ch_bra ch_ket => ?_⟩
    · exact matMul_sandwich_eye _ _ _ _ (fun i j _ _ => by
        show (matEye : Mat K) j i = _
        unfold matEye
        by_cases h : i = j
        · rw [if_pos h, if_pos h.symm]
        · rw [if_neg h, if_neg (fun h2 => h h2.symm)]) (fun i j _ _ => rfl) r c hr hc
    · show (if (ch_bra, ch_ket) ∈ OpHF.MatElKeys then
          transformBlock ext hf.modelspace matEye ch_bra ch_ket (OpHF.MatEl ch_bra ch_ket)
        else OpHF.MatEl ch_bra ch_ket).n_rows = _ ∧ _
      by_cases hkey : (ch_bra, ch_ket) ∈ OpHF.MatElKeys
      · have hb := transformBlock_eye ext hS hf.modelspace hk ch_bra ch_ket
          (OpHF.MatEl ch_bra ch_ket) (hdim _ hkey).1 (hdim _ hkey).2
        refine ⟨?_, ?_, fun r c hr hc => ?_⟩
        · rw [if_pos hkey]; exact hb.1
        · show (if (ch_bra, ch_ket) ∈ OpHF.MatElKeys then
              transformBlock ext hf.modelspace matEye ch_bra ch_ket (OpHF.MatEl ch_bra ch_ket)
            else OpHF.MatEl ch_bra ch_ket).n_cols = _
          rw [if_pos hkey]; exact hb.2.1
        · show (if (ch_bra, ch_ket) ∈ OpHF.MatElKeys then
              transformBlock ext hf.modelspace matEye ch_bra ch_ket (OpHF.MatEl ch_bra ch_ket)
            else OpHF.MatEl ch_bra ch_ket).el r c = _
          rw [if_pos hkey]; exact hb.2.2 r c hr hc
      · refine ⟨?_, ?_, fun r c hr hc => ?_⟩
        · rw [if_neg hkey]
        · show (if (ch_bra, ch_ket) ∈ OpHF.MatElKeys then
              transformBlock ext hf.modelspace matEye ch_bra ch_ket (OpHF.MatEl ch_bra ch_ket)
            else OpHF.MatEl ch_bra ch_ket).n_cols = _
          rw [if_neg hkey]
        · show (if (ch_bra, ch_ket) ∈ OpHF.MatElKeys then
              transformBlock ext hf.modelspace matEye ch_bra ch_ket (OpHF.MatEl ch_bra ch_ket)
            else OpHF.MatEl ch_bra ch_ket).el r c = _
          rw [if_neg hkey]
  · exact GetTransformed3bme_eye hf OpIn Jab Jde J2 a b c d e f hC
      (hx a (by simp)) (hx b (by simp)) (hx c (by simp)) (hx d (by simp)) (hx e (by simp))
      (hx f (by simp))

end IdentityRotation

section IdentityRotationRuns

/-- C37 exercised on the engine over `exMS2` right after construction: the block of the
channel with kets `(0,0), (0,1), (1,1)` and the one-body matrix of `exOp2` are returned as
they are, and the three-body element `(0,0,0,0,0,1)` is that of the input. -/
theorem C37_identity_rotation_witness :
    (∀ r c, r < 3 → c < 3 →
      ((HFMBPT.TransformHFToNATBasis exExt exHF2 exOp2).MatEl 0 0).el r c
        = (exOp2.MatEl 0 0).el r c) ∧
    (HFMBPT.TransformHFToNATBasis exExt exHF2 exOp2).OneBody 0 1 = exOp2.OneBody 0 1 ∧
    DketEntry exExt matEye (exMS2.GetTwoBodyChannel 0) 0 0 = 1 ∧
    DketEntry exExt matEye (exMS2.GetTwoBodyChannel 0) 1 2 = 0 ∧
    HFMBPT.GetTransformed3bme exHF2 exOp3 0 0 1 0 0 0 0 0 1
      = exOp3.GetME_pn 0 0 1 0 0 0 0 0 1 := by
  have h := C37_identity_rotation exExt exHF2 exOp2 (by norm_num [exExt])
    (by
      intro tbc htbc
      have h1 : tbc = ⟨0, [⟨0, 0⟩, ⟨0, 1⟩, ⟨1, 1⟩]⟩ := by
        simpa [exHF2, exMS2] using htbc
      subst h1
      exact ⟨by decide, by decide⟩)
    (by
      intro key hkey
      have h1 : key = (0, 0) := by simpa [exOp2] using hkey
      subst h1
      exact ⟨by decide, by decide⟩)
  have hD := h.2.1 (exMS2.GetTwoBodyChannel 0) (List.Mem.head _)
  refine ⟨fun r c hr hc => ((h.2.2.1 rfl).2.2.2 0 0).2.2 r c hr hc,
    (h.2.2.1 rfl).2.1 0 1 (by decide) (by decide),
    (hD 0 0 (by decide) (by decide)).1, (hD 1 2 (by decide) (by decide)).1, ?_⟩
  refine h.2.2.2 rfl exOp3 0 0 1 0 0 0 0 0 1 ?_
  intro x hx
  have h2 : x = 0 ∨ x = 1 := by
    simp only [List.mem_cons, List.mem_singleton, List.not_mem_nil, or_false] at hx
    tauto
  rcases h2 with rfl | rfl
  · decide
  · decide

end IdentityRotationRuns

section NoOvershoot
variable {K : Type} [LinearOrderedField K]

lemma getD_le_one (l : List K) (h : ∀ x ∈ l, x ≤ 1) (k : Nat) : l.getD k 0 ≤ 1 := by
  by_cases hk : k < l.length
  · rw [List.getD_eq_getElem _ _ hk]
    exact h _ (List.getElem_mem _)
  · rw [List.getD_eq_default _ _ (not_lt.mp hk)]
    exact zero_le_one

lemma getD_set_self_or (l : List K) (i k : Nat) (v : K) :
    (l.set i v).getD k 0 = if k = i ∧ i < l.length then v else l.getD k 0 := by
  by_cases hki : k = i
  · subst hki
    by_cases hk : k < l.length
    · rw [if_pos ⟨rfl, hk⟩, List.getD_eq_getElem _ _ (by rw [List.length_set]; exact hk)]
      simp
    · rw [if_neg (fun h => hk h.2), List.getD_eq_default _ _ (by
        rw [List.length_set]; exact not_lt.mp hk),
        List.getD_eq_default _ _ (not_lt.mp hk)]
  · rw [if_neg (fun h => hki h.1)]
    simp only [List.getD_eq_getElem?_getD]
    rw [List.getElem?_set_ne (fun h => hki h.symm)]

/-- One increment of a back-fill loop (lines 98-106, 112-120) started with every
occupation at most 1 and a non-negative deficit: the deficit stays non-negative, every
occupation stays at most 1, no occupation decreases, the count does not decrease. -/
lemma backfillStep_no_overshoot (ext : External K) (ms : ModelSpace K) (skip : Int → Bool)
    (target : Int) (orbs : List Nat) (s : List K × K × Bool) (i : Nat)
    (hj : 0 ≤ (ms.GetOrbit (orbs.getD i 0)).j2)
    (h1 : ∀ x ∈ s.1, x ≤ 1) (hd : 0 ≤ (target : K) - s.2.1) :
    0 ≤ (target : K) - (backfillStep ext ms skip target orbs s i).2.1 ∧
    (∀ x ∈ (backfillStep ext ms skip target orbs s i).1, x ≤ 1) ∧
    (∀ k, s.1.getD k 0 ≤ (backfillStep ext ms skip target orbs s i).1.getD k 0) ∧
    s.2.1 ≤ (backfillStep ext ms skip target orbs s i).2.1 := by
  unfold backfillStep
  by_cases hb : s.2.2 = true
  · rw [if_pos hb]
    exact ⟨hd, h1, fun _ => le_refl _, le_refl _⟩
  rw [if_neg hb]
  dsimp only
  by_cases hs : skip (ms.GetOrbit (orbs.getD i 0)).tz2 = true
  · rw [if_pos hs]
    exact ⟨hd, h1, fun _ => le_refl _, le_refl _⟩
  rw [if_neg hs]
  dsimp only
  have hw : (0 : K) < ((ms.GetOrbit (orbs.getD i 0)).j2 : K) + 1 := by
    have : (0 : K) ≤ ((ms.GetOrbit (orbs.getD i 0)).j2 : K) := by exact_mod_cast hj
    linarith
  have hcast : (((ms.GetOrbit (orbs.getD i 0)).j2 + 1 : Int) : K)
      = ((ms.GetOrbit (orbs.getD i 0)).j2 : K) + 1 := by push_cast; ring
  have hocc := getD_le_one s.1 h1 i
  set inc := min (5 / 1000 : K) (min (((target : K) - s.2.1)
    / (((ms.GetOrbit (orbs.getD i 0)).j2 : K) + 1)) (1 - s.1.getD i 0)) with hinc
  have hinc0 : 0 ≤ inc := by
    rw [hinc]
    refine le_min (by norm_num) (le_min (div_nonneg hd hw.le) (by linarith))
  have hinc1 : inc ≤ ((target : K) - s.2.1) / (((ms.GetOrbit (orbs.getD i 0)).j2 : K) + 1) :=
    le_trans (min_le_right _ _) (min_le_left _ _)
  have hinc2 : inc ≤ 1 - s.1.getD i 0 := le_trans (min_le_right _ _) (min_le_right _ _)
  have hprod : inc * (((ms.GetOrbit (orbs.getD i 0)).j2 : K) + 1) ≤ (target : K) - s.2.1 := by
    rwa [le_div_iff₀ hw] at hinc1
  rw [hcast]
  refine ⟨by linarith, ?_, ?_, ?_⟩
  · intro x hx
    rcases List.mem_or_eq_of_mem_set hx with h | h
    · exact h1 x h
    · rw [h]; linarith
  · intro k
    rw [getD_set_self_or]
    by_cases hk : k = i ∧ i < s.1.length
    · rw [if_pos hk, hk.1]; linarith
    · rw [if_neg hk]
  · have := mul_nonneg hinc0 hw.le
    linarith

/-- A full pass of the `for` loop keeps what one increment keeps. -/
lemma backfillPass_no_overshoot (ext : External K) (ms : ModelSpace K) (skip : Int → Bool)
    (target : Int) (orbs : List Nat) (hj : ∀ o ∈ orbs, 0 ≤ (ms.GetOrbit o).j2)
    (occ : List K) (c : K) (h1 : ∀ x ∈ occ, x ≤ 1) (hd : 0 ≤ (target : K) - c) :
    0 ≤ (target : K) - (backfillPass ext ms skip target orbs occ c).2.1 ∧
    (∀ x ∈ (backfillPass ext ms skip target orbs occ c).1, x ≤ 1) ∧
    (∀ k, occ.getD k 0 ≤ (backfillPass ext ms skip target orbs occ c).1.getD k 0) ∧
    c ≤ (backfillPass ext ms skip target orbs occ c).2.1 := by
  unfold backfillPass
  refine foldl_inv (fun s : List K × K × Bool => 0 ≤ (target : K) - s.2.1 ∧
    (∀ x ∈ s.1, x ≤ 1) ∧ (∀ k, occ.getD k 0 ≤ s.1.getD k 0) ∧ c ≤ s.2.1)
    (backfillStep ext ms skip target orbs) _ _ ⟨hd, h1, fun _ => le_refl _, le_refl _⟩ ?_
  intro s i hi ⟨a1, a2, a3, a4⟩
  have hi2 : i < orbs.length := List.mem_range.mp hi
  have hjo : 0 ≤ (ms.GetOrbit (orbs.getD i 0)).j2 := by
    apply hj
    rw [List.getD_eq_getElem _ _ hi2]
    exact List.getElem_mem _
  obtain ⟨b1, b2, b3, b4⟩ := backfillStep_no_overshoot ext ms skip target orbs s i hjo a2 a1
  exact ⟨b1, b2, fun k => le_trans (a3 k) (b3 k), le_trans a4 b4⟩

/-- C38. The back-fill never overshoots, for either loop (`skip` is the test of its
`continue`) and with `j2 >= 0` on the kept orbits: if every kept occupation is at most 1
and the count is at most the target, then after every single increment the deficit
`target - count` is still `>= 0`, every occupation is still at most 1 and none has
decreased; a full pass keeps this; and when the loop exits, `0 <= deficit <= OCC_CUT`,
with no occupation below its value before the loop. -/
theorem C38_backfill_no_overshoot (ext : External K) (ms : ModelSpace K) (skip : Int → Bool)
    (target : Int) (orbs : List Nat) (hj : ∀ o ∈ orbs, 0 ≤ (ms.GetOrbit o).j2) :
    (∀ (s : List K × K × Bool) (i : Nat), i < orbs.length →
      (∀ x ∈ s.1, x ≤ 1) → 0 ≤ (target : K) - s.2.1 →
      0 ≤ (target : K) - (backfillStep ext ms skip target orbs s i).2.1 ∧
      (∀ x ∈ (backfillStep ext ms skip target orbs s i).1, x ≤ 1) ∧
      (∀ k, s.1.getD k 0 ≤ (backfillStep ext ms skip target orbs s i).1.getD k 0)) ∧
    (∀ (occ : List K) (c : K), (∀ x ∈ occ, x ≤ 1) → 0 ≤ (target : K) - c →
      0 ≤ (target : K) - (backfillPass ext ms skip target orbs occ c).2.1 ∧
      (∀ x ∈ (backfillPass ext ms skip target orbs occ c).1, x ≤ 1) ∧
      (∀ k, occ.getD k 0 ≤ (backfillPass ext ms skip target orbs occ c).1.getD k 0)) ∧
    (∀ (fuel : Nat) (occ : List K) (c : K) (r : List K × K),
      (∀ x ∈ occ, x ≤ 1) → 0 ≤ (target : K) - c →
      backfillLoop ext ms skip target orbs fuel occ c = some r →
      0 ≤ (target : K) - r.2 ∧ (target : K) - r.2 ≤ ext.OCC_CUT ∧
      (∀ x ∈ r.1, x ≤ 1) ∧ (∀ k, occ.getD k 0 ≤ r.1.getD k 0)) := by
  refine ⟨fun s i hi h1 hd => ?_, fun occ c h1 hd => ?_, fun fuel occ c r h1 hd h => ?_⟩
  · have hjo : 0 ≤ (ms.GetOrbit (orbs.getD i 0)).j2 := by
      apply hj
      rw [List.getD_eq_getElem _ _ hi]
      exact List.getElem_mem _
    obtain ⟨b1, b2, b3, _⟩ := backfillStep_no_overshoot ext ms skip target orbs s i hjo h1 hd
    exact ⟨b1, b2, b3⟩
  · obtain ⟨b1, b2, b3, _⟩ := backfillPass_no_overshoot ext ms skip target orbs hj occ c h1 hd
    exact ⟨b1, b2, b3⟩
  · obtain ⟨⟨a1, a2, a3⟩, a4⟩ := backfillLoop_inv ext ms skip target orbs
      (fun o2 c2 => 0 ≤ (target : K) - c2 ∧ (∀ x ∈ o2, x ≤ 1) ∧
        (∀ k, occ.getD k 0 ≤ o2.getD k 0))
      (fun o2 c2 ⟨p1, p2, p3⟩ _ => by
        obtain ⟨b1, b2, b3, _⟩ :=
          backfillPass_no_overshoot ext ms skip target orbs hj o2 c2 p2 p1
        exact ⟨b1, b2, fun k => le_trans (p3 k) (b3 k)⟩)
      fuel occ c r ⟨hd, h1, fun _ => le_refl _⟩ h
    exact ⟨a1, a4, a2, a3⟩

end NoOvershoot

section NoOvershootRuns

/-- C38 exercised on the proton loop of the run of `exOccFill` over `exMS4`: started from
the occupations `(0.999, 0.998)` with count `1.998` and target `Z = 2`, the loop exits
with deficit between 0 and `OCC_CUT` and occupations at most 1. -/
theorem C38_backfill_no_overshoot_witness :
    ∃ r, backfillLoop exExt exMS4 protonSkip 2 [0, 1] 1 [999 / 1000, 499 / 500] (999 / 500)
        = some r ∧
      (0 : ℚ) ≤ ((2 : Int) : ℚ) - r.2 ∧ ((2 : Int) : ℚ) - r.2 ≤ exExt.OCC_CUT ∧
      (∀ x ∈ r.1, x ≤ 1) ∧
      (∀ k, ([999 / 1000, 499 / 500] : List ℚ).getD k 0 ≤ r.1.getD k 0) :=
  ⟨([1, 499 / 500], 2), exLoopZ,
    (C38_backfill_no_overshoot exExt exMS4 protonSkip 2 [0, 1] exOrbs_j2).2.2 1
      [999 / 1000, 499 / 500] (999 / 500) ([1, 499 / 500], 2)
      (by intro x hx; have h : x = 999 / 1000 ∨ x = 499 / 500 := by simpa using hx
          rcases h with rfl | rfl <;> norm_num)
      (by norm_num) exLoopZ⟩

end NoOvershootRuns

section SolverTheorems
variable {Op K : Type} [LinearOrderedField K]

lemma loop_succ_run (code : SolverCode Op K) (fuel : Nat) (st : IMSRGSolver Op K)
    (h : st.s < st.smax) :
    IMSRGSolver.loop code (fuel + 1) st
      = IMSRGSolver.loop code fuel
          { IMSRGSolver.step code st with istep := (IMSRGSolver.step code st).istep + 1 } := by
  rw [IMSRGSolver.loop, if_pos h]

lemma loop_stop (code : SolverCode Op K) (fuel : Nat) (st : IMSRGSolver Op K)
    (h : ¬ st.s < st.smax) :
    IMSRGSolver.loop code fuel st = some st := by
  cases fuel with
  | zero => rw [IMSRGSolver.loop, if_neg h]
  | succ n => rw [IMSRGSolver.loop, if_neg h]

/-- After the loop, the test of line 82 recomputes `H_s` from `H_0` exactly when the step
counter, which already counts the step that was not begun, is not `i_full_BCH - 1` modulo
`i_full_BCH`. -/
lemma finish_H_s (code : SolverCode Op K) (st : IMSRGSolver Op K) :
    (Int.tmod st.istep st.i_full_BCH ≠ st.i_full_BCH - 1 →
      (IMSRGSolver.finish code st).H_s = code.BCH_Transform st.H_0 st.Omega) ∧
    (Int.tmod st.istep st.i_full_BCH = st.i_full_BCH - 1 →
      IMSRGSolver.finish code st = st) := by
  constructor
  · intro h
    unfold IMSRGSolver.finish
    rw [if_pos h]
  · intro h
    unfold IMSRGSolver.finish
    rw [if_neg (not_not.mpr h)]

/-- A step whose counter is not `i_full_BCH - 1` modulo `i_full_BCH` updates `H_s` the quick
way, from the previous `H_s` and `dOmega`. -/
lemma step_quick (code : SolverCode Op K) (st : IMSRGSolver Op K)
    (h : Int.tmod st.istep st.i_full_BCH ≠ st.i_full_BCH - 1) :
    (IMSRGSolver.step code st).H_s
      = code.BCH_Transform st.H_s (code.smul (code.UpdateEta st) st.ds) ∧
    (IMSRGSolver.step code st).Omega
      = code.BCH_Product (code.smul (code.UpdateEta st) st.ds) st.Omega ∧
    (IMSRGSolver.step code st).istep = st.istep := by
  have h2 : ¬ Int.tmod st.istep st.i_full_BCH = st.i_full_BCH - 1 := h
  unfold IMSRGSolver.step
  simp only [h2, if_false, and_self]

end SolverTheorems

section SolverRuns

lemma exStep (H O d : ℚ) (e : ℚ) (s : ℚ) (n : Int) (hn : Int.tmod n 5 ≠ 4) :
    IMSRGSolver.step exSolverCode ⟨1, H, e, O, d, s, 1 / 2, 2, n, 5⟩
      = ⟨1, H * (1 + 1 / 2), 1, 1 / 2 + O, 1 / 2, s + 1 / 2, 1 / 2, 2, n, 5⟩ := by
  have h2 : ¬ Int.tmod n 5 = 5 - 1 := by norm_num; exact hn
  unfold IMSRGSolver.step
  simp only [h2, if_false]
  simp [exSolverCode]

/-- C39. Run of `IMSRGSolver::Solve` with `ds = 0.5`, `smax = 2` and `i_full_BCH = 5`: the
loop makes the four steps `istep = 0, 1, 2, 3`, each of which updates `H_s` the quick way
(`istep % 5` is never 4), and leaves `istep = 4`; the test after the loop reads the
incremented counter, finds `4 % 5 = 4` and does not recompute `H_s`. With the operations
`x.BCH_Transform(y) = x (1 + y)`, `x.BCH_Product(y) = x + y` and a constant generator the
returned `H_s` is `(3/2)^4 = 81/16`, whereas `H_0.BCH_Transform(Omega) = 3`. -/
theorem C39_solve_last_step_quick :
    ∃ r, IMSRGSolver.Solve exSolverCode 4 exSolver = some r ∧
      r.istep = 4 ∧ r.Omega = 2 ∧ r.H_s = 81 / 16 ∧
      exSolverCode.BCH_Transform r.H_0 r.Omega = 3 ∧
      r.H_s ≠ exSolverCode.BCH_Transform r.H_0 r.Omega ∧
      (∀ n : Int, 0 ≤ n → n < 4 → Int.tmod n exSolver.i_full_BCH ≠ exSolver.i_full_BCH - 1) ∧
      Int.tmod r.istep r.i_full_BCH = r.i_full_BCH - 1 := by
  have e0 : ({ exSolver with istep := 0 } : IMSRGSolver ℚ ℚ)
      = ⟨1, 1, 0, 0, 0, 0, 1 / 2, 2, 0, 5⟩ := rfl
  have l1 : IMSRGSolver.loop exSolverCode 4 ⟨1, 1, 0, 0, 0, 0, 1 / 2, 2, 0, 5⟩
      = IMSRGSolver.loop exSolverCode 3 ⟨1, 3 / 2, 1, 1 / 2, 1 / 2, 1 / 2, 1 / 2, 2, 1, 5⟩ := by
    rw [loop_succ_run _ _ _ (by norm_num), exStep _ _ _ _ _ _ (by decide)]
    norm_num
  have l2 : IMSRGSolver.loop exSolverCode 3 ⟨1, 3 / 2, 1, 1 / 2, 1 / 2, 1 / 2, 1 / 2, 2, 1, 5⟩
      = IMSRGSolver.loop exSolverCode 2 ⟨1, 9 / 4, 1, 1, 1 / 2, 1, 1 / 2, 2, 2, 5⟩ := by
    rw [loop_succ_run _ _ _ (by norm_num), exStep _ _ _ _ _ _ (by decide)]
    norm_num
  have l3 : IMSRGSolver.loop exSolverCode 2 ⟨1, 9 / 4, 1, 1, 1 / 2, 1, 1 / 2, 2, 2, 5⟩
      = IMSRGSolver.loop exSolverCode 1 ⟨1, 27 / 8, 1, 3 / 2, 1 / 2, 3 / 2, 1 / 2, 2, 3, 5⟩ := by
    rw [loop_succ_run _ _ _ (by norm_num), exStep _ _ _ _ _ _ (by decide)]
    norm_num
  have l4 : IMSRGSolver.loop exSolverCode 1 ⟨1, 27 / 8, 1, 3 / 2, 1 / 2, 3 / 2, 1 / 2, 2, 3, 5⟩
      = some ⟨1, 81 / 16, 1, 2, 1 / 2, 2, 1 / 2, 2, 4, 5⟩ := by
    rw [loop_succ_run _ _ _ (by norm_num), exStep _ _ _ _ _ _ (by decide)]
    norm_num
    exact loop_stop _ _ _ (by norm_num)
  have hf : IMSRGSolver.finish exSolverCode (⟨1, 81 / 16, 1, 2, 1 / 2, 2, 1 / 2, 2, 4, 5⟩ : IMSRGSolver ℚ ℚ)
      = ⟨1, 81 / 16, 1, 2, 1 / 2, 2, 1 / 2, 2, 4, 5⟩ :=
    (finish_H_s exSolverCode _).2 (by decide)
  refine ⟨⟨1, 81 / 16, 1, 2, 1 / 2, 2, 1 / 2, 2, 4, 5⟩, ?_, rfl, rfl, rfl, ?_, ?_, ?_, by decide⟩
  · unfold IMSRGSolver.Solve
    rw [e0, l1, l2, l3, l4, Option.map_some', hf]
  · simp [exSolverCode]; norm_num
  · simp [exSolverCode]; norm_num
  · intro n h0 h4
    show Int.tmod n 5 ≠ 5 - 1
    interval_cases n <;> decide

end SolverRuns

end IMSRG
